import Mathlib

/-!
Chip8-VM: a shallow embedding of `Chip8VM.cpp` / `Chip8Renderer.cpp`.

Conventions of the embedding.

* `regval` / `memval` (`unsigned char`) values are natural numbers; every conversion to
  `regval` that the C++ performs is written `to_regval` (reduction modulo 256).
* `size_t` arithmetic is written with the helpers `size_t_add`, `size_t_sub`, `size_t_shl`,
  `size_t_shr` (64-bit, wrapping); a shift count that is not below the width has no defined
  result in C++ and is reported as `Fault.undefined_behaviour`.
* `memptr` (`int`) arguments are modelled on their non-negative range.
* A C++ exception is an `Except` error.  At the level of `VM`, the error carries the machine as
  it was when the exception left the call, so that mutations performed before a throw stay
  visible.
* A failed `assert` is `Fault.assertion_failure`; an out-of-range `std::vector` subscript is
  `Fault.undefined_behaviour`.
* The renderer is the in-memory `DummyRenderer` (`SDLRenderer` and `ConsoleRenderer` inherit
  its `clear` and `set_pixel`; their `update` only presents).
-/

namespace Chip8VM

/-! ## Constants (Chip8VM.h) -/

def CHAR_BIT : Nat := 8
def MAX_REGISTER_VALUE : Nat := 255
def MIN_REGISTER_VALUE : Nat := 0
def HALF_CHAR_MASK : Nat := 0xF
def CHAR_MASK : Nat := 0xFF
def HALF_CHAR_SIZE : Nat := CHAR_BIT / 2
def CHARS_PER_INSTRUCTION : Nat := 2

def DEFAULT_REGISTER_SIZE : Nat := 16
def DEFAULT_FLAG_REGISTER : Nat := 0xF
def DEFAULT_PROGRAM_LOAD_OFFSET : Nat := 0x200
def DEFAULT_MEMORY_SIZE : Nat := 4096
def DEFAULT_CALLSTACK_SIZE : Nat := 4096
def DEFAULT_FONT_OFFSET : Nat := 0x50
def SPRITE_CHARS : Nat := 5

def DEFAULT_FONT_DATA : List Nat :=
  [0xF0, 0x90, 0x90, 0x90, 0xF0,
   0x20, 0x60, 0x20, 0x20, 0x70,
   0xF0, 0x10, 0xF0, 0x80, 0xF0,
   0xF0, 0x10, 0xF0, 0x10, 0xF0,
   0x90, 0x90, 0xF0, 0x10, 0x10,
   0xF0, 0x80, 0xF0, 0x10, 0xF0,
   0xF0, 0x80, 0xF0, 0x90, 0xF0,
   0xF0, 0x10, 0x20, 0x40, 0x40,
   0xF0, 0x90, 0xF0, 0x90, 0xF0,
   0xF0, 0x90, 0xF0, 0x10, 0xF0,
   0xF0, 0x90, 0xF0, 0x90, 0x90,
   0xE0, 0x90, 0xE0, 0x90, 0xE0,
   0xF0, 0x80, 0x80, 0x80, 0xF0,
   0xE0, 0x90, 0x90, 0x90, 0xE0,
   0xF0, 0x80, 0xF0, 0x80, 0xF0,
   0xF0, 0x80, 0xF0, 0x80, 0x80]

/-! ## Machine integers -/

/-- Width in bits of `size_t` on the 64-bit targets the program is built for. -/
def SIZE_T_BITS : Nat := 64

/-- Conversion to `unsigned char` (`regval`, `memval`). -/
def to_regval (n : Nat) : Nat := n % 256

/-- Conversion of an `int` to `unsigned char`. -/
def int_to_regval (n : Int) : Nat := (n % 256).toNat

/-- Wrapping `size_t` addition. -/
def size_t_add (a b : Nat) : Nat := (a + b) % 2 ^ SIZE_T_BITS

/-- Wrapping `size_t` subtraction. -/
def size_t_sub (a b : Nat) : Nat := (a + 2 ^ SIZE_T_BITS - b % 2 ^ SIZE_T_BITS) % 2 ^ SIZE_T_BITS

/-- The kinds of failure a call can end in. -/
inductive Fault where
  | illegal_instruction
  | memory_access
  | register_access
  | runtime_error
  | assertion_failure
  | undefined_behaviour
  deriving DecidableEq

/-- Expression `a >> b` on `size_t`: defined only for a count below the width. -/
def size_t_shr (a b : Nat) : Except Fault Nat :=
  if b < SIZE_T_BITS then .ok (a >>> b) else .error .undefined_behaviour

/-- Expression `a << b` on `size_t`: defined only for a count below the width; bits shifted
out of the word are lost. -/
def size_t_shl (a b : Nat) : Except Fault Nat :=
  if b < SIZE_T_BITS then .ok ((a <<< b) % 2 ^ SIZE_T_BITS) else .error .undefined_behaviour

/-! ## State -/

/-- Struct `State`.  The fields `_memory_size`, `_register_size`, `_callstack_size`,
`_flag_register` and `_program_load_offset` are set by the only constructor to the `DEFAULT_*`
constants and never assigned again, so they are those constants here.

The field `asserts` is not a member of the struct: it records the build, `true` when `assert`
is compiled in (the sources as they are) and `false` when the program is compiled with
`NDEBUG`.  No method assigns it.  `State::index_register(index)`, `VM::keydown` and
`VM::load_program` go on normally when their assertion is compiled out, so they read it;
every other `assert` of the program guards a vector access that is out of range when the
assertion fails, so the call returns in neither build. -/
structure State where
  memory : List Nat
  pc : Nat
  i : Nat
  callstack : List Nat
  sound_timer : Nat
  timer : Nat
  regs : List Nat
  font_offset : Nat
  asserts : Bool := true

namespace State

def memory_size (_s : State) : Nat := DEFAULT_MEMORY_SIZE
def register_size (_s : State) : Nat := DEFAULT_REGISTER_SIZE
def program_load_offset (_s : State) : Nat := DEFAULT_PROGRAM_LOAD_OFFSET
def flag_register_index (_s : State) : Nat := DEFAULT_FLAG_REGISTER

/-- Template `init_zero(vec, size)`: resize, then fill with zero. -/
def init_zero (size : Nat) : List Nat := List.replicate size 0

/-- Call `std::copy(data.begin(), data.end(), dst.begin() + offset)` for a destination that
is long enough. -/
def copy_at (dst : List Nat) (offset : Nat) (data : List Nat) : List Nat :=
  dst.take offset ++ data ++ dst.drop (offset + data.length)

/-- Method `State::memory_init`.  The sum `_font_offset + DEFAULT_FONT_DATA.size()` of the
guard is a `size_t` sum, which wraps; a font offset for which it has wrapped passes the guard
although the table does not fit, and `std::copy` then writes outside the vector. -/
def memory_init (s : State) : Except Fault State :=
  if size_t_add s.font_offset DEFAULT_FONT_DATA.length > s.memory.length then
    .error .runtime_error
  else if s.font_offset + DEFAULT_FONT_DATA.length ≤ s.memory.length then
    .ok { s with
      memory := copy_at (List.replicate s.memory.length 0) s.font_offset DEFAULT_FONT_DATA }
  else .error .undefined_behaviour

/-- The assignments of `State::reset` that precede its call of `memory_init`. -/
def reset_fields (s : State) : State :=
  { s with
    memory := init_zero s.memory_size
    regs := init_zero s.register_size
    callstack := []
    pc := 0
    i := 0
    sound_timer := 0
    timer := 0 }

/-- Method `State::reset`.  When `memory_init` throws, the fields are already cleared. -/
def reset (s : State) : Except (Fault × State) State :=
  match s.reset_fields.memory_init with
  | .ok s1 => .ok s1
  | .error f => .error (f, s.reset_fields)

/-- Constructor `State::State()`. -/
def default : State :=
  { memory := copy_at (init_zero DEFAULT_MEMORY_SIZE) DEFAULT_FONT_OFFSET DEFAULT_FONT_DATA
    pc := 0
    i := 0
    callstack := []
    sound_timer := 0
    timer := 0
    regs := init_zero DEFAULT_REGISTER_SIZE
    font_offset := DEFAULT_FONT_OFFSET }

/-- Method `State::clear_registers`. -/
def clear_registers (s : State) : State :=
  { s with regs := List.replicate s.regs.length 0 }

/-- Read `_state.memory()[index]`. -/
def memory_at (s : State) (index : Nat) : Except Fault Nat :=
  match s.memory[index]? with
  | some v => .ok v
  | none => .error .undefined_behaviour

/-- Method `State::memory(index, value)`: the guard is `index > _memory_size`. -/
def memory_set (s : State) (index : Nat) (value : Nat) : Except Fault State :=
  if index > s.memory_size then .error .memory_access
  else if index < s.memory.length then
    .ok { s with memory := s.memory.set index (to_regval value) }
  else .error .undefined_behaviour

/-- Method `State::program_counter(value)`. -/
def program_counter_set (s : State) (value : Nat) : Except Fault State :=
  if value > s.memory_size then .error .memory_access
  else .ok { s with pc := value }

/-- Method `State::pop_callstack`. -/
def pop_callstack (s : State) : Except Fault (Nat × State) :=
  match s.callstack.getLast? with
  | none => .error .runtime_error
  | some value => .ok (value, { s with callstack := s.callstack.dropLast })

/-- Method `State::push_callstack`. -/
def push_callstack (s : State) (value : Nat) : Except Fault State :=
  if value > s.memory_size then .error .memory_access
  else .ok { s with callstack := s.callstack ++ [value] }

/-- Method `State::reg(index)`. -/
def reg (s : State) (index : Nat) : Except Fault Nat :=
  if index > s.register_size then .error .register_access
  else match s.regs[index]? with
    | some v => .ok v
    | none => .error .assertion_failure

/-- Method `State::reg(index, register_value)`. -/
def reg_set (s : State) (index : Nat) (register_value : Nat) : Except Fault State :=
  if index > s.regs.length then .error .assertion_failure
  else if index < s.regs.length then
    .ok { s with regs := s.regs.set index (to_regval register_value) }
  else .error .undefined_behaviour

/-- Method `State::flag_register()`. -/
def flag_register (s : State) : Except Fault Nat :=
  if DEFAULT_FLAG_REGISTER > s.regs.length then .error .assertion_failure
  else match s.regs[DEFAULT_FLAG_REGISTER]? with
    | some v => .ok v
    | none => .error .undefined_behaviour

/-- Method `State::flag_register(flags)`. -/
def flag_register_set (s : State) (flags : Nat) : Except Fault State :=
  if DEFAULT_FLAG_REGISTER > s.regs.length then .error .assertion_failure
  else if DEFAULT_FLAG_REGISTER < s.regs.length then
    .ok { s with regs := s.regs.set DEFAULT_FLAG_REGISTER (to_regval flags) }
  else .error .undefined_behaviour

/-- Method `State::index_register(index)`: `assert(index >= 0 && index <= _memory_size)`,
then the assignment, which is all there is when the assertion is compiled out. -/
def index_register_set (s : State) (index : Nat) : Except Fault State :=
  if s.asserts = true ∧ ¬ index ≤ s.memory_size then .error .assertion_failure
  else .ok { s with i := index }

/-- Method `State::timer(value)`. -/
def timer_set (s : State) (value : Nat) : State := { s with timer := to_regval value }

/-- Method `State::sound_timer(value)`. -/
def sound_timer_set (s : State) (value : Nat) : State :=
  { s with sound_timer := to_regval value }

/-- Method `State::font_offset(value)`. -/
def font_offset_set (s : State) (value : Nat) : State := { s with font_offset := value }

/-- The representation invariant every `State` built by the program satisfies: the two vectors
have their fixed sizes and every cell is a byte. -/
def wf (s : State) : Prop :=
  s.memory.length = DEFAULT_MEMORY_SIZE ∧ (∀ b ∈ s.memory, b < 256) ∧
  s.regs.length = DEFAULT_REGISTER_SIZE ∧ (∀ r ∈ s.regs, r < 256) ∧
  s.sound_timer < 256 ∧ s.timer < 256

/-- Content of register `n` (0 when there is no such register). -/
def V (s : State) (n : Nat) : Nat := s.regs.getD n 0

end State

/-! ## Instruction -/

/-- Struct `Instruction`: the raw 16-bit instruction word. -/
structure Instruction where
  instruction : Nat

namespace Instruction

/-- Method `Instruction::nibble`. -/
def nibble (ins : Instruction) (index : Nat) : Except Fault Nat :=
  if index > 3 then .error .runtime_error
  else .ok ((ins.instruction >>> (index * HALF_CHAR_SIZE)) &&& HALF_CHAR_MASK)

/-- Method `Instruction::upper_byte`. -/
def upper_byte (ins : Instruction) : Nat := (ins.instruction >>> CHAR_BIT) &&& CHAR_MASK

/-- Method `Instruction::lower_byte`. -/
def lower_byte (ins : Instruction) : Nat := ins.instruction &&& CHAR_MASK

/-- Method `Instruction::upper_triplet`. -/
def upper_triplet (ins : Instruction) : Nat := (ins.instruction >>> HALF_CHAR_SIZE) &&& 0xFFF

/-- Method `Instruction::lower_triplet`. -/
def lower_triplet (ins : Instruction) : Nat := ins.instruction &&& 0xFFF

/-- Method `Instruction::prefix`. -/
def prefix_nibble (ins : Instruction) : Except Fault Nat := ins.nibble 3

/-- Method `Instruction::suffix`. -/
def suffix (ins : Instruction) : Except Fault Nat := ins.nibble 0

end Instruction

/-! ## Renderer (Chip8Renderer.cpp) -/

namespace Rendering

/-- The 64x32 grid `_framebuffer[x][y]` of `DummyRenderer`. -/
structure DummyRenderer where
  framebuffer : Nat → Nat → Nat

namespace DummyRenderer

def fbuffer_width : Nat := 64
def fbuffer_height : Nat := 32

/-- Method `DummyRenderer::clear`. -/
def clear (_r : DummyRenderer) : DummyRenderer := { framebuffer := fun _ _ => 0 }

/-- Method `DummyRenderer::set_pixel`: the new renderer and the returned flag. -/
def set_pixel (r : DummyRenderer) (x y : Nat) (value : Nat) :
    Except Fault (DummyRenderer × Nat) :=
  if value ≠ 0 ∧ value ≠ 1 then .error .runtime_error
  else
    let dx := x % fbuffer_width
    let dy := y % fbuffer_height
    let old_value := r.framebuffer dx dy
    .ok ({ framebuffer := fun a b =>
            if a = dx ∧ b = dy then value ^^^ old_value else r.framebuffer a b },
         (old_value &&& value) &&& 0x1)

/-- Method `DummyRenderer::update`. -/
def update (r : DummyRenderer) : DummyRenderer := r

end DummyRenderer

end Rendering

/-! ## VM -/

/-- Enum `VMExecutionState`. -/
inductive VMExecutionState where
  | INIT
  | RUNNING
  | WAIT_FOR_KEY
  deriving DecidableEq

/-- Struct `VMCycleState`. -/
structure VMCycleState where
  execution_state : VMExecutionState
  next_program_counter_value : Nat
  key_target_register : Nat
  current_program_counter_value : Nat
  instruction : Instruction

/-- Constructor `VMCycleState::VMCycleState`. -/
def VMCycleState.mk_cycle (execution_state : VMExecutionState)
    (current_program_counter_value next_program_counter_value : Nat)
    (instruction : Instruction) : VMCycleState :=
  { execution_state := execution_state
    current_program_counter_value := current_program_counter_value
    next_program_counter_value := next_program_counter_value
    instruction := instruction
    key_target_register := 0 }

/-- Class `VM`.  The field `generator` is the sequence of values that `dist(generator)` is
going to return; `renderer` is the in-memory renderer the VM draws to. -/
structure VM where
  last_state : VMExecutionState
  execution_state : VMExecutionState
  state : State
  key_value : Int
  key_target_register : Nat
  generator : Nat → Nat
  renderer : Rendering.DummyRenderer

/-- What a `VM` method yields: its result, or the fault together with the machine as the
exception left it. -/
abbrev Outcome (α : Type) : Type := Except (Fault × VM) α

namespace VM

/-- A `State` query made on behalf of `vm`: a fault leaves `vm` as it is. -/
def call {α : Type} (vm : VM) (e : Except Fault α) : Outcome α :=
  match e with
  | .ok a => .ok a
  | .error f => .error (f, vm)

/-- A mutating `State` method run on `_state`. -/
def on_state (vm : VM) (f : State → Except Fault State) : Outcome VM :=
  match f vm.state with
  | .ok s => .ok { vm with state := s }
  | .error e => .error (e, vm)

/-- Method `VM::key_pressed`. -/
def key_pressed (vm : VM) : Bool := decide (vm.key_value ≥ 0)

/-- Method `VM::keydown`: `assert(keyvalue >= 0 && keyvalue <= 0xF)`, then the assignment,
which is all there is when the assertion is compiled out. -/
def keydown (vm : VM) (keyvalue : Int) : Outcome VM :=
  if vm.state.asserts = true ∧ ¬ (keyvalue ≥ 0 ∧ keyvalue ≤ 0xF) then
    .error (.assertion_failure, vm)
  else .ok { vm with key_value := keyvalue }

/-- Method `VM::keyup`. -/
def keyup (vm : VM) : VM := { vm with key_value := -1 }

/-- Method `VM::reset`. -/
def reset (vm : VM) : Outcome VM :=
  match vm.state.reset with
  | .error (f, s) => .error (f, { vm with state := s })
  | .ok s =>
    .ok { vm with
      state := s
      execution_state := .RUNNING
      last_state := .INIT
      key_target_register := 0
      key_value := -1 }

/-- Method `VM::update_timers`. -/
def update_timers (vm : VM) : VM :=
  let vm1 :=
    if vm.state.sound_timer > 0 then
      { vm with state := vm.state.sound_timer_set (vm.state.sound_timer - 1) }
    else vm
  if vm1.state.timer > 0 then
    { vm1 with state := vm1.state.timer_set (vm1.state.timer - 1) }
  else vm1

/-- Method `VM::fetch_and_decode`. -/
def fetch_and_decode (vm : VM) (index : Nat) : Except Fault Instruction :=
  if index + 1 ≥ vm.state.memory_size then .error .memory_access
  else do
    let hi ← vm.state.memory_at index
    let lo ← vm.state.memory_at (index + 1)
    pure { instruction := (hi <<< CHAR_BIT) ||| lo }

/-- Function `raise_illegal_opcode_error`, called while the machine is `vm`. -/
def raise_illegal_opcode_error {α : Type} (vm : VM) : Outcome α :=
  .error (.illegal_instruction, vm)

/-- Method `VM::execute_prefix0_instruction`. -/
def execute_prefix0_instruction (vm : VM) (state : VMCycleState) :
    Outcome (VM × VMCycleState) :=
  match state.instruction.lower_triplet with
  | 0x0000 => .ok (vm, state)
  | 0x00E0 => .ok ({ vm with renderer := vm.renderer.clear }, state)
  | 0x00EE => do
    let (value, s) ← vm.call vm.state.pop_callstack
    pure ({ vm with state := s }, { state with next_program_counter_value := value })
  | _ => raise_illegal_opcode_error vm

/-- Method `VM::execute_prefix1_instruction`. -/
def execute_prefix1_instruction (vm : VM) (state : VMCycleState) :
    Outcome (VM × VMCycleState) :=
  .ok (vm, { state with next_program_counter_value := state.instruction.lower_triplet })

/-- Method `VM::execute_prefix2_instruction`. -/
def execute_prefix2_instruction (vm : VM) (state : VMCycleState) :
    Outcome (VM × VMCycleState) := do
  let vm1 ← vm.on_state (fun s => s.push_callstack (s.pc + CHARS_PER_INSTRUCTION))
  pure (vm1, { state with next_program_counter_value := state.instruction.lower_triplet })

/-- The statement `state.next_program_counter_value(state.next_program_counter_value() +
CHARS_PER_INSTRUCTION)` shared by the skipping instructions. -/
def skip_next (state : VMCycleState) : VMCycleState :=
  { state with
    next_program_counter_value := state.next_program_counter_value + CHARS_PER_INSTRUCTION }

/-- Method `VM::execute_prefix3_instruction`. -/
def execute_prefix3_instruction (vm : VM) (state : VMCycleState) :
    Outcome (VM × VMCycleState) := do
  let reg_index ← vm.call (state.instruction.nibble 2)
  let reg_val ← vm.call (vm.state.reg reg_index)
  let cmp_value := state.instruction.lower_byte
  if reg_val = cmp_value then pure (vm, skip_next state) else pure (vm, state)

/-- Method `VM::execute_prefix4_instruction`. -/
def execute_prefix4_instruction (vm : VM) (state : VMCycleState) :
    Outcome (VM × VMCycleState) := do
  let reg_index ← vm.call (state.instruction.nibble 2)
  let reg_val ← vm.call (vm.state.reg reg_index)
  let cmp_value := state.instruction.lower_byte
  if reg_val ≠ cmp_value then pure (vm, skip_next state) else pure (vm, state)

/-- Method `VM::execute_prefix5_instruction`. -/
def execute_prefix5_instruction (vm : VM) (state : VMCycleState) :
    Outcome (VM × VMCycleState) := do
  let n ← vm.call (state.instruction.nibble 0)
  if n ≠ 0 then raise_illegal_opcode_error vm
  else
    let reg_index_x ← vm.call (state.instruction.nibble 2)
    let reg_index_y ← vm.call (state.instruction.nibble 1)
    let reg_val_x ← vm.call (vm.state.reg reg_index_x)
    let reg_val_y ← vm.call (vm.state.reg reg_index_y)
    if reg_val_x = reg_val_y then pure (vm, skip_next state) else pure (vm, state)

/-- Method `VM::execute_prefix6_instruction`. -/
def execute_prefix6_instruction (vm : VM) (state : VMCycleState) :
    Outcome (VM × VMCycleState) := do
  let reg_index ← vm.call (state.instruction.nibble 2)
  let value := to_regval state.instruction.lower_byte
  let vm1 ← vm.on_state (fun s => s.reg_set reg_index value)
  pure (vm1, state)

/-- Method `VM::execute_prefix7_instruction`. -/
def execute_prefix7_instruction (vm : VM) (state : VMCycleState) :
    Outcome (VM × VMCycleState) := do
  let reg_index ← vm.call (state.instruction.nibble 2)
  let old_value ← vm.call (vm.state.reg reg_index)
  let value := to_regval state.instruction.lower_byte
  let vm1 ← vm.on_state (fun s => s.reg_set reg_index (value + old_value))
  pure (vm1, state)

/-- Method `VM::execute_prefix8_instruction`. -/
def execute_prefix8_instruction (vm : VM) (state : VMCycleState) :
    Outcome (VM × VMCycleState) := do
  let reg_index_x ← vm.call (state.instruction.nibble 2)
  let reg_index_y ← vm.call (state.instruction.nibble 1)
  let reg_val_x ← vm.call (vm.state.reg reg_index_x)
  let reg_val_y ← vm.call (vm.state.reg reg_index_y)
  let n ← vm.call (state.instruction.nibble 0)
  match n with
  | 0 => do
    let vm1 ← vm.on_state (fun s => s.reg_set reg_index_x reg_val_y)
    pure (vm1, state)
  | 1 => do
    let vm1 ← vm.on_state (fun s => s.reg_set reg_index_x (reg_val_x ||| reg_val_y))
    pure (vm1, state)
  | 2 => do
    let vm1 ← vm.on_state (fun s => s.reg_set reg_index_x (reg_val_x &&& reg_val_y))
    pure (vm1, state)
  | 3 => do
    let vm1 ← vm.on_state (fun s => s.reg_set reg_index_x (reg_val_x ^^^ reg_val_y))
    pure (vm1, state)
  | 4 => do
    let vm1 ← vm.on_state (fun s =>
      if reg_val_x + reg_val_y > MAX_REGISTER_VALUE then s.flag_register_set 1
      else s.flag_register_set 0)
    let vm2 ← vm1.on_state (fun s => s.reg_set reg_index_x (size_t_add reg_val_x reg_val_y))
    pure (vm2, state)
  | 5 => do
    let vm1 ← vm.on_state (fun s =>
      if reg_val_x < reg_val_y then s.flag_register_set 0
      else s.flag_register_set 1)
    let vm2 ← vm1.on_state (fun s => s.reg_set reg_index_x (size_t_sub reg_val_x reg_val_y))
    pure (vm2, state)
  | 6 => do
    let vm1 ← vm.on_state (fun s => s.flag_register_set (reg_val_x &&& 1))
    let shifted ← vm1.call (size_t_shr reg_val_x reg_val_y)
    let vm2 ← vm1.on_state (fun s => s.reg_set reg_index_x shifted)
    pure (vm2, state)
  | 7 => do
    let vm1 ← vm.on_state (fun s =>
      if reg_val_y < reg_val_x then s.flag_register_set 1
      else s.flag_register_set 0)
    let vm2 ← vm1.on_state (fun s => s.reg_set reg_index_x (size_t_sub reg_val_y reg_val_x))
    pure (vm2, state)
  | 0xE => do
    let vm1 ← vm.on_state (fun s =>
      if reg_val_x &&& 0x80 ≠ 0 then s.flag_register_set 1
      else s.flag_register_set 0)
    let shifted ← vm1.call (size_t_shl reg_val_x reg_val_y)
    let vm2 ← vm1.on_state (fun s => s.reg_set reg_index_x shifted)
    pure (vm2, state)
  | _ => raise_illegal_opcode_error vm

/-- Method `VM::execute_prefix9_instruction`. -/
def execute_prefix9_instruction (vm : VM) (state : VMCycleState) :
    Outcome (VM × VMCycleState) := do
  let n ← vm.call (state.instruction.nibble 0)
  if n ≠ 0 then raise_illegal_opcode_error vm
  else
    let reg_index_x ← vm.call (state.instruction.nibble 2)
    let reg_index_y ← vm.call (state.instruction.nibble 1)
    let reg_value_x ← vm.call (vm.state.reg reg_index_x)
    let reg_value_y ← vm.call (vm.state.reg reg_index_y)
    if reg_value_x ≠ reg_value_y then pure (vm, skip_next state) else pure (vm, state)

/-- Method `VM::execute_prefixA_instruction`. -/
def execute_prefixA_instruction (vm : VM) (state : VMCycleState) :
    Outcome (VM × VMCycleState) := do
  let vm1 ← vm.on_state (fun s => s.index_register_set state.instruction.lower_triplet)
  pure (vm1, state)

/-- Method `VM::execute_prefixB_instruction`. -/
def execute_prefixB_instruction (vm : VM) (state : VMCycleState) :
    Outcome (VM × VMCycleState) := do
  let v0 ← vm.call (vm.state.reg 0)
  let offset := v0 + state.instruction.lower_triplet
  pure (vm, { state with next_program_counter_value := offset })

/-- Method `VM::execute_prefixC_instruction`: `dist(generator)` takes the next value of the
sequence. -/
def execute_prefixC_instruction (vm : VM) (state : VMCycleState) :
    Outcome (VM × VMCycleState) := do
  let rnd_val := to_regval (vm.generator 0)
  let vm0 := { vm with generator := fun n => vm.generator (n + 1) }
  let reg_index ← vm0.call (state.instruction.nibble 2)
  let and_value := to_regval state.instruction.lower_byte
  let vm1 ← vm0.on_state (fun s => s.reg_set reg_index (and_value &&& rnd_val))
  pure (vm1, state)

/-- The inner loop of `VM::execute_prefixD_instruction` (`for col`), with `n` columns still
to draw starting at `col`.  Yields the machine and the value of `modified`. -/
def draw_cols (offset_x offset_y row : Nat) :
    Nat → Nat → VM → Nat → Nat → Outcome (VM × Nat)
  | 0, _, vm, _, modified => .ok (vm, modified)
  | n + 1, col, vm, mem_val, modified =>
    let pixel_value := if mem_val &&& 0x80 ≠ 0 then 1 else 0
    match vm.renderer.set_pixel (offset_x + col) (offset_y + row) pixel_value with
    | .error f => .error (f, vm)
    | .ok (r, flag) =>
      draw_cols offset_x offset_y row n (col + 1) { vm with renderer := r }
        (mem_val <<< 1) (modified ||| flag)

/-- The outer loop of `VM::execute_prefixD_instruction` (`for row`), with `n` rows still to
draw starting at `row`. -/
def draw_rows (offset_x offset_y : Nat) : Nat → Nat → VM → Nat → Outcome (VM × Nat)
  | 0, _, vm, modified => .ok (vm, modified)
  | n + 1, row, vm, modified => do
    let mem_val ← vm.call (vm.state.memory_at (row + vm.state.i))
    let (vm1, modified1) ← draw_cols offset_x offset_y row CHAR_BIT 0 vm mem_val modified
    draw_rows offset_x offset_y n (row + 1) vm1 modified1

/-- Method `VM::execute_prefixD_instruction`. -/
def execute_prefixD_instruction (vm : VM) (state : VMCycleState) :
    Outcome (VM × VMCycleState) := do
  let index_x ← vm.call (state.instruction.nibble 2)
  let reg_x ← vm.call (vm.state.reg index_x)
  let offset_x := to_regval reg_x
  let index_y ← vm.call (state.instruction.nibble 1)
  let reg_y ← vm.call (vm.state.reg index_y)
  let offset_y := to_regval reg_y
  let n ← vm.call (state.instruction.nibble 0)
  let height := to_regval n
  if height + 1 + vm.state.i > vm.state.memory_size then .error (.memory_access, vm)
  else
    let (vm1, modified) ← draw_rows offset_x offset_y height 0 vm 0
    let vm2 ← vm1.on_state (fun s => s.flag_register_set modified)
    pure (vm2, state)

/-- Method `VM::execute_prefixE_instruction`. -/
def execute_prefixE_instruction (vm : VM) (state : VMCycleState) :
    Outcome (VM × VMCycleState) := do
  let reg_index ← vm.call (state.instruction.nibble 2)
  let reg ← vm.call (vm.state.reg reg_index)
  let reg_value := to_regval reg
  match state.instruction.lower_byte with
  | 0x9E =>
    if vm.key_pressed ∧ vm.key_value = (reg_value : Int) then pure (vm, skip_next state)
    else pure (vm, state)
  | 0xA1 =>
    if vm.key_pressed ∧ vm.key_value ≠ (reg_value : Int) then pure (vm, skip_next state)
    else pure (vm, state)
  | _ => raise_illegal_opcode_error vm

/-- The loop of `FX55`, with `n` iterations still to run starting at `i`. -/
def save_loop : Nat → Nat → VM → Outcome VM
  | 0, _, vm => .ok vm
  | n + 1, i, vm => do
    let v ← vm.call (vm.state.reg i)
    let vm1 ← vm.on_state (fun s => s.memory_set (s.i + i) v)
    save_loop n (i + 1) vm1

/-- The loop of `FX65`, with `n` iterations still to run starting at `i`. -/
def load_loop : Nat → Nat → VM → Outcome VM
  | 0, _, vm => .ok vm
  | n + 1, i, vm => do
    let v ← vm.call (vm.state.memory_at (vm.state.i + i))
    let vm1 ← vm.on_state (fun s => s.reg_set i v)
    load_loop n (i + 1) vm1

/-- Method `VM::execute_prefixF_instruction`. -/
def execute_prefixF_instruction (vm : VM) (state : VMCycleState) :
    Outcome (VM × VMCycleState) := do
  let n ← vm.call (state.instruction.nibble 2)
  let data := to_regval n
  let suffix := to_regval state.instruction.lower_byte
  match suffix with
  | 0x07 => do
    let vm1 ← vm.on_state (fun s => s.reg_set data s.timer)
    pure (vm1, state)
  | 0x0A =>
    pure (vm, { state with key_target_register := data, execution_state := .WAIT_FOR_KEY })
  | 0x15 => do
    let v ← vm.call (vm.state.reg data)
    pure ({ vm with state := vm.state.timer_set v }, state)
  | 0x18 => do
    let v ← vm.call (vm.state.reg data)
    pure ({ vm with state := vm.state.sound_timer_set v }, state)
  | 0x1E => do
    let v ← vm.call (vm.state.reg data)
    let vm1 ← vm.on_state (fun s => s.index_register_set (s.i + v))
    pure (vm1, state)
  | 0x29 => do
    let v ← vm.call (vm.state.reg data)
    let digit := to_regval v
    if digit > 16 then .error (.runtime_error, vm)
    else
      let digit_offset := vm.state.font_offset + SPRITE_CHARS * digit
      let vm1 ← vm.on_state (fun s => s.index_register_set digit_offset)
      pure (vm1, state)
  | 0x33 => do
    if vm.state.i + 2 ≥ vm.state.memory_size then .error (.memory_access, vm)
    else
      let v ← vm.call (vm.state.reg data)
      let reg_value := to_regval v
      let i := vm.state.i
      let vm1 ← vm.on_state (fun s => s.memory_set i ((reg_value % 1000) / 100))
      let vm2 ← vm1.on_state (fun s => s.memory_set (i + 1) ((reg_value % 100) / 10))
      let vm3 ← vm2.on_state (fun s => s.memory_set (i + 2) (reg_value % 10))
      pure (vm3, state)
  | 0x55 => do
    if vm.state.i + data > vm.state.memory_size then .error (.memory_access, vm)
    else
      let vm1 ← save_loop (data + 1) 0 vm
      let vm2 ← vm1.on_state (fun s => s.index_register_set (s.i + data + 1))
      pure (vm2, state)
  | 0x65 => do
    if vm.state.i + data > vm.state.memory_size then .error (.memory_access, vm)
    else
      let vm1 ← load_loop (data + 1) 0 vm
      let vm2 ← vm1.on_state (fun s => s.index_register_set (s.i + data + 1))
      pure (vm2, state)
  | _ => raise_illegal_opcode_error vm

/-- Method `VM::execute_instruction`. -/
def execute_instruction (vm : VM) (state : VMCycleState) : Outcome (VM × VMCycleState) := do
  let p ← vm.call state.instruction.prefix_nibble
  match p with
  | 0x0 => execute_prefix0_instruction vm state
  | 0x1 => execute_prefix1_instruction vm state
  | 0x2 => execute_prefix2_instruction vm state
  | 0x3 => execute_prefix3_instruction vm state
  | 0x4 => execute_prefix4_instruction vm state
  | 0x5 => execute_prefix5_instruction vm state
  | 0x6 => execute_prefix6_instruction vm state
  | 0x7 => execute_prefix7_instruction vm state
  | 0x8 => execute_prefix8_instruction vm state
  | 0x9 => execute_prefix9_instruction vm state
  | 0xA => execute_prefixA_instruction vm state
  | 0xB => execute_prefixB_instruction vm state
  | 0xC => execute_prefixC_instruction vm state
  | 0xD => execute_prefixD_instruction vm state
  | 0xE => execute_prefixE_instruction vm state
  | 0xF => execute_prefixF_instruction vm state
  | _ => .ok (vm, state)

/-- The `RUNNING` case of `VM::step`. -/
def step_running (vm : VM) : Outcome VM := do
  let instruction ← vm.call (vm.fetch_and_decode vm.state.pc)
  let state := VMCycleState.mk_cycle vm.execution_state vm.state.pc
    (vm.state.pc + CHARS_PER_INSTRUCTION) instruction
  let (vm1, state1) ← vm.execute_instruction state
  let vm2 ← vm1.on_state (fun s =>
    s.program_counter_set (state1.next_program_counter_value % s.memory_size))
  let vm3 := { vm2 with
    last_state := vm2.execution_state
    execution_state := state1.execution_state }
  let vm4 :=
    if vm3.execution_state = .WAIT_FOR_KEY then
      { vm3 with key_target_register := state1.key_target_register }
    else vm3
  pure { vm4 with renderer := vm4.renderer.update }

/-- Method `VM::step`.  The nested call `step()` of the `WAIT_FOR_KEY` case is made right after
`_execution_state = RUNNING`, so it runs the `RUNNING` case. -/
def step (vm : VM) : Outcome VM :=
  match vm.execution_state with
  | .RUNNING => vm.step_running
  | .WAIT_FOR_KEY =>
    let vm1 := { vm with last_state := vm.execution_state }
    if vm1.key_pressed then do
      let vm2 := { vm1 with execution_state := .RUNNING }
      let vm3 ← vm2.on_state (fun s =>
        s.reg_set vm2.key_target_register (int_to_regval vm2.key_value))
      vm3.step_running
    else .ok vm1
  | .INIT => .error (.runtime_error, vm)

/-- The machine after `n` successive calls of `step`, when none of them faults. -/
def steps : Nat → VM → Outcome VM
  | 0, vm => .ok vm
  | n + 1, vm => do
    let vm1 ← vm.step
    steps n vm1

/-- Template method `VM::load_program`, called on the bytes `program`. -/
def load_program (vm : VM) (program : List Nat) : Outcome VM :=
  if program.length + vm.state.program_load_offset > vm.state.memory_size then
    .error (.runtime_error, vm)
  else
    match vm.state.reset with
    | .error (f, s) => .error (f, { vm with state := s })
    | .ok s =>
      let s1 : State :=
        { s with memory := State.copy_at s.memory s.program_load_offset (program.map to_regval) }
      if s1.asserts = true ∧ s1.memory.length ≠ s1.memory_size then
        .error (.assertion_failure, { vm with state := s1 })
      else
        ({ vm with state := s1 } : VM).on_state
          (fun t => t.program_counter_set t.program_load_offset)

/-- The machine that the `RUNNING` case of `step` leaves once `execute_instruction` has
returned the machine `vm1` and the cycle state `state1`: the proposed program counter is
committed modulo the memory size and the execution state is taken over. -/
def commit (vm1 : VM) (state1 : VMCycleState) : VM :=
  { vm1 with
    state := { vm1.state with pc := state1.next_program_counter_value % DEFAULT_MEMORY_SIZE }
    last_state := vm1.execution_state
    execution_state := state1.execution_state
    key_target_register :=
      if state1.execution_state = .WAIT_FOR_KEY then state1.key_target_register
      else vm1.key_target_register }

/-- A machine in `RUNNING` mode, no key pressed, whose memory starts with `bytes` (zero
elsewhere) and whose registers are `regs`; everything else is cleared. -/
def example_vm (bytes regs : List Nat) : VM :=
  { last_state := .INIT
    execution_state := .RUNNING
    state :=
      { memory := bytes ++ List.replicate (DEFAULT_MEMORY_SIZE - bytes.length) 0
        pc := 0
        i := 0
        callstack := []
        sound_timer := 0
        timer := 0
        regs := regs
        font_offset := DEFAULT_FONT_OFFSET }
    key_value := -1
    key_target_register := 0
    generator := fun _ => 0
    renderer := { framebuffer := fun _ _ => 0 } }

end VM

/-- The instruction word whose nibbles are `P X Y N`, most significant first. -/
def opcode (P X Y N : Nat) : Nat := 0x1000 * P + 0x100 * X + 0x10 * Y + N

/-! ## Concrete machines used as instances -/

/-- A machine about to run `8014` with `V0 = V1 = 0x80`. -/
def VM.vm_8014 : VM :=
  VM.example_vm [0x80, 0x14] [0x80, 0x80, 0, 0, 0, 0, 0, 0, 0, 0, 0, 0, 0, 0, 0, 0]

/-- A machine about to run `8015` with `V0 = 0x20`, `V1 = 0x80`. -/
def VM.vm_8015 : VM :=
  VM.example_vm [0x80, 0x15] [0x20, 0x80, 0, 0, 0, 0, 0, 0, 0, 0, 0, 0, 0, 0, 0, 0]

/-- A machine about to run `8017` with `V0 = 0x20`, `V1 = 0x80`. -/
def VM.vm_8017 : VM :=
  VM.example_vm [0x80, 0x17] [0x20, 0x80, 0, 0, 0, 0, 0, 0, 0, 0, 0, 0, 0, 0, 0, 0]

/-- A machine about to run `8016` with `V0 = 0x55`, `V1 = 4`. -/
def VM.vm_8016 : VM :=
  VM.example_vm [0x80, 0x16] [0x55, 4, 0, 0, 0, 0, 0, 0, 0, 0, 0, 0, 0, 0, 0, 0]

/-- A machine about to run `80F6` with `V0 = 1`, `VF = 0`. -/
def VM.vm_80F6 : VM :=
  VM.example_vm [0x80, 0xF6] [1, 0, 0, 0, 0, 0, 0, 0, 0, 0, 0, 0, 0, 0, 0, 0]

/-- A machine about to run `801E` with `V0 = 1`, `V1 = 64`. -/
def VM.vm_801E : VM :=
  VM.example_vm [0x80, 0x1E] [1, 64, 0, 0, 0, 0, 0, 0, 0, 0, 0, 0, 0, 0, 0, 0]

/-- A machine about to run `F00A` with all registers zero and no key pressed. -/
def VM.vm_F00A : VM :=
  VM.example_vm [0xF0, 0x0A] [0, 0, 0, 0, 0, 0, 0, 0, 0, 0, 0, 0, 0, 0, 0, 0]

/-- A machine parked in `WAIT_FOR_KEY` mode with no key pressed. -/
def VM.vm_parked : VM :=
  { VM.vm_F00A with execution_state := .WAIT_FOR_KEY }

/-- The preparation of the key-wait test ("Wait for key and store in register"):
`vm.reset()`, `state.program_counter(0)`, `state.memory(0, 0xF0 | i)`, `state.memory(1, 0x0A)`.
The `state.reset()` that the test repeats after `vm.reset()` is the one `VM::reset` has just
made. -/
def VM.key_wait_setup (vm : VM) (i : Nat) : Outcome VM := do
  let vm1 ← vm.reset
  let vm2 ← vm1.on_state (fun s => s.program_counter_set 0)
  let vm3 ← vm2.on_state (fun s => s.memory_set 0 (0xF0 ||| i))
  vm3.on_state (fun s => s.memory_set 1 0x0A)

/-- The instruction word with first nibble `P`, second nibble `X` and low byte `NN`. -/
def opcode_XNN (P X NN : Nat) : Nat := 0x1000 * P + 0x100 * X + NN

/-- A machine about to run `70FF` with `V0 = 0x81`. -/
def VM.vm_70FF : VM :=
  VM.example_vm [0x70, 0xFF] [0x81, 0, 0, 0, 0, 0, 0, 0, 0, 0, 0, 0, 0, 0, 0, 0]

/-- The representation invariant of the framebuffer: every cell is 0 or 1 (the constructor and
`clear` store 0, `set_pixel` stores the exclusive or of a cell and a value it has checked to be
0 or 1). -/
def Rendering.DummyRenderer.wf (r : Rendering.DummyRenderer) : Prop :=
  ∀ a b, r.framebuffer a b ≤ 1

/-- A renderer whose only lit pixel is `(6, 8)`. -/
def Rendering.DummyRenderer.one_pixel : Rendering.DummyRenderer :=
  { framebuffer := fun a b => if a = 6 ∧ b = 8 then 1 else 0 }

/-- The state built by the constructor, after `font_offset(0x100)`. -/
def State.moved_font : State := State.default.font_offset_set 0x100

/-- A machine whose state has been given the font offset `0x100`. -/
def VM.vm_moved_font : VM :=
  { VM.vm_F00A with state := VM.vm_F00A.state.font_offset_set 0x100 }

/-- A machine with `V0 = V1 = 0x80` whose state has been given the font offset 4090, which
leaves no room for the font table. -/
def VM.vm_font_at_end : VM :=
  { VM.vm_8014 with state := VM.vm_8014.state.font_offset_set 4090 }

/-- The pixel value that the column loop of `DXYN` draws at column `c` of a row whose sprite
byte is `mem_val`: the byte has been shifted left `c` times when its bit `0x80` is tested. -/
def sprite_bit (mem_val c : Nat) : Nat := if (mem_val <<< c) &&& 0x80 ≠ 0 then 1 else 0

/-- A machine about to run `D015` with `I = 0`, all registers zero and a cleared framebuffer:
the sprite rows are the first five bytes of memory, `D0 15 00 00 00`. -/
def VM.vm_D015 : VM :=
  VM.example_vm [0xD0, 0x15] [0, 0, 0, 0, 0, 0, 0, 0, 0, 0, 0, 0, 0, 0, 0, 0]

/-- The two vectors of the machine have `m` and `r` cells. -/
def VM.shaped (m r : Nat) (vm : VM) : Prop :=
  vm.state.memory.length = m ∧ vm.state.regs.length = r

/-- Every result that `x` can return satisfies `p` (nothing is said when `x` faults). -/
def keeps {ε α : Type} (p : α → Prop) (x : Except ε α) : Prop :=
  ∀ a, x = .ok a → p a

/-- The machine that `F00A` has parked, after the host has called
`manipulate_state().program_counter(4096)`, a value the setter admits. -/
def VM.vm_parked_at_end : VM :=
  { VM.vm_F00A with
    state := { VM.vm_F00A.state with pc := 4096 }
    last_state := .RUNNING
    execution_state := .WAIT_FOR_KEY
    key_target_register := 0 }

/-- Successive calls `push_callstack(x1)`, ..., `push_callstack(xn)`, first value first. -/
def State.push_all : List Nat → State → Except Fault State
  | [], s => .ok s
  | x :: xs, s => do
    let s1 ← s.push_callstack x
    State.push_all xs s1

/-- The values returned by `n` successive calls of `pop_callstack`, in the order returned,
and the state they leave. -/
def State.pop_n : Nat → State → Except Fault (List Nat × State)
  | 0, s => .ok ([], s)
  | n + 1, s => do
    let (v, s1) ← s.pop_callstack
    let (vs, s2) ← State.pop_n n s1
    pure (v :: vs, s2)

/-- The instruction word whose first nibble is `P` and whose lower triplet is `NNN`. -/
def opcode_NNN (P NNN : Nat) : Nat := 0x1000 * P + NNN

/-- A machine about to run `F029` with `V0 = 16`. -/
def VM.vm_F029 : VM :=
  VM.example_vm [0xF0, 0x29] [16, 0, 0, 0, 0, 0, 0, 0, 0, 0, 0, 0, 0, 0, 0, 0]

/-- A machine about to run `F033` with `V0 = 123` and `I = 0x300`. -/
def VM.vm_F033 : VM :=
  { VM.example_vm [0xF0, 0x33] [123, 0, 0, 0, 0, 0, 0, 0, 0, 0, 0, 0, 0, 0, 0, 0] with
    state :=
      { (VM.example_vm [0xF0, 0x33] [123, 0, 0, 0, 0, 0, 0, 0, 0, 0, 0, 0, 0, 0, 0, 0]).state with
        i := 0x300 } }

/-- A machine about to run `F255` with `V0, V1, V2 = 7, 8, 9` and `I = 0x300`. -/
def VM.vm_F255 : VM :=
  { VM.example_vm [0xF2, 0x55] [7, 8, 9, 0, 0, 0, 0, 0, 0, 0, 0, 0, 0, 0, 0, 0] with
    state :=
      { (VM.example_vm [0xF2, 0x55] [7, 8, 9, 0, 0, 0, 0, 0, 0, 0, 0, 0, 0, 0, 0, 0]).state with
        i := 0x300 } }

/-- A machine about to run `F265` with `I = 0`, so that the bytes to load are `F2 65 00`. -/
def VM.vm_F265 : VM :=
  VM.example_vm [0xF2, 0x65] [1, 2, 3, 4, 5, 6, 7, 8, 9, 10, 11, 12, 13, 14, 15, 16]

/-- A machine whose last two memory bytes are the call `2000` and whose first two bytes are
the return `00EE`, with the program counter on the call at `0xFFE`. -/
def VM.vm_call_at_end : VM :=
  { last_state := .INIT
    execution_state := .RUNNING
    state :=
      { memory := [0x00, 0xEE] ++ List.replicate 4092 0 ++ [0x20, 0x00]
        pc := 0xFFE
        i := 0
        callstack := []
        sound_timer := 0
        timer := 0
        regs := List.replicate 16 0
        font_offset := DEFAULT_FONT_OFFSET }
    key_value := -1
    key_target_register := 0
    generator := fun _ => 0
    renderer := { framebuffer := fun _ _ => 0 } }

/-- A machine about to run `00EE` with an empty call stack. -/
def VM.vm_00EE : VM :=
  VM.example_vm [0x00, 0xEE] [0, 0, 0, 0, 0, 0, 0, 0, 0, 0, 0, 0, 0, 0, 0, 0]

/-- The machine `vm_00EE` after the host has called
`manipulate_state().push_callstack(4096)`, a value the guard of `push_callstack` admits. -/
def VM.vm_return_to_4096 : VM :=
  { VM.vm_00EE with state := { VM.vm_00EE.state with callstack := [4096] } }

/-- The machine `vm_00EE` after the host has called `push_callstack(0x789)`. -/
def VM.vm_return : VM :=
  { VM.vm_00EE with state := { VM.vm_00EE.state with callstack := [0x789] } }

/-- A machine about to run the call `2002`, whose target `0x002` holds `00EE`. -/
def VM.vm_call : VM :=
  VM.example_vm [0x20, 0x02, 0x00, 0xEE] [0, 0, 0, 0, 0, 0, 0, 0, 0, 0, 0, 0, 0, 0, 0, 0]

/-- The faults that are C++ exceptions thrown by the program (`IllegalInstructionException`,
`MemoryAccessError`, `RegisterAccessError`, `std::runtime_error`); a failed `assert` and
undefined behaviour are not. -/
def Fault.thrown : Fault → Prop
  | .illegal_instruction => True
  | .memory_access => True
  | .register_access => True
  | .runtime_error => True
  | .assertion_failure => False
  | .undefined_behaviour => False

/-- Every fault that `x` can end in satisfies `q` (nothing is said when `x` returns). -/
def raises {ε α : Type} (q : ε → Prop) (x : Except ε α) : Prop :=
  ∀ e, x = .error e → q e

/-- What is shown of a fault `e` of code run on the machine `vm`: a thrown exception comes
with the machine `vm` itself, and `IllegalInstructionException` is thrown only when `ill`
holds. -/
def VM.atomic (vm : VM) (ill : Prop) (e : Fault × VM) : Prop :=
  (e.1.thrown → e.2 = vm) ∧ (e.1 = .illegal_instruction → ill)

/-- The instruction words `P X Y N` that the specification lists as undefined opcode
patterns: `0NNN` other than `0000`, `00E0`, `00EE`; `5XYN` and `9XYN` with `N ≠ 0`; `8XYN` with
`N` not in `{0, .., 7, E}`; `EXNN` with `NN` not in `{9E, A1}`; `FXNN` with `NN` not in the
`FX` table. -/
def illegal_word (P X Y N : Nat) : Prop :=
  (P = 0x0 ∧ 0x100 * X + 0x10 * Y + N ≠ 0x000 ∧ 0x100 * X + 0x10 * Y + N ≠ 0x0E0 ∧
    0x100 * X + 0x10 * Y + N ≠ 0x0EE) ∨
  ((P = 0x5 ∨ P = 0x9) ∧ N ≠ 0) ∨
  (P = 0x8 ∧ N ≠ 0 ∧ N ≠ 1 ∧ N ≠ 2 ∧ N ≠ 3 ∧ N ≠ 4 ∧ N ≠ 5 ∧ N ≠ 6 ∧ N ≠ 7 ∧ N ≠ 0xE) ∨
  (P = 0xE ∧ 0x10 * Y + N ≠ 0x9E ∧ 0x10 * Y + N ≠ 0xA1) ∨
  (P = 0xF ∧ 0x10 * Y + N ≠ 0x07 ∧ 0x10 * Y + N ≠ 0x0A ∧ 0x10 * Y + N ≠ 0x15 ∧
    0x10 * Y + N ≠ 0x18 ∧ 0x10 * Y + N ≠ 0x1E ∧ 0x10 * Y + N ≠ 0x29 ∧
    0x10 * Y + N ≠ 0x33 ∧ 0x10 * Y + N ≠ 0x55 ∧ 0x10 * Y + N ≠ 0x65)

/-- What the specification's list of undefined opcode patterns says of the instruction `ins`,
read off the fields the handlers look at. -/
def Instruction.illegal (ins : Instruction) : Prop :=
  ∀ p, ins.nibble 3 = .ok p →
    (p = 0x0 ∧ ins.lower_triplet ≠ 0x000 ∧ ins.lower_triplet ≠ 0x0E0 ∧
      ins.lower_triplet ≠ 0x0EE) ∨
    ((p = 0x5 ∨ p = 0x9) ∧ ins.nibble 0 ≠ .ok 0) ∨
    (p = 0x8 ∧ ∀ n, ins.nibble 0 = .ok n →
      n ≠ 0 ∧ n ≠ 1 ∧ n ≠ 2 ∧ n ≠ 3 ∧ n ≠ 4 ∧ n ≠ 5 ∧ n ≠ 6 ∧ n ≠ 7 ∧ n ≠ 0xE) ∨
    (p = 0xE ∧ ins.lower_byte ≠ 0x9E ∧ ins.lower_byte ≠ 0xA1) ∨
    (p = 0xF ∧ ins.lower_byte ≠ 0x07 ∧ ins.lower_byte ≠ 0x0A ∧ ins.lower_byte ≠ 0x15 ∧
      ins.lower_byte ≠ 0x18 ∧ ins.lower_byte ≠ 0x1E ∧ ins.lower_byte ≠ 0x29 ∧
      ins.lower_byte ≠ 0x33 ∧ ins.lower_byte ≠ 0x55 ∧ ins.lower_byte ≠ 0x65)

/-- The machine parked by `F00A` at address 0 on which the host has called `keydown(5)`; the
instruction that follows, at address 2, is the undefined word `FFFF`. -/
def VM.vm_wake_illegal : VM :=
  { VM.example_vm [0xF0, 0x0A, 0xFF, 0xFF] [0, 0, 0, 0, 0, 0, 0, 0, 0, 0, 0, 0, 0, 0, 0, 0] with
    state :=
      { (VM.example_vm [0xF0, 0x0A, 0xFF, 0xFF]
          [0, 0, 0, 0, 0, 0, 0, 0, 0, 0, 0, 0, 0, 0, 0, 0]).state with pc := 2 }
    last_state := .RUNNING
    execution_state := .WAIT_FOR_KEY
    key_value := 5 }

/-- A machine about to run the undefined word `FFFF`. -/
def VM.vm_FFFF : VM :=
  VM.example_vm [0xFF, 0xFF] [0, 0, 0, 0, 0, 0, 0, 0, 0, 0, 0, 0, 0, 0, 0, 0]

/-- Method `Instruction::nibble` on any `int` argument: the guard is
`index < 0 || index > 3`. -/
def Instruction.nibble_at (ins : Instruction) (index : Int) : Except Fault Nat :=
  if index < 0 ∨ index > 3 then .error .runtime_error
  else .ok ((ins.instruction >>> (index.toNat * HALF_CHAR_SIZE)) &&& HALF_CHAR_MASK)

/-- The machine after `n` calls of `update_timers`. -/
def VM.update_timers_n : Nat → VM → VM
  | 0, vm => vm
  | n + 1, vm => VM.update_timers_n n vm.update_timers

/-- A machine about to run `8014` whose timers are 3 (delay) and 1 (sound). -/
def VM.vm_timers : VM :=
  { VM.vm_8014 with state := { VM.vm_8014.state with timer := 3, sound_timer := 1 } }

/-- Conversion of an `int` value to `size_t`. -/
def to_size_t (n : Int) : Nat := (n % 2 ^ SIZE_T_BITS).toNat

/-- Method `VM::fetch_and_decode` on any `int` argument (below `INT_MAX`): `index + 1` is
computed in `int` and converted to `size_t` for the comparison with `memory_size()`, and the
two subscripts are converted to `size_t`.  The guard does not test `index < 0`. -/
def VM.fetch_and_decode_at (vm : VM) (index : Int) : Except Fault Instruction :=
  if to_size_t (index + 1) ≥ vm.state.memory_size then .error .memory_access
  else do
    let hi ← vm.state.memory_at (to_size_t index)
    let lo ← vm.state.memory_at (to_size_t (index + 1))
    pure { instruction := (hi <<< CHAR_BIT) ||| lo }

/-- A machine in `RUNNING` mode whose program counter is the last address `0xFFF`. -/
def VM.vm_pc_at_end : VM :=
  { VM.vm_8014 with state := { VM.vm_8014.state with pc := 0xFFF } }

/-- A machine about to run `3042` with `V0 = 0x42`. -/
def VM.vm_3042 : VM :=
  VM.example_vm [0x30, 0x42] [0x42, 0, 0, 0, 0, 0, 0, 0, 0, 0, 0, 0, 0, 0, 0, 0]

/-- A machine about to run `E09E` with `V0 = 5`, on which the host has called
`keydown(5)`. -/
def VM.vm_E09E : VM :=
  { VM.example_vm [0xE0, 0x9E] [5, 0, 0, 0, 0, 0, 0, 0, 0, 0, 0, 0, 0, 0, 0, 0] with
    key_value := 5 }

/-- A machine with no key pressed whose last two memory bytes are `E09E` and whose program
counter is on them, at `0xFFE`. -/
def VM.vm_skip_at_end : VM :=
  { last_state := .INIT
    execution_state := .RUNNING
    state :=
      { memory := List.replicate 4094 0 ++ [0xE0, 0x9E]
        pc := 0xFFE
        i := 0
        callstack := []
        sound_timer := 0
        timer := 0
        regs := List.replicate 16 0
        font_offset := DEFAULT_FONT_OFFSET }
    key_value := -1
    key_target_register := 0
    generator := fun _ => 0
    renderer := { framebuffer := fun _ _ => 0 } }

/-- A machine about to run `8F16` with `V1 = 64` and `VF = 1`. -/
def VM.vm_8F16 : VM :=
  VM.example_vm [0x8F, 0x16] [0, 64, 0, 0, 0, 0, 0, 0, 0, 0, 0, 0, 0, 0, 0, 1]

/-- A machine about to run `F155` with `V0 = 7`, `V1 = 9` and `I = 0xFFF`, so that
`I + X = 4096`. -/
def VM.vm_F155_end : VM :=
  { VM.example_vm [0xF1, 0x55] [7, 9, 0, 0, 0, 0, 0, 0, 0, 0, 0, 0, 0, 0, 0, 0] with
    state :=
      { (VM.example_vm [0xF1, 0x55] [7, 9, 0, 0, 0, 0, 0, 0, 0, 0, 0, 0, 0, 0, 0, 0]).state with
        i := 0xFFF } }

/-- A machine about to run `F165` with `I = 0xFFF`, so that `I + X = 4096`. -/
def VM.vm_F165_end : VM :=
  { VM.example_vm [0xF1, 0x65] [7, 9, 0, 0, 0, 0, 0, 0, 0, 0, 0, 0, 0, 0, 0, 0] with
    state :=
      { (VM.example_vm [0xF1, 0x65] [7, 9, 0, 0, 0, 0, 0, 0, 0, 0, 0, 0, 0, 0, 0, 0]).state with
        i := 0xFFF } }

/-- The `State` methods that the handlers call, the memory write apart, all keep `Q`, and so
does the assignment of the program counter. -/
structure State.stable (Q : State → Prop) : Prop where
  reg_set : ∀ (s t : State) (n v : Nat), Q s → s.reg_set n v = .ok t → Q t
  flag_register_set : ∀ (s t : State) (v : Nat), Q s → s.flag_register_set v = .ok t → Q t
  index_register_set : ∀ (s t : State) (n : Nat), Q s → s.index_register_set n = .ok t → Q t
  push_callstack : ∀ (s t : State) (n : Nat), Q s → s.push_callstack n = .ok t → Q t
  pop_callstack : ∀ (s t : State) (v : Nat), Q s → s.pop_callstack = .ok (v, t) → Q t
  timer_set : ∀ (s : State) (v : Nat), Q s → Q (s.timer_set v)
  sound_timer_set : ∀ (s : State) (v : Nat), Q s → Q (s.sound_timer_set v)
  pc_set : ∀ (s : State) (p : Nat), Q s → Q { s with pc := p }

/-- The instruction is one whose handler writes memory and `I + k` is among the cells it
writes: `k ≤ 2` for `FX33`, `k ≤ X` for `FX55`; no `k` for any other instruction. -/
def Instruction.writes (ins : Instruction) (k : Nat) : Prop :=
  ins.prefix_nibble = .ok 0xF ∧
    ((ins.lower_byte = 0x33 ∧ k ≤ 2) ∨
      (ins.lower_byte = 0x55 ∧ ∃ x, ins.nibble 2 = .ok x ∧ k ≤ x))

/-- A program of 3584 bytes, loaded at `0x200 .. 0xFFF`: `1FFE` at `0x200` (jump to `0xFFE`)
and `2000` at `0xFFE` (call 0 from the last instruction slot). -/
def call_from_last_slot : List Nat := [0x1F, 0xFE] ++ List.replicate 3580 0 ++ [0x20, 0x00]

/-- The program `AFFF 60FF F01E`: `I <- 0xFFF`, `V0 <- 0xFF`, `I <- I + V0`. -/
def index_overrun_program : List Nat := [0xAF, 0xFF, 0x60, 0xFF, 0xF0, 0x1E]

/-- The machine `VM.vm_8014` of a build with `NDEBUG`, in which `assert` is compiled out. -/
def VM.vm_ndebug : VM :=
  { VM.vm_8014 with state := { VM.vm_8014.state with asserts := false } }

/-! ## Basic facts -/

theorem ok_bind {ε α β : Type} (a : α) (f : α → Except ε β) :
    (Except.ok a >>= f) = f a := by
  cases h : f a <;> simp [bind, Except.bind, h]

theorem error_bind {ε α β : Type} (e : ε) (f : α → Except ε β) :
    ((Except.error e : Except ε α) >>= f) = Except.error e := by
  simp [bind, Except.bind]

theorem ok_pure {ε α : Type} (a : α) : (pure a : Except ε α) = Except.ok a := by
  simp [pure, Except.pure]

theorem to_regval_of_lt (n : Nat) (h : n < 256) : to_regval n = n := Nat.mod_eq_of_lt h

theorem to_regval_size_t_add (a b : Nat) : to_regval (size_t_add a b) = (a + b) % 256 := by
  unfold to_regval size_t_add SIZE_T_BITS
  omega

theorem to_regval_size_t_sub (a b : Nat) (ha : a < 256) (hb : b < 256) :
    to_regval (size_t_sub a b) = (a + 256 - b) % 256 := by
  unfold to_regval size_t_sub SIZE_T_BITS
  omega

theorem Instruction.nibble_eq (ins : Instruction) (index : Nat) (h : index ≤ 3) :
    ins.nibble index = .ok (ins.instruction / 16 ^ index % 16) := by
  have hmask : (HALF_CHAR_MASK : Nat) = 2 ^ 4 - 1 := by decide
  have hsz : HALF_CHAR_SIZE = 4 := by decide
  unfold Instruction.nibble
  rw [if_neg (by omega), hmask, Nat.and_pow_two_sub_one_eq_mod, Nat.shiftRight_eq_div_pow, hsz,
    Nat.mul_comm, Nat.pow_mul]

theorem Instruction.lower_byte_eq (ins : Instruction) :
    ins.lower_byte = ins.instruction % 256 := by
  have hmask : (CHAR_MASK : Nat) = 2 ^ 8 - 1 := by decide
  unfold Instruction.lower_byte
  rw [hmask, Nat.and_pow_two_sub_one_eq_mod]

theorem Instruction.lower_triplet_eq (ins : Instruction) :
    ins.lower_triplet = ins.instruction % 4096 := by
  have hmask : (0xFFF : Nat) = 2 ^ 12 - 1 := by decide
  unfold Instruction.lower_triplet
  rw [hmask, Nat.and_pow_two_sub_one_eq_mod]

/-- Decoding of an instruction word given by its four nibbles. -/
theorem decode_opcode (P X Y N : Nat) (hP : P < 16) (hX : X < 16) (hY : Y < 16) (hN : N < 16) :
    (Instruction.mk (opcode P X Y N)).nibble 3 = .ok P ∧
    (Instruction.mk (opcode P X Y N)).nibble 2 = .ok X ∧
    (Instruction.mk (opcode P X Y N)).nibble 1 = .ok Y ∧
    (Instruction.mk (opcode P X Y N)).nibble 0 = .ok N ∧
    (Instruction.mk (opcode P X Y N)).lower_byte = 0x10 * Y + N ∧
    (Instruction.mk (opcode P X Y N)).lower_triplet = 0x100 * X + 0x10 * Y + N := by
  refine ⟨?_, ?_, ?_, ?_, ?_, ?_⟩
  · rw [Instruction.nibble_eq _ _ (by omega)]; unfold opcode; congr 1; norm_num; omega
  · rw [Instruction.nibble_eq _ _ (by omega)]; unfold opcode; congr 1; norm_num; omega
  · rw [Instruction.nibble_eq _ _ (by omega)]; unfold opcode; congr 1; norm_num; omega
  · rw [Instruction.nibble_eq _ _ (by omega)]; unfold opcode; congr 1; norm_num; omega
  · rw [Instruction.lower_byte_eq]; unfold opcode; simp only []; omega
  · rw [Instruction.lower_triplet_eq]; unfold opcode; simp only []; omega

/-! ## State accessors on a well-formed state -/

theorem State.reg_eq (s : State) (n : Nat) (hl : s.regs.length = DEFAULT_REGISTER_SIZE)
    (hn : n < 16) : s.reg n = .ok (s.V n) := by
  have h16 : DEFAULT_REGISTER_SIZE = 16 := rfl
  have hlt : n < s.regs.length := by omega
  unfold State.reg State.V State.register_size
  rw [if_neg (by omega)]
  simp [List.getElem?_eq_getElem hlt, List.getD_eq_getElem?_getD]

theorem State.reg_set_eq (s : State) (n v : Nat) (hl : s.regs.length = DEFAULT_REGISTER_SIZE)
    (hn : n < 16) :
    s.reg_set n v = .ok { s with regs := s.regs.set n (to_regval v) } := by
  have h16 : DEFAULT_REGISTER_SIZE = 16 := rfl
  unfold State.reg_set
  rw [if_neg (by omega), if_pos (by omega)]

theorem State.flag_register_set_eq (s : State) (v : Nat)
    (hl : s.regs.length = DEFAULT_REGISTER_SIZE) :
    s.flag_register_set v = .ok { s with regs := s.regs.set 15 (to_regval v) } := by
  have h16 : DEFAULT_REGISTER_SIZE = 16 := rfl
  have hf : DEFAULT_FLAG_REGISTER = 15 := rfl
  unfold State.flag_register_set
  rw [if_neg (by omega), if_pos (by omega), hf]

theorem State.V_lt (s : State) (n : Nat) (hw : s.wf) : s.V n < 256 := by
  unfold State.V
  rw [List.getD_eq_getElem?_getD]
  cases h : s.regs[n]? with
  | none => simp
  | some v =>
    simp only [Option.getD_some]
    exact hw.2.2.2.1 v (List.getElem?_mem h)

/-- Register contents after one register cell was overwritten. -/
theorem V_set (regs : List Nat) (n m v : Nat) (hn : n < regs.length) :
    (regs.set n v).getD m 0 = if m = n then v else regs.getD m 0 := by
  rw [List.getD_eq_getElem?_getD, List.getD_eq_getElem?_getD, List.getElem?_set]
  by_cases h : n = m
  · subst h; simp [hn]
  · have h2 : ¬ m = n := fun e => h e.symm
    simp [h, h2]

/-- Register contents after the flag register and then register `X` were overwritten. -/
theorem V_set_set (regs : List Nat) (X m flag result : Nat)
    (hl : regs.length = DEFAULT_REGISTER_SIZE) (hX : X < 16) :
    ((regs.set 15 flag).set X result).getD m 0 =
      if m = X then result else if m = 15 then flag else regs.getD m 0 := by
  have h16 : DEFAULT_REGISTER_SIZE = 16 := rfl
  rw [V_set _ _ _ _ (by rw [List.length_set]; omega), V_set _ _ _ _ (by omega)]

/-! ## The `RUNNING` case of `step` -/

theorem VM.call_ok {α : Type} (vm : VM) (a : α) : vm.call (.ok a) = .ok a := by
  unfold VM.call; simp

theorem VM.call_error {α : Type} (vm : VM) (f : Fault) :
    vm.call (.error f : Except Fault α) = .error (f, vm) := by
  unfold VM.call; simp

theorem VM.on_state_ok (vm : VM) (f : State → Except Fault State) (s : State)
    (h : f vm.state = .ok s) : vm.on_state f = .ok { vm with state := s } := by
  unfold VM.on_state; simp [h]

theorem VM.on_state_error (vm : VM) (f : State → Except Fault State) (e : Fault)
    (h : f vm.state = .error e) : vm.on_state f = .error (e, vm) := by
  unfold VM.on_state; simp [h]

theorem VM.on_state_reg_set (vm : VM) (n v : Nat)
    (hl : vm.state.regs.length = DEFAULT_REGISTER_SIZE) (hn : n < 16) :
    vm.on_state (fun s => s.reg_set n v) =
      .ok { vm with state := { vm.state with regs := vm.state.regs.set n (to_regval v) } } :=
  VM.on_state_ok vm _ _ (State.reg_set_eq vm.state n v hl hn)

theorem VM.on_state_flag_ite (vm : VM) (c : Prop) [Decidable c] (a b : Nat)
    (hl : vm.state.regs.length = DEFAULT_REGISTER_SIZE) :
    vm.on_state (fun s => if c then s.flag_register_set a else s.flag_register_set b) =
      .ok { vm with state := { vm.state with
        regs := vm.state.regs.set 15 (to_regval (if c then a else b)) } } := by
  by_cases h : c
  · simp only [h, if_true]
    exact VM.on_state_ok vm _ _ (State.flag_register_set_eq vm.state a hl)
  · simp only [h, if_false]
    exact VM.on_state_ok vm _ _ (State.flag_register_set_eq vm.state b hl)

theorem VM.on_state_flag_register_set (vm : VM) (v : Nat)
    (hl : vm.state.regs.length = DEFAULT_REGISTER_SIZE) :
    vm.on_state (fun s => s.flag_register_set v) =
      .ok { vm with state := { vm.state with regs := vm.state.regs.set 15 (to_regval v) } } :=
  VM.on_state_ok vm _ _ (State.flag_register_set_eq vm.state v hl)

/-- A successful fetch and a successful `execute_instruction` make the `RUNNING` case of
`step` return the committed machine. -/
theorem VM.step_running_eq (vm vm1 : VM) (ins : Instruction) (state1 : VMCycleState)
    (hf : vm.fetch_and_decode vm.state.pc = .ok ins)
    (he : vm.execute_instruction (VMCycleState.mk_cycle vm.execution_state vm.state.pc
      (vm.state.pc + CHARS_PER_INSTRUCTION) ins) = .ok (vm1, state1)) :
    vm.step_running = .ok (vm1.commit state1) := by
  have hlt : state1.next_program_counter_value % DEFAULT_MEMORY_SIZE ≤ DEFAULT_MEMORY_SIZE :=
    Nat.le_of_lt (Nat.mod_lt _ (by decide))
  unfold VM.step_running
  simp only [hf, VM.call, he, bind, Except.bind, VM.on_state, State.program_counter_set,
    State.memory_size, if_neg (Nat.not_lt.mpr hlt), pure, Except.pure, VM.commit,
    Rendering.DummyRenderer.update]
  cases h : state1.execution_state <;> simp [h]

/-- A fault of `execute_instruction` is the fault of the `RUNNING` case of `step`. -/
theorem VM.step_running_fault (vm vm1 : VM) (ins : Instruction) (f : Fault)
    (hf : vm.fetch_and_decode vm.state.pc = .ok ins)
    (he : vm.execute_instruction (VMCycleState.mk_cycle vm.execution_state vm.state.pc
      (vm.state.pc + CHARS_PER_INSTRUCTION) ins) = .error (f, vm1)) :
    vm.step_running = .error (f, vm1) := by
  unfold VM.step_running
  simp only [hf, VM.call, he, bind, Except.bind]

theorem VM.step_of_running (vm : VM) (h : vm.execution_state = .RUNNING) :
    vm.step = vm.step_running := by
  unfold VM.step
  simp only [h]

/-- Dispatch on the first nibble. -/
theorem VM.execute_instruction_8 (vm : VM) (st : VMCycleState)
    (h3 : st.instruction.nibble 3 = .ok 8) :
    vm.execute_instruction st = vm.execute_prefix8_instruction st := by
  unfold VM.execute_instruction Instruction.prefix_nibble
  simp only [h3, VM.call_ok, ok_bind]

theorem VM.execute_instruction_F (vm : VM) (st : VMCycleState)
    (h3 : st.instruction.nibble 3 = .ok 0xF) :
    vm.execute_instruction st = vm.execute_prefixF_instruction st := by
  unfold VM.execute_instruction Instruction.prefix_nibble
  simp only [h3, VM.call_ok, ok_bind]

theorem VM.execute_instruction_0 (vm : VM) (st : VMCycleState)
    (h3 : st.instruction.nibble 3 = .ok 0) :
    vm.execute_instruction st = vm.execute_prefix0_instruction st := by
  unfold VM.execute_instruction Instruction.prefix_nibble
  simp only [h3, VM.call_ok, ok_bind]

theorem VM.example_vm_wf (bytes regs : List Nat) (hb : bytes.length ≤ 4096)
    (hbb : ∀ b ∈ bytes, b < 256) (hr : regs.length = 16) (hrr : ∀ r ∈ regs, r < 256) :
    (VM.example_vm bytes regs).state.wf := by
  have hm : DEFAULT_MEMORY_SIZE = 4096 := rfl
  refine ⟨?_, ?_, hr, hrr, Nat.zero_lt_succ _, Nat.zero_lt_succ _⟩
  · show (bytes ++ List.replicate (DEFAULT_MEMORY_SIZE - bytes.length) 0).length = _
    rw [List.length_append, List.length_replicate]; omega
  · intro b hmem
    have hmem2 : b ∈ bytes ++ List.replicate (DEFAULT_MEMORY_SIZE - bytes.length) 0 := hmem
    rcases List.mem_append.mp hmem2 with h | h
    · exact hbb b h
    · rw [(List.mem_replicate.mp h).2]; decide

theorem VM.example_vm_fetch (b0 b1 : Nat) (rest regs : List Nat) :
    (VM.example_vm (b0 :: b1 :: rest) regs).fetch_and_decode
      (VM.example_vm (b0 :: b1 :: rest) regs).state.pc = .ok ⟨(b0 <<< 8) ||| b1⟩ := by
  simp [VM.example_vm, VM.fetch_and_decode, State.memory_size, DEFAULT_MEMORY_SIZE,
    State.memory_at, ok_bind, ok_pure, CHAR_BIT]

theorem State.V_eq (s : State) (n : Nat) : s.V n = s.regs.getD n 0 := rfl

/-! ## The arithmetic instructions `8XYN` -/

/-- The machine after a step that wrote `flag` to the flag register and then `result` to
register `X`. -/
theorem VM.step_8_flag_result (vm : VM) (X Y N flag result : Nat)
    (hrun : vm.execution_state = .RUNNING)
    (hX : X < 16) (hY : Y < 16) (hN : N < 16)
    (hfetch : vm.fetch_and_decode vm.state.pc = .ok ⟨opcode 8 X Y N⟩)
    (hexec : ∀ st : VMCycleState, st.instruction.nibble 2 = .ok X →
      st.instruction.nibble 1 = .ok Y → st.instruction.nibble 0 = .ok N →
      vm.execute_prefix8_instruction st = .ok
        ({ vm with state := { vm.state with
            regs := (vm.state.regs.set 15 flag).set X result } }, st)) :
    ∃ vm1, vm.step = .ok vm1 ∧
      vm1.state.regs = (vm.state.regs.set 15 flag).set X result ∧
      vm1.state.pc = (vm.state.pc + 2) % 4096 ∧
      vm1.state.memory = vm.state.memory ∧ vm1.state.i = vm.state.i ∧
      vm1.state.callstack = vm.state.callstack ∧ vm1.state.timer = vm.state.timer ∧
      vm1.state.sound_timer = vm.state.sound_timer ∧
      vm1.execution_state = .RUNNING ∧ vm1.renderer = vm.renderer := by
  obtain ⟨h3, h2, h1, h0, -, -⟩ := decode_opcode 8 X Y N (by decide) hX hY hN
  have he := (VM.execute_instruction_8 vm (VMCycleState.mk_cycle vm.execution_state vm.state.pc
      (vm.state.pc + CHARS_PER_INSTRUCTION) ⟨opcode 8 X Y N⟩) h3).trans (hexec _ h2 h1 h0)
  refine ⟨_, (VM.step_of_running vm hrun).trans (VM.step_running_eq vm _ _ _ hfetch he), ?_⟩
  simp [VM.commit, VMCycleState.mk_cycle, CHARS_PER_INSTRUCTION, DEFAULT_MEMORY_SIZE, hrun]

theorem VM.execute_prefix8_add (vm : VM) (st : VMCycleState) (X Y : Nat)
    (hl : vm.state.regs.length = DEFAULT_REGISTER_SIZE) (hX : X < 16) (hY : Y < 16)
    (h2 : st.instruction.nibble 2 = .ok X) (h1 : st.instruction.nibble 1 = .ok Y)
    (h0 : st.instruction.nibble 0 = .ok 4) :
    vm.execute_prefix8_instruction st = .ok
      ({ vm with state := { vm.state with
          regs := (vm.state.regs.set 15
            (if vm.state.V X + vm.state.V Y > 255 then 1 else 0)).set X
              ((vm.state.V X + vm.state.V Y) % 256) } }, st) := by
  unfold VM.execute_prefix8_instruction
  simp only [h2, h1, h0, VM.call_ok, ok_bind, State.reg_eq _ _ hl hX, State.reg_eq _ _ hl hY]
  rw [VM.on_state_flag_ite _ _ _ _ hl, ok_bind,
    VM.on_state_reg_set _ _ _ (by simpa using hl) hX, ok_bind, ok_pure,
    to_regval_size_t_add]
  have hf : to_regval (if vm.state.V X + vm.state.V Y > MAX_REGISTER_VALUE then 1 else 0) =
      (if vm.state.V X + vm.state.V Y > 255 then 1 else 0) := by
    unfold MAX_REGISTER_VALUE
    split <;> rfl
  rw [hf]

/-- Claim C5 (8XY4).  For every machine in `RUNNING` mode that fetches `8XY4` with `X` other
than `0xF`, the step succeeds, `VX` becomes `(VX + VY) mod 256`, `VF` becomes 1 when
`VX + VY > 255` and 0 otherwise, and no register other than `VX` and `VF` changes. -/
theorem add_with_carry_8XY4 (vm : VM) (X Y : Nat) (hwf : vm.state.wf)
    (hrun : vm.execution_state = .RUNNING) (hX : X < 16) (hXF : X ≠ 0xF) (hY : Y < 16)
    (hfetch : vm.fetch_and_decode vm.state.pc = .ok ⟨opcode 8 X Y 4⟩) :
    ∃ vm1, vm.step = .ok vm1 ∧
      vm1.state.V X = (vm.state.V X + vm.state.V Y) % 256 ∧
      vm1.state.V 0xF = (if vm.state.V X + vm.state.V Y > 255 then 1 else 0) ∧
      ∀ n, n ≠ X → n ≠ 0xF → vm1.state.V n = vm.state.V n := by
  have hl := hwf.2.2.1
  obtain ⟨vm1, hstep, hregs, -⟩ := VM.step_8_flag_result vm X Y 4 _ _ hrun hX hY (by decide)
    hfetch (fun st h2 h1 h0 => VM.execute_prefix8_add vm st X Y hl hX hY h2 h1 h0)
  refine ⟨vm1, hstep, ?_, ?_, ?_⟩
  · rw [State.V_eq, hregs, V_set_set _ _ _ _ _ hl hX, if_pos rfl]
  · rw [State.V_eq, hregs, V_set_set _ _ _ _ _ hl hX, if_neg (fun h => hXF h.symm), if_pos rfl]
  · intro n hn hnF
    rw [State.V_eq, hregs, V_set_set _ _ _ _ _ hl hX, if_neg hn, if_neg hnF, ← State.V_eq]

theorem add_with_carry_8XY4_witness :
    ∃ vm1, VM.vm_8014.step = .ok vm1 ∧
      vm1.state.V 0 = (VM.vm_8014.state.V 0 + VM.vm_8014.state.V 1) % 256 ∧
      vm1.state.V 0xF = (if VM.vm_8014.state.V 0 + VM.vm_8014.state.V 1 > 255 then 1 else 0) ∧
      ∀ n, n ≠ 0 → n ≠ 0xF → vm1.state.V n = VM.vm_8014.state.V n :=
  add_with_carry_8XY4 VM.vm_8014 0 1
    (VM.example_vm_wf [0x80, 0x14] _ (by decide) (by decide) (by decide) (by decide)) rfl
    (by decide) (by decide) (by decide) (VM.example_vm_fetch 0x80 0x14 [] _)

theorem VM.execute_prefix8_sub (vm : VM) (st : VMCycleState) (X Y : Nat)
    (hw : vm.state.wf) (hX : X < 16) (hY : Y < 16)
    (h2 : st.instruction.nibble 2 = .ok X) (h1 : st.instruction.nibble 1 = .ok Y)
    (h0 : st.instruction.nibble 0 = .ok 5) :
    vm.execute_prefix8_instruction st = .ok
      ({ vm with state := { vm.state with
          regs := (vm.state.regs.set 15
            (if vm.state.V X < vm.state.V Y then 0 else 1)).set X
              ((vm.state.V X + 256 - vm.state.V Y) % 256) } }, st) := by
  have hl := hw.2.2.1
  unfold VM.execute_prefix8_instruction
  simp only [h2, h1, h0, VM.call_ok, ok_bind, State.reg_eq _ _ hl hX, State.reg_eq _ _ hl hY]
  rw [VM.on_state_flag_ite _ _ _ _ hl, ok_bind,
    VM.on_state_reg_set _ _ _ (by simpa using hl) hX, ok_bind, ok_pure,
    to_regval_size_t_sub _ _ (State.V_lt _ _ hw) (State.V_lt _ _ hw)]
  have hf : to_regval (if vm.state.V X < vm.state.V Y then 0 else 1) =
      (if vm.state.V X < vm.state.V Y then 0 else 1) := by
    split <;> rfl
  rw [hf]

theorem VM.execute_prefix8_rsub (vm : VM) (st : VMCycleState) (X Y : Nat)
    (hw : vm.state.wf) (hX : X < 16) (hY : Y < 16)
    (h2 : st.instruction.nibble 2 = .ok X) (h1 : st.instruction.nibble 1 = .ok Y)
    (h0 : st.instruction.nibble 0 = .ok 7) :
    vm.execute_prefix8_instruction st = .ok
      ({ vm with state := { vm.state with
          regs := (vm.state.regs.set 15
            (if vm.state.V Y < vm.state.V X then 1 else 0)).set X
              ((vm.state.V Y + 256 - vm.state.V X) % 256) } }, st) := by
  have hl := hw.2.2.1
  unfold VM.execute_prefix8_instruction
  simp only [h2, h1, h0, VM.call_ok, ok_bind, State.reg_eq _ _ hl hX, State.reg_eq _ _ hl hY]
  rw [VM.on_state_flag_ite _ _ _ _ hl, ok_bind,
    VM.on_state_reg_set _ _ _ (by simpa using hl) hX, ok_bind, ok_pure,
    to_regval_size_t_sub _ _ (State.V_lt _ _ hw) (State.V_lt _ _ hw)]
  have hf : to_regval (if vm.state.V Y < vm.state.V X then 1 else 0) =
      (if vm.state.V Y < vm.state.V X then 1 else 0) := by
    split <;> rfl
  rw [hf]

/-- What a step on `8XY7` does: the flag is 1 exactly when `VY < VX`. -/
theorem VM.step_8XY7 (vm : VM) (X Y : Nat) (hwf : vm.state.wf)
    (hrun : vm.execution_state = .RUNNING) (hX : X < 16) (hY : Y < 16)
    (hfetch : vm.fetch_and_decode vm.state.pc = .ok ⟨opcode 8 X Y 7⟩) :
    ∃ vm1, vm.step = .ok vm1 ∧
      vm1.state.regs = (vm.state.regs.set 15
            (if vm.state.V Y < vm.state.V X then 1 else 0)).set X
              ((vm.state.V Y + 256 - vm.state.V X) % 256) := by
  obtain ⟨vm1, hstep, hregs, -⟩ := VM.step_8_flag_result vm X Y 7 _ _ hrun hX hY (by decide)
    hfetch (fun st h2 h1 h0 => VM.execute_prefix8_rsub vm st X Y hwf hX hY h2 h1 h0)
  exact ⟨vm1, hstep, hregs⟩

/-- Claim C6 (8XY5).  For every machine in `RUNNING` mode that fetches `8XY5` with `X` other
than `0xF`, the step succeeds, `VX` becomes `(VX - VY) mod 256` and `VF` becomes 1 when
`VX ≥ VY` and 0 otherwise. -/
theorem sub_no_borrow_8XY5 (vm : VM) (X Y : Nat) (hwf : vm.state.wf)
    (hrun : vm.execution_state = .RUNNING) (hX : X < 16) (hXF : X ≠ 0xF) (hY : Y < 16)
    (hfetch : vm.fetch_and_decode vm.state.pc = .ok ⟨opcode 8 X Y 5⟩) :
    ∃ vm1, vm.step = .ok vm1 ∧
      (vm1.state.V X : Int) = ((vm.state.V X : Int) - (vm.state.V Y : Int)) % 256 ∧
      vm1.state.V 0xF = (if vm.state.V X ≥ vm.state.V Y then 1 else 0) := by
  have hl := hwf.2.2.1
  obtain ⟨vm1, hstep, hregs, -⟩ := VM.step_8_flag_result vm X Y 5 _ _ hrun hX hY (by decide)
    hfetch (fun st h2 h1 h0 => VM.execute_prefix8_sub vm st X Y hwf hX hY h2 h1 h0)
  have hx := State.V_lt _ X hwf
  have hy := State.V_lt _ Y hwf
  refine ⟨vm1, hstep, ?_, ?_⟩
  · rw [State.V_eq, hregs, V_set_set _ _ _ _ _ hl hX, if_pos rfl]
    omega
  · rw [State.V_eq, hregs, V_set_set _ _ _ _ _ hl hX, if_neg (fun h => hXF h.symm), if_pos rfl]
    by_cases h : vm.state.V X < vm.state.V Y
    · rw [if_pos h, if_neg (by omega)]
    · rw [if_neg h, if_pos (by omega)]

theorem sub_no_borrow_8XY5_witness :
    ∃ vm1, VM.vm_8015.step = .ok vm1 ∧
      (vm1.state.V 0 : Int) = ((VM.vm_8015.state.V 0 : Int) - (VM.vm_8015.state.V 1 : Int)) % 256 ∧
      vm1.state.V 0xF = (if VM.vm_8015.state.V 0 ≥ VM.vm_8015.state.V 1 then 1 else 0) :=
  sub_no_borrow_8XY5 VM.vm_8015 0 1
    (VM.example_vm_wf [0x80, 0x15] _ (by decide) (by decide) (by decide) (by decide)) rfl
    (by decide) (by decide) (by decide) (VM.example_vm_fetch 0x80 0x15 [] _)

/-- Claim C7 (8XY7), evaluated where the code departs from it: with `V0 = 0x20` and
`V1 = 0x80` (so `VY ≥ VX`, no borrow) the step on `8017` stores `V0 = 0x60` and leaves
`VF = 0`, where the claim asks for `VF = 1`. -/
theorem rsub_8XY7_flag_inverted :
    ∃ vm1, VM.vm_8017.step = .ok vm1 ∧ VM.vm_8017.state.V 1 ≥ VM.vm_8017.state.V 0 ∧
      vm1.state.V 0 = 0x60 ∧ vm1.state.V 0xF = 0 := by
  obtain ⟨vm1, hstep, hregs⟩ := VM.step_8XY7 VM.vm_8017 0 1
    (VM.example_vm_wf [0x80, 0x17] _ (by decide) (by decide) (by decide) (by decide)) rfl
    (by decide) (by decide) (VM.example_vm_fetch 0x80 0x17 [] _)
  refine ⟨vm1, hstep, by decide, ?_, ?_⟩
  · rw [State.V_eq, hregs]; decide
  · rw [State.V_eq, hregs]; decide

/-- Claim C8 (8XY7 as the test suite asserts it).  For every machine in `RUNNING` mode that
fetches `8XY7` with `X` and `Y` distinct and both other than `0xF`, the step succeeds and `VF`
is 1 exactly when `VY < VX` and 0 otherwise, while `VX` becomes `(VY - VX) mod 256`; in
particular `VX = 0x20, VY = 0x80` gives `VX = 0x60, VF = 0` and `VX = 0x80, VY = 0x20` gives
`VX = 0xA0, VF = 1`. -/
theorem rsub_8XY7_flag_as_tested (vm : VM) (X Y : Nat) (hwf : vm.state.wf)
    (hrun : vm.execution_state = .RUNNING) (hX : X < 16) (hY : Y < 16)
    (hXY : X ≠ Y) (hXF : X ≠ 0xF) (hYF : Y ≠ 0xF)
    (hfetch : vm.fetch_and_decode vm.state.pc = .ok ⟨opcode 8 X Y 7⟩) :
    ∃ vm1, vm.step = .ok vm1 ∧
      (vm1.state.V 0xF = 1 ↔ vm.state.V Y < vm.state.V X) ∧
      (vm1.state.V 0xF = 0 ↔ ¬ vm.state.V Y < vm.state.V X) ∧
      (vm1.state.V X : Int) = ((vm.state.V Y : Int) - (vm.state.V X : Int)) % 256 ∧
      vm1.state.V Y = vm.state.V Y ∧
      (vm.state.V X = 0x20 → vm.state.V Y = 0x80 →
        vm1.state.V X = 0x60 ∧ vm1.state.V 0xF = 0) ∧
      (vm.state.V X = 0x80 → vm.state.V Y = 0x20 →
        vm1.state.V X = 0xA0 ∧ vm1.state.V 0xF = 1) := by
  have hl := hwf.2.2.1
  obtain ⟨vm1, hstep, hregs⟩ := VM.step_8XY7 vm X Y hwf hrun hX hY hfetch
  have hx := State.V_lt _ X hwf
  have hy := State.V_lt _ Y hwf
  have hF : vm1.state.V 0xF = (if vm.state.V Y < vm.state.V X then 1 else 0) := by
    rw [State.V_eq, hregs, V_set_set _ _ _ _ _ hl hX, if_neg (fun h => hXF h.symm), if_pos rfl]
  have hVX : vm1.state.V X = (vm.state.V Y + 256 - vm.state.V X) % 256 := by
    rw [State.V_eq, hregs, V_set_set _ _ _ _ _ hl hX, if_pos rfl]
  have hVY : vm1.state.V Y = vm.state.V Y := by
    rw [State.V_eq, hregs, V_set_set _ _ _ _ _ hl hX, if_neg (fun h => hXY h.symm), if_neg hYF,
      ← State.V_eq]
  refine ⟨vm1, hstep, ?_, ?_, ?_, hVY, ?_, ?_⟩
  · rw [hF]; split <;> simp [*]
  · rw [hF]; split <;> simp [*]
  · rw [hVX]; omega
  · intro h1 h2; rw [hF, hVX, h1, h2]; decide
  · intro h1 h2; rw [hF, hVX, h1, h2]; decide

theorem rsub_8XY7_flag_as_tested_witness :
    ∃ vm1, VM.vm_8017.step = .ok vm1 ∧
      (vm1.state.V 0xF = 1 ↔ VM.vm_8017.state.V 1 < VM.vm_8017.state.V 0) ∧
      (vm1.state.V 0xF = 0 ↔ ¬ VM.vm_8017.state.V 1 < VM.vm_8017.state.V 0) ∧
      (vm1.state.V 0 : Int) =
        ((VM.vm_8017.state.V 1 : Int) - (VM.vm_8017.state.V 0 : Int)) % 256 ∧
      vm1.state.V 1 = VM.vm_8017.state.V 1 ∧
      (VM.vm_8017.state.V 0 = 0x20 → VM.vm_8017.state.V 1 = 0x80 →
        vm1.state.V 0 = 0x60 ∧ vm1.state.V 0xF = 0) ∧
      (VM.vm_8017.state.V 0 = 0x80 → VM.vm_8017.state.V 1 = 0x20 →
        vm1.state.V 0 = 0xA0 ∧ vm1.state.V 0xF = 1) :=
  rsub_8XY7_flag_as_tested VM.vm_8017 0 1
    (VM.example_vm_wf [0x80, 0x17] _ (by decide) (by decide) (by decide) (by decide)) rfl
    (by decide) (by decide) (by decide) (by decide) (by decide)
    (VM.example_vm_fetch 0x80 0x17 [] _)

/-! ## The shift instructions `8XY6` and `8XYE` -/

set_option maxRecDepth 100000 in
theorem msb_flag (x : Nat) (hx : x < 256) :
    (if x &&& 0x80 ≠ 0 then 1 else 0) = (x >>> 7) &&& 1 := by
  have h : ∀ y : Fin 256, (if y.val &&& 0x80 ≠ 0 then 1 else 0) = (y.val >>> 7) &&& 1 := by
    decide
  exact h ⟨x, hx⟩

theorem VM.execute_prefix8_shr (vm : VM) (st : VMCycleState) (X Y : Nat)
    (hw : vm.state.wf) (hX : X < 16) (hY : Y < 16) (hs : vm.state.V Y < 64)
    (h2 : st.instruction.nibble 2 = .ok X) (h1 : st.instruction.nibble 1 = .ok Y)
    (h0 : st.instruction.nibble 0 = .ok 6) :
    vm.execute_prefix8_instruction st = .ok
      ({ vm with state := { vm.state with
          regs := (vm.state.regs.set 15 (vm.state.V X &&& 1)).set X
              (vm.state.V X >>> vm.state.V Y) } }, st) := by
  have hl := hw.2.2.1
  have hx := State.V_lt _ X hw
  have hsh : size_t_shr (vm.state.V X) (vm.state.V Y) = .ok (vm.state.V X >>> vm.state.V Y) := by
    unfold size_t_shr SIZE_T_BITS; rw [if_pos hs]
  have hr : to_regval (vm.state.V X >>> vm.state.V Y) = vm.state.V X >>> vm.state.V Y :=
    to_regval_of_lt _ (Nat.lt_of_le_of_lt
      (by rw [Nat.shiftRight_eq_div_pow]; exact Nat.div_le_self _ _) hx)
  have hf : to_regval (vm.state.V X &&& 1) = vm.state.V X &&& 1 := by
    apply to_regval_of_lt; rw [Nat.and_one_is_mod]; omega
  unfold VM.execute_prefix8_instruction
  simp only [h2, h1, h0, VM.call_ok, ok_bind, State.reg_eq _ _ hl hX, State.reg_eq _ _ hl hY]
  rw [VM.on_state_flag_register_set _ _ hl, ok_bind, hsh, VM.call_ok, ok_bind,
    VM.on_state_reg_set _ _ _ (by simpa using hl) hX, ok_bind, ok_pure, hr, hf]

theorem VM.execute_prefix8_shl (vm : VM) (st : VMCycleState) (X Y : Nat)
    (hw : vm.state.wf) (hX : X < 16) (hY : Y < 16) (hs : vm.state.V Y < 64)
    (h2 : st.instruction.nibble 2 = .ok X) (h1 : st.instruction.nibble 1 = .ok Y)
    (h0 : st.instruction.nibble 0 = .ok 0xE) :
    vm.execute_prefix8_instruction st = .ok
      ({ vm with state := { vm.state with
          regs := (vm.state.regs.set 15 ((vm.state.V X >>> 7) &&& 1)).set X
              ((vm.state.V X <<< vm.state.V Y) % 256) } }, st) := by
  have hl := hw.2.2.1
  have hx := State.V_lt _ X hw
  have hsh : size_t_shl (vm.state.V X) (vm.state.V Y) =
      .ok ((vm.state.V X <<< vm.state.V Y) % 2 ^ 64) := by
    unfold size_t_shl SIZE_T_BITS; rw [if_pos hs]
  have hr : to_regval ((vm.state.V X <<< vm.state.V Y) % 2 ^ 64) =
      (vm.state.V X <<< vm.state.V Y) % 256 := by
    unfold to_regval; omega
  have hf : to_regval (if vm.state.V X &&& 0x80 ≠ 0 then 1 else 0) =
      (vm.state.V X >>> 7) &&& 1 := by
    rw [← msb_flag _ hx]; split <;> rfl
  unfold VM.execute_prefix8_instruction
  simp only [h2, h1, h0, VM.call_ok, ok_bind, State.reg_eq _ _ hl hX, State.reg_eq _ _ hl hY]
  rw [VM.on_state_flag_ite _ _ _ _ hl, ok_bind, hsh, VM.call_ok, ok_bind,
    VM.on_state_reg_set _ _ _ (by simpa using hl) hX, ok_bind, ok_pure, hr, hf]

/-- A shift count of 64 or more: the flag is written and the shift expression has no defined
value. -/
theorem VM.execute_prefix8_shl_undefined (vm : VM) (st : VMCycleState) (X Y : Nat)
    (hw : vm.state.wf) (hX : X < 16) (hY : Y < 16) (hs : 64 ≤ vm.state.V Y)
    (h2 : st.instruction.nibble 2 = .ok X) (h1 : st.instruction.nibble 1 = .ok Y)
    (h0 : st.instruction.nibble 0 = .ok 0xE) :
    vm.execute_prefix8_instruction st = .error (.undefined_behaviour,
      { vm with state := { vm.state with
          regs := vm.state.regs.set 15 ((vm.state.V X >>> 7) &&& 1) } }) := by
  have hl := hw.2.2.1
  have hx := State.V_lt _ X hw
  have hsh : size_t_shl (vm.state.V X) (vm.state.V Y) = .error .undefined_behaviour := by
    unfold size_t_shl SIZE_T_BITS; rw [if_neg (by omega)]
  have hf : to_regval (if vm.state.V X &&& 0x80 ≠ 0 then 1 else 0) =
      (vm.state.V X >>> 7) &&& 1 := by
    rw [← msb_flag _ hx]; split <;> rfl
  unfold VM.execute_prefix8_instruction
  simp only [h2, h1, h0, VM.call_ok, ok_bind, State.reg_eq _ _ hl hX, State.reg_eq _ _ hl hY]
  rw [VM.on_state_flag_ite _ _ _ _ hl, ok_bind, hsh, VM.call_error, error_bind, hf]

theorem VM.execute_prefix8_shr_undefined (vm : VM) (st : VMCycleState) (X Y : Nat)
    (hw : vm.state.wf) (hX : X < 16) (hY : Y < 16) (hs : 64 ≤ vm.state.V Y)
    (h2 : st.instruction.nibble 2 = .ok X) (h1 : st.instruction.nibble 1 = .ok Y)
    (h0 : st.instruction.nibble 0 = .ok 6) :
    vm.execute_prefix8_instruction st = .error (.undefined_behaviour,
      { vm with state := { vm.state with
          regs := vm.state.regs.set 15 (vm.state.V X &&& 1) } }) := by
  have hl := hw.2.2.1
  have hx := State.V_lt _ X hw
  have hsh : size_t_shr (vm.state.V X) (vm.state.V Y) = .error .undefined_behaviour := by
    unfold size_t_shr SIZE_T_BITS; rw [if_neg (by omega)]
  have hf : to_regval (vm.state.V X &&& 1) = vm.state.V X &&& 1 := by
    apply to_regval_of_lt; rw [Nat.and_one_is_mod]; omega
  unfold VM.execute_prefix8_instruction
  simp only [h2, h1, h0, VM.call_ok, ok_bind, State.reg_eq _ _ hl hX, State.reg_eq _ _ hl hY]
  rw [VM.on_state_flag_register_set _ _ hl, ok_bind, hsh, VM.call_error, error_bind, hf]

/-- The fault of a step whose `8XYN` instruction faults. -/
theorem VM.step_8_fault (vm vm1 : VM) (X Y N : Nat) (f : Fault)
    (hrun : vm.execution_state = .RUNNING)
    (hX : X < 16) (hY : Y < 16) (hN : N < 16)
    (hfetch : vm.fetch_and_decode vm.state.pc = .ok ⟨opcode 8 X Y N⟩)
    (hexec : ∀ st : VMCycleState, st.instruction.nibble 2 = .ok X →
      st.instruction.nibble 1 = .ok Y → st.instruction.nibble 0 = .ok N →
      vm.execute_prefix8_instruction st = .error (f, vm1)) :
    vm.step = .error (f, vm1) := by
  obtain ⟨h3, h2, h1, h0, -, -⟩ := decode_opcode 8 X Y N (by decide) hX hY hN
  have he := (VM.execute_instruction_8 vm (VMCycleState.mk_cycle vm.execution_state vm.state.pc
      (vm.state.pc + CHARS_PER_INSTRUCTION) ⟨opcode 8 X Y N⟩) h3).trans (hexec _ h2 h1 h0)
  exact (VM.step_of_running vm hrun).trans (VM.step_running_fault vm _ _ _ hfetch he)

/-- What a step on `8XY6` does when the shift count `VY` is below the width of `size_t`. -/
theorem VM.step_8XY6 (vm : VM) (X Y : Nat) (hwf : vm.state.wf)
    (hrun : vm.execution_state = .RUNNING) (hX : X < 16) (hY : Y < 16)
    (hs : vm.state.V Y < 64)
    (hfetch : vm.fetch_and_decode vm.state.pc = .ok ⟨opcode 8 X Y 6⟩) :
    ∃ vm1, vm.step = .ok vm1 ∧
      vm1.state.regs = (vm.state.regs.set 15 (vm.state.V X &&& 1)).set X
              (vm.state.V X >>> vm.state.V Y) := by
  obtain ⟨vm1, hstep, hregs, -⟩ := VM.step_8_flag_result vm X Y 6 _ _ hrun hX hY (by decide)
    hfetch (fun st h2 h1 h0 => VM.execute_prefix8_shr vm st X Y hwf hX hY hs h2 h1 h0)
  exact ⟨vm1, hstep, hregs⟩

/-- What a step on `8XYE` does when the shift count `VY` is below the width of `size_t`: the
flag is bit 7 of `VX` and `VX` becomes `(VX << VY) mod 256`. -/
theorem VM.step_8XYE (vm : VM) (X Y : Nat) (hwf : vm.state.wf)
    (hrun : vm.execution_state = .RUNNING) (hX : X < 16) (hY : Y < 16)
    (hs : vm.state.V Y < 64)
    (hfetch : vm.fetch_and_decode vm.state.pc = .ok ⟨opcode 8 X Y 0xE⟩) :
    ∃ vm1, vm.step = .ok vm1 ∧
      vm1.state.regs = (vm.state.regs.set 15 ((vm.state.V X >>> 7) &&& 1)).set X
              ((vm.state.V X <<< vm.state.V Y) % 256) := by
  obtain ⟨vm1, hstep, hregs, -⟩ := VM.step_8_flag_result vm X Y 0xE _ _ hrun hX hY (by decide)
    hfetch (fun st h2 h1 h0 => VM.execute_prefix8_shl vm st X Y hwf hX hY hs h2 h1 h0)
  exact ⟨vm1, hstep, hregs⟩

/-- Claim C9 (8XY6) fails as stated: `VY` is not always kept when `Y ≠ X`.  With `X = 0`,
`Y = 0xF`, `V0 = 1` and `VF = 0`, the step on `80F6` succeeds and `VY = VF` changes from 0
to 1. -/
theorem shr_8XY6_overwrites_VY_when_Y_is_flag :
    VM.vm_80F6.state.wf ∧ VM.vm_80F6.execution_state = .RUNNING ∧
    VM.vm_80F6.fetch_and_decode VM.vm_80F6.state.pc = .ok ⟨opcode 8 0 0xF 6⟩ ∧
    (0xF : Nat) ≠ 0 ∧ VM.vm_80F6.state.V 0xF = 0 ∧
    ∃ vm1, VM.vm_80F6.step = .ok vm1 ∧ vm1.state.V 0xF = 1 ∧
      vm1.state.V 0xF ≠ VM.vm_80F6.state.V 0xF := by
  have hwf : VM.vm_80F6.state.wf :=
    VM.example_vm_wf [0x80, 0xF6] _ (by decide) (by decide) (by decide) (by decide)
  have hfetch := VM.example_vm_fetch 0x80 0xF6 [] [1, 0, 0, 0, 0, 0, 0, 0, 0, 0, 0, 0, 0, 0, 0, 0]
  obtain ⟨vm1, hstep, hregs⟩ := VM.step_8XY6 VM.vm_80F6 0 0xF hwf rfl (by decide) (by decide)
    (by decide) hfetch
  refine ⟨hwf, rfl, hfetch, by decide, by decide, vm1, hstep, ?_, ?_⟩
  · rw [State.V_eq, hregs]; decide
  · rw [State.V_eq, hregs]; decide

/-- Claim C9 (8XY6), amended.  For every machine in `RUNNING` mode that fetches `8XY6` with
`X` other than `0xF` and a shift count `VY` below 64, the step succeeds, `VF` becomes
`VX AND 1`, `VX` becomes `VX` shifted right by `VY` positions (0 when `VY ≥ 8`), and `VY` is
unchanged when `Y` is neither `X` nor `0xF`. -/
theorem shr_8XY6 (vm : VM) (X Y : Nat) (hwf : vm.state.wf)
    (hrun : vm.execution_state = .RUNNING) (hX : X < 16) (hXF : X ≠ 0xF) (hY : Y < 16)
    (hs : vm.state.V Y < 64)
    (hfetch : vm.fetch_and_decode vm.state.pc = .ok ⟨opcode 8 X Y 6⟩) :
    ∃ vm1, vm.step = .ok vm1 ∧
      vm1.state.V 0xF = vm.state.V X &&& 1 ∧
      vm1.state.V X = vm.state.V X >>> vm.state.V Y ∧
      (8 ≤ vm.state.V Y → vm1.state.V X = 0) ∧
      (Y ≠ X → Y ≠ 0xF → vm1.state.V Y = vm.state.V Y) := by
  have hl := hwf.2.2.1
  obtain ⟨vm1, hstep, hregs⟩ := VM.step_8XY6 vm X Y hwf hrun hX hY hs hfetch
  have hx := State.V_lt _ X hwf
  have hVX : vm1.state.V X = vm.state.V X >>> vm.state.V Y := by
    rw [State.V_eq, hregs, V_set_set _ _ _ _ _ hl hX, if_pos rfl]
  refine ⟨vm1, hstep, ?_, hVX, ?_, ?_⟩
  · rw [State.V_eq, hregs, V_set_set _ _ _ _ _ hl hX, if_neg (fun h => hXF h.symm), if_pos rfl]
  · intro h8
    rw [hVX, Nat.shiftRight_eq_div_pow]
    apply Nat.div_eq_of_lt
    calc vm.state.V X < 2 ^ 8 := hx
      _ ≤ 2 ^ vm.state.V Y := Nat.pow_le_pow_right (by decide) h8
  · intro hYX hYF
    rw [State.V_eq, hregs, V_set_set _ _ _ _ _ hl hX, if_neg hYX, if_neg hYF, ← State.V_eq]

theorem shr_8XY6_witness :
    ∃ vm1, VM.vm_8016.step = .ok vm1 ∧
      vm1.state.V 0xF = VM.vm_8016.state.V 0 &&& 1 ∧
      vm1.state.V 0 = VM.vm_8016.state.V 0 >>> VM.vm_8016.state.V 1 ∧
      (8 ≤ VM.vm_8016.state.V 1 → vm1.state.V 0 = 0) ∧
      ((1 : Nat) ≠ 0 → (1 : Nat) ≠ 0xF → vm1.state.V 1 = VM.vm_8016.state.V 1) :=
  shr_8XY6 VM.vm_8016 0 1
    (VM.example_vm_wf [0x80, 0x16] _ (by decide) (by decide) (by decide) (by decide)) rfl
    (by decide) (by decide) (by decide) (by decide) (VM.example_vm_fetch 0x80 0x16 [] _)

/-- Claim C10 (8XYE), evaluated where the code departs from it: with `V0 = 1` and `V1 = 64`
the step on `801E` writes the flag and then evaluates a left shift of a 64-bit `size_t` by 64
positions, which has no defined result, where the claim asks for `V0 = (1 << 64) mod 256 = 0`.
The machine is left with the flag written and `V0` still 1. -/
theorem shl_8XYE_shift_count_not_below_width :
    VM.vm_801E.state.V 1 = 64 ∧ (VM.vm_801E.state.V 0 <<< VM.vm_801E.state.V 1) % 256 = 0 ∧
    ∃ vm1, VM.vm_801E.step = .error (.undefined_behaviour, vm1) ∧
      vm1.state.V 0 = 1 ∧ vm1.state.V 0xF = 0 := by
  have hwf : VM.vm_801E.state.wf :=
    VM.example_vm_wf [0x80, 0x1E] _ (by decide) (by decide) (by decide) (by decide)
  have hfetch := VM.example_vm_fetch 0x80 0x1E [] [1, 64, 0, 0, 0, 0, 0, 0, 0, 0, 0, 0, 0, 0, 0, 0]
  have hstep := VM.step_8_fault VM.vm_801E _ 0 1 0xE _ rfl (by decide) (by decide) (by decide)
    hfetch (fun st h2 h1 h0 => VM.execute_prefix8_shl_undefined VM.vm_801E st 0 1 hwf
      (by decide) (by decide) (by decide) h2 h1 h0)
  exact ⟨by decide, by decide, _, hstep, by decide, by decide⟩

/-! ## Key wait (`FX0A`) -/

theorem VM.fetch_eq (vm : VM) (p hi lo : Nat) (hp : p + 1 < 4096)
    (h0 : vm.state.memory[p]? = some hi) (h1 : vm.state.memory[p + 1]? = some lo) :
    vm.fetch_and_decode p = .ok ⟨(hi <<< 8) ||| lo⟩ := by
  have hm : DEFAULT_MEMORY_SIZE = 4096 := rfl
  unfold VM.fetch_and_decode State.memory_size
  rw [if_neg (by omega)]
  unfold State.memory_at
  simp only [h0, h1, ok_bind, ok_pure, CHAR_BIT]

theorem VM.execute_prefixF_wait (vm : VM) (st : VMCycleState) (X : Nat) (hX : X < 16)
    (h2 : st.instruction.nibble 2 = .ok X) (hb : st.instruction.lower_byte = 0x0A) :
    vm.execute_prefixF_instruction st = .ok
      (vm, { st with key_target_register := X, execution_state := .WAIT_FOR_KEY }) := by
  have hx : to_regval X = X := to_regval_of_lt X (by omega)
  have hs : to_regval 0x0A = 0x0A := rfl
  unfold VM.execute_prefixF_instruction
  simp only [h2, hb, VM.call_ok, ok_bind, hx, hs, ok_pure]

/-- What a step on `FX0A` does: the machine parks and the program counter moves on to the
next instruction. -/
theorem VM.step_FX0A (vm : VM) (X : Nat) (hrun : vm.execution_state = .RUNNING) (hX : X < 16)
    (hfetch : vm.fetch_and_decode vm.state.pc = .ok ⟨opcode 0xF X 0 0xA⟩) :
    vm.step = .ok
      { vm with
        state := { vm.state with pc := (vm.state.pc + 2) % 4096 }
        last_state := .RUNNING
        execution_state := .WAIT_FOR_KEY
        key_target_register := X } := by
  obtain ⟨h3, h2, -, -, hb, -⟩ := decode_opcode 0xF X 0 0xA (by decide) hX (by decide) (by decide)
  have he := (VM.execute_instruction_F vm (VMCycleState.mk_cycle vm.execution_state vm.state.pc
      (vm.state.pc + CHARS_PER_INSTRUCTION) ⟨opcode 0xF X 0 0xA⟩) h3).trans
      (VM.execute_prefixF_wait vm _ X hX h2 hb)
  rw [VM.step_of_running vm hrun, VM.step_running_eq vm _ _ _ hfetch he]
  simp [VM.commit, VMCycleState.mk_cycle, CHARS_PER_INSTRUCTION, DEFAULT_MEMORY_SIZE, hrun]

theorem VM.execute_prefix0_nop (vm : VM) (st : VMCycleState)
    (ht : st.instruction.lower_triplet = 0) :
    vm.execute_prefix0_instruction st = .ok (vm, st) := by
  unfold VM.execute_prefix0_instruction
  simp only [ht]

/-- What a step on `0000` does in `RUNNING` mode: only the program counter moves. -/
theorem VM.step_running_nop (vm : VM)
    (hfetch : vm.fetch_and_decode vm.state.pc = .ok ⟨opcode 0 0 0 0⟩) :
    vm.step_running = .ok
      { vm with
        state := { vm.state with pc := (vm.state.pc + 2) % 4096 }
        last_state := vm.execution_state
        key_target_register :=
          if vm.execution_state = .WAIT_FOR_KEY then 0 else vm.key_target_register } := by
  obtain ⟨h3, -, -, -, -, ht⟩ := decode_opcode 0 0 0 0 (by decide) (by decide) (by decide)
    (by decide)
  have he := (VM.execute_instruction_0 vm (VMCycleState.mk_cycle vm.execution_state vm.state.pc
      (vm.state.pc + CHARS_PER_INSTRUCTION) ⟨opcode 0 0 0 0⟩) h3).trans
      (VM.execute_prefix0_nop vm _ ht)
  rw [VM.step_running_eq vm _ _ _ hfetch he]
  simp [VM.commit, VMCycleState.mk_cycle, CHARS_PER_INSTRUCTION, DEFAULT_MEMORY_SIZE]

/-- A step in `WAIT_FOR_KEY` mode with no key pressed only records the mode in
`_last_state`. -/
theorem VM.step_parked (vm : VM) (hwait : vm.execution_state = .WAIT_FOR_KEY)
    (hk : vm.key_value < 0) :
    vm.step = .ok { vm with last_state := .WAIT_FOR_KEY } := by
  have hkp : ¬ vm.key_value ≥ 0 := by omega
  unfold VM.step
  simp [hwait, VM.key_pressed, hkp]

/-- A step in `WAIT_FOR_KEY` mode with key `k` pressed, when the instruction at the program
counter is `0000`: the key goes to the target register and that instruction is run. -/
theorem VM.step_wake_nop (vm : VM) (k : Nat) (hwait : vm.execution_state = .WAIT_FOR_KEY)
    (hk : vm.key_value = (k : Int)) (hk16 : k < 16)
    (hl : vm.state.regs.length = DEFAULT_REGISTER_SIZE) (ht : vm.key_target_register < 16)
    (hfetch : vm.fetch_and_decode vm.state.pc = .ok ⟨opcode 0 0 0 0⟩) :
    vm.step = .ok
      { vm with
        state := { vm.state with
          regs := vm.state.regs.set vm.key_target_register k
          pc := (vm.state.pc + 2) % 4096 }
        last_state := .RUNNING
        execution_state := .RUNNING } := by
  have hkp : vm.key_value ≥ 0 := by omega
  have hkv : to_regval (int_to_regval vm.key_value) = k := by
    unfold to_regval int_to_regval; rw [hk]; omega
  unfold VM.step
  simp only [hwait, VM.key_pressed, hkp, decide_True, if_true]
  have h1 := VM.on_state_reg_set
    { vm with last_state := .WAIT_FOR_KEY, execution_state := .RUNNING }
    vm.key_target_register (int_to_regval vm.key_value) hl ht
  rw [h1, ok_bind, hkv]
  refine (VM.step_running_nop _ ?_).trans ?_
  · exact hfetch
  · simp

/-- The whole key wait: a step on `FX0A`, a key press, and the step that wakes the machine up
and runs the `0000` that follows. -/
theorem VM.key_wait_run (vm : VM) (X k : Nat) (hrun : vm.execution_state = .RUNNING)
    (hX : X < 16) (hk : k < 16) (hl : vm.state.regs.length = DEFAULT_REGISTER_SIZE)
    (hfetch : vm.fetch_and_decode vm.state.pc = .ok ⟨opcode 0xF X 0 0xA⟩)
    (hnext : vm.fetch_and_decode ((vm.state.pc + 2) % 4096) = .ok ⟨opcode 0 0 0 0⟩) :
    ∃ vm1 vm2 vm3, vm.step = .ok vm1 ∧ vm1.execution_state = .WAIT_FOR_KEY ∧
      vm1.state.pc = (vm.state.pc + 2) % 4096 ∧
      vm1.keydown (k : Int) = .ok vm2 ∧ vm2.step = .ok vm3 ∧
      vm3.execution_state = .RUNNING ∧ vm3.state.regs = vm.state.regs.set X k ∧
      vm3.state.pc = ((vm.state.pc + 2) % 4096 + 2) % 4096 := by
  have hkd : ∀ v : VM, v.keydown (k : Int) = .ok { v with key_value := (k : Int) } := by
    intro v
    unfold VM.keydown
    rw [if_neg (fun hc => hc.2 ⟨by omega, by omega⟩)]
  have h3 := VM.step_wake_nop
    { vm with
      state := { vm.state with pc := (vm.state.pc + 2) % 4096 }
      last_state := .RUNNING
      execution_state := .WAIT_FOR_KEY
      key_target_register := X
      key_value := (k : Int) } k rfl rfl hk hl hX hnext
  refine ⟨_, _, _, VM.step_FX0A vm X hrun hX hfetch, ?_, ?_, hkd _, h3, ?_, ?_, ?_⟩ <;> rfl

/-- Claim C1 fails as stated: the program counter is not kept.  The machine at `PC = 0` that
fetches `F00A` parks with `PC = 2`. -/
theorem park_FX0A_moves_pc :
    VM.vm_F00A.execution_state = .RUNNING ∧ VM.vm_F00A.state.pc = 0 ∧
    VM.vm_F00A.fetch_and_decode VM.vm_F00A.state.pc = .ok ⟨opcode 0xF 0 0 0xA⟩ ∧
    ∃ vm1, VM.vm_F00A.step = .ok vm1 ∧ vm1.execution_state = .WAIT_FOR_KEY ∧
      vm1.state.pc = 2 ∧ vm1.state.pc ≠ VM.vm_F00A.state.pc := by
  have hfetch := VM.example_vm_fetch 0xF0 0x0A [] [0, 0, 0, 0, 0, 0, 0, 0, 0, 0, 0, 0, 0, 0, 0, 0]
  refine ⟨rfl, rfl, hfetch, _, VM.step_FX0A VM.vm_F00A 0 rfl (by decide) hfetch, rfl, rfl, ?_⟩
  decide

/-- Claim C1, amended.  For every machine in `RUNNING` mode whose instruction fetched at
`PC = p` is `FX0A`, the step succeeds, the execution mode becomes `WAIT_FOR_KEY`, the recorded
key-target register is `X`, and the program counter is `(p + 2) mod 4096`. -/
theorem park_FX0A (vm : VM) (X : Nat) (hrun : vm.execution_state = .RUNNING) (hX : X < 16)
    (hfetch : vm.fetch_and_decode vm.state.pc = .ok ⟨opcode 0xF X 0 0xA⟩) :
    ∃ vm1, vm.step = .ok vm1 ∧ vm1.execution_state = .WAIT_FOR_KEY ∧
      vm1.key_target_register = X ∧ vm1.state.pc = (vm.state.pc + 2) % 4096 :=
  ⟨_, VM.step_FX0A vm X hrun hX hfetch, rfl, rfl, rfl⟩

theorem park_FX0A_witness :
    ∃ vm1, VM.vm_F00A.step = .ok vm1 ∧ vm1.execution_state = .WAIT_FOR_KEY ∧
      vm1.key_target_register = 0 ∧ vm1.state.pc = (VM.vm_F00A.state.pc + 2) % 4096 :=
  park_FX0A VM.vm_F00A 0 rfl (by decide) (VM.example_vm_fetch 0xF0 0x0A [] _)

/-- Claim C4.  For every machine in `WAIT_FOR_KEY` mode with no key pressed, any number `n` of
successive steps succeeds and leaves memory, registers, program counter, index register, call
stack, both timers (the whole `State`), the framebuffer and the execution mode unchanged; so
are the key state, the key-target register and the random generator. -/
theorem parked_steps_change_nothing (n : Nat) (vm : VM)
    (hwait : vm.execution_state = .WAIT_FOR_KEY) (hk : vm.key_value < 0) :
    ∃ vm1, VM.steps n vm = .ok vm1 ∧ vm1.state = vm.state ∧ vm1.renderer = vm.renderer ∧
      vm1.execution_state = .WAIT_FOR_KEY ∧ vm1.key_value = vm.key_value ∧
      vm1.key_target_register = vm.key_target_register ∧ vm1.generator = vm.generator := by
  induction n generalizing vm with
  | zero => exact ⟨vm, rfl, rfl, rfl, hwait, rfl, rfl, rfl⟩
  | succ m ih =>
    obtain ⟨vm1, hsteps, h1, h2, h3, h4, h5, h6⟩ :=
      ih { vm with last_state := .WAIT_FOR_KEY } hwait hk
    refine ⟨vm1, ?_, h1, h2, h3, h4, h5, h6⟩
    unfold VM.steps
    rw [VM.step_parked vm hwait hk, ok_bind]
    exact hsteps

theorem parked_steps_change_nothing_witness :
    ∃ vm1, VM.steps 256 VM.vm_parked = .ok vm1 ∧ vm1.state = VM.vm_parked.state ∧
      vm1.renderer = VM.vm_parked.renderer ∧
      vm1.execution_state = .WAIT_FOR_KEY ∧ vm1.key_value = VM.vm_parked.key_value ∧
      vm1.key_target_register = VM.vm_parked.key_target_register ∧
      vm1.generator = VM.vm_parked.generator :=
  parked_steps_change_nothing 256 VM.vm_parked rfl (by decide)

theorem size_t_add_of_lt (a b : Nat) (h : a + b < 2 ^ 64) : size_t_add a b = a + b := by
  unfold size_t_add SIZE_T_BITS
  exact Nat.mod_eq_of_lt h

theorem State.reset_eq (s : State) (hfont : s.font_offset + 80 ≤ 4096) :
    s.reset = .ok { s.reset_fields with
      memory := State.copy_at (List.replicate 4096 0) s.font_offset DEFAULT_FONT_DATA } := by
  have hlen : DEFAULT_FONT_DATA.length = 80 := rfl
  unfold State.reset State.memory_init
  have hm : s.reset_fields.memory.length = 4096 := by
    show (State.init_zero s.memory_size).length = 4096
    unfold State.init_zero State.memory_size DEFAULT_MEMORY_SIZE
    rw [List.length_replicate]
  have hf : s.reset_fields.font_offset = s.font_offset := rfl
  have hsum : size_t_add s.font_offset 80 = s.font_offset + 80 :=
    size_t_add_of_lt _ _ (by omega)
  rw [hm, hf, hlen, hsum, if_neg (by omega), if_pos hfont]
  rfl

/-- The fault of `reset` on a state whose font table does not fit, when the `size_t` sum of
the guard has not wrapped: the fields have been cleared by then. -/
theorem State.reset_fault (s : State) (hf : 4096 < s.font_offset + 80)
    (hlt : s.font_offset + 80 < 2 ^ 64) :
    s.reset = .error (.runtime_error, s.reset_fields) := by
  have hlen : DEFAULT_FONT_DATA.length = 80 := rfl
  unfold State.reset State.memory_init
  have hm : s.reset_fields.memory.length = 4096 := by
    show (State.init_zero s.memory_size).length = 4096
    unfold State.init_zero State.memory_size DEFAULT_MEMORY_SIZE
    rw [List.length_replicate]
  have hfo : s.reset_fields.font_offset = s.font_offset := rfl
  rw [hm, hfo, hlen, size_t_add_of_lt _ _ hlt, if_pos (by omega)]

/-- What `reset` does on a state whose font offset makes the `size_t` sum of the guard wrap
(`2^64 - 80 ≤ font_offset < 2^64`): the guard passes, nothing is thrown, and `std::copy`
writes outside the vector. -/
theorem State.reset_wrapped (s : State) (hf : 2 ^ 64 ≤ s.font_offset + 80)
    (hlt : s.font_offset < 2 ^ 64) :
    s.reset = .error (.undefined_behaviour, s.reset_fields) := by
  have hlen : DEFAULT_FONT_DATA.length = 80 := rfl
  unfold State.reset State.memory_init
  have hm : s.reset_fields.memory.length = 4096 := by
    show (State.init_zero s.memory_size).length = 4096
    unfold State.init_zero State.memory_size DEFAULT_MEMORY_SIZE
    rw [List.length_replicate]
  have hfo : s.reset_fields.font_offset = s.font_offset := rfl
  have hsum : size_t_add s.font_offset 80 = s.font_offset + 80 - 2 ^ 64 := by
    unfold size_t_add SIZE_T_BITS
    omega
  rw [hm, hfo, hlen, hsum, if_neg (by omega), if_neg (by omega)]

/-- A `reset` that returns was run on a state whose font table fits. -/
theorem State.reset_ok_fits (s s1 : State) (h : s.reset = .ok s1) :
    s.font_offset + 80 ≤ 4096 := by
  have hlen : DEFAULT_FONT_DATA.length = 80 := rfl
  have hm : s.reset_fields.memory.length = 4096 := by
    show (State.init_zero s.memory_size).length = 4096
    unfold State.init_zero State.memory_size DEFAULT_MEMORY_SIZE
    rw [List.length_replicate]
  have hfo : s.reset_fields.font_offset = s.font_offset := rfl
  by_contra hno
  have herr : ∃ e, s.reset_fields.memory_init = .error e := by
    unfold State.memory_init
    rw [hm, hfo, hlen]
    by_cases hg : size_t_add s.font_offset 80 > 4096
    · rw [if_pos hg]; exact ⟨_, rfl⟩
    · rw [if_neg hg, if_neg hno]; exact ⟨_, rfl⟩
  obtain ⟨e, he⟩ := herr
  unfold State.reset at h
  rw [he] at h
  cases h

theorem VM.vm_reset_eq (vm : VM) (hfont : vm.state.font_offset + 80 ≤ 4096) :
    vm.reset = .ok { vm with
      state := { vm.state.reset_fields with
        memory := State.copy_at (List.replicate 4096 0) vm.state.font_offset DEFAULT_FONT_DATA }
      execution_state := .RUNNING
      last_state := .INIT
      key_target_register := 0
      key_value := -1 } := by
  unfold VM.reset
  rw [State.reset_eq _ hfont]

theorem State.copy_at_length (l data : List Nat) (off : Nat)
    (h : off + data.length ≤ l.length) : (State.copy_at l off data).length = l.length := by
  unfold State.copy_at
  rw [List.length_append, List.length_append, List.length_take, List.length_drop]
  omega

theorem State.copy_at_before (l data : List Nat) (off j : Nat) (hj : j < off)
    (h : off ≤ l.length) : (State.copy_at l off data)[j]? = l[j]? := by
  unfold State.copy_at
  rw [List.append_assoc, List.getElem?_append_left (by rw [List.length_take]; omega),
    List.getElem?_take_of_lt hj]

theorem State.memory_set_eq (s : State) (index value : Nat)
    (hl : s.memory.length = DEFAULT_MEMORY_SIZE) (h : index < 4096) :
    s.memory_set index value =
      .ok { s with memory := s.memory.set index (to_regval value) } := by
  have hm : DEFAULT_MEMORY_SIZE = 4096 := rfl
  unfold State.memory_set State.memory_size
  rw [if_neg (by omega), if_pos (by omega)]

theorem VM.on_state_memory_set (vm : VM) (index value : Nat)
    (hl : vm.state.memory.length = DEFAULT_MEMORY_SIZE) (h : index < 4096) :
    vm.on_state (fun s => s.memory_set index value) =
      .ok { vm with state := { vm.state with
        memory := vm.state.memory.set index (to_regval value) } } :=
  VM.on_state_ok vm _ _ (State.memory_set_eq vm.state index value hl h)

theorem VM.on_state_program_counter_set (vm : VM) (value : Nat) (h : value ≤ 4096) :
    vm.on_state (fun s => s.program_counter_set value) =
      .ok { vm with state := { vm.state with pc := value } } := by
  have hm : DEFAULT_MEMORY_SIZE = 4096 := rfl
  apply VM.on_state_ok
  unfold State.program_counter_set State.memory_size
  rw [if_neg (by omega)]

theorem key_wait_opcode (X : Nat) (hX : X < 16) :
    (to_regval (0xF0 ||| X) <<< 8) ||| to_regval 0x0A = opcode 0xF X 0 0xA := by
  have h : ∀ Y : Fin 16,
      (to_regval (0xF0 ||| Y.val) <<< 8) ||| to_regval 0x0A = opcode 0xF Y.val 0 0xA := by
    decide
  exact h ⟨X, hX⟩

theorem VM.key_wait_setup_eq (vm : VM) (X : Nat)
    (hfont : vm.state.font_offset = DEFAULT_FONT_OFFSET) :
    ∃ vm0, vm.key_wait_setup X = .ok vm0 ∧ vm0.execution_state = .RUNNING ∧
      vm0.state.pc = 0 ∧ vm0.state.regs = List.replicate 16 0 ∧
      vm0.state.memory[0]? = some (to_regval (0xF0 ||| X)) ∧
      vm0.state.memory[1]? = some (to_regval 0x0A) ∧
      vm0.state.memory[2]? = some 0 ∧ vm0.state.memory[3]? = some 0 := by
  have hf : vm.state.font_offset + 80 ≤ 4096 := by rw [hfont]; decide
  have hfo : DEFAULT_FONT_OFFSET = 0x50 := rfl
  have hlen : (State.copy_at (List.replicate 4096 0) vm.state.font_offset
      DEFAULT_FONT_DATA).length = 4096 := by
    rw [State.copy_at_length _ _ _ (by rw [List.length_replicate]; exact hf),
      List.length_replicate]
  have hzero : ∀ j, j < 0x50 → (State.copy_at (List.replicate 4096 0) vm.state.font_offset
      DEFAULT_FONT_DATA)[j]? = some 0 := by
    intro j hj
    rw [State.copy_at_before _ _ _ _ (by omega) (by rw [List.length_replicate]; omega),
      List.getElem?_replicate_of_lt (by omega)]
  unfold VM.key_wait_setup
  rw [VM.vm_reset_eq vm hf, ok_bind, VM.on_state_program_counter_set _ 0 (by decide), ok_bind,
    VM.on_state_memory_set _ 0 _ hlen (by decide), ok_bind,
    VM.on_state_memory_set _ 1 _ (by rw [List.length_set]; exact hlen) (by decide)]
  refine ⟨_, rfl, rfl, rfl, rfl, ?_, ?_, ?_, ?_⟩
  · show ((List.set _ 0 _).set 1 _)[0]? = _
    rw [List.getElem?_set_ne (by decide), List.getElem?_set_self (by rw [hlen]; decide)]
  · show ((List.set _ 0 _).set 1 _)[1]? = _
    rw [List.getElem?_set_self (by rw [List.length_set, hlen]; decide)]
  · show ((List.set _ 0 _).set 1 _)[2]? = _
    rw [List.getElem?_set_ne (by decide), List.getElem?_set_ne (by decide), hzero 2 (by decide)]
  · show ((List.set _ 0 _).set 1 _)[3]? = _
    rw [List.getElem?_set_ne (by decide), List.getElem?_set_ne (by decide), hzero 3 (by decide)]

/-- Claim C2.  For every register index `X` and key `k` in 0..15: after the test preparation
(reset, `PC = 0`, `memory[0..1] = FX0A`, what follows being zero), the sequence `step()`,
`keydown(k)`, `step()` succeeds and leaves `VX = k`, every other register 0 and the execution
mode `RUNNING`. -/
theorem key_wait_stores_key (vm : VM) (X k : Nat) (hX : X < 16) (hk : k < 16)
    (hfont : vm.state.font_offset = DEFAULT_FONT_OFFSET) :
    ∃ vm0 vm1 vm2 vm3, vm.key_wait_setup X = .ok vm0 ∧ vm0.step = .ok vm1 ∧
      vm1.keydown (k : Int) = .ok vm2 ∧ vm2.step = .ok vm3 ∧
      vm3.state.V X = k ∧ (∀ n, n ≠ X → vm3.state.V n = 0) ∧
      vm3.execution_state = .RUNNING := by
  obtain ⟨vm0, hsetup, hrun, hpc, hregs, h0, h1, h2, h3⟩ := VM.key_wait_setup_eq vm X hfont
  have hl : vm0.state.regs.length = DEFAULT_REGISTER_SIZE := by rw [hregs]; rfl
  have hfetch : vm0.fetch_and_decode vm0.state.pc = .ok ⟨opcode 0xF X 0 0xA⟩ := by
    rw [hpc, VM.fetch_eq vm0 0 _ _ (by decide) h0 h1, key_wait_opcode X hX]
  have hnext : vm0.fetch_and_decode ((vm0.state.pc + 2) % 4096) = .ok ⟨opcode 0 0 0 0⟩ := by
    rw [hpc, VM.fetch_eq vm0 2 _ _ (by decide) h2 h3]
    rfl
  obtain ⟨vm1, vm2, vm3, hs1, -, -, hkd, hs3, hmode, hregs3, -⟩ :=
    VM.key_wait_run vm0 X k hrun hX hk hl hfetch hnext
  refine ⟨vm0, vm1, vm2, vm3, hsetup, hs1, hkd, hs3, ?_, ?_, hmode⟩
  · rw [State.V_eq, hregs3, V_set _ _ _ _ (by rw [hl]; exact hX), if_pos rfl]
  · intro n hn
    rw [State.V_eq, hregs3, V_set _ _ _ _ (by rw [hl]; exact hX), if_neg hn, hregs,
      List.getD_eq_getElem?_getD, List.getElem?_replicate]
    split <;> rfl

theorem key_wait_stores_key_witness :
    ∃ vm0 vm1 vm2 vm3, VM.vm_8014.key_wait_setup 3 = .ok vm0 ∧ vm0.step = .ok vm1 ∧
      vm1.keydown ((7 : Nat) : Int) = .ok vm2 ∧ vm2.step = .ok vm3 ∧
      vm3.state.V 3 = 7 ∧ (∀ n, n ≠ 3 → vm3.state.V n = 0) ∧
      vm3.execution_state = .RUNNING :=
  key_wait_stores_key VM.vm_8014 3 7 (by decide) (by decide) rfl

theorem scenario_bytes (b0 b1 : Nat) :
    ([b0, b1] ++ List.replicate 4094 0)[0]? = some b0 ∧
    ([b0, b1] ++ List.replicate 4094 0)[1]? = some b1 ∧
    ([b0, b1] ++ List.replicate 4094 0)[2]? = some 0 ∧
    ([b0, b1] ++ List.replicate 4094 0)[3]? = some 0 := by
  refine ⟨?_, ?_, ?_, ?_⟩
  · rw [List.getElem?_append_left (by simp)]; rfl
  · rw [List.getElem?_append_left (by simp)]; rfl
  · rw [List.getElem?_append_right (by simp), List.getElem?_replicate_of_lt (by simp)]
  · rw [List.getElem?_append_right (by simp), List.getElem?_replicate_of_lt (by simp)]

/-- The key-wait scenario on a machine whose memory is `F0 0A` followed by zeros, started at
`PC = 0`: the first step parks at `PC = 2`, and the step after `keydown(7)` wakes the machine
up, stores the key and runs the `0000` at address 2. -/
theorem VM.key_wait_scenario_run (vm : VM) (hrun : vm.execution_state = .RUNNING)
    (hmem : vm.state.memory = [0xF0, 0x0A] ++ List.replicate 4094 0) (hpc : vm.state.pc = 0)
    (hl : vm.state.regs.length = DEFAULT_REGISTER_SIZE) :
    ∃ vm1 vm2 vm3, vm.step = .ok vm1 ∧ vm1.state.pc = 0x002 ∧
      vm1.execution_state = .WAIT_FOR_KEY ∧ vm1.keydown 0x7 = .ok vm2 ∧ vm2.step = .ok vm3 ∧
      vm3.execution_state = .RUNNING ∧ vm3.state.V 0 = 0x7 ∧ vm3.state.pc = 0x004 := by
  have hb := scenario_bytes 0xF0 0x0A
  have hfetch : vm.fetch_and_decode vm.state.pc = .ok ⟨opcode 0xF 0 0 0xA⟩ := by
    rw [hpc, VM.fetch_eq vm 0 0xF0 0x0A (by decide) (by rw [hmem]; exact hb.1)
      (by rw [hmem]; exact hb.2.1)]
    rfl
  have hnext : vm.fetch_and_decode ((vm.state.pc + 2) % 4096) = .ok ⟨opcode 0 0 0 0⟩ := by
    rw [hpc, VM.fetch_eq vm 2 0 0 (by decide) (by rw [hmem]; exact hb.2.2.1)
      (by rw [hmem]; exact hb.2.2.2)]
    rfl
  obtain ⟨vm1, vm2, vm3, hs1, hmode1, hpc1, hkd, hs3, hmode3, hregs3, hpc3⟩ :=
    VM.key_wait_run vm 0 7 hrun (by decide) (by decide) hl hfetch hnext
  refine ⟨vm1, vm2, vm3, hs1, ?_, hmode1, hkd, hs3, hmode3, ?_, ?_⟩
  · rw [hpc1, hpc]
  · have h16 : DEFAULT_REGISTER_SIZE = 16 := rfl
    rw [State.V_eq, hregs3, V_set _ _ _ _ (by omega), if_pos rfl]
  · rw [hpc3, hpc]

/-- Claim C3 fails as stated: in the key-wait scenario the program counter is 2, not 0, after
the first step, and 4, not 2, after `keydown(7); step()`. -/
theorem key_wait_scenario_pc_moves :
    VM.vm_F00A.state.memory = [0xF0, 0x0A] ++ List.replicate 4094 0 ∧
    VM.vm_F00A.state.pc = 0 ∧ VM.vm_F00A.key_value = -1 ∧
    ∃ vm1 vm2 vm3, VM.vm_F00A.step = .ok vm1 ∧ vm1.execution_state = .WAIT_FOR_KEY ∧
      vm1.state.pc ≠ 0x000 ∧ vm1.keydown 0x7 = .ok vm2 ∧ vm2.step = .ok vm3 ∧
      vm3.state.pc ≠ 0x002 := by
  obtain ⟨vm1, vm2, vm3, hs1, hpc1, hmode1, hkd, hs3, -, -, hpc3⟩ :=
    VM.key_wait_scenario_run VM.vm_F00A rfl rfl rfl rfl
  refine ⟨rfl, rfl, rfl, vm1, vm2, vm3, hs1, hmode1, ?_, hkd, hs3, ?_⟩
  · rw [hpc1]; decide
  · rw [hpc3]; decide

/-- Claim C3, amended.  Key-wait scenario: with memory `F0 0A` at address 0 and zero
elsewhere and `PC = 0` (whether or not a key is pressed), after `step()` the program counter is
`0x002` and the mode is `WAIT_FOR_KEY`; after `keydown(0x7); step()` the mode is `RUNNING`,
`V0 = 0x7` and the program counter is `0x004`. -/
theorem key_wait_scenario (vm : VM) (hrun : vm.execution_state = .RUNNING)
    (hmem : vm.state.memory = [0xF0, 0x0A] ++ List.replicate 4094 0) (hpc : vm.state.pc = 0)
    (hl : vm.state.regs.length = DEFAULT_REGISTER_SIZE) :
    ∃ vm1 vm2 vm3, vm.step = .ok vm1 ∧ vm1.state.pc = 0x002 ∧
      vm1.execution_state = .WAIT_FOR_KEY ∧ vm1.keydown 0x7 = .ok vm2 ∧ vm2.step = .ok vm3 ∧
      vm3.execution_state = .RUNNING ∧ vm3.state.V 0 = 0x7 ∧ vm3.state.pc = 0x004 :=
  VM.key_wait_scenario_run vm hrun hmem hpc hl

theorem key_wait_scenario_witness :
    ∃ vm1 vm2 vm3, VM.vm_F00A.step = .ok vm1 ∧ vm1.state.pc = 0x002 ∧
      vm1.execution_state = .WAIT_FOR_KEY ∧ vm1.keydown 0x7 = .ok vm2 ∧ vm2.step = .ok vm3 ∧
      vm3.execution_state = .RUNNING ∧ vm3.state.V 0 = 0x7 ∧ vm3.state.pc = 0x004 :=
  key_wait_scenario VM.vm_F00A rfl rfl rfl rfl

/-! ## Add immediate (`7XNN`) -/

/-- Decoding of an instruction word given by two nibbles and a low byte. -/
theorem decode_opcode_XNN (P X NN : Nat) (hP : P < 16) (hX : X < 16) (hNN : NN < 256) :
    (Instruction.mk (opcode_XNN P X NN)).nibble 3 = .ok P ∧
    (Instruction.mk (opcode_XNN P X NN)).nibble 2 = .ok X ∧
    (Instruction.mk (opcode_XNN P X NN)).lower_byte = NN := by
  refine ⟨?_, ?_, ?_⟩
  · rw [Instruction.nibble_eq _ _ (by omega)]; unfold opcode_XNN; congr 1; norm_num; omega
  · rw [Instruction.nibble_eq _ _ (by omega)]; unfold opcode_XNN; congr 1; norm_num; omega
  · rw [Instruction.lower_byte_eq]; unfold opcode_XNN; simp only []; omega

theorem VM.execute_instruction_7 (vm : VM) (st : VMCycleState)
    (h3 : st.instruction.nibble 3 = .ok 7) :
    vm.execute_instruction st = vm.execute_prefix7_instruction st := by
  unfold VM.execute_instruction Instruction.prefix_nibble
  simp only [h3, VM.call_ok, ok_bind]

theorem VM.execute_prefix7_eq (vm : VM) (st : VMCycleState) (X NN : Nat)
    (hl : vm.state.regs.length = DEFAULT_REGISTER_SIZE) (hX : X < 16)
    (h2 : st.instruction.nibble 2 = .ok X) (hb : st.instruction.lower_byte = NN) :
    vm.execute_prefix7_instruction st = .ok
      ({ vm with state := { vm.state with
          regs := vm.state.regs.set X ((vm.state.V X + NN) % 256) } }, st) := by
  have hv : to_regval (to_regval NN + vm.state.V X) = (vm.state.V X + NN) % 256 := by
    unfold to_regval; omega
  unfold VM.execute_prefix7_instruction
  simp only [h2, hb, VM.call_ok, ok_bind, State.reg_eq _ _ hl hX]
  rw [VM.on_state_reg_set _ _ _ hl hX, ok_bind, ok_pure, hv]

/-- Claim C11 (7XNN).  For every machine in `RUNNING` mode that fetches `7XNN` (any `X` in
0..15, any `NN` in 0..255), the step succeeds, `VX` becomes `(VX + NN) mod 256` and every other
register is unchanged; in particular `VF` is not modified when `X` is not `0xF`, whether or
not the addition overflows. -/
theorem add_immediate_7XNN (vm : VM) (X NN : Nat) (hwf : vm.state.wf)
    (hrun : vm.execution_state = .RUNNING) (hX : X < 16) (hNN : NN < 256)
    (hfetch : vm.fetch_and_decode vm.state.pc = .ok ⟨opcode_XNN 7 X NN⟩) :
    ∃ vm1, vm.step = .ok vm1 ∧
      vm1.state.V X = (vm.state.V X + NN) % 256 ∧
      (∀ n, n ≠ X → vm1.state.V n = vm.state.V n) ∧
      (X ≠ 0xF → vm1.state.V 0xF = vm.state.V 0xF) := by
  have hl := hwf.2.2.1
  have h16 : DEFAULT_REGISTER_SIZE = 16 := rfl
  obtain ⟨h3, h2, hb⟩ := decode_opcode_XNN 7 X NN (by decide) hX hNN
  have he := (VM.execute_instruction_7 vm (VMCycleState.mk_cycle vm.execution_state vm.state.pc
      (vm.state.pc + CHARS_PER_INSTRUCTION) ⟨opcode_XNN 7 X NN⟩) h3).trans
      (VM.execute_prefix7_eq vm _ X NN hl hX h2 hb)
  have hother : ∀ n, n ≠ X →
      (vm.state.regs.set X ((vm.state.V X + NN) % 256)).getD n 0 = vm.state.V n := by
    intro n hn
    rw [V_set _ _ _ _ (by omega), if_neg hn, ← State.V_eq]
  refine ⟨_, (VM.step_of_running vm hrun).trans (VM.step_running_eq vm _ _ _ hfetch he),
    ?_, ?_, ?_⟩
  · show (vm.state.regs.set X ((vm.state.V X + NN) % 256)).getD X 0 = _
    rw [V_set _ _ _ _ (by omega), if_pos rfl]
  · exact hother
  · intro hXF
    exact hother 0xF (fun h => hXF h.symm)

theorem add_immediate_7XNN_witness :
    ∃ vm1, VM.vm_70FF.step = .ok vm1 ∧
      vm1.state.V 0 = (VM.vm_70FF.state.V 0 + 0xFF) % 256 ∧
      (∀ n, n ≠ 0 → vm1.state.V n = VM.vm_70FF.state.V n) ∧
      ((0 : Nat) ≠ 0xF → vm1.state.V 0xF = VM.vm_70FF.state.V 0xF) :=
  add_immediate_7XNN VM.vm_70FF 0 0xFF
    (VM.example_vm_wf [0x70, 0xFF] _ (by decide) (by decide) (by decide) (by decide)) rfl
    (by decide) (by decide) (VM.example_vm_fetch 0x70 0xFF [] _)

/-! ## The in-memory renderer -/

theorem bit_cases (a : Nat) (h : a ≤ 1) : a = 0 ∨ a = 1 := by omega

theorem Rendering.DummyRenderer.set_pixel_eq (r : Rendering.DummyRenderer) (x y v : Nat)
    (hv : v = 0 ∨ v = 1) :
    r.set_pixel x y v = .ok
      ({ framebuffer := fun a b =>
          if a = x % 64 ∧ b = y % 32 then v ^^^ r.framebuffer (x % 64) (y % 32)
          else r.framebuffer a b },
        (r.framebuffer (x % 64) (y % 32) &&& v) &&& 0x1) := by
  unfold Rendering.DummyRenderer.set_pixel
  rw [if_neg (by omega)]
  rfl

/-- Claim C15 (`set_pixel` of the in-memory renderer).  For all `x`, `y` and every value `v`
in {0, 1}, on a framebuffer whose cells are 0 or 1, `set_pixel(x, y, v)` succeeds, replaces the
pixel at `(x mod 64, y mod 32)` by its old value XOR `v`, leaves every other pixel unchanged,
and returns 1 exactly when that pixel was 1 before and is 0 after, 0 otherwise; with `v = 0`
it changes nothing and returns 0.  The cells stay 0 or 1. -/
theorem set_pixel_contract (r : Rendering.DummyRenderer) (x y v : Nat) (hr : r.wf)
    (hv : v = 0 ∨ v = 1) :
    ∃ r1 flag, r.set_pixel x y v = .ok (r1, flag) ∧
      r1.framebuffer (x % 64) (y % 32) = r.framebuffer (x % 64) (y % 32) ^^^ v ∧
      (∀ a b, ¬ (a = x % 64 ∧ b = y % 32) → r1.framebuffer a b = r.framebuffer a b) ∧
      (flag = 1 ↔ r.framebuffer (x % 64) (y % 32) = 1 ∧ r1.framebuffer (x % 64) (y % 32) = 0) ∧
      (flag = 0 ∨ flag = 1) ∧
      (v = 0 → r1 = r ∧ flag = 0) ∧
      r1.wf := by
  have hold := bit_cases _ (hr (x % 64) (y % 32))
  refine ⟨_, _, Rendering.DummyRenderer.set_pixel_eq r x y v hv, ?_, ?_, ?_, ?_, ?_, ?_⟩
  · show (if x % 64 = x % 64 ∧ y % 32 = y % 32 then _ else _) = _
    rw [if_pos ⟨rfl, rfl⟩, Nat.xor_comm]
  · intro a b hab
    show (if a = x % 64 ∧ b = y % 32 then _ else _) = _
    rw [if_neg hab]
  · show _ ↔ _ ∧ (if x % 64 = x % 64 ∧ y % 32 = y % 32 then _ else _) = 0
    rw [if_pos ⟨rfl, rfl⟩]
    rcases hold with h | h <;> rcases hv with h2 | h2 <;> rw [h, h2] <;> decide
  · rcases hold with h | h <;> rcases hv with h2 | h2 <;> rw [h, h2] <;> decide
  · intro h0
    subst h0
    refine ⟨?_, ?_⟩
    · show Rendering.DummyRenderer.mk _ = r
      cases r with
      | mk fb =>
        congr 1
        funext a b
        by_cases hab : a = x % 64 ∧ b = y % 32
        · rw [if_pos hab, hab.1, hab.2, Nat.zero_xor]
        · rw [if_neg hab]
    · show (r.framebuffer (x % 64) (y % 32) &&& 0) &&& 0x1 = 0
      rw [Nat.and_zero, Nat.zero_and]
  · intro a b
    show (if a = x % 64 ∧ b = y % 32 then _ else _) ≤ 1
    by_cases hab : a = x % 64 ∧ b = y % 32
    · rw [if_pos hab]
      rcases hold with h | h <;> rcases hv with h2 | h2 <;> rw [h, h2] <;> decide
    · rw [if_neg hab]; exact hr a b

theorem set_pixel_contract_witness :
    ∃ r1 flag, Rendering.DummyRenderer.one_pixel.set_pixel 70 40 1 = .ok (r1, flag) ∧
      r1.framebuffer (70 % 64) (40 % 32) =
        Rendering.DummyRenderer.one_pixel.framebuffer (70 % 64) (40 % 32) ^^^ 1 ∧
      (∀ a b, ¬ (a = 70 % 64 ∧ b = 40 % 32) →
        r1.framebuffer a b = Rendering.DummyRenderer.one_pixel.framebuffer a b) ∧
      (flag = 1 ↔ Rendering.DummyRenderer.one_pixel.framebuffer (70 % 64) (40 % 32) = 1 ∧
        r1.framebuffer (70 % 64) (40 % 32) = 0) ∧
      (flag = 0 ∨ flag = 1) ∧
      ((1 : Nat) = 0 → r1 = Rendering.DummyRenderer.one_pixel ∧ flag = 0) ∧
      r1.wf :=
  set_pixel_contract Rendering.DummyRenderer.one_pixel 70 40 1
    (by intro a b; unfold Rendering.DummyRenderer.one_pixel; simp only []; split <;> decide)
    (Or.inr rfl)

/-! ## `reset` and `load_program` -/

theorem State.copy_at_inside (l data : List Nat) (off j : Nat) (hj : j < data.length)
    (h : off ≤ l.length) : (State.copy_at l off data)[off + j]? = data[j]? := by
  unfold State.copy_at
  rw [List.append_assoc, List.getElem?_append_right (by rw [List.length_take]; omega),
    List.length_take, Nat.min_eq_left h, Nat.add_sub_cancel_left,
    List.getElem?_append_left hj]

theorem State.copy_at_after (l data : List Nat) (off j : Nat) (hj : off + data.length ≤ j)
    (h : off ≤ l.length) : (State.copy_at l off data)[j]? = l[j]? := by
  unfold State.copy_at
  rw [List.getElem?_append_right
      (by rw [List.length_append, List.length_take, Nat.min_eq_left h]; exact hj),
    List.length_append, List.length_take, Nat.min_eq_left h, List.getElem?_drop]
  congr 1
  omega

theorem font_bytes : ∀ b ∈ DEFAULT_FONT_DATA, b < 256 := by decide

/-- The memory `State::reset` builds: 4096 bytes, the font table at `font_offset`, zero
elsewhere. -/
theorem State.reset_memory (f : Nat) (hf : f + 80 ≤ 4096) :
    (State.copy_at (List.replicate 4096 0) f DEFAULT_FONT_DATA).length = 4096 ∧
    (∀ j, j < 80 →
      (State.copy_at (List.replicate 4096 0) f DEFAULT_FONT_DATA)[f + j]? =
        DEFAULT_FONT_DATA[j]?) ∧
    (∀ j, j < 4096 → (j < f ∨ f + 80 ≤ j) →
      (State.copy_at (List.replicate 4096 0) f DEFAULT_FONT_DATA)[j]? = some 0) := by
  have hlen : DEFAULT_FONT_DATA.length = 80 := rfl
  have hr : (List.replicate 4096 0 : List Nat).length = 4096 := List.length_replicate _ _
  refine ⟨?_, ?_, ?_⟩
  · rw [State.copy_at_length _ _ _ (by rw [hr, hlen]; exact hf), hr]
  · intro j hj
    exact State.copy_at_inside _ _ _ _ (by rw [hlen]; exact hj) (by rw [hr]; omega)
  · intro j hj hout
    rcases hout with h | h
    · rw [State.copy_at_before _ _ _ _ h (by rw [hr]; omega),
        List.getElem?_replicate_of_lt hj]
    · rw [State.copy_at_after _ _ _ _ (by rw [hlen]; exact h) (by rw [hr]; omega),
        List.getElem?_replicate_of_lt hj]

/-- Claim C16 fails as stated: the font table goes to the state's font offset.  For the state
built by the constructor and given the font offset `0x100` by `font_offset(0x100)`, `reset()`
succeeds and byte `0x50` of memory is 0, not the first font byte `0xF0`, which sits at
`0x100`. -/
theorem reset_font_follows_font_offset :
    ∃ s1, State.moved_font.reset = .ok s1 ∧ s1.memory[0x50]? = some 0 ∧
      DEFAULT_FONT_DATA[0]? = some 0xF0 ∧ s1.memory[0x100]? = some 0xF0 := by
  have hm := State.reset_memory 0x100 (by decide)
  refine ⟨_, State.reset_eq State.moved_font (by decide), ?_, rfl, ?_⟩
  · exact hm.2.2 0x50 (by decide) (Or.inl (by decide))
  · exact hm.2.1 0 (by decide)

/-- Claim C16, amended.  For every `State` whose font offset `f` leaves room for the table
(`f + 80 ≤ 4096`; `f` is `0x50` unless the setter changed it), `reset()` succeeds; afterwards
memory has length 4096 and is zero everywhere except that bytes `[f, f + 80)` equal the font
table, all 16 registers are 0, `PC = 0`, `I = 0`, the call stack is empty and both timers are
0.  `VM::reset()` does the same to its state and sets the execution mode to `RUNNING` with no
key pressed.  For a font offset that leaves no room for the table and does not make the
`size_t` sum of the guard wrap (`4096 < f + 80 < 2^64`), `reset()` raises a runtime error,
after the fields have been cleared. -/
theorem reset_clears (s : State) (vm : VM) (hs : s.font_offset + 80 ≤ 4096)
    (hvm : vm.state.font_offset + 80 ≤ 4096) :
    (∃ s1, s.reset = .ok s1 ∧ s1.memory.length = 4096 ∧
      (∀ j, j < 80 → s1.memory[s.font_offset + j]? = DEFAULT_FONT_DATA[j]?) ∧
      (∀ j, j < 4096 → (j < s.font_offset ∨ s.font_offset + 80 ≤ j) →
        s1.memory[j]? = some 0) ∧
      s1.regs = List.replicate 16 0 ∧ s1.pc = 0 ∧ s1.i = 0 ∧ s1.callstack = [] ∧
      s1.sound_timer = 0 ∧ s1.timer = 0 ∧ s1.font_offset = s.font_offset) ∧
    (∃ s1 vm1, vm.state.reset = .ok s1 ∧ vm.reset = .ok vm1 ∧ vm1.state = s1 ∧
      vm1.execution_state = .RUNNING ∧ vm1.key_pressed = false) ∧
    (∀ s2 : State, 4096 < s2.font_offset + 80 → s2.font_offset + 80 < 2 ^ 64 →
      s2.reset = .error (.runtime_error, s2.reset_fields)) := by
  have hm := State.reset_memory s.font_offset hs
  refine ⟨⟨_, State.reset_eq s hs, hm.1, hm.2.1, hm.2.2, rfl, rfl, rfl, rfl, rfl, rfl, rfl⟩,
    ⟨_, _, State.reset_eq vm.state hvm, VM.vm_reset_eq vm hvm, rfl, rfl, rfl⟩,
    fun s2 h1 h2 => State.reset_fault s2 h1 h2⟩

theorem reset_clears_witness :
    (∃ s1, VM.vm_8014.state.reset = .ok s1 ∧ s1.memory.length = 4096 ∧
      (∀ j, j < 80 → s1.memory[VM.vm_8014.state.font_offset + j]? = DEFAULT_FONT_DATA[j]?) ∧
      (∀ j, j < 4096 →
        (j < VM.vm_8014.state.font_offset ∨ VM.vm_8014.state.font_offset + 80 ≤ j) →
        s1.memory[j]? = some 0) ∧
      s1.regs = List.replicate 16 0 ∧ s1.pc = 0 ∧ s1.i = 0 ∧ s1.callstack = [] ∧
      s1.sound_timer = 0 ∧ s1.timer = 0 ∧ s1.font_offset = VM.vm_8014.state.font_offset) ∧
    (∃ s1 vm1, VM.vm_parked.state.reset = .ok s1 ∧ VM.vm_parked.reset = .ok vm1 ∧
      vm1.state = s1 ∧ vm1.execution_state = .RUNNING ∧ vm1.key_pressed = false) ∧
    (∀ s2 : State, 4096 < s2.font_offset + 80 → s2.font_offset + 80 < 2 ^ 64 →
      s2.reset = .error (.runtime_error, s2.reset_fields)) :=
  reset_clears VM.vm_8014.state VM.vm_parked (by decide) (by decide)

/-- The result of `load_program` for a program that fits, on a state whose font table fits. -/
theorem VM.load_program_eq (vm : VM) (p : List Nat) (hp : p.length ≤ 3584)
    (hf : vm.state.font_offset + 80 ≤ 4096) :
    vm.load_program p = .ok { vm with state := { vm.state.reset_fields with
      memory := State.copy_at
        (State.copy_at (List.replicate 4096 0) vm.state.font_offset DEFAULT_FONT_DATA)
        0x200 (p.map to_regval)
      pc := 0x200 } } := by
  have hlen := (State.reset_memory vm.state.font_offset hf).1
  have hlen2 : (State.copy_at
      (State.copy_at (List.replicate 4096 0) vm.state.font_offset DEFAULT_FONT_DATA)
      0x200 (p.map to_regval)).length = 4096 := by
    rw [State.copy_at_length _ _ _ (by rw [hlen, List.length_map]; omega), hlen]
  unfold VM.load_program State.program_load_offset State.memory_size
    DEFAULT_PROGRAM_LOAD_OFFSET DEFAULT_MEMORY_SIZE
  rw [if_neg (by omega), State.reset_eq _ hf]
  simp only [hlen2, ne_eq, not_true_eq_false, and_false, if_false]
  exact VM.on_state_program_counter_set _ 0x200 (by decide)

/-- The fault of `load_program` for a program that does not fit: nothing has been touched. -/
theorem VM.load_program_too_big (vm : VM) (p : List Nat) (hp : 3584 < p.length) :
    vm.load_program p = .error (.runtime_error, vm) := by
  unfold VM.load_program State.program_load_offset State.memory_size
    DEFAULT_PROGRAM_LOAD_OFFSET DEFAULT_MEMORY_SIZE
  rw [if_pos (by omega)]

/-- The fault of `load_program` on a state whose font table does not fit: the state has been
cleared by then. -/
theorem VM.load_program_font_fault (vm : VM) (p : List Nat) (hp : p.length ≤ 3584)
    (hf : 4096 < vm.state.font_offset + 80) (hlt : vm.state.font_offset + 80 < 2 ^ 64) :
    vm.load_program p = .error (.runtime_error, { vm with state := vm.state.reset_fields }) := by
  unfold VM.load_program State.program_load_offset State.memory_size
    DEFAULT_PROGRAM_LOAD_OFFSET DEFAULT_MEMORY_SIZE
  rw [if_neg (by omega), State.reset_fault _ hf hlt]

/-- A `load_program` that returns was given a program that fits, on a state whose font table
fits. -/
theorem VM.load_program_ok_fits (vm vm1 : VM) (p : List Nat)
    (h : vm.load_program p = .ok vm1) :
    p.length ≤ 3584 ∧ vm.state.font_offset + 80 ≤ 4096 := by
  by_cases hp : 3584 < p.length
  · rw [VM.load_program_too_big vm p hp] at h; cases h
  · refine ⟨by omega, ?_⟩
    unfold VM.load_program State.program_load_offset State.memory_size
      DEFAULT_PROGRAM_LOAD_OFFSET DEFAULT_MEMORY_SIZE at h
    rw [if_neg (by omega)] at h
    cases hr : vm.state.reset with
    | error e => rw [hr] at h; cases h
    | ok s1 => exact State.reset_ok_fits _ _ hr

/-- Claim C17 fails as stated: the font table goes to the state's font offset.  On the machine
whose state was given the font offset `0x100`, `load_program` of the empty program succeeds and
byte `0x50` of memory is 0, not the first font byte `0xF0`. -/
theorem load_program_font_follows_font_offset :
    ∃ vm1, VM.vm_moved_font.load_program [] = .ok vm1 ∧
      vm1.state.memory[0x50]? = some 0 ∧ DEFAULT_FONT_DATA[0]? = some 0xF0 := by
  have hm := State.reset_memory 0x100 (by decide)
  refine ⟨_, VM.load_program_eq VM.vm_moved_font [] (by decide) (by decide), ?_, rfl⟩
  show (State.copy_at (State.copy_at (List.replicate 4096 0) 0x100 DEFAULT_FONT_DATA)
    0x200 ([].map to_regval))[0x50]? = some 0
  rw [State.copy_at_before _ _ _ _ (by decide) (by rw [hm.1]; decide)]
  exact hm.2.2 0x50 (by decide) (Or.inl (by decide))

/-- Claim C17, amended.  For every byte sequence `p` of length at most 3584 and every prior
machine whose font offset `f` keeps the font table below the program area (`f + 80 ≤ 0x200`;
`f` is `0x50` unless the setter changed it), `load_program(p)` succeeds; afterwards
`memory[0x200 + i] = p[i]` for all `i < len(p)`, bytes `[f, f + 80)` equal the font table,
every other memory byte is 0, `PC = 0x200`, all registers and both timers are 0, `I = 0` and
the call stack is empty. -/
theorem load_program_loads (vm : VM) (p : List Nat) (hp : p.length ≤ 3584)
    (hbytes : ∀ b ∈ p, b < 256) (hf : vm.state.font_offset + 80 ≤ 0x200) :
    ∃ vm1, vm.load_program p = .ok vm1 ∧ vm1.state.memory.length = 4096 ∧
      (∀ i, i < p.length → vm1.state.memory[0x200 + i]? = p[i]?) ∧
      (∀ j, j < 80 → vm1.state.memory[vm.state.font_offset + j]? = DEFAULT_FONT_DATA[j]?) ∧
      (∀ j, j < 4096 →
        (j < vm.state.font_offset ∨ (vm.state.font_offset + 80 ≤ j ∧ j < 0x200) ∨
          0x200 + p.length ≤ j) →
        vm1.state.memory[j]? = some 0) ∧
      vm1.state.pc = 0x200 ∧ vm1.state.regs = List.replicate 16 0 ∧
      vm1.state.timer = 0 ∧ vm1.state.sound_timer = 0 ∧ vm1.state.i = 0 ∧
      vm1.state.callstack = [] := by
  have hf2 : vm.state.font_offset + 80 ≤ 4096 := by omega
  have hm := State.reset_memory vm.state.font_offset hf2
  have hmap : (p.map to_regval).length = p.length := List.length_map _ _
  refine ⟨_, VM.load_program_eq vm p hp hf2, ?_, ?_, ?_, ?_, rfl, rfl, rfl, rfl, rfl, rfl⟩
  · show (State.copy_at _ 0x200 (p.map to_regval)).length = 4096
    rw [State.copy_at_length _ _ _ (by rw [hm.1, hmap]; omega), hm.1]
  · intro i hi
    show (State.copy_at _ 0x200 (p.map to_regval))[0x200 + i]? = _
    rw [State.copy_at_inside _ _ _ _ (by rw [hmap]; exact hi) (by rw [hm.1]; decide),
      List.getElem?_map]
    cases hb : p[i]? with
    | none => rfl
    | some b =>
      show some (to_regval b) = some b
      rw [to_regval_of_lt b (hbytes b (List.getElem?_mem hb))]
  · intro j hj
    show (State.copy_at _ 0x200 (p.map to_regval))[vm.state.font_offset + j]? = _
    rw [State.copy_at_before _ _ _ _ (by omega) (by rw [hm.1]; decide)]
    exact hm.2.1 j hj
  · intro j hj hout
    show (State.copy_at _ 0x200 (p.map to_regval))[j]? = _
    by_cases hlow : j < 0x200
    · rw [State.copy_at_before _ _ _ _ hlow (by rw [hm.1]; decide)]
      exact hm.2.2 j hj (by omega)
    · rw [State.copy_at_after _ _ _ _ (by rw [hmap]; omega) (by rw [hm.1]; decide)]
      exact hm.2.2 j hj (by omega)

theorem load_program_loads_witness :
    ∃ vm1, VM.vm_parked.load_program [0x12, 0x00] = .ok vm1 ∧ vm1.state.memory.length = 4096 ∧
      (∀ i, i < [0x12, 0x00].length → vm1.state.memory[0x200 + i]? = [0x12, 0x00][i]?) ∧
      (∀ j, j < 80 →
        vm1.state.memory[VM.vm_parked.state.font_offset + j]? = DEFAULT_FONT_DATA[j]?) ∧
      (∀ j, j < 4096 →
        (j < VM.vm_parked.state.font_offset ∨
          (VM.vm_parked.state.font_offset + 80 ≤ j ∧ j < 0x200) ∨
          0x200 + [0x12, 0x00].length ≤ j) →
        vm1.state.memory[j]? = some 0) ∧
      vm1.state.pc = 0x200 ∧ vm1.state.regs = List.replicate 16 0 ∧
      vm1.state.timer = 0 ∧ vm1.state.sound_timer = 0 ∧ vm1.state.i = 0 ∧
      vm1.state.callstack = [] :=
  load_program_loads VM.vm_parked [0x12, 0x00] (by decide) (by decide) (by decide)

/-- Claim C18 fails as stated: a fault is possible for a program that fits, and the state is
not kept then.  On the machine with `V0 = 0x80` whose state was given the font offset 4090,
`load_program` of the empty program faults, and the machine it leaves has `V0 = 0`. -/
theorem load_program_faults_on_font_offset :
    ([] : List Nat).length ≤ 3584 ∧ VM.vm_font_at_end.state.V 0 = 0x80 ∧
    ∃ f vm1, VM.vm_font_at_end.load_program [] = .error (f, vm1) ∧ vm1.state.V 0 = 0 ∧
      vm1.state ≠ VM.vm_font_at_end.state := by
  refine ⟨by decide, by decide, _, _,
    VM.load_program_font_fault VM.vm_font_at_end [] (by decide) (by decide) (by decide),
    by decide, ?_⟩
  intro h
  have h2 : (VM.vm_font_at_end.state.reset_fields).V 0 = VM.vm_font_at_end.state.V 0 :=
    congrArg (fun s => State.V s 0) h
  revert h2
  decide

/-- Claim C18, amended.  For every machine whose font offset does not make the `size_t` sum
`font_offset + 80` wrap (`font_offset + 80 < 2^64`): `load_program(p)` raises an exception if
and only if `len(p) > 3584` or the font table does not fit at the state's font offset
(`font_offset + 80 > 4096`), and the exception is a runtime error; when it raises because
`len(p) > 3584`, the machine is exactly what it was before the call. -/
theorem load_program_faults (vm : VM) (p : List Nat)
    (hlt : vm.state.font_offset + 80 < 2 ^ 64) :
    ((∃ f vm1, vm.load_program p = .error (f, vm1)) ↔
      (3584 < p.length ∨ 4096 < vm.state.font_offset + 80)) ∧
    (∀ f vm1, vm.load_program p = .error (f, vm1) → f = .runtime_error) ∧
    (3584 < p.length → vm.load_program p = .error (.runtime_error, vm)) := by
  refine ⟨⟨?_, ?_⟩, ?_, VM.load_program_too_big vm p⟩
  · rintro ⟨f, vm1, h⟩
    by_contra hno
    rw [VM.load_program_eq vm p (by omega) (by omega)] at h
    cases h
  · intro h
    by_cases hp : 3584 < p.length
    · exact ⟨_, _, VM.load_program_too_big vm p hp⟩
    · exact ⟨_, _, VM.load_program_font_fault vm p (by omega) (by omega) hlt⟩
  · intro f vm1 h
    by_cases hp : 3584 < p.length
    · rw [VM.load_program_too_big vm p hp] at h
      cases h
      rfl
    · by_cases hf : 4096 < vm.state.font_offset + 80
      · rw [VM.load_program_font_fault vm p (by omega) hf hlt] at h
        cases h
        rfl
      · rw [VM.load_program_eq vm p (by omega) (by omega)] at h
        cases h

theorem load_program_faults_witness :
    VM.vm_font_at_end.state.font_offset + 80 < 2 ^ 64 ∧
    ((∃ f vm1, VM.vm_font_at_end.load_program [] = .error (f, vm1)) ↔
      (3584 < ([] : List Nat).length ∨ 4096 < VM.vm_font_at_end.state.font_offset + 80)) ∧
    (∀ f vm1, VM.vm_font_at_end.load_program [] = .error (f, vm1) → f = .runtime_error) ∧
    (3584 < ([] : List Nat).length →
      VM.vm_font_at_end.load_program [] = .error (.runtime_error, VM.vm_font_at_end)) :=
  ⟨by decide, load_program_faults VM.vm_font_at_end [] (by decide)⟩

/-- Claim C19, evaluated where the code departs from it: the machine parked by `F00A` is in
`WAIT_FOR_KEY` mode, and `load_program` of the empty program succeeds on it and leaves it in
`WAIT_FOR_KEY` mode, where the claim asks for `RUNNING`.  `load_program` calls `State::reset`,
not `VM::reset`, which is the one that sets the mode. -/
theorem load_program_keeps_parked_mode :
    ∃ vm1 vm2, VM.vm_F00A.step = .ok vm1 ∧ vm1.execution_state = .WAIT_FOR_KEY ∧
      vm1.load_program [] = .ok vm2 ∧ vm2.execution_state = .WAIT_FOR_KEY ∧
      vm2.state.pc = 0x200 := by
  have hfetch := VM.example_vm_fetch 0xF0 0x0A [] [0, 0, 0, 0, 0, 0, 0, 0, 0, 0, 0, 0, 0, 0, 0, 0]
  refine ⟨_, _, VM.step_FX0A VM.vm_F00A 0 rfl (by decide) hfetch, rfl,
    VM.load_program_eq _ [] (by decide) (by decide), rfl, rfl⟩

/-- A successful `load_program` leaves the execution mode, the key state and the key-target
register as they were. -/
theorem VM.load_program_mode (vm vm1 : VM) (p : List Nat) (h : vm.load_program p = .ok vm1) :
    vm1.execution_state = vm.execution_state ∧ vm1.key_value = vm.key_value ∧
      vm1.key_target_register = vm.key_target_register := by
  obtain ⟨hp, hf⟩ := VM.load_program_ok_fits vm vm1 p h
  rw [VM.load_program_eq vm p hp hf] at h
  cases h
  exact ⟨rfl, rfl, rfl⟩

/-! ## Sprite drawing (`DXYN`) -/

set_option maxRecDepth 1000000 in
theorem sprite_bit_eq (m c : Nat) (hm : m < 256) (hc : c < 8) :
    sprite_bit m c = (m >>> (7 - c)) &&& 1 := by
  have h : ∀ a : Fin 256, ∀ b : Fin 8,
      (if (a.val <<< b.val) &&& 0x80 ≠ 0 then 1 else 0) = (a.val >>> (7 - b.val)) &&& 1 := by
    decide
  exact h ⟨m, hm⟩ ⟨c, hc⟩

theorem sprite_bit_le (m c : Nat) : sprite_bit m c ≤ 1 := by
  unfold sprite_bit; split <;> decide

theorem sprite_bit_shift (m j : Nat) : sprite_bit (m <<< 1) j = sprite_bit m (j + 1) := by
  unfold sprite_bit
  rw [← Nat.shiftLeft_add, Nat.add_comm 1 j]

set_option maxRecDepth 1000000 in
theorem sprite_byte_nonzero (m : Nat) (hm : m < 256) (h0 : m ≠ 0) :
    ∃ c, c < 8 ∧ sprite_bit m c = 1 := by
  have h : ∀ a : Fin 256, a.val ≠ 0 →
      ∃ b : Fin 8, (if (a.val <<< b.val) &&& 0x80 ≠ 0 then 1 else 0) = 1 := by
    decide
  obtain ⟨b, hb⟩ := h ⟨m, hm⟩ h0
  exact ⟨b.val, b.isLt, hb⟩

theorem or_bits (a b : Nat) (ha : a ≤ 1) (hb : b ≤ 1) :
    (a ||| b) ≤ 1 ∧ ((a ||| b) = 1 ↔ a = 1 ∨ b = 1) := by
  rcases bit_cases a ha with h | h <;> rcases bit_cases b hb with h2 | h2 <;>
    rw [h, h2] <;> decide

theorem and_one_le (a : Nat) : a &&& 0x1 ≤ 1 := Nat.and_le_right

/-- One turn of the column loop. -/
theorem VM.draw_cols_succ (ox oy row n col : Nat) (vm : VM) (m modified : Nat) :
    VM.draw_cols ox oy row (n + 1) col vm m modified =
      VM.draw_cols ox oy row n (col + 1)
        { vm with renderer := Rendering.DummyRenderer.mk (fun a b =>
            if a = (ox + col) % 64 ∧ b = (oy + row) % 32 then
              sprite_bit m 0 ^^^ vm.renderer.framebuffer ((ox + col) % 64) ((oy + row) % 32)
            else vm.renderer.framebuffer a b) }
        (m <<< 1)
        (modified ||| ((vm.renderer.framebuffer ((ox + col) % 64) ((oy + row) % 32) &&&
          sprite_bit m 0) &&& 0x1)) := by
  have hv : (if m &&& 0x80 ≠ 0 then 1 else 0) = sprite_bit m 0 := by
    unfold sprite_bit; rw [Nat.shiftLeft_zero]
  have hb : sprite_bit m 0 = 0 ∨ sprite_bit m 0 = 1 := bit_cases _ (sprite_bit_le m 0)
  conv_lhs => unfold VM.draw_cols
  simp only [hv, Rendering.DummyRenderer.set_pixel_eq vm.renderer _ _ _ hb]

/-- The column loop: it draws `n` columns of one sprite row, starting at column `col`.  Each of
the `n` pixels is hit once; `modified` collects the collisions. -/
theorem VM.draw_cols_spec (ox oy row : Nat) : ∀ (n col : Nat) (vm : VM) (m modified : Nat),
    col + n ≤ 64 → modified ≤ 1 →
    ∃ fb1 modified1,
      VM.draw_cols ox oy row n col vm m modified =
        .ok ({ vm with renderer := Rendering.DummyRenderer.mk fb1 }, modified1) ∧
      (∀ j, j < n → fb1 ((ox + col + j) % 64) ((oy + row) % 32) =
        sprite_bit m j ^^^ vm.renderer.framebuffer ((ox + col + j) % 64) ((oy + row) % 32)) ∧
      (∀ a b, (∀ j, j < n → ¬ (a = (ox + col + j) % 64 ∧ b = (oy + row) % 32)) →
        fb1 a b = vm.renderer.framebuffer a b) ∧
      modified1 ≤ 1 ∧
      (modified1 = 1 ↔ modified = 1 ∨ ∃ j, j < n ∧
        (vm.renderer.framebuffer ((ox + col + j) % 64) ((oy + row) % 32) &&&
          sprite_bit m j) &&& 0x1 = 1) := by
  intro n
  induction n with
  | zero =>
    intro col vm m modified _ hmod
    refine ⟨vm.renderer.framebuffer, modified, rfl, ?_, ?_, hmod, ?_⟩
    · intro j hj; omega
    · intro a b _; rfl
    · constructor
      · intro h; exact Or.inl h
      · rintro (h | ⟨j, hj, -⟩)
        · exact h
        · omega
  | succ n ih =>
    intro col vm m modified hcol hmod
    have hflag := and_one_le (vm.renderer.framebuffer ((ox + col) % 64) ((oy + row) % 32) &&&
      sprite_bit m 0)
    have hor := or_bits modified _ hmod hflag
    rw [VM.draw_cols_succ]
    obtain ⟨fb1, modified1, hrun, h1, h2, h3, h4⟩ := ih (col + 1)
      { vm with renderer := Rendering.DummyRenderer.mk (fun a b =>
          if a = (ox + col) % 64 ∧ b = (oy + row) % 32 then
            sprite_bit m 0 ^^^ vm.renderer.framebuffer ((ox + col) % 64) ((oy + row) % 32)
          else vm.renderer.framebuffer a b) }
      (m <<< 1) _ (by omega) hor.1
    dsimp only at h1 h2 h4
    have hne : ∀ k, k < n → (ox + (col + 1) + k) % 64 ≠ (ox + col) % 64 := by
      intro k hk; omega
    have hidx : ∀ k, ox + (col + 1) + k = ox + col + (k + 1) := by intro k; omega
    have hold : ∀ k, k < n →
        (if (ox + (col + 1) + k) % 64 = (ox + col) % 64 ∧ (oy + row) % 32 = (oy + row) % 32 then
          sprite_bit m 0 ^^^ vm.renderer.framebuffer ((ox + col) % 64) ((oy + row) % 32)
        else vm.renderer.framebuffer ((ox + (col + 1) + k) % 64) ((oy + row) % 32)) =
        vm.renderer.framebuffer ((ox + (col + 1) + k) % 64) ((oy + row) % 32) := by
      intro k hk
      rw [if_neg (fun h => hne k hk h.1)]
    refine ⟨fb1, modified1, hrun, ?_, ?_, h3, ?_⟩
    · intro j hj
      cases j with
      | zero =>
        rw [Nat.add_zero, h2 _ _ (fun k hk h => hne k hk h.1.symm)]
        show (if _ then _ else _) = _
        rw [if_pos ⟨rfl, rfl⟩]
      | succ k =>
        have hk : k < n := by omega
        have := h1 k hk
        rw [hold k hk, sprite_bit_shift, hidx] at this
        exact this
    · intro a b hab
      rw [h2 a b (fun k hk h => hab (k + 1) (by omega) (by rw [← hidx]; exact h))]
      show (if _ then _ else _) = _
      rw [if_neg (fun h => hab 0 (by omega) (by rw [Nat.add_zero]; exact h))]
    · rw [h4, hor.2]
      constructor
      · rintro ((h | h) | ⟨k, hk, h⟩)
        · exact Or.inl h
        · exact Or.inr ⟨0, by omega, by rw [Nat.add_zero]; exact h⟩
        · refine Or.inr ⟨k + 1, by omega, ?_⟩
          rw [hold k hk, sprite_bit_shift, hidx] at h
          exact h
      · rintro (h | ⟨j, hj, h⟩)
        · exact Or.inl (Or.inl h)
        · cases j with
          | zero => exact Or.inl (Or.inr (by rw [Nat.add_zero] at h; exact h))
          | succ k =>
            refine Or.inr ⟨k, by omega, ?_⟩
            rw [hold k (by omega), sprite_bit_shift, hidx]
            exact h

theorem State.memory_at_eq (s : State) (j : Nat) (hj : j < s.memory.length) :
    s.memory_at j = .ok (s.memory.getD j 0) := by
  unfold State.memory_at
  rw [List.getD_eq_getElem?_getD, List.getElem?_eq_getElem hj]
  rfl

/-- The row loop: it draws `n` rows of the sprite, starting at row `row`.  Each of the `8 n`
pixels is hit once; `modified` collects the collisions. -/
theorem VM.draw_rows_spec (ox oy : Nat) : ∀ (n row : Nat) (vm : VM) (modified : Nat),
    row + n ≤ 32 → row + n + vm.state.i ≤ vm.state.memory.length → modified ≤ 1 →
    ∃ fb1 modified1,
      VM.draw_rows ox oy n row vm modified =
        .ok ({ vm with renderer := Rendering.DummyRenderer.mk fb1 }, modified1) ∧
      (∀ r c, r < n → c < 8 → fb1 ((ox + c) % 64) ((oy + (row + r)) % 32) =
        sprite_bit (vm.state.memory.getD (row + r + vm.state.i) 0) c ^^^
          vm.renderer.framebuffer ((ox + c) % 64) ((oy + (row + r)) % 32)) ∧
      (∀ a b, (∀ r c, r < n → c < 8 →
          ¬ (a = (ox + c) % 64 ∧ b = (oy + (row + r)) % 32)) →
        fb1 a b = vm.renderer.framebuffer a b) ∧
      modified1 ≤ 1 ∧
      (modified1 = 1 ↔ modified = 1 ∨ ∃ r c, r < n ∧ c < 8 ∧
        (vm.renderer.framebuffer ((ox + c) % 64) ((oy + (row + r)) % 32) &&&
          sprite_bit (vm.state.memory.getD (row + r + vm.state.i) 0) c) &&& 0x1 = 1) := by
  intro n
  induction n with
  | zero =>
    intro row vm modified _ _ hmod
    refine ⟨vm.renderer.framebuffer, modified, rfl, ?_, ?_, hmod, ?_⟩
    · intro r c hr; omega
    · intro a b _; rfl
    · constructor
      · intro h; exact Or.inl h
      · rintro (h | ⟨r, c, hr, -⟩)
        · exact h
        · omega
  | succ n ih =>
    intro row vm modified hrow hmem hmod
    obtain ⟨fbA, modA, hcols, hA1, hA2, hA3, hA4⟩ := VM.draw_cols_spec ox oy row 8 0 vm
      (vm.state.memory.getD (row + vm.state.i) 0) modified (by omega) hmod
    obtain ⟨fb1, modified1, hrun, h1, h2, h3, h4⟩ := ih (row + 1)
      { vm with renderer := Rendering.DummyRenderer.mk fbA } modA (by omega)
      (by show row + 1 + n + vm.state.i ≤ vm.state.memory.length; omega) hA3
    dsimp only at h1 h2 h4
    have hstep : VM.draw_rows ox oy (n + 1) row vm modified =
        VM.draw_rows ox oy n (row + 1)
          { vm with renderer := Rendering.DummyRenderer.mk fbA } modA := by
      conv_lhs => unfold VM.draw_rows
      rw [State.memory_at_eq _ _ (by omega), VM.call_ok, ok_bind]
      have h8 : CHAR_BIT = 8 := rfl
      rw [h8, hcols, ok_bind]
    have hrne : ∀ k, k < n → (oy + (row + 1 + k)) % 32 ≠ (oy + row) % 32 := by
      intro k hk; omega
    have hidx : ∀ k, row + 1 + k = row + (k + 1) := by intro k; omega
    -- the first row is not touched by the later rows
    have hfirst : ∀ c, c < 8 →
        fb1 ((ox + c) % 64) ((oy + row) % 32) = fbA ((ox + c) % 64) ((oy + row) % 32) := by
      intro c _
      exact h2 _ _ (fun k c2 hk _ h => hrne k hk h.2.symm)
    -- the later rows are not touched by the first row
    have hlater : ∀ k c, k < n → fbA ((ox + c) % 64) ((oy + (row + 1 + k)) % 32) =
        vm.renderer.framebuffer ((ox + c) % 64) ((oy + (row + 1 + k)) % 32) := by
      intro k c hk
      exact hA2 _ _ (fun j _ h => hrne k hk h.2)
    refine ⟨fb1, modified1, hstep.trans hrun, ?_, ?_, h3, ?_⟩
    · intro r c hr hc
      cases r with
      | zero =>
        have := hA1 c hc
        rw [Nat.add_zero] at this
        rw [Nat.add_zero, hfirst c hc, this]
      | succ k =>
        have hk : k < n := by omega
        have := h1 k c hk hc
        rw [hlater k c hk, hidx] at this
        exact this
    · intro a b hab
      rw [h2 a b (fun k c hk hc h => hab (k + 1) c (by omega) hc (by rw [← hidx]; exact h))]
      exact hA2 a b (fun j hj h => hab 0 j (by omega) hj
        (by rw [Nat.add_zero] at h; rw [Nat.add_zero]; exact h))
    · rw [h4, hA4]
      constructor
      · rintro ((h | ⟨j, hj, h⟩) | ⟨k, c, hk, hc, h⟩)
        · exact Or.inl h
        · refine Or.inr ⟨0, j, by omega, hj, ?_⟩
          rw [Nat.add_zero] at h
          rw [Nat.add_zero]
          exact h
        · refine Or.inr ⟨k + 1, c, by omega, hc, ?_⟩
          rw [hlater k c hk, hidx] at h
          exact h
      · rintro (h | ⟨r, c, hr, hc, h⟩)
        · exact Or.inl (Or.inl h)
        · cases r with
          | zero =>
            refine Or.inl (Or.inr ⟨c, hc, ?_⟩)
            rw [Nat.add_zero] at h
            rw [Nat.add_zero]
            exact h
          | succ k =>
            refine Or.inr ⟨k, c, by omega, hc, ?_⟩
            rw [hlater k c (by omega), hidx]
            exact h

theorem VM.execute_instruction_D (vm : VM) (st : VMCycleState)
    (h3 : st.instruction.nibble 3 = .ok 0xD) :
    vm.execute_instruction st = vm.execute_prefixD_instruction st := by
  unfold VM.execute_instruction Instruction.prefix_nibble
  simp only [h3, VM.call_ok, ok_bind]

/-- What a step on `DXYN` does when the sprite lies inside memory: the `8 N` pixels of the
sprite are each XOR-ed once into the framebuffer, and the flag register receives `modified`,
which is 1 exactly when a sprite bit 1 met a pixel whose low bit was 1. -/
theorem VM.step_DXYN (vm : VM) (X Y N : Nat) (hwf : vm.state.wf)
    (hrun : vm.execution_state = .RUNNING) (hX : X < 16) (hY : Y < 16) (hN : N < 16)
    (hI : vm.state.i + N < 4096)
    (hfetch : vm.fetch_and_decode vm.state.pc = .ok ⟨opcode 0xD X Y N⟩) :
    ∃ vm1 modified, vm.step = .ok vm1 ∧ modified ≤ 1 ∧
      vm1.state.regs = vm.state.regs.set 15 modified ∧
      vm1.state.memory = vm.state.memory ∧ vm1.state.i = vm.state.i ∧
      vm1.state.timer = vm.state.timer ∧ vm1.state.sound_timer = vm.state.sound_timer ∧
      vm1.state.pc = (vm.state.pc + 2) % 4096 ∧ vm1.execution_state = .RUNNING ∧
      (∀ r c, r < N → c < 8 →
        vm1.renderer.framebuffer ((vm.state.V X + c) % 64) ((vm.state.V Y + r) % 32) =
          sprite_bit (vm.state.memory.getD (vm.state.i + r) 0) c ^^^
            vm.renderer.framebuffer ((vm.state.V X + c) % 64) ((vm.state.V Y + r) % 32)) ∧
      (∀ a b, (∀ r c, r < N → c < 8 →
          ¬ (a = (vm.state.V X + c) % 64 ∧ b = (vm.state.V Y + r) % 32)) →
        vm1.renderer.framebuffer a b = vm.renderer.framebuffer a b) ∧
      (modified = 1 ↔ ∃ r c, r < N ∧ c < 8 ∧
        (vm.renderer.framebuffer ((vm.state.V X + c) % 64) ((vm.state.V Y + r) % 32) &&&
          sprite_bit (vm.state.memory.getD (vm.state.i + r) 0) c) &&& 0x1 = 1) := by
  have hl := hwf.2.2.1
  have hml := hwf.1
  have hm : DEFAULT_MEMORY_SIZE = 4096 := rfl
  obtain ⟨h3, h2, h1, h0, -, -⟩ := decode_opcode 0xD X Y N (by decide) hX hY hN
  obtain ⟨fb1, modified, hrows, hp1, hp2, hp3, hp4⟩ := VM.draw_rows_spec (vm.state.V X)
    (vm.state.V Y) N 0 vm 0 (by omega) (by rw [hml, hm]; omega) (by decide)
  have hvx : to_regval (vm.state.V X) = vm.state.V X :=
    to_regval_of_lt _ (State.V_lt _ X hwf)
  have hvy : to_regval (vm.state.V Y) = vm.state.V Y :=
    to_regval_of_lt _ (State.V_lt _ Y hwf)
  have hvn : to_regval N = N := to_regval_of_lt _ (by omega)
  have hmod : to_regval modified = modified := to_regval_of_lt _ (by omega)
  have hexec : vm.execute_prefixD_instruction (VMCycleState.mk_cycle vm.execution_state
      vm.state.pc (vm.state.pc + CHARS_PER_INSTRUCTION) ⟨opcode 0xD X Y N⟩) = .ok
      ({ vm with
          renderer := Rendering.DummyRenderer.mk fb1
          state := { vm.state with regs := vm.state.regs.set 15 modified } },
        VMCycleState.mk_cycle vm.execution_state vm.state.pc
          (vm.state.pc + CHARS_PER_INSTRUCTION) ⟨opcode 0xD X Y N⟩) := by
    unfold VM.execute_prefixD_instruction
    simp only [VMCycleState.mk_cycle, h2, h1, h0, VM.call_ok, ok_bind, State.reg_eq _ _ hl hX,
      State.reg_eq _ _ hl hY, hvx, hvy, hvn, State.memory_size]
    rw [if_neg (by rw [hm]; omega), hrows, ok_bind]
    have hfl := VM.on_state_flag_register_set
      { vm with renderer := Rendering.DummyRenderer.mk fb1 } modified hl
    rw [hmod] at hfl
    simp only [hfl, ok_bind, ok_pure]
  have he := (VM.execute_instruction_D vm (VMCycleState.mk_cycle vm.execution_state
      vm.state.pc (vm.state.pc + CHARS_PER_INSTRUCTION) ⟨opcode 0xD X Y N⟩) h3).trans hexec
  -- the row loop counts rows from 0
  have hrow0 : ∀ r, vm.state.V Y + (0 + r) = vm.state.V Y + r := by intro r; omega
  have hmem0 : ∀ r, 0 + r + vm.state.i = vm.state.i + r := by intro r; omega
  have hstep := (VM.step_of_running vm hrun).trans (VM.step_running_eq vm _ _ _ hfetch he)
  refine ⟨_, modified, hstep, hp3, ?_, ?_, ?_, ?_, ?_, ?_, ?_, ?_, ?_, ?_⟩
  · simp only [VM.commit]
  · simp only [VM.commit]
  · simp only [VM.commit]
  · simp only [VM.commit]
  · simp only [VM.commit]
  · simp [VM.commit, VMCycleState.mk_cycle, CHARS_PER_INSTRUCTION, DEFAULT_MEMORY_SIZE]
  · simp [VM.commit, VMCycleState.mk_cycle, hrun]
  · intro r c hr hc
    have := hp1 r c hr hc
    rw [hrow0, hmem0] at this
    simp only [VM.commit]
    exact this
  · intro a b hab
    simp only [VM.commit]
    exact hp2 a b (fun r c hr hc h => hab r c hr hc (by rw [hrow0] at h; exact h))
  · rw [hp4]
    constructor
    · rintro (h | ⟨r, c, hr, hc, h⟩)
      · exact absurd h (by decide)
      · refine ⟨r, c, hr, hc, ?_⟩
        rw [hrow0, hmem0] at h
        exact h
    · rintro ⟨r, c, hr, hc, h⟩
      refine Or.inr ⟨r, c, hr, hc, ?_⟩
      rw [hrow0, hmem0]
      exact h

theorem State.memory_getD_lt (s : State) (j : Nat) (hw : s.wf) : s.memory.getD j 0 < 256 := by
  rw [List.getD_eq_getElem?_getD]
  cases h : s.memory[j]? with
  | none => simp
  | some v =>
    simp only [Option.getD_some]
    exact hw.2.1 v (List.getElem?_mem h)

theorem and_bits (a b : Nat) (ha : a ≤ 1) (hb : b ≤ 1) :
    ((a &&& b) &&& 0x1 = 1 ↔ a = 1 ∧ b = 1) := by
  rcases bit_cases a ha with h | h <;> rcases bit_cases b hb with h2 | h2 <;>
    rw [h, h2] <;> decide

theorem xor_bits (a b : Nat) (ha : a ≤ 1) (hb : b ≤ 1) :
    (a = 1 → b ^^^ a = 0 → b = 1) ∧ (a = 1 → b = 1 → b ^^^ a = 0) := by
  rcases bit_cases a ha with h | h <;> rcases bit_cases b hb with h2 | h2 <;>
    rw [h, h2] <;> decide

/-- Claim C12 (`DXYN`, pixel effect).  For every machine in `RUNNING` mode that fetches `DXYN`
with `I + N < 4096`, the step succeeds; each pixel at `((VX + c) mod 64, (VY + r) mod 32)` for
`r` in `0..N-1` and `c` in `0..7` is its old value XOR bit `(memory[I + r] >> (7 - c)) AND 1`,
every other pixel is unchanged, `I` and memory are unchanged, and `N = 0` draws nothing. -/
theorem draw_pixels_DXYN (vm : VM) (X Y N : Nat) (hwf : vm.state.wf)
    (hrun : vm.execution_state = .RUNNING) (hX : X < 16) (hY : Y < 16) (hN : N < 16)
    (hI : vm.state.i + N < 4096)
    (hfetch : vm.fetch_and_decode vm.state.pc = .ok ⟨opcode 0xD X Y N⟩) :
    ∃ vm1, vm.step = .ok vm1 ∧
      (∀ r c, r < N → c < 8 →
        vm1.renderer.framebuffer ((vm.state.V X + c) % 64) ((vm.state.V Y + r) % 32) =
          vm.renderer.framebuffer ((vm.state.V X + c) % 64) ((vm.state.V Y + r) % 32) ^^^
            ((vm.state.memory.getD (vm.state.i + r) 0 >>> (7 - c)) &&& 1)) ∧
      (∀ a b, (∀ r c, r < N → c < 8 →
          ¬ (a = (vm.state.V X + c) % 64 ∧ b = (vm.state.V Y + r) % 32)) →
        vm1.renderer.framebuffer a b = vm.renderer.framebuffer a b) ∧
      vm1.state.i = vm.state.i ∧ vm1.state.memory = vm.state.memory ∧
      (N = 0 → vm1.renderer = vm.renderer) := by
  obtain ⟨vm1, modified, hstep, -, -, hmem, hi, -, -, -, -, hpix, hother, -⟩ :=
    VM.step_DXYN vm X Y N hwf hrun hX hY hN hI hfetch
  refine ⟨vm1, hstep, ?_, hother, hi, hmem, ?_⟩
  · intro r c hr hc
    rw [hpix r c hr hc, sprite_bit_eq _ _ (State.memory_getD_lt _ _ hwf) hc, Nat.xor_comm]
  · intro h0
    have hall : ∀ a b, vm1.renderer.framebuffer a b = vm.renderer.framebuffer a b := by
      intro a b
      exact hother a b (fun r c hr _ _ => by omega)
    have hfun : vm1.renderer.framebuffer = vm.renderer.framebuffer := by
      funext a b; exact hall a b
    cases hr1 : vm1.renderer with
    | mk f1 =>
      cases hr0 : vm.renderer with
      | mk f0 =>
        rw [hr1, hr0] at hfun
        exact congrArg Rendering.DummyRenderer.mk hfun

theorem draw_pixels_DXYN_witness :
    ∃ vm1, VM.vm_D015.step = .ok vm1 ∧
      (∀ r c, r < 5 → c < 8 →
        vm1.renderer.framebuffer ((VM.vm_D015.state.V 0 + c) % 64)
            ((VM.vm_D015.state.V 1 + r) % 32) =
          VM.vm_D015.renderer.framebuffer ((VM.vm_D015.state.V 0 + c) % 64)
              ((VM.vm_D015.state.V 1 + r) % 32) ^^^
            ((VM.vm_D015.state.memory.getD (VM.vm_D015.state.i + r) 0 >>> (7 - c)) &&& 1)) ∧
      (∀ a b, (∀ r c, r < 5 → c < 8 →
          ¬ (a = (VM.vm_D015.state.V 0 + c) % 64 ∧ b = (VM.vm_D015.state.V 1 + r) % 32)) →
        vm1.renderer.framebuffer a b = VM.vm_D015.renderer.framebuffer a b) ∧
      vm1.state.i = VM.vm_D015.state.i ∧ vm1.state.memory = VM.vm_D015.state.memory ∧
      ((5 : Nat) = 0 → vm1.renderer = VM.vm_D015.renderer) :=
  draw_pixels_DXYN VM.vm_D015 0 1 5
    (VM.example_vm_wf [0xD0, 0x15] _ (by decide) (by decide) (by decide) (by decide)) rfl
    (by decide) (by decide) (by decide) (by decide) (VM.example_vm_fetch 0xD0 0x15 [] _)

theorem State.V_flag_set (s : State) (v : Nat) (hw : s.wf) :
    (s.regs.set 15 v).getD 0xF 0 = v := by
  have h16 : DEFAULT_REGISTER_SIZE = 16 := rfl
  rw [V_set _ _ _ _ (by rw [hw.2.2.1, h16]; decide), if_pos rfl]

/-- Claim C13 (`DXYN`, collision flag).  For every machine in `RUNNING` mode, with a
framebuffer of cells 0 or 1, that fetches `DXYN` with `I + N < 4096`, the step succeeds and
`VF` is 1 if and only if some framebuffer pixel changed from 1 to 0, that is if and only if
some sprite bit equal to 1 landed on a pixel that was 1; `VF` is 0 otherwise. -/
theorem draw_collision_DXYN (vm : VM) (X Y N : Nat) (hwf : vm.state.wf) (hr : vm.renderer.wf)
    (hrun : vm.execution_state = .RUNNING) (hX : X < 16) (hY : Y < 16) (hN : N < 16)
    (hI : vm.state.i + N < 4096)
    (hfetch : vm.fetch_and_decode vm.state.pc = .ok ⟨opcode 0xD X Y N⟩) :
    ∃ vm1, vm.step = .ok vm1 ∧
      (vm1.state.V 0xF = 1 ↔
        ∃ a b, vm.renderer.framebuffer a b = 1 ∧ vm1.renderer.framebuffer a b = 0) ∧
      (vm1.state.V 0xF = 1 ↔ ∃ r c, r < N ∧ c < 8 ∧
        (vm.state.memory.getD (vm.state.i + r) 0 >>> (7 - c)) &&& 1 = 1 ∧
        vm.renderer.framebuffer ((vm.state.V X + c) % 64) ((vm.state.V Y + r) % 32) = 1) ∧
      (vm1.state.V 0xF = 0 ∨ vm1.state.V 0xF = 1) := by
  obtain ⟨vm1, modified, hstep, hle, hregs, -, -, -, -, -, -, hpix, hother, hmod⟩ :=
    VM.step_DXYN vm X Y N hwf hrun hX hY hN hI hfetch
  have hVF : vm1.state.V 0xF = modified := by
    rw [State.V_eq, hregs, State.V_flag_set _ _ hwf]
  have hbit : ∀ r c, c < 8 → sprite_bit (vm.state.memory.getD (vm.state.i + r) 0) c =
      (vm.state.memory.getD (vm.state.i + r) 0 >>> (7 - c)) &&& 1 := by
    intro r c hc
    exact sprite_bit_eq _ _ (State.memory_getD_lt _ _ hwf) hc
  -- collisions, told by the sprite bits
  have hbits : modified = 1 ↔ ∃ r c, r < N ∧ c < 8 ∧
      (vm.state.memory.getD (vm.state.i + r) 0 >>> (7 - c)) &&& 1 = 1 ∧
      vm.renderer.framebuffer ((vm.state.V X + c) % 64) ((vm.state.V Y + r) % 32) = 1 := by
    rw [hmod]
    constructor
    · rintro ⟨r, c, hr1, hc, h⟩
      have := (and_bits _ _ (hr _ _) (sprite_bit_le _ _)).mp h
      exact ⟨r, c, hr1, hc, by rw [← hbit r c hc]; exact this.2, this.1⟩
    · rintro ⟨r, c, hr1, hc, h1, h2⟩
      refine ⟨r, c, hr1, hc, ?_⟩
      exact (and_bits _ _ (hr _ _) (sprite_bit_le _ _)).mpr ⟨h2, by rw [hbit r c hc]; exact h1⟩
  refine ⟨vm1, hstep, ?_, ?_, ?_⟩
  · rw [hVF, hbits]
    constructor
    · rintro ⟨r, c, hr1, hc, h1, h2⟩
      refine ⟨_, _, h2, ?_⟩
      rw [hpix r c hr1 hc]
      exact (xor_bits _ _ (hr _ _) (sprite_bit_le _ _)).2 h2 (by rw [hbit r c hc]; exact h1)
    · rintro ⟨a, b, hold, hnew⟩
      by_contra hno
      have hnot : ∀ r c, r < N → c < 8 →
          ¬ (a = (vm.state.V X + c) % 64 ∧ b = (vm.state.V Y + r) % 32) := by
        intro r c hr1 hc hab
        apply hno
        have hp := hpix r c hr1 hc
        rw [← hab.1, ← hab.2, hnew] at hp
        have hb1 := (xor_bits _ _ (hr a b) (sprite_bit_le _ _)).1 hold hp.symm
        exact ⟨r, c, hr1, hc, by rw [← hbit r c hc]; exact hb1, by rw [← hab.1, ← hab.2]; exact hold⟩
      have hsame := hother a b hnot
      rw [hnew, hold] at hsame
      exact absurd hsame (by decide)
  · rw [hVF]; exact hbits
  · rw [hVF]; exact bit_cases _ hle

theorem draw_collision_DXYN_witness :
    ∃ vm1, VM.vm_D015.step = .ok vm1 ∧
      (vm1.state.V 0xF = 1 ↔
        ∃ a b, VM.vm_D015.renderer.framebuffer a b = 1 ∧ vm1.renderer.framebuffer a b = 0) ∧
      (vm1.state.V 0xF = 1 ↔ ∃ r c, r < 5 ∧ c < 8 ∧
        (VM.vm_D015.state.memory.getD (VM.vm_D015.state.i + r) 0 >>> (7 - c)) &&& 1 = 1 ∧
        VM.vm_D015.renderer.framebuffer ((VM.vm_D015.state.V 0 + c) % 64)
          ((VM.vm_D015.state.V 1 + r) % 32) = 1) ∧
      (vm1.state.V 0xF = 0 ∨ vm1.state.V 0xF = 1) :=
  draw_collision_DXYN VM.vm_D015 0 1 5
    (VM.example_vm_wf [0xD0, 0x15] _ (by decide) (by decide) (by decide) (by decide))
    (fun _ _ => Nat.zero_le 1) rfl
    (by decide) (by decide) (by decide) (by decide) (VM.example_vm_fetch 0xD0 0x15 [] _)

theorem State.wf_of_flag_set (s s1 : State) (m : Nat) (hw : s.wf) (hm : m < 256)
    (hmem : s1.memory = s.memory) (hregs : s1.regs = s.regs.set 15 m)
    (ht : s1.timer = s.timer) (hst : s1.sound_timer = s.sound_timer) : s1.wf := by
  refine ⟨by rw [hmem]; exact hw.1, by rw [hmem]; exact hw.2.1, ?_, ?_,
    by rw [hst]; exact hw.2.2.2.2.1, by rw [ht]; exact hw.2.2.2.2.2⟩
  · rw [hregs, List.length_set]; exact hw.2.2.1
  · intro r hr
    rw [hregs] at hr
    rcases List.mem_or_eq_of_mem_set hr with h | h
    · exact hw.2.2.2.1 r h
    · rw [h]; exact hm

/-- Claim C14 (double draw).  For every machine in `RUNNING` mode with a cleared framebuffer
that fetches `DXYN` with `X`, `Y` other than `0xF` and `I + N < 4096`: the step succeeds and
leaves `VF = 0`, with `I`, `VX`, `VY` and memory as before; and when the program counter is
then put on a `DXYN` again (the same address or any address `p` holding that instruction), the
second step succeeds, leaves the framebuffer all zero again and, if any of the `N` sprite
bytes is non-zero, leaves `VF = 1`. -/
theorem double_draw_DXYN (vm : VM) (X Y N : Nat) (hwf : vm.state.wf)
    (hclear : ∀ a b, vm.renderer.framebuffer a b = 0)
    (hrun : vm.execution_state = .RUNNING) (hX : X < 16) (hY : Y < 16) (hN : N < 16)
    (hXF : X ≠ 0xF) (hYF : Y ≠ 0xF) (hI : vm.state.i + N < 4096)
    (hfetch : vm.fetch_and_decode vm.state.pc = .ok ⟨opcode 0xD X Y N⟩) :
    ∃ vm1, vm.step = .ok vm1 ∧ vm1.state.V 0xF = 0 ∧
      vm1.state.i = vm.state.i ∧ vm1.state.V X = vm.state.V X ∧
      vm1.state.V Y = vm.state.V Y ∧ vm1.state.memory = vm.state.memory ∧
      ∀ p, ({ vm1 with state := { vm1.state with pc := p } } : VM).fetch_and_decode p =
          .ok ⟨opcode 0xD X Y N⟩ →
        ∃ vm3, ({ vm1 with state := { vm1.state with pc := p } } : VM).step = .ok vm3 ∧
          (∀ a b, vm3.renderer.framebuffer a b = 0) ∧
          ((∃ r, r < N ∧ vm.state.memory.getD (vm.state.i + r) 0 ≠ 0) →
            vm3.state.V 0xF = 1) := by
  have hl := hwf.2.2.1
  have h16 : DEFAULT_REGISTER_SIZE = 16 := rfl
  obtain ⟨vm1, m1, hstep1, hle1, hregs1, hmem1, hi1, ht1, hst1, -, hrun1, hpix1, hother1,
    hmod1⟩ := VM.step_DXYN vm X Y N hwf hrun hX hY hN hI hfetch
  -- no collision on a cleared framebuffer
  have hm1 : m1 = 0 := by
    rcases bit_cases m1 hle1 with h | h
    · exact h
    · obtain ⟨r, c, -, -, hcol⟩ := hmod1.mp h
      rw [hclear, Nat.zero_and, Nat.zero_and] at hcol
      exact absurd hcol (by decide)
  have hVX1 : vm1.state.V X = vm.state.V X := by
    rw [State.V_eq, hregs1, V_set _ _ _ _ (by omega), if_neg hXF, ← State.V_eq]
  have hVY1 : vm1.state.V Y = vm.state.V Y := by
    rw [State.V_eq, hregs1, V_set _ _ _ _ (by omega), if_neg hYF, ← State.V_eq]
  have hVF1 : vm1.state.V 0xF = 0 := by
    rw [State.V_eq, hregs1, State.V_flag_set _ _ hwf, hm1]
  refine ⟨vm1, hstep1, hVF1, hi1, hVX1, hVY1, hmem1, ?_⟩
  intro p hfetch2
  have hwf2 : ({ vm1 with state := { vm1.state with pc := p } } : VM).state.wf :=
    State.wf_of_flag_set vm.state _ m1 hwf (by omega) hmem1 hregs1 ht1 hst1
  generalize hvm2 : ({ vm1 with state := { vm1.state with pc := p } } : VM) = vm2
    at hfetch2 hwf2
  have hV2X : vm2.state.V X = vm.state.V X := by rw [← hvm2]; exact hVX1
  have hV2Y : vm2.state.V Y = vm.state.V Y := by rw [← hvm2]; exact hVY1
  have hm2 : vm2.state.memory = vm.state.memory := by rw [← hvm2]; exact hmem1
  have hi2 : vm2.state.i = vm.state.i := by rw [← hvm2]; exact hi1
  have hr2 : vm2.renderer = vm1.renderer := by rw [← hvm2]
  have hrun2 : vm2.execution_state = .RUNNING := by rw [← hvm2]; exact hrun1
  have hregs2 : vm2.state.regs = vm1.state.regs := by rw [← hvm2]
  have hpc2 : vm2.state.pc = p := by rw [← hvm2]
  rw [← hpc2] at hfetch2
  obtain ⟨vm3, m2, hstep3, hle2, hregs3, -, -, -, -, -, -, hpix3, hother3, hmod3⟩ :=
    VM.step_DXYN vm2 X Y N hwf2 hrun2 hX hY hN (by rw [hi2]; exact hI) hfetch2
  rw [hV2X, hV2Y, hm2, hi2, hr2] at hpix3 hmod3
  rw [hV2X, hV2Y, hr2] at hother3
  -- after the first draw a sprite pixel holds the sprite bit
  have hfirst : ∀ r c, r < N → c < 8 →
      vm1.renderer.framebuffer ((vm.state.V X + c) % 64) ((vm.state.V Y + r) % 32) =
        sprite_bit (vm.state.memory.getD (vm.state.i + r) 0) c := by
    intro r c hr hc
    rw [hpix1 r c hr hc, hclear, Nat.xor_zero]
  refine ⟨vm3, hstep3, ?_, ?_⟩
  · intro a b
    by_cases h : ∃ r c, r < N ∧ c < 8 ∧
        a = (vm.state.V X + c) % 64 ∧ b = (vm.state.V Y + r) % 32
    · obtain ⟨r, c, hr, hc, ha, hb⟩ := h
      rw [ha, hb, hpix3 r c hr hc, hfirst r c hr hc, Nat.xor_self]
    · have hnot : ∀ r c, r < N → c < 8 →
          ¬ (a = (vm.state.V X + c) % 64 ∧ b = (vm.state.V Y + r) % 32) :=
        fun r c hr hc hab => h ⟨r, c, hr, hc, hab.1, hab.2⟩
      rw [hother3 a b hnot, hother1 a b hnot, hclear]
  · rintro ⟨r, hr, hbyte⟩
    obtain ⟨c, hc, hbit⟩ := sprite_byte_nonzero _ (State.memory_getD_lt _ _ hwf) hbyte
    have hm2one : m2 = 1 := by
      rw [hmod3]
      refine ⟨r, c, hr, hc, ?_⟩
      rw [hfirst r c hr hc, hbit]
      decide
    have hl1 : vm1.state.regs.length = 16 := by
      rw [hregs1, List.length_set, hl, h16]
    rw [State.V_eq, hregs3, hregs2, V_set _ _ _ _ (by omega), if_pos rfl, hm2one]

theorem double_draw_DXYN_witness :
    ∃ vm1, VM.vm_D015.step = .ok vm1 ∧ vm1.state.V 0xF = 0 ∧
      vm1.state.i = VM.vm_D015.state.i ∧ vm1.state.V 0 = VM.vm_D015.state.V 0 ∧
      vm1.state.V 1 = VM.vm_D015.state.V 1 ∧ vm1.state.memory = VM.vm_D015.state.memory ∧
      ∀ p, ({ vm1 with state := { vm1.state with pc := p } } : VM).fetch_and_decode p =
          .ok ⟨opcode 0xD 0 1 5⟩ →
        ∃ vm3, ({ vm1 with state := { vm1.state with pc := p } } : VM).step = .ok vm3 ∧
          (∀ a b, vm3.renderer.framebuffer a b = 0) ∧
          ((∃ r, r < 5 ∧ VM.vm_D015.state.memory.getD (VM.vm_D015.state.i + r) 0 ≠ 0) →
            vm3.state.V 0xF = 1) :=
  double_draw_DXYN VM.vm_D015 0 1 5
    (VM.example_vm_wf [0xD0, 0x15] _ (by decide) (by decide) (by decide) (by decide))
    (fun _ _ => rfl) rfl
    (by decide) (by decide) (by decide) (by decide) (by decide) (by decide)
    (VM.example_vm_fetch 0xD0 0x15 [] _)

/-! ## Invariant of `step` -/

theorem bind_eq_ok {ε α β : Type} (x : Except ε α) (f : α → Except ε β) (b : β) :
    (x >>= f) = .ok b ↔ ∃ a, x = .ok a ∧ f a = .ok b := by
  cases x with
  | error e =>
    rw [error_bind]
    constructor
    · intro h; cases h
    · rintro ⟨a, h, -⟩; cases h
  | ok a =>
    rw [ok_bind]
    constructor
    · intro h; exact ⟨a, rfl, h⟩
    · rintro ⟨a1, h, h1⟩; cases h; exact h1

theorem keeps_bind {ε α β : Type} (p : β → Prop) (x : Except ε α) (f : α → Except ε β)
    (h : ∀ a, x = .ok a → keeps p (f a)) : keeps p (x >>= f) := by
  intro b hb
  obtain ⟨a, ha, hfa⟩ := (bind_eq_ok x f b).mp hb
  exact h a ha b hfa

theorem keeps_ok {ε α : Type} (p : α → Prop) (a : α) (h : p a) :
    keeps p (Except.ok a : Except ε α) := by
  intro b hb; cases hb; exact h

theorem keeps_pure {ε α : Type} (p : α → Prop) (a : α) (h : p a) :
    keeps p (pure a : Except ε α) := by
  rw [ok_pure]; exact keeps_ok p a h

theorem keeps_error {ε α : Type} (p : α → Prop) (e : ε) :
    keeps p (Except.error e : Except ε α) := by
  intro b hb; cases hb

theorem VM.keeps_raise {α : Type} (p : α → Prop) (vm : VM) :
    keeps p (VM.raise_illegal_opcode_error vm : Outcome α) := keeps_error p _

theorem VM.call_eq_ok {α : Type} (vm : VM) (e : Except Fault α) (a : α)
    (h : vm.call e = .ok a) : e = .ok a := by
  cases e with
  | error f => rw [VM.call_error] at h; cases h
  | ok b => rw [VM.call_ok] at h; cases h; rfl

theorem VM.keeps_bind_call {α β : Type} (p : β → Prop) (vm : VM) (e : Except Fault α)
    (f : α → Outcome β) (h : ∀ a, e = .ok a → keeps p (f a)) :
    keeps p (vm.call e >>= f) :=
  keeps_bind p _ f (fun a ha => h a (VM.call_eq_ok vm e a ha))

theorem VM.on_state_eq_ok (vm vm1 : VM) (f : State → Except Fault State)
    (h : vm.on_state f = .ok vm1) : ∃ s, f vm.state = .ok s ∧ vm1 = { vm with state := s } := by
  cases hf : f vm.state with
  | error e => rw [VM.on_state_error vm f e hf] at h; cases h
  | ok s => rw [VM.on_state_ok vm f s hf] at h; cases h; exact ⟨s, rfl, rfl⟩

/-- A `State` method that keeps the sizes of the two vectors keeps the shape of the machine. -/
theorem VM.on_state_shaped (m r : Nat) (vm vm1 : VM) (f : State → Except Fault State)
    (hf : ∀ s t, f s = .ok t → t.memory.length = s.memory.length ∧
      t.regs.length = s.regs.length)
    (h0 : vm.shaped m r) (h : vm.on_state f = .ok vm1) : vm1.shaped m r := by
  obtain ⟨s, hs, rfl⟩ := VM.on_state_eq_ok vm vm1 f h
  obtain ⟨h1, h2⟩ := hf _ _ hs
  exact ⟨h1.trans h0.1, h2.trans h0.2⟩

theorem VM.keeps_bind_on_state {β : Type} (p : β → Prop) (m r : Nat) (vm : VM)
    (f : State → Except Fault State) (g : VM → Outcome β)
    (hf : ∀ s t, f s = .ok t → t.memory.length = s.memory.length ∧
      t.regs.length = s.regs.length)
    (h0 : vm.shaped m r) (h : ∀ vm1, vm1.shaped m r → keeps p (g vm1)) :
    keeps p (vm.on_state f >>= g) :=
  keeps_bind p _ g (fun vm1 h1 => h vm1 (VM.on_state_shaped m r vm vm1 f hf h0 h1))

theorem State.reg_set_shape (n v : Nat) (s t : State) (h : s.reg_set n v = .ok t) :
    t.memory.length = s.memory.length ∧ t.regs.length = s.regs.length := by
  unfold State.reg_set at h
  split at h
  · cases h
  · split at h
    · cases h; exact ⟨rfl, List.length_set _ _ _⟩
    · cases h

theorem State.flag_register_set_shape (v : Nat) (s t : State)
    (h : s.flag_register_set v = .ok t) :
    t.memory.length = s.memory.length ∧ t.regs.length = s.regs.length := by
  unfold State.flag_register_set at h
  split at h
  · cases h
  · split at h
    · cases h; exact ⟨rfl, List.length_set _ _ _⟩
    · cases h

theorem State.flag_ite_shape (c : Prop) [Decidable c] (a b : Nat) (s t : State)
    (h : (if c then s.flag_register_set a else s.flag_register_set b) = .ok t) :
    t.memory.length = s.memory.length ∧ t.regs.length = s.regs.length := by
  split at h
  · exact State.flag_register_set_shape _ _ _ h
  · exact State.flag_register_set_shape _ _ _ h

theorem State.memory_set_shape (n v : Nat) (s t : State) (h : s.memory_set n v = .ok t) :
    t.memory.length = s.memory.length ∧ t.regs.length = s.regs.length := by
  unfold State.memory_set at h
  split at h
  · cases h
  · split at h
    · cases h; exact ⟨List.length_set _ _ _, rfl⟩
    · cases h

theorem State.index_register_set_shape (n : Nat) (s t : State)
    (h : s.index_register_set n = .ok t) :
    t.memory.length = s.memory.length ∧ t.regs.length = s.regs.length := by
  unfold State.index_register_set at h
  split at h
  · cases h
  · cases h; exact ⟨rfl, rfl⟩

theorem State.push_callstack_shape (n : Nat) (s t : State)
    (h : s.push_callstack n = .ok t) :
    t.memory.length = s.memory.length ∧ t.regs.length = s.regs.length := by
  unfold State.push_callstack at h
  split at h
  · cases h
  · cases h; exact ⟨rfl, rfl⟩

theorem State.pop_callstack_shape (v : Nat) (s t : State)
    (h : s.pop_callstack = .ok (v, t)) :
    t.memory.length = s.memory.length ∧ t.regs.length = s.regs.length := by
  unfold State.pop_callstack at h
  split at h
  · cases h
  · cases h; exact ⟨rfl, rfl⟩

theorem VM.execute_prefix0_shaped (m r : Nat) (vm : VM) (st : VMCycleState)
    (h0 : vm.shaped m r) :
    keeps (fun res => VM.shaped m r res.1) (vm.execute_prefix0_instruction st) := by
  unfold VM.execute_prefix0_instruction
  split
  · exact keeps_ok _ _ h0
  · exact keeps_ok _ _ h0
  · refine VM.keeps_bind_call _ _ _ _ ?_
    rintro ⟨value, s⟩ hs
    refine keeps_pure _ _ ?_
    obtain ⟨h1, h2⟩ := State.pop_callstack_shape _ _ _ hs
    exact ⟨h1.trans h0.1, h2.trans h0.2⟩
  · exact VM.keeps_raise _ _

theorem VM.execute_prefix1_shaped (m r : Nat) (vm : VM) (st : VMCycleState)
    (h0 : vm.shaped m r) :
    keeps (fun res => VM.shaped m r res.1) (vm.execute_prefix1_instruction st) := by
  unfold VM.execute_prefix1_instruction
  exact keeps_ok _ _ h0

theorem VM.execute_prefix2_shaped (m r : Nat) (vm : VM) (st : VMCycleState)
    (h0 : vm.shaped m r) :
    keeps (fun res => VM.shaped m r res.1) (vm.execute_prefix2_instruction st) := by
  unfold VM.execute_prefix2_instruction
  refine VM.keeps_bind_on_state _ m r _ _ _ ?_ h0 ?_
  · intro s t h; exact State.push_callstack_shape _ _ _ h
  · intro vm1 h1; exact keeps_pure _ _ h1

theorem VM.execute_prefix3_shaped (m r : Nat) (vm : VM) (st : VMCycleState)
    (h0 : vm.shaped m r) :
    keeps (fun res => VM.shaped m r res.1) (vm.execute_prefix3_instruction st) := by
  unfold VM.execute_prefix3_instruction
  refine VM.keeps_bind_call _ _ _ _ (fun _ _ => ?_)
  refine VM.keeps_bind_call _ _ _ _ (fun _ _ => ?_)
  dsimp only
  split
  · exact keeps_pure _ _ h0
  · exact keeps_pure _ _ h0

theorem VM.execute_prefix4_shaped (m r : Nat) (vm : VM) (st : VMCycleState)
    (h0 : vm.shaped m r) :
    keeps (fun res => VM.shaped m r res.1) (vm.execute_prefix4_instruction st) := by
  unfold VM.execute_prefix4_instruction
  refine VM.keeps_bind_call _ _ _ _ (fun _ _ => ?_)
  refine VM.keeps_bind_call _ _ _ _ (fun _ _ => ?_)
  dsimp only
  split
  · exact keeps_pure _ _ h0
  · exact keeps_pure _ _ h0

theorem VM.execute_prefix5_shaped (m r : Nat) (vm : VM) (st : VMCycleState)
    (h0 : vm.shaped m r) :
    keeps (fun res => VM.shaped m r res.1) (vm.execute_prefix5_instruction st) := by
  unfold VM.execute_prefix5_instruction
  refine VM.keeps_bind_call _ _ _ _ (fun _ _ => ?_)
  split
  · exact VM.keeps_raise _ _
  · refine VM.keeps_bind_call _ _ _ _ (fun _ _ => ?_)
    refine VM.keeps_bind_call _ _ _ _ (fun _ _ => ?_)
    refine VM.keeps_bind_call _ _ _ _ (fun _ _ => ?_)
    refine VM.keeps_bind_call _ _ _ _ (fun _ _ => ?_)
    split
    · exact keeps_pure _ _ h0
    · exact keeps_pure _ _ h0

theorem VM.execute_prefix6_shaped (m r : Nat) (vm : VM) (st : VMCycleState)
    (h0 : vm.shaped m r) :
    keeps (fun res => VM.shaped m r res.1) (vm.execute_prefix6_instruction st) := by
  unfold VM.execute_prefix6_instruction
  refine VM.keeps_bind_call _ _ _ _ (fun _ _ => ?_)
  dsimp only
  refine VM.keeps_bind_on_state _ m r _ _ _ ?_ h0 ?_
  · intro s t h; exact State.reg_set_shape _ _ _ _ h
  · intro vm1 h1; exact keeps_pure _ _ h1

theorem VM.execute_prefix7_shaped (m r : Nat) (vm : VM) (st : VMCycleState)
    (h0 : vm.shaped m r) :
    keeps (fun res => VM.shaped m r res.1) (vm.execute_prefix7_instruction st) := by
  unfold VM.execute_prefix7_instruction
  refine VM.keeps_bind_call _ _ _ _ (fun _ _ => ?_)
  refine VM.keeps_bind_call _ _ _ _ (fun _ _ => ?_)
  dsimp only
  refine VM.keeps_bind_on_state _ m r _ _ _ ?_ h0 ?_
  · intro s t h; exact State.reg_set_shape _ _ _ _ h
  · intro vm1 h1; exact keeps_pure _ _ h1

/-- The tail shared by the arithmetic instructions: set the flag, then the register. -/
theorem VM.flag_then_reg_shaped (m r : Nat) (vm : VM) (st : VMCycleState)
    (f : State → Except Fault State) (x v : Nat)
    (hf : ∀ s t, f s = .ok t → t.memory.length = s.memory.length ∧
      t.regs.length = s.regs.length) (h0 : vm.shaped m r) :
    keeps (fun res => VM.shaped m r res.1)
      (vm.on_state f >>= fun vm1 =>
        vm1.on_state (fun s => s.reg_set x v) >>= fun vm2 =>
          (pure (vm2, st) : Outcome (VM × VMCycleState))) := by
  refine VM.keeps_bind_on_state _ m r _ _ _ hf h0 ?_
  intro vm1 h1
  refine VM.keeps_bind_on_state _ m r _ _ _ ?_ h1 ?_
  · intro s t h; exact State.reg_set_shape _ _ _ _ h
  · intro vm2 h2; exact keeps_pure _ _ h2

theorem VM.execute_prefix8_shaped (m r : Nat) (vm : VM) (st : VMCycleState)
    (h0 : vm.shaped m r) :
    keeps (fun res => VM.shaped m r res.1) (vm.execute_prefix8_instruction st) := by
  have hreg : ∀ (x v : Nat), keeps (fun res => VM.shaped m r res.1)
      (vm.on_state (fun s => s.reg_set x v) >>= fun vm1 =>
        (pure (vm1, st) : Outcome (VM × VMCycleState))) := by
    intro x v
    refine VM.keeps_bind_on_state _ m r _ _ _ ?_ h0 ?_
    · intro s t h; exact State.reg_set_shape _ _ _ _ h
    · intro vm1 h1; exact keeps_pure _ _ h1
  unfold VM.execute_prefix8_instruction
  refine VM.keeps_bind_call _ _ _ _ (fun x _ => ?_)
  refine VM.keeps_bind_call _ _ _ _ (fun y _ => ?_)
  refine VM.keeps_bind_call _ _ _ _ (fun vx _ => ?_)
  refine VM.keeps_bind_call _ _ _ _ (fun vy _ => ?_)
  refine VM.keeps_bind_call _ _ _ _ (fun n _ => ?_)
  split
  · exact hreg _ _
  · exact hreg _ _
  · exact hreg _ _
  · exact hreg _ _
  · exact VM.flag_then_reg_shaped m r vm st _ _ _
      (fun s t h => State.flag_ite_shape _ _ _ s t h) h0
  · exact VM.flag_then_reg_shaped m r vm st _ _ _
      (fun s t h => State.flag_ite_shape _ _ _ s t h) h0
  · refine VM.keeps_bind_on_state _ m r _ _ _ ?_ h0 ?_
    · intro s t h; exact State.flag_register_set_shape _ _ _ h
    · intro vm1 h1
      refine VM.keeps_bind_call _ _ _ _ (fun _ _ => ?_)
      refine VM.keeps_bind_on_state _ m r _ _ _ ?_ h1 ?_
      · intro s t h; exact State.reg_set_shape _ _ _ _ h
      · intro vm2 h2; exact keeps_pure _ _ h2
  · exact VM.flag_then_reg_shaped m r vm st _ _ _
      (fun s t h => State.flag_ite_shape _ _ _ s t h) h0
  · refine VM.keeps_bind_on_state _ m r _ _ _ ?_ h0 ?_
    · intro s t h; exact State.flag_ite_shape _ _ _ s t h
    · intro vm1 h1
      refine VM.keeps_bind_call _ _ _ _ (fun _ _ => ?_)
      refine VM.keeps_bind_on_state _ m r _ _ _ ?_ h1 ?_
      · intro s t h; exact State.reg_set_shape _ _ _ _ h
      · intro vm2 h2; exact keeps_pure _ _ h2
  · exact VM.keeps_raise _ _

theorem VM.execute_prefix9_shaped (m r : Nat) (vm : VM) (st : VMCycleState)
    (h0 : vm.shaped m r) :
    keeps (fun res => VM.shaped m r res.1) (vm.execute_prefix9_instruction st) := by
  unfold VM.execute_prefix9_instruction
  refine VM.keeps_bind_call _ _ _ _ (fun _ _ => ?_)
  split
  · exact VM.keeps_raise _ _
  · refine VM.keeps_bind_call _ _ _ _ (fun _ _ => ?_)
    refine VM.keeps_bind_call _ _ _ _ (fun _ _ => ?_)
    refine VM.keeps_bind_call _ _ _ _ (fun _ _ => ?_)
    refine VM.keeps_bind_call _ _ _ _ (fun _ _ => ?_)
    split
    · exact keeps_pure _ _ h0
    · exact keeps_pure _ _ h0

theorem VM.execute_prefixA_shaped (m r : Nat) (vm : VM) (st : VMCycleState)
    (h0 : vm.shaped m r) :
    keeps (fun res => VM.shaped m r res.1) (vm.execute_prefixA_instruction st) := by
  unfold VM.execute_prefixA_instruction
  refine VM.keeps_bind_on_state _ m r _ _ _ ?_ h0 ?_
  · intro s t h; exact State.index_register_set_shape _ _ _ h
  · intro vm1 h1; exact keeps_pure _ _ h1

theorem VM.execute_prefixB_shaped (m r : Nat) (vm : VM) (st : VMCycleState)
    (h0 : vm.shaped m r) :
    keeps (fun res => VM.shaped m r res.1) (vm.execute_prefixB_instruction st) := by
  unfold VM.execute_prefixB_instruction
  refine VM.keeps_bind_call _ _ _ _ (fun _ _ => ?_)
  exact keeps_pure _ _ h0

theorem VM.execute_prefixC_shaped (m r : Nat) (vm : VM) (st : VMCycleState)
    (h0 : vm.shaped m r) :
    keeps (fun res => VM.shaped m r res.1) (vm.execute_prefixC_instruction st) := by
  unfold VM.execute_prefixC_instruction
  dsimp only
  refine VM.keeps_bind_call _ _ _ _ (fun _ _ => ?_)
  refine VM.keeps_bind_on_state _ m r _ _ _ ?_ h0 ?_
  · intro s t h; exact State.reg_set_shape _ _ _ _ h
  · intro vm1 h1; exact keeps_pure _ _ h1

theorem VM.execute_prefixE_shaped (m r : Nat) (vm : VM) (st : VMCycleState)
    (h0 : vm.shaped m r) :
    keeps (fun res => VM.shaped m r res.1) (vm.execute_prefixE_instruction st) := by
  unfold VM.execute_prefixE_instruction
  refine VM.keeps_bind_call _ _ _ _ (fun _ _ => ?_)
  refine VM.keeps_bind_call _ _ _ _ (fun _ _ => ?_)
  dsimp only
  split
  · split
    · exact keeps_pure _ _ h0
    · exact keeps_pure _ _ h0
  · split
    · exact keeps_pure _ _ h0
    · exact keeps_pure _ _ h0
  · exact VM.keeps_raise _ _

theorem VM.draw_cols_shaped (m r ox oy row : Nat) :
    ∀ (n col : Nat) (vm : VM) (v modified : Nat), vm.shaped m r →
      keeps (fun res => VM.shaped m r res.1) (VM.draw_cols ox oy row n col vm v modified) := by
  intro n
  induction n with
  | zero =>
    intro col vm v modified h0
    unfold VM.draw_cols
    exact keeps_ok _ _ h0
  | succ k ih =>
    intro col vm v modified h0
    rw [VM.draw_cols_succ]
    exact ih _ _ _ _ h0

theorem VM.draw_rows_shaped (m r ox oy : Nat) :
    ∀ (n row : Nat) (vm : VM) (modified : Nat), vm.shaped m r →
      keeps (fun res => VM.shaped m r res.1) (VM.draw_rows ox oy n row vm modified) := by
  intro n
  induction n with
  | zero =>
    intro row vm modified h0
    unfold VM.draw_rows
    exact keeps_ok _ _ h0
  | succ k ih =>
    intro row vm modified h0
    unfold VM.draw_rows
    refine VM.keeps_bind_call _ _ _ _ (fun v _ => ?_)
    refine keeps_bind _ _ _ ?_
    rintro ⟨vm1, modified1⟩ h1
    exact ih _ _ _ (VM.draw_cols_shaped m r ox oy row _ _ _ _ _ h0 _ h1)

theorem VM.execute_prefixD_shaped (m r : Nat) (vm : VM) (st : VMCycleState)
    (h0 : vm.shaped m r) :
    keeps (fun res => VM.shaped m r res.1) (vm.execute_prefixD_instruction st) := by
  unfold VM.execute_prefixD_instruction
  refine VM.keeps_bind_call _ _ _ _ (fun _ _ => ?_)
  refine VM.keeps_bind_call _ _ _ _ (fun _ _ => ?_)
  dsimp only
  refine VM.keeps_bind_call _ _ _ _ (fun _ _ => ?_)
  refine VM.keeps_bind_call _ _ _ _ (fun _ _ => ?_)
  dsimp only
  refine VM.keeps_bind_call _ _ _ _ (fun _ _ => ?_)
  dsimp only
  split
  · exact keeps_error _ _
  · refine keeps_bind _ _ _ ?_
    rintro ⟨vm1, modified⟩ h1
    have hs1 : vm1.shaped m r := VM.draw_rows_shaped m r _ _ _ _ _ _ h0 _ h1
    refine VM.keeps_bind_on_state _ m r _ _ _ ?_ hs1 ?_
    · intro s t h; exact State.flag_register_set_shape _ _ _ h
    · intro vm2 h2; exact keeps_pure _ _ h2

theorem VM.save_loop_shaped (m r : Nat) :
    ∀ (n i : Nat) (vm : VM), vm.shaped m r → keeps (VM.shaped m r) (VM.save_loop n i vm) := by
  intro n
  induction n with
  | zero =>
    intro i vm h0
    unfold VM.save_loop
    exact keeps_ok _ _ h0
  | succ k ih =>
    intro i vm h0
    unfold VM.save_loop
    refine VM.keeps_bind_call _ _ _ _ (fun v _ => ?_)
    refine VM.keeps_bind_on_state _ m r _ _ _ ?_ h0 ?_
    · intro s t h; exact State.memory_set_shape _ _ _ _ h
    · intro vm1 h1; exact ih _ _ h1

theorem VM.load_loop_shaped (m r : Nat) :
    ∀ (n i : Nat) (vm : VM), vm.shaped m r → keeps (VM.shaped m r) (VM.load_loop n i vm) := by
  intro n
  induction n with
  | zero =>
    intro i vm h0
    unfold VM.load_loop
    exact keeps_ok _ _ h0
  | succ k ih =>
    intro i vm h0
    unfold VM.load_loop
    refine VM.keeps_bind_call _ _ _ _ (fun v _ => ?_)
    refine VM.keeps_bind_on_state _ m r _ _ _ ?_ h0 ?_
    · intro s t h; exact State.reg_set_shape _ _ _ _ h
    · intro vm1 h1; exact ih _ _ h1

theorem VM.execute_prefixF_shaped (m r : Nat) (vm : VM) (st : VMCycleState)
    (h0 : vm.shaped m r) :
    keeps (fun res => VM.shaped m r res.1) (vm.execute_prefixF_instruction st) := by
  have hidx : ∀ (f : State → Nat) (vm0 : VM), vm0.shaped m r →
      keeps (fun res => VM.shaped m r res.1)
        (vm0.on_state (fun s => s.index_register_set (f s)) >>= fun vm1 =>
          (pure (vm1, st) : Outcome (VM × VMCycleState))) := by
    intro f vm0 hv
    refine VM.keeps_bind_on_state _ m r _ _ _ ?_ hv ?_
    · intro s t h; exact State.index_register_set_shape _ _ _ h
    · intro vm1 h1; exact keeps_pure _ _ h1
  unfold VM.execute_prefixF_instruction
  refine VM.keeps_bind_call _ _ _ _ (fun n _ => ?_)
  dsimp only
  split
  · refine VM.keeps_bind_on_state _ m r _ _ _ ?_ h0 ?_
    · intro s t h; exact State.reg_set_shape _ _ _ _ h
    · intro vm1 h1; exact keeps_pure _ _ h1
  · exact keeps_pure _ _ h0
  · refine VM.keeps_bind_call _ _ _ _ (fun v _ => ?_)
    exact keeps_pure _ _ h0
  · refine VM.keeps_bind_call _ _ _ _ (fun v _ => ?_)
    exact keeps_pure _ _ h0
  · refine VM.keeps_bind_call _ _ _ _ (fun v _ => ?_)
    exact hidx _ vm h0
  · refine VM.keeps_bind_call _ _ _ _ (fun v _ => ?_)
    dsimp only
    split
    · exact keeps_error _ _
    · exact hidx _ vm h0
  · split
    · exact keeps_error _ _
    · refine VM.keeps_bind_call _ _ _ _ (fun v _ => ?_)
      dsimp only
      refine VM.keeps_bind_on_state _ m r _ _ _ ?_ h0 ?_
      · intro s t h; exact State.memory_set_shape _ _ _ _ h
      · intro vm1 h1
        refine VM.keeps_bind_on_state _ m r _ _ _ ?_ h1 ?_
        · intro s t h; exact State.memory_set_shape _ _ _ _ h
        · intro vm2 h2
          refine VM.keeps_bind_on_state _ m r _ _ _ ?_ h2 ?_
          · intro s t h; exact State.memory_set_shape _ _ _ _ h
          · intro vm3 h3; exact keeps_pure _ _ h3
  · split
    · exact keeps_error _ _
    · refine keeps_bind _ _ _ ?_
      intro vm1 h1
      exact hidx _ vm1 (VM.save_loop_shaped m r _ _ _ h0 _ h1)
  · split
    · exact keeps_error _ _
    · refine keeps_bind _ _ _ ?_
      intro vm1 h1
      exact hidx _ vm1 (VM.load_loop_shaped m r _ _ _ h0 _ h1)
  · exact VM.keeps_raise _ _

/-- Whatever the instruction, `execute_instruction` leaves the memory with the bytes it had
and the register file with the registers it had. -/
theorem VM.execute_instruction_shaped (m r : Nat) (vm : VM) (st : VMCycleState)
    (h0 : vm.shaped m r) :
    keeps (fun res => VM.shaped m r res.1) (vm.execute_instruction st) := by
  unfold VM.execute_instruction
  refine VM.keeps_bind_call _ _ _ _ (fun p _ => ?_)
  split
  · exact VM.execute_prefix0_shaped m r vm st h0
  · exact VM.execute_prefix1_shaped m r vm st h0
  · exact VM.execute_prefix2_shaped m r vm st h0
  · exact VM.execute_prefix3_shaped m r vm st h0
  · exact VM.execute_prefix4_shaped m r vm st h0
  · exact VM.execute_prefix5_shaped m r vm st h0
  · exact VM.execute_prefix6_shaped m r vm st h0
  · exact VM.execute_prefix7_shaped m r vm st h0
  · exact VM.execute_prefix8_shaped m r vm st h0
  · exact VM.execute_prefix9_shaped m r vm st h0
  · exact VM.execute_prefixA_shaped m r vm st h0
  · exact VM.execute_prefixB_shaped m r vm st h0
  · exact VM.execute_prefixC_shaped m r vm st h0
  · exact VM.execute_prefixD_shaped m r vm st h0
  · exact VM.execute_prefixE_shaped m r vm st h0
  · exact VM.execute_prefixF_shaped m r vm st h0
  · exact keeps_ok _ _ h0

/-- What a successful `RUNNING` case of `step` has done: fetched an instruction, executed it,
and committed the outcome. -/
theorem VM.step_running_inv (vm vm2 : VM) (h : vm.step_running = .ok vm2) :
    ∃ ins vm1 state1, vm.fetch_and_decode vm.state.pc = .ok ins ∧
      vm.execute_instruction (VMCycleState.mk_cycle vm.execution_state vm.state.pc
        (vm.state.pc + CHARS_PER_INSTRUCTION) ins) = .ok (vm1, state1) ∧
      vm2 = vm1.commit state1 := by
  have h1 := h
  unfold VM.step_running at h1
  obtain ⟨ins, hf, h2⟩ := (bind_eq_ok _ _ _).mp h1
  obtain ⟨⟨vm1, state1⟩, he, -⟩ := (bind_eq_ok _ _ _).mp h2
  have hf1 := VM.call_eq_ok _ _ _ hf
  refine ⟨ins, vm1, state1, hf1, he, ?_⟩
  rw [VM.step_running_eq vm vm1 ins state1 hf1 he] at h
  cases h
  rfl

/-- The `RUNNING` case of `step`, when it returns: the vectors keep their sizes and the
program counter is the proposed one modulo the memory size. -/
theorem VM.step_running_invariant (m r : Nat) (vm vm2 : VM) (h0 : vm.shaped m r)
    (h : vm.step_running = .ok vm2) :
    vm2.shaped m r ∧
    ∃ ins vm1 state1, vm.fetch_and_decode vm.state.pc = .ok ins ∧
      vm.execute_instruction (VMCycleState.mk_cycle vm.execution_state vm.state.pc
        (vm.state.pc + CHARS_PER_INSTRUCTION) ins) = .ok (vm1, state1) ∧
      vm2.state.pc = state1.next_program_counter_value % DEFAULT_MEMORY_SIZE ∧
      vm2.state.pc < DEFAULT_MEMORY_SIZE := by
  obtain ⟨ins, vm1, state1, hf, he, rfl⟩ := VM.step_running_inv vm vm2 h
  have h1 : vm1.shaped m r := VM.execute_instruction_shaped m r vm _ h0 _ he
  exact ⟨h1, ins, vm1, state1, hf, he, rfl, Nat.mod_lt _ (by decide)⟩

/-- Claim C20 fails as stated: after a step that returns, the program counter can be 4096.
The machine parked by `F00A` whose program counter the host then sets to 4096 (the setter
`State::program_counter` admits it) takes a step with no key pressed: the step returns and the
program counter is still 4096. -/
theorem step_parked_keeps_pc_4096 :
    ∃ vm1 vm3, VM.vm_F00A.step = .ok vm1 ∧
      vm1.on_state (fun s => s.program_counter_set 4096) = .ok VM.vm_parked_at_end ∧
      VM.vm_parked_at_end.state.wf ∧
      VM.vm_parked_at_end.step = .ok vm3 ∧ vm3.state.pc = 4096 ∧
      ¬ vm3.state.pc < DEFAULT_MEMORY_SIZE := by
  have hfetch := VM.example_vm_fetch 0xF0 0x0A [] [0, 0, 0, 0, 0, 0, 0, 0, 0, 0, 0, 0, 0, 0, 0, 0]
  refine ⟨_, _, VM.step_FX0A VM.vm_F00A 0 rfl (by decide) hfetch,
    VM.on_state_program_counter_set _ 4096 (by decide), ?_,
    VM.step_parked VM.vm_parked_at_end rfl (by decide), rfl, by decide⟩
  exact VM.example_vm_wf [0xF0, 0x0A] _ (by decide) (by decide) (by decide) (by decide)

/-- Claim C20, amended.  For every machine whose memory has 4096 bytes and that has 16
registers, after every `step` that returns: the memory still has 4096 bytes and there are still
16 registers; a program counter below 4096 is still below 4096; when the step executed an
instruction (mode `RUNNING`, or mode `WAIT_FOR_KEY` with a key pressed, where the key is first
stored in the target register) the committed program counter is the next program counter
proposed by `execute_instruction` modulo 4096, hence below 4096; and a step in `WAIT_FOR_KEY`
mode with no key pressed leaves the program counter as it was. -/
theorem step_invariant (vm vm2 : VM)
    (hmem : vm.state.memory.length = DEFAULT_MEMORY_SIZE)
    (hregs : vm.state.regs.length = DEFAULT_REGISTER_SIZE)
    (hstep : vm.step = .ok vm2) :
    vm2.state.memory.length = DEFAULT_MEMORY_SIZE ∧
    vm2.state.regs.length = DEFAULT_REGISTER_SIZE ∧
    (vm.state.pc < DEFAULT_MEMORY_SIZE → vm2.state.pc < DEFAULT_MEMORY_SIZE) ∧
    (vm.execution_state = .RUNNING →
      ∃ ins vm1 state1, vm.fetch_and_decode vm.state.pc = .ok ins ∧
        vm.execute_instruction (VMCycleState.mk_cycle vm.execution_state vm.state.pc
          (vm.state.pc + CHARS_PER_INSTRUCTION) ins) = .ok (vm1, state1) ∧
        vm2.state.pc = state1.next_program_counter_value % DEFAULT_MEMORY_SIZE ∧
        vm2.state.pc < DEFAULT_MEMORY_SIZE) ∧
    (vm.execution_state = .WAIT_FOR_KEY → 0 ≤ vm.key_value →
      ∃ vm0 ins vm1 state1,
        ({ vm with last_state := .WAIT_FOR_KEY, execution_state := .RUNNING } : VM).on_state
          (fun s => s.reg_set vm.key_target_register (int_to_regval vm.key_value)) = .ok vm0 ∧
        vm0.fetch_and_decode vm0.state.pc = .ok ins ∧
        vm0.execute_instruction (VMCycleState.mk_cycle vm0.execution_state vm0.state.pc
          (vm0.state.pc + CHARS_PER_INSTRUCTION) ins) = .ok (vm1, state1) ∧
        vm2.state.pc = state1.next_program_counter_value % DEFAULT_MEMORY_SIZE ∧
        vm2.state.pc < DEFAULT_MEMORY_SIZE) ∧
    (vm.execution_state = .WAIT_FOR_KEY → vm.key_value < 0 →
      vm2.state.pc = vm.state.pc) := by
  have h0 : vm.shaped DEFAULT_MEMORY_SIZE DEFAULT_REGISTER_SIZE := ⟨hmem, hregs⟩
  by_cases hrun : vm.execution_state = .RUNNING
  · rw [VM.step_of_running vm hrun] at hstep
    obtain ⟨hs, hex⟩ := VM.step_running_invariant _ _ vm vm2 h0 hstep
    obtain ⟨ins, vm1, state1, hf, he, hpc, hlt⟩ := hex
    refine ⟨hs.1, hs.2, fun _ => hlt, fun _ => ⟨ins, vm1, state1, hf, he, hpc, hlt⟩, ?_, ?_⟩
    · intro hw; rw [hrun] at hw; cases hw
    · intro hw; rw [hrun] at hw; cases hw
  · by_cases hwait : vm.execution_state = .WAIT_FOR_KEY
    · by_cases hk : vm.key_value < 0
      · rw [VM.step_parked vm hwait hk] at hstep
        cases hstep
        refine ⟨hmem, hregs, fun h => h, fun h => absurd h hrun, ?_, fun _ _ => rfl⟩
        intro _ hk0
        omega
      · have hkp : vm.key_value ≥ 0 := by omega
        unfold VM.step at hstep
        simp only [hwait, VM.key_pressed, hkp, decide_True, if_true] at hstep
        obtain ⟨vm0, hset, hrest⟩ := (bind_eq_ok _ _ _).mp hstep
        have hs0 : vm0.shaped DEFAULT_MEMORY_SIZE DEFAULT_REGISTER_SIZE :=
          VM.on_state_shaped _ _
            { vm with last_state := .WAIT_FOR_KEY, execution_state := .RUNNING } vm0 _
            (fun s t h => State.reg_set_shape _ _ s t h) h0 hset
        obtain ⟨hs, hex⟩ := VM.step_running_invariant _ _ vm0 vm2 hs0 hrest
        obtain ⟨ins, vm1, state1, hf, he, hpc, hlt⟩ := hex
        refine ⟨hs.1, hs.2, fun _ => hlt, fun h => absurd h hrun,
          fun _ _ => ⟨vm0, ins, vm1, state1, hset, hf, he, hpc, hlt⟩, ?_⟩
        intro _ hk0
        omega
    · exfalso
      unfold VM.step at hstep
      cases hes : vm.execution_state with
      | INIT => rw [hes] at hstep; cases hstep
      | RUNNING => exact hrun hes
      | WAIT_FOR_KEY => exact hwait hes

theorem step_invariant_witness :
    VM.vm_F00A.state.memory.length = DEFAULT_MEMORY_SIZE ∧
    VM.vm_F00A.state.regs.length = DEFAULT_REGISTER_SIZE ∧
    VM.vm_F00A.step = .ok
      { VM.vm_F00A with
        state := { VM.vm_F00A.state with pc := (VM.vm_F00A.state.pc + 2) % 4096 }
        last_state := .RUNNING
        execution_state := .WAIT_FOR_KEY
        key_target_register := 0 } ∧
    ∃ vm2 : VM, vm2.state.memory.length = DEFAULT_MEMORY_SIZE ∧
      vm2.state.regs.length = DEFAULT_REGISTER_SIZE ∧
      (VM.vm_F00A.state.pc < DEFAULT_MEMORY_SIZE → vm2.state.pc < DEFAULT_MEMORY_SIZE) ∧
      (VM.vm_F00A.execution_state = .RUNNING →
        ∃ ins vm1 state1, VM.vm_F00A.fetch_and_decode VM.vm_F00A.state.pc = .ok ins ∧
          VM.vm_F00A.execute_instruction (VMCycleState.mk_cycle VM.vm_F00A.execution_state
            VM.vm_F00A.state.pc (VM.vm_F00A.state.pc + CHARS_PER_INSTRUCTION) ins) =
              .ok (vm1, state1) ∧
          vm2.state.pc = state1.next_program_counter_value % DEFAULT_MEMORY_SIZE ∧
          vm2.state.pc < DEFAULT_MEMORY_SIZE) :=
  have hwf := VM.example_vm_wf [0xF0, 0x0A] [0, 0, 0, 0, 0, 0, 0, 0, 0, 0, 0, 0, 0, 0, 0, 0]
    (by decide) (by decide) (by decide) (by decide)
  have hstep := VM.step_FX0A VM.vm_F00A 0 rfl (by decide)
    (VM.example_vm_fetch 0xF0 0x0A [] [0, 0, 0, 0, 0, 0, 0, 0, 0, 0, 0, 0, 0, 0, 0, 0])
  have h := step_invariant VM.vm_F00A _ hwf.1 hwf.2.2.1 hstep
  ⟨hwf.1, hwf.2.2.1, hstep, _, h.1, h.2.1, h.2.2.1, h.2.2.2.1⟩

/-! ## Call stack -/

theorem State.push_callstack_eq (s : State) (x : Nat) (hx : x ≤ 4096) :
    s.push_callstack x = .ok { s with callstack := s.callstack ++ [x] } := by
  have hm : DEFAULT_MEMORY_SIZE = 4096 := rfl
  unfold State.push_callstack State.memory_size
  rw [if_neg (by omega)]

theorem State.pop_callstack_eq (s : State) (l : List Nat) (x : Nat)
    (h : s.callstack = l ++ [x]) :
    s.pop_callstack = .ok (x, { s with callstack := l }) := by
  unfold State.pop_callstack
  rw [h, List.getLast?_append, List.dropLast_concat]
  rfl

theorem State.pop_callstack_empty (s : State) (h : s.callstack = []) :
    s.pop_callstack = .error .runtime_error := by
  unfold State.pop_callstack
  rw [h]
  rfl

theorem State.push_all_eq (xs : List Nat) : ∀ (s : State), (∀ x ∈ xs, x ≤ 4096) →
    State.push_all xs s = .ok { s with callstack := s.callstack ++ xs } := by
  induction xs with
  | nil =>
    intro s _
    unfold State.push_all
    rw [List.append_nil]
  | cons x xs ih =>
    intro s hx
    unfold State.push_all
    rw [State.push_callstack_eq s x (hx x (List.mem_cons_self x xs)), ok_bind,
      ih _ (fun y hy => hx y (List.mem_cons_of_mem x hy))]
    simp only [List.append_assoc, List.singleton_append]

theorem State.pop_n_eq (xs : List Nat) : ∀ (s : State) (l : List Nat),
    s.callstack = l ++ xs →
    State.pop_n xs.length s = .ok (xs.reverse, { s with callstack := l }) := by
  induction xs using List.reverseRecOn with
  | nil =>
    intro s l h
    rw [List.append_nil] at h
    subst h
    rfl
  | append_singleton xs x ih =>
    intro s l h
    rw [List.length_append, List.length_singleton]
    unfold State.pop_n
    rw [State.pop_callstack_eq s (l ++ xs) x (by rw [h, List.append_assoc]), ok_bind]
    simp only []
    rw [ih { s with callstack := l ++ xs } l rfl, ok_bind, ok_pure, List.reverse_append,
      List.reverse_singleton, List.singleton_append]

/-- Claim C21 (the call stack is last in, first out).  For every `State` and every address
`x < 4096`, `push_callstack(x)` succeeds and the `pop_callstack()` that follows returns `x` and
leaves the state, call stack included, as it was before the push; and for all addresses
`x1 .. xn` below 4096, pushing them in this order succeeds and `n` pops then return
`xn .. x1` and leave the state as it was before the pushes. -/
theorem callstack_lifo (s : State) (x : Nat) (xs : List Nat) (hx : x < 4096)
    (hxs : ∀ y ∈ xs, y < 4096) :
    (∃ s1, s.push_callstack x = .ok s1 ∧ s1.callstack = s.callstack ++ [x] ∧
      s1.pop_callstack = .ok (x, s)) ∧
    (∃ s1, State.push_all xs s = .ok s1 ∧ s1.callstack = s.callstack ++ xs ∧
      State.pop_n xs.length s1 = .ok (xs.reverse, s)) := by
  constructor
  · exact ⟨_, State.push_callstack_eq s x (by omega), rfl,
      State.pop_callstack_eq _ s.callstack x rfl⟩
  · exact ⟨_, State.push_all_eq xs s (fun y hy => Nat.le_of_lt (hxs y hy)), rfl,
      State.pop_n_eq xs _ s.callstack rfl⟩

theorem callstack_lifo_witness :
    (∃ s1, State.default.push_callstack 0x789 = .ok s1 ∧
      s1.callstack = State.default.callstack ++ [0x789] ∧
      s1.pop_callstack = .ok (0x789, State.default)) ∧
    (∃ s1, State.push_all [1, 2, 3] State.default = .ok s1 ∧
      s1.callstack = State.default.callstack ++ [1, 2, 3] ∧
      State.pop_n [1, 2, 3].length s1 = .ok ([1, 2, 3].reverse, State.default)) :=
  callstack_lifo State.default 0x789 [1, 2, 3] (by decide) (by decide)

/-! ## `State::memory(index, value)` -/

theorem State.default_memory_length : State.default.memory.length = DEFAULT_MEMORY_SIZE := by
  show (State.copy_at (List.replicate DEFAULT_MEMORY_SIZE 0) DEFAULT_FONT_OFFSET
    DEFAULT_FONT_DATA).length = _
  rw [State.copy_at_length _ _ _ (by rw [List.length_replicate]; decide),
    List.length_replicate]

/-- The write guard `index > _memory_size`: an index above 4096 is rejected, and the index
4096 itself reaches the vector. -/
theorem State.memory_set_out (s : State) (index value : Nat)
    (hl : s.memory.length = DEFAULT_MEMORY_SIZE) :
    (4096 < index → s.memory_set index value = .error .memory_access) ∧
    (index = 4096 → s.memory_set index value = .error .undefined_behaviour) := by
  have hm : DEFAULT_MEMORY_SIZE = 4096 := rfl
  unfold State.memory_set State.memory_size
  constructor
  · intro h
    rw [if_pos (by omega)]
  · intro h
    rw [if_neg (by omega), if_neg (by omega)]

/-- Claim C26, evaluated where the code departs from it: on the state built by the
constructor, whose memory has 4096 bytes, `memory(4096, 0xAB)` passes the guard
`index > _memory_size` and writes one cell past the end of the vector (undefined behaviour)
instead of raising `MemoryAccessError`; `memory(4097, 0xAB)` is the first write that is
rejected. -/
theorem memory_write_at_memory_size_not_rejected :
    State.default.memory.length = 4096 ∧
    State.default.memory_set 4096 0xAB = .error .undefined_behaviour ∧
    State.default.memory_set 4096 0xAB ≠ .error .memory_access ∧
    State.default.memory_set 4097 0xAB = .error .memory_access := by
  have h := State.memory_set_out State.default
  refine ⟨State.default_memory_length, (h 4096 0xAB State.default_memory_length).2 rfl, ?_,
    (h 4097 0xAB State.default_memory_length).1 (by decide)⟩
  rw [(h 4096 0xAB State.default_memory_length).2 rfl]
  intro hne
  cases hne

/-! ## The `FXNN` instructions -/

theorem VM.step_FXNN (vm vm1 : VM) (X NN : Nat) (hrun : vm.execution_state = .RUNNING)
    (hX : X < 16) (hNN : NN < 256)
    (hfetch : vm.fetch_and_decode vm.state.pc = .ok ⟨opcode_XNN 0xF X NN⟩)
    (hexec : ∀ st : VMCycleState, st.instruction.nibble 2 = .ok X →
      st.instruction.lower_byte = NN → vm.execute_prefixF_instruction st = .ok (vm1, st)) :
    vm.step = .ok
      { vm1 with
        state := { vm1.state with pc := (vm.state.pc + 2) % 4096 }
        last_state := vm1.execution_state
        execution_state := .RUNNING } := by
  obtain ⟨h3, h2, hb⟩ := decode_opcode_XNN 0xF X NN (by decide) hX hNN
  have he := (VM.execute_instruction_F vm (VMCycleState.mk_cycle vm.execution_state vm.state.pc
      (vm.state.pc + CHARS_PER_INSTRUCTION) ⟨opcode_XNN 0xF X NN⟩) h3).trans (hexec _ h2 hb)
  rw [VM.step_of_running vm hrun, VM.step_running_eq vm _ _ _ hfetch he]
  simp [VM.commit, VMCycleState.mk_cycle, CHARS_PER_INSTRUCTION, DEFAULT_MEMORY_SIZE, hrun]

theorem VM.step_FXNN_fault (vm vm1 : VM) (X NN : Nat) (f : Fault)
    (hrun : vm.execution_state = .RUNNING) (hX : X < 16) (hNN : NN < 256)
    (hfetch : vm.fetch_and_decode vm.state.pc = .ok ⟨opcode_XNN 0xF X NN⟩)
    (hexec : ∀ st : VMCycleState, st.instruction.nibble 2 = .ok X →
      st.instruction.lower_byte = NN →
      vm.execute_prefixF_instruction st = .error (f, vm1)) :
    vm.step = .error (f, vm1) := by
  obtain ⟨h3, h2, hb⟩ := decode_opcode_XNN 0xF X NN (by decide) hX hNN
  have he := (VM.execute_instruction_F vm (VMCycleState.mk_cycle vm.execution_state vm.state.pc
      (vm.state.pc + CHARS_PER_INSTRUCTION) ⟨opcode_XNN 0xF X NN⟩) h3).trans (hexec _ h2 hb)
  exact (VM.step_of_running vm hrun).trans (VM.step_running_fault vm _ _ _ hfetch he)

theorem VM.on_state_index_register_set (vm : VM) (f : State → Nat)
    (h : f vm.state ≤ 4096) :
    vm.on_state (fun s => s.index_register_set (f s)) =
      .ok { vm with state := { vm.state with i := f vm.state } } := by
  have hm : DEFAULT_MEMORY_SIZE = 4096 := rfl
  apply VM.on_state_ok
  unfold State.index_register_set State.memory_size
  rw [if_neg (fun hc => hc.2 (by omega))]

/-- The handler on `FX29` when the digit passes the guard `digit > 16`. -/
theorem VM.execute_prefixF_hex (vm : VM) (st : VMCycleState) (X : Nat) (hX : X < 16)
    (hwf : vm.state.wf) (hV : vm.state.V X ≤ 16)
    (hI : vm.state.font_offset + 5 * vm.state.V X ≤ 4096)
    (h2 : st.instruction.nibble 2 = .ok X) (hb : st.instruction.lower_byte = 0x29) :
    vm.execute_prefixF_instruction st = .ok
      ({ vm with state := { vm.state with i := vm.state.font_offset + 5 * vm.state.V X } },
        st) := by
  have hx : to_regval X = X := to_regval_of_lt X (by omega)
  have hs : to_regval 0x29 = 0x29 := rfl
  have hv : to_regval (vm.state.V X) = vm.state.V X :=
    to_regval_of_lt _ (State.V_lt _ _ hwf)
  have h5 : SPRITE_CHARS = 5 := rfl
  unfold VM.execute_prefixF_instruction
  simp only [h2, hb, VM.call_ok, ok_bind, hx, hs, State.reg_eq _ _ hwf.2.2.1 hX, hv,
    if_neg (Nat.not_lt.mpr hV), h5]
  rw [VM.on_state_index_register_set vm (fun s => vm.state.font_offset + 5 * vm.state.V X) hI,
    ok_bind, ok_pure]

/-- The handler on `FX29` when the digit is above 16. -/
theorem VM.execute_prefixF_hex_fault (vm : VM) (st : VMCycleState) (X : Nat) (hX : X < 16)
    (hwf : vm.state.wf) (hV : 16 < vm.state.V X)
    (h2 : st.instruction.nibble 2 = .ok X) (hb : st.instruction.lower_byte = 0x29) :
    vm.execute_prefixF_instruction st = .error (.runtime_error, vm) := by
  have hx : to_regval X = X := to_regval_of_lt X (by omega)
  have hs : to_regval 0x29 = 0x29 := rfl
  have hv : to_regval (vm.state.V X) = vm.state.V X :=
    to_regval_of_lt _ (State.V_lt _ _ hwf)
  unfold VM.execute_prefixF_instruction
  simp only [h2, hb, VM.call_ok, ok_bind, hx, hs, State.reg_eq _ _ hwf.2.2.1 hX, hv,
    if_pos hV]

/-- What `FX29` does on a well-formed machine whose font table lies in memory: for
`VX ≤ 16` the index register becomes `font_offset + 5 * VX`, for `VX > 16` the step raises a
runtime error and the machine is left as it was. -/
theorem VM.step_FX29 (vm : VM) (X : Nat) (hwf : vm.state.wf)
    (hrun : vm.execution_state = .RUNNING) (hX : X < 16)
    (hfont : vm.state.font_offset + 80 ≤ 4096)
    (hfetch : vm.fetch_and_decode vm.state.pc = .ok ⟨opcode_XNN 0xF X 0x29⟩) :
    (vm.state.V X ≤ 16 → vm.step = .ok
      { vm with
        state := { vm.state with
          i := vm.state.font_offset + 5 * vm.state.V X
          pc := (vm.state.pc + 2) % 4096 }
        last_state := .RUNNING
        execution_state := .RUNNING }) ∧
    (16 < vm.state.V X → vm.step = .error (.runtime_error, vm)) := by
  constructor
  · intro hV
    rw [VM.step_FXNN vm _ X 0x29 hrun hX (by decide) hfetch
      (fun st h2 hb => VM.execute_prefixF_hex vm st X hX hwf hV (by omega) h2 hb)]
    simp [hrun]
  · intro hV
    exact VM.step_FXNN_fault vm vm X 0x29 _ hrun hX (by decide) hfetch
      (fun st h2 hb => VM.execute_prefixF_hex_fault vm st X hX hwf hV h2 hb)

/-- Claim C27, evaluated where the code departs from it: with `V0 = 16`, which is not a
hexadecimal digit, the step on `F029` does not fault; it sets `I` to `0x50 + 5 * 16 = 0xA0`,
the first address after the 80-byte font table `[0x50, 0xA0)`.  The guard of the handler is
`digit > 16`. -/
theorem hex_sprite_FX29_accepts_16 :
    VM.vm_F029.state.V 0 = 16 ∧ VM.vm_F029.state.font_offset = 0x50 ∧
    ∃ vm1, VM.vm_F029.step = .ok vm1 ∧ vm1.state.i = 0xA0 ∧
      vm1.state.i = VM.vm_F029.state.font_offset + DEFAULT_FONT_DATA.length := by
  have hwf : VM.vm_F029.state.wf :=
    VM.example_vm_wf [0xF0, 0x29] _ (by decide) (by decide) (by decide) (by decide)
  have hfetch := VM.example_vm_fetch 0xF0 0x29 [] [16, 0, 0, 0, 0, 0, 0, 0, 0, 0, 0, 0, 0, 0, 0, 0]
  refine ⟨rfl, rfl, _, (VM.step_FX29 VM.vm_F029 0 hwf rfl (by decide) (by decide) hfetch).1
    (by decide), rfl, rfl⟩

/-- Setting the index register of a machine does not touch what `wf` speaks about. -/
theorem VM.with_i_wf (vm : VM) (i : Nat) (h : vm.state.wf) :
    ({ vm with state := { vm.state with i := i } } : VM).state.wf := h

/-- Setting the index register of a machine does not change what is fetched. -/
theorem VM.with_i_fetch (vm : VM) (i p : Nat) :
    ({ vm with state := { vm.state with i := i } } : VM).fetch_and_decode p =
      vm.fetch_and_decode p := rfl

/-- The handler on `FX33` when the three cells lie in memory. -/
theorem VM.execute_prefixF_bcd (vm : VM) (st : VMCycleState) (X : Nat) (hX : X < 16)
    (hwf : vm.state.wf) (hI : vm.state.i + 2 < 4096)
    (h2 : st.instruction.nibble 2 = .ok X) (hb : st.instruction.lower_byte = 0x33) :
    vm.execute_prefixF_instruction st = .ok
      ({ vm with state := { vm.state with
          memory := ((vm.state.memory.set vm.state.i (vm.state.V X / 100)).set
            (vm.state.i + 1) (vm.state.V X / 10 % 10)).set (vm.state.i + 2)
              (vm.state.V X % 10) } }, st) := by
  have hm : DEFAULT_MEMORY_SIZE = 4096 := rfl
  have hx : to_regval X = X := to_regval_of_lt X (by omega)
  have hs : to_regval 0x33 = 0x33 := rfl
  have hlt : vm.state.V X < 256 := State.V_lt _ _ hwf
  have hv : to_regval (vm.state.V X) = vm.state.V X := to_regval_of_lt _ hlt
  have ha : to_regval (vm.state.V X % 1000 / 100) = vm.state.V X / 100 := by
    unfold to_regval; omega
  have hb2 : to_regval (vm.state.V X % 100 / 10) = vm.state.V X / 10 % 10 := by
    unfold to_regval; omega
  have hc : to_regval (vm.state.V X % 10) = vm.state.V X % 10 := by
    unfold to_regval; omega
  have hguard : ¬ vm.state.i + 2 ≥ vm.state.memory_size := by
    unfold State.memory_size; omega
  unfold VM.execute_prefixF_instruction
  simp only [h2, hb, VM.call_ok, ok_bind, hx, hs, State.reg_eq _ _ hwf.2.2.1 hX, hv,
    if_neg hguard]
  rw [VM.on_state_memory_set vm _ _ hwf.1 (by omega), ok_bind,
    VM.on_state_memory_set _ _ _ (by rw [List.length_set]; exact hwf.1) (by omega), ok_bind,
    VM.on_state_memory_set _ _ _
      (by rw [List.length_set, List.length_set]; exact hwf.1) (by omega), ok_bind, ok_pure,
    ha, hb2, hc]

/-- The handler on `FX33` when the three cells do not lie in memory. -/
theorem VM.execute_prefixF_bcd_fault (vm : VM) (st : VMCycleState) (X : Nat) (hX : X < 16)
    (hI : 4096 ≤ vm.state.i + 2)
    (h2 : st.instruction.nibble 2 = .ok X) (hb : st.instruction.lower_byte = 0x33) :
    vm.execute_prefixF_instruction st = .error (.memory_access, vm) := by
  have hm : DEFAULT_MEMORY_SIZE = 4096 := rfl
  have hx : to_regval X = X := to_regval_of_lt X (by omega)
  have hs : to_regval 0x33 = 0x33 := rfl
  have hguard : vm.state.i + 2 ≥ vm.state.memory_size := by
    unfold State.memory_size; omega
  unfold VM.execute_prefixF_instruction
  simp only [h2, hb, VM.call_ok, ok_bind, hx, hs, if_pos hguard]

/-- Claim C28 (FX33, binary-coded decimal).  For every well-formed machine in `RUNNING` mode
that fetches `FX33`: if `I + 2 < 4096` the step succeeds, `memory[I]`, `memory[I+1]`,
`memory[I+2]` are the hundreds, tens and ones digits of `VX` (each at most 9, with
`100 * memory[I] + 10 * memory[I+1] + memory[I+2] = VX`), every other memory byte, `I` and all
registers are unchanged; if `I + 2 ≥ 4096` the step raises `MemoryAccessError` and the
machine is left as it was. -/
theorem bcd_FX33 (vm : VM) (X : Nat) (hwf : vm.state.wf)
    (hrun : vm.execution_state = .RUNNING) (hX : X < 16)
    (hfetch : vm.fetch_and_decode vm.state.pc = .ok ⟨opcode_XNN 0xF X 0x33⟩) :
    (vm.state.i + 2 < 4096 → ∃ vm1, vm.step = .ok vm1 ∧
      vm1.state.memory.getD vm.state.i 0 = vm.state.V X / 100 ∧
      vm1.state.memory.getD (vm.state.i + 1) 0 = vm.state.V X / 10 % 10 ∧
      vm1.state.memory.getD (vm.state.i + 2) 0 = vm.state.V X % 10 ∧
      vm1.state.memory.getD vm.state.i 0 ≤ 9 ∧
      vm1.state.memory.getD (vm.state.i + 1) 0 ≤ 9 ∧
      vm1.state.memory.getD (vm.state.i + 2) 0 ≤ 9 ∧
      100 * vm1.state.memory.getD vm.state.i 0 +
        10 * vm1.state.memory.getD (vm.state.i + 1) 0 +
        vm1.state.memory.getD (vm.state.i + 2) 0 = vm.state.V X ∧
      (∀ j, j ≠ vm.state.i → j ≠ vm.state.i + 1 → j ≠ vm.state.i + 2 →
        vm1.state.memory.getD j 0 = vm.state.memory.getD j 0) ∧
      vm1.state.memory.length = 4096 ∧
      vm1.state.i = vm.state.i ∧ vm1.state.regs = vm.state.regs) ∧
    (4096 ≤ vm.state.i + 2 → vm.step = .error (.memory_access, vm)) := by
  have hm : DEFAULT_MEMORY_SIZE = 4096 := rfl
  have hl := hwf.1
  have hlt : vm.state.V X < 256 := State.V_lt _ _ hwf
  constructor
  · intro hI
    have hstep := VM.step_FXNN vm _ X 0x33 hrun hX (by decide) hfetch
      (fun st h2 hb => VM.execute_prefixF_bcd vm st X hX hwf hI h2 hb)
    have hl1 : (vm.state.memory.set vm.state.i (vm.state.V X / 100)).length = 4096 := by
      rw [List.length_set, hl, hm]
    have hl2 : ((vm.state.memory.set vm.state.i (vm.state.V X / 100)).set
        (vm.state.i + 1) (vm.state.V X / 10 % 10)).length = 4096 := by
      rw [List.length_set, hl1]
    have h0 : (((vm.state.memory.set vm.state.i (vm.state.V X / 100)).set
        (vm.state.i + 1) (vm.state.V X / 10 % 10)).set (vm.state.i + 2)
          (vm.state.V X % 10)).getD vm.state.i 0 = vm.state.V X / 100 := by
      rw [V_set _ _ _ _ (by omega), if_neg (by omega), V_set _ _ _ _ (by omega),
        if_neg (by omega), V_set _ _ _ _ (by omega), if_pos rfl]
    have h1 : (((vm.state.memory.set vm.state.i (vm.state.V X / 100)).set
        (vm.state.i + 1) (vm.state.V X / 10 % 10)).set (vm.state.i + 2)
          (vm.state.V X % 10)).getD (vm.state.i + 1) 0 = vm.state.V X / 10 % 10 := by
      rw [V_set _ _ _ _ (by omega), if_neg (by omega), V_set _ _ _ _ (by omega), if_pos rfl]
    have h2 : (((vm.state.memory.set vm.state.i (vm.state.V X / 100)).set
        (vm.state.i + 1) (vm.state.V X / 10 % 10)).set (vm.state.i + 2)
          (vm.state.V X % 10)).getD (vm.state.i + 2) 0 = vm.state.V X % 10 := by
      rw [V_set _ _ _ _ (by omega), if_pos rfl]
    refine ⟨_, hstep, h0, h1, h2, ?_, ?_, ?_, ?_, ?_, ?_, rfl, rfl⟩
    · show List.getD _ _ _ ≤ 9
      rw [h0]; omega
    · show List.getD _ _ _ ≤ 9
      rw [h1]; omega
    · show List.getD _ _ _ ≤ 9
      rw [h2]; omega
    · show 100 * List.getD _ _ _ + 10 * List.getD _ _ _ + List.getD _ _ _ = _
      rw [h0, h1, h2]; omega
    · intro j hj0 hj1 hj2
      show List.getD _ _ _ = _
      rw [V_set _ _ _ _ (by omega), if_neg hj2, V_set _ _ _ _ (by omega), if_neg hj1,
        V_set _ _ _ _ (by omega), if_neg hj0]
    · show List.length _ = _
      rw [List.length_set, hl2]
  · intro hI
    exact VM.step_FXNN_fault vm vm X 0x33 _ hrun hX (by decide) hfetch
      (fun st h2 hb => VM.execute_prefixF_bcd_fault vm st X hX hI h2 hb)

theorem bcd_FX33_witness :
    (VM.vm_F033.state.i + 2 < 4096 → ∃ vm1, VM.vm_F033.step = .ok vm1 ∧
      vm1.state.memory.getD VM.vm_F033.state.i 0 = VM.vm_F033.state.V 0 / 100 ∧
      vm1.state.memory.getD (VM.vm_F033.state.i + 1) 0 = VM.vm_F033.state.V 0 / 10 % 10 ∧
      vm1.state.memory.getD (VM.vm_F033.state.i + 2) 0 = VM.vm_F033.state.V 0 % 10 ∧
      vm1.state.memory.getD VM.vm_F033.state.i 0 ≤ 9 ∧
      vm1.state.memory.getD (VM.vm_F033.state.i + 1) 0 ≤ 9 ∧
      vm1.state.memory.getD (VM.vm_F033.state.i + 2) 0 ≤ 9 ∧
      100 * vm1.state.memory.getD VM.vm_F033.state.i 0 +
        10 * vm1.state.memory.getD (VM.vm_F033.state.i + 1) 0 +
        vm1.state.memory.getD (VM.vm_F033.state.i + 2) 0 = VM.vm_F033.state.V 0 ∧
      (∀ j, j ≠ VM.vm_F033.state.i → j ≠ VM.vm_F033.state.i + 1 →
        j ≠ VM.vm_F033.state.i + 2 →
        vm1.state.memory.getD j 0 = VM.vm_F033.state.memory.getD j 0) ∧
      vm1.state.memory.length = 4096 ∧
      vm1.state.i = VM.vm_F033.state.i ∧ vm1.state.regs = VM.vm_F033.state.regs) ∧
    (4096 ≤ VM.vm_F033.state.i + 2 → VM.vm_F033.step = .error (.memory_access, VM.vm_F033)) :=
  bcd_FX33 VM.vm_F033 0
    (VM.with_i_wf _ 0x300
      (VM.example_vm_wf [0xF0, 0x33] _ (by decide) (by decide) (by decide) (by decide))) rfl
    (by decide)
    ((VM.with_i_fetch _ 0x300 _).trans (VM.example_vm_fetch 0xF0 0x33 []
      [123, 0, 0, 0, 0, 0, 0, 0, 0, 0, 0, 0, 0, 0, 0, 0]))

/-- The loop of `FX55`: it copies registers `i .. i + n - 1` to memory at `I + i ..`. -/
theorem VM.save_loop_spec : ∀ (n i : Nat) (vm : VM),
    vm.state.memory.length = DEFAULT_MEMORY_SIZE →
    vm.state.regs.length = DEFAULT_REGISTER_SIZE → (∀ r ∈ vm.state.regs, r < 256) →
    i + n ≤ 16 → vm.state.i + i + n ≤ 4096 →
    ∃ m, VM.save_loop n i vm = .ok { vm with state := { vm.state with memory := m } } ∧
      m.length = DEFAULT_MEMORY_SIZE ∧
      (∀ k, i ≤ k → k < i + n → m.getD (vm.state.i + k) 0 = vm.state.V k) ∧
      (∀ j, (j < vm.state.i + i ∨ vm.state.i + i + n ≤ j) →
        m.getD j 0 = vm.state.memory.getD j 0) := by
  have hm : DEFAULT_MEMORY_SIZE = 4096 := rfl
  intro n
  induction n with
  | zero =>
    intro i vm hl _ _ _ _
    refine ⟨vm.state.memory, ?_, hl, ?_, ?_⟩
    · unfold VM.save_loop; rfl
    · intro k h1 h2; omega
    · intro j _; rfl
  | succ n ih =>
    intro i vm hl hr hrr hin hI
    have hv : to_regval (vm.state.V i) = vm.state.V i := by
      apply to_regval_of_lt
      unfold State.V
      rw [List.getD_eq_getElem?_getD]
      have hlt : i < vm.state.regs.length := by
        rw [hr]; show i < 16; omega
      rw [List.getElem?_eq_getElem hlt]
      exact hrr _ (List.getElem_mem _)
    have hset := VM.on_state_ok vm (fun s => s.memory_set (s.i + i) (vm.state.V i)) _
      (State.memory_set_eq vm.state (vm.state.i + i) (vm.state.V i) hl (by omega))
    obtain ⟨m, hloop, hlen, hin1, hout1⟩ := ih (i + 1)
      { vm with state := { vm.state with
        memory := vm.state.memory.set (vm.state.i + i) (to_regval (vm.state.V i)) } }
      (by show (List.set _ _ _).length = _; rw [List.length_set]; exact hl) hr hrr
      (by omega) (by show vm.state.i + (i + 1) + n ≤ 4096; omega)
    dsimp only at hloop hin1 hout1
    refine ⟨m, ?_, hlen, ?_, ?_⟩
    · unfold VM.save_loop
      rw [State.reg_eq _ _ hr (by omega), VM.call_ok, ok_bind, hset, ok_bind]
      exact hloop
    · intro k hk1 hk2
      by_cases hki : k = i
      · subst hki
        rw [hout1 _ (Or.inl (by omega)), V_set _ _ _ _ (by rw [hl]; omega), if_pos rfl, hv]
      · exact hin1 k (by omega) (by omega)
    · intro j hj
      rw [hout1 j (by omega), V_set _ _ _ _ (by rw [hl]; omega), if_neg (by omega)]

/-- The loop of `FX65`: it copies memory at `I + i ..` to registers `i .. i + n - 1`. -/
theorem VM.load_loop_spec : ∀ (n i : Nat) (vm : VM),
    vm.state.memory.length = DEFAULT_MEMORY_SIZE → (∀ b ∈ vm.state.memory, b < 256) →
    vm.state.regs.length = DEFAULT_REGISTER_SIZE →
    i + n ≤ 16 → vm.state.i + i + n ≤ 4096 →
    ∃ r, VM.load_loop n i vm = .ok { vm with state := { vm.state with regs := r } } ∧
      r.length = DEFAULT_REGISTER_SIZE ∧
      (∀ k, i ≤ k → k < i + n → r.getD k 0 = vm.state.memory.getD (vm.state.i + k) 0) ∧
      (∀ k, (k < i ∨ i + n ≤ k) → r.getD k 0 = vm.state.regs.getD k 0) := by
  have hm : DEFAULT_MEMORY_SIZE = 4096 := rfl
  have h16 : DEFAULT_REGISTER_SIZE = 16 := rfl
  intro n
  induction n with
  | zero =>
    intro i vm _ _ hr _ _
    refine ⟨vm.state.regs, ?_, hr, ?_, ?_⟩
    · unfold VM.load_loop; rfl
    · intro k h1 h2; omega
    · intro j _; rfl
  | succ n ih =>
    intro i vm hl hbb hr hin hI
    have hlt : vm.state.i + i < vm.state.memory.length := by rw [hl]; omega
    have hv : to_regval (vm.state.memory.getD (vm.state.i + i) 0) =
        vm.state.memory.getD (vm.state.i + i) 0 := by
      apply to_regval_of_lt
      rw [List.getD_eq_getElem?_getD, List.getElem?_eq_getElem hlt]
      exact hbb _ (List.getElem_mem _)
    obtain ⟨r, hloop, hlen, hin1, hout1⟩ := ih (i + 1)
      { vm with state := { vm.state with
        regs := vm.state.regs.set i (to_regval (vm.state.memory.getD (vm.state.i + i) 0)) } }
      hl hbb (by show (List.set _ _ _).length = _; rw [List.length_set]; exact hr)
      (by omega) (by show vm.state.i + (i + 1) + n ≤ 4096; omega)
    dsimp only at hloop hin1 hout1
    refine ⟨r, ?_, hlen, ?_, ?_⟩
    · unfold VM.load_loop
      rw [State.memory_at_eq _ _ hlt, VM.call_ok, ok_bind,
        VM.on_state_reg_set vm i _ hr (by omega), ok_bind]
      exact hloop
    · intro k hk1 hk2
      by_cases hki : k = i
      · subst hki
        rw [hout1 _ (Or.inl (by omega)), V_set _ _ _ _ (by rw [hr, h16]; omega), if_pos rfl, hv]
      · exact hin1 k (by omega) (by omega)
    · intro j hj
      rw [hout1 j (by omega), V_set _ _ _ _ (by rw [hr, h16]; omega), if_neg (by omega)]

/-- The handler on `FX55` when `I + X < 4096`. -/
theorem VM.execute_prefixF_save (vm : VM) (st : VMCycleState) (X : Nat) (hX : X < 16)
    (hwf : vm.state.wf) (hI : vm.state.i + X < 4096)
    (h2 : st.instruction.nibble 2 = .ok X) (hb : st.instruction.lower_byte = 0x55) :
    ∃ m, vm.execute_prefixF_instruction st = .ok
        ({ vm with state := { vm.state with memory := m, i := vm.state.i + X + 1 } }, st) ∧
      m.length = DEFAULT_MEMORY_SIZE ∧
      (∀ k, k ≤ X → m.getD (vm.state.i + k) 0 = vm.state.V k) ∧
      (∀ j, (j < vm.state.i ∨ vm.state.i + X < j) →
        m.getD j 0 = vm.state.memory.getD j 0) := by
  have hm : DEFAULT_MEMORY_SIZE = 4096 := rfl
  have hx : to_regval X = X := to_regval_of_lt X (by omega)
  have hs : to_regval 0x55 = 0x55 := rfl
  have hguard : ¬ vm.state.i + X > vm.state.memory_size := by
    unfold State.memory_size; omega
  obtain ⟨m, hloop, hlen, hin, hout⟩ := VM.save_loop_spec (X + 1) 0 vm hwf.1 hwf.2.2.1
    hwf.2.2.2.1 (by omega) (by omega)
  refine ⟨m, ?_, hlen, fun k hk => hin k (by omega) (by omega),
    fun j hj => hout j (by omega)⟩
  unfold VM.execute_prefixF_instruction
  simp only [h2, hb, VM.call_ok, ok_bind, hx, hs, if_neg hguard]
  rw [hloop, ok_bind,
    VM.on_state_index_register_set _ (fun s => s.i + X + 1) (by show vm.state.i + X + 1 ≤ 4096; omega),
    ok_bind, ok_pure]

/-- The handler on `FX65` when `I + X < 4096`. -/
theorem VM.execute_prefixF_load (vm : VM) (st : VMCycleState) (X : Nat) (hX : X < 16)
    (hwf : vm.state.wf) (hI : vm.state.i + X < 4096)
    (h2 : st.instruction.nibble 2 = .ok X) (hb : st.instruction.lower_byte = 0x65) :
    ∃ r, vm.execute_prefixF_instruction st = .ok
        ({ vm with state := { vm.state with regs := r, i := vm.state.i + X + 1 } }, st) ∧
      r.length = DEFAULT_REGISTER_SIZE ∧
      (∀ k, k ≤ X → r.getD k 0 = vm.state.memory.getD (vm.state.i + k) 0) ∧
      (∀ k, X < k → r.getD k 0 = vm.state.regs.getD k 0) := by
  have hm : DEFAULT_MEMORY_SIZE = 4096 := rfl
  have hx : to_regval X = X := to_regval_of_lt X (by omega)
  have hs : to_regval 0x65 = 0x65 := rfl
  have hguard : ¬ vm.state.i + X > vm.state.memory_size := by
    unfold State.memory_size; omega
  obtain ⟨r, hloop, hlen, hin, hout⟩ := VM.load_loop_spec (X + 1) 0 vm hwf.1 hwf.2.1
    hwf.2.2.1 (by omega) (by omega)
  refine ⟨r, ?_, hlen, fun k hk => hin k (by omega) (by omega),
    fun j hj => hout j (by omega)⟩
  unfold VM.execute_prefixF_instruction
  simp only [h2, hb, VM.call_ok, ok_bind, hx, hs, if_neg hguard]
  rw [hloop, ok_bind,
    VM.on_state_index_register_set _ (fun s => s.i + X + 1) (by show vm.state.i + X + 1 ≤ 4096; omega),
    ok_bind, ok_pure]

/-- Claim C29 (FX55).  For every well-formed machine in `RUNNING` mode that fetches `FX55`
with `I + X < 4096`, the step succeeds; afterwards `memory[I_old + i] = Vi` for every
`i` in `0..X`, every memory byte outside `[I_old, I_old + X]` is unchanged (memory still has
4096 bytes), all registers are unchanged, and `I = I_old + X + 1`. -/
theorem save_registers_FX55 (vm : VM) (X : Nat) (hwf : vm.state.wf)
    (hrun : vm.execution_state = .RUNNING) (hX : X < 16) (hI : vm.state.i + X < 4096)
    (hfetch : vm.fetch_and_decode vm.state.pc = .ok ⟨opcode_XNN 0xF X 0x55⟩) :
    ∃ vm1, vm.step = .ok vm1 ∧
      (∀ k, k ≤ X → vm1.state.memory.getD (vm.state.i + k) 0 = vm.state.V k) ∧
      (∀ j, (j < vm.state.i ∨ vm.state.i + X < j) →
        vm1.state.memory.getD j 0 = vm.state.memory.getD j 0) ∧
      vm1.state.memory.length = 4096 ∧
      vm1.state.regs = vm.state.regs ∧
      vm1.state.i = vm.state.i + X + 1 := by
  obtain ⟨h3, h2, hb⟩ := decode_opcode_XNN 0xF X 0x55 (by decide) hX (by decide)
  obtain ⟨m, hexec, hlen, hin, hout⟩ := VM.execute_prefixF_save vm
    (VMCycleState.mk_cycle vm.execution_state vm.state.pc
      (vm.state.pc + CHARS_PER_INSTRUCTION) ⟨opcode_XNN 0xF X 0x55⟩) X hX hwf hI h2 hb
  have he := (VM.execute_instruction_F vm (VMCycleState.mk_cycle vm.execution_state vm.state.pc
      (vm.state.pc + CHARS_PER_INSTRUCTION) ⟨opcode_XNN 0xF X 0x55⟩) h3).trans hexec
  refine ⟨_, (VM.step_of_running vm hrun).trans (VM.step_running_eq vm _ _ _ hfetch he),
    ?_, ?_, ?_, ?_, ?_⟩
  · exact hin
  · exact hout
  · exact hlen
  · simp only [VM.commit]
  · simp only [VM.commit]

theorem save_registers_FX55_witness :
    ∃ vm1, VM.vm_F255.step = .ok vm1 ∧
      (∀ k, k ≤ 2 → vm1.state.memory.getD (VM.vm_F255.state.i + k) 0 =
        VM.vm_F255.state.V k) ∧
      (∀ j, (j < VM.vm_F255.state.i ∨ VM.vm_F255.state.i + 2 < j) →
        vm1.state.memory.getD j 0 = VM.vm_F255.state.memory.getD j 0) ∧
      vm1.state.memory.length = 4096 ∧
      vm1.state.regs = VM.vm_F255.state.regs ∧
      vm1.state.i = VM.vm_F255.state.i + 2 + 1 :=
  save_registers_FX55 VM.vm_F255 2
    (VM.with_i_wf _ 0x300
      (VM.example_vm_wf [0xF2, 0x55] _ (by decide) (by decide) (by decide) (by decide))) rfl
    (by decide) (by decide)
    ((VM.with_i_fetch _ 0x300 _).trans (VM.example_vm_fetch 0xF2 0x55 []
      [7, 8, 9, 0, 0, 0, 0, 0, 0, 0, 0, 0, 0, 0, 0, 0]))

/-- Claim C30 (FX65).  For every well-formed machine in `RUNNING` mode that fetches `FX65`
with `I + X < 4096`, the step succeeds; afterwards `Vi = memory[I_old + i]` for every `i` in
`0..X`, the registers `V(X+1) .. VF` are unchanged (there are still 16 registers), memory is
unchanged, and `I = I_old + X + 1`. -/
theorem load_registers_FX65 (vm : VM) (X : Nat) (hwf : vm.state.wf)
    (hrun : vm.execution_state = .RUNNING) (hX : X < 16) (hI : vm.state.i + X < 4096)
    (hfetch : vm.fetch_and_decode vm.state.pc = .ok ⟨opcode_XNN 0xF X 0x65⟩) :
    ∃ vm1, vm.step = .ok vm1 ∧
      (∀ k, k ≤ X → vm1.state.V k = vm.state.memory.getD (vm.state.i + k) 0) ∧
      (∀ k, X < k → vm1.state.V k = vm.state.V k) ∧
      vm1.state.regs.length = 16 ∧
      vm1.state.memory = vm.state.memory ∧
      vm1.state.i = vm.state.i + X + 1 := by
  obtain ⟨h3, h2, hb⟩ := decode_opcode_XNN 0xF X 0x65 (by decide) hX (by decide)
  obtain ⟨r, hexec, hlen, hin, hout⟩ := VM.execute_prefixF_load vm
    (VMCycleState.mk_cycle vm.execution_state vm.state.pc
      (vm.state.pc + CHARS_PER_INSTRUCTION) ⟨opcode_XNN 0xF X 0x65⟩) X hX hwf hI h2 hb
  have he := (VM.execute_instruction_F vm (VMCycleState.mk_cycle vm.execution_state vm.state.pc
      (vm.state.pc + CHARS_PER_INSTRUCTION) ⟨opcode_XNN 0xF X 0x65⟩) h3).trans hexec
  refine ⟨_, (VM.step_of_running vm hrun).trans (VM.step_running_eq vm _ _ _ hfetch he),
    ?_, ?_, ?_, ?_, ?_⟩
  · exact hin
  · exact hout
  · exact hlen
  · simp only [VM.commit]
  · simp only [VM.commit]

theorem load_registers_FX65_witness :
    ∃ vm1, VM.vm_F265.step = .ok vm1 ∧
      (∀ k, k ≤ 2 → vm1.state.V k =
        VM.vm_F265.state.memory.getD (VM.vm_F265.state.i + k) 0) ∧
      (∀ k, 2 < k → vm1.state.V k = VM.vm_F265.state.V k) ∧
      vm1.state.regs.length = 16 ∧
      vm1.state.memory = VM.vm_F265.state.memory ∧
      vm1.state.i = VM.vm_F265.state.i + 2 + 1 :=
  load_registers_FX65 VM.vm_F265 2
    (VM.example_vm_wf [0xF2, 0x65] _ (by decide) (by decide) (by decide) (by decide)) rfl
    (by decide) (by decide) (VM.example_vm_fetch 0xF2 0x65 [] _)

/-! ## Call and return (`2NNN`, `00EE`) -/

theorem decode_opcode_NNN (P NNN : Nat) (hP : P < 16) (hN : NNN < 4096) :
    (Instruction.mk (opcode_NNN P NNN)).nibble 3 = .ok P ∧
    (Instruction.mk (opcode_NNN P NNN)).lower_triplet = NNN := by
  refine ⟨?_, ?_⟩
  · rw [Instruction.nibble_eq _ _ (by omega)]; unfold opcode_NNN; congr 1; norm_num; omega
  · rw [Instruction.lower_triplet_eq]; unfold opcode_NNN; simp only []; omega

theorem VM.execute_instruction_2 (vm : VM) (st : VMCycleState)
    (h : st.instruction.nibble 3 = .ok 2) :
    vm.execute_instruction st = vm.execute_prefix2_instruction st := by
  unfold VM.execute_instruction Instruction.prefix_nibble
  rw [h, VM.call_ok, ok_bind]

/-- A successful fetch at `p` reads two bytes inside memory. -/
theorem VM.fetch_bound (vm : VM) (p : Nat) (ins : Instruction)
    (h : vm.fetch_and_decode p = .ok ins) : p + 1 < 4096 := by
  have hm : DEFAULT_MEMORY_SIZE = 4096 := rfl
  unfold VM.fetch_and_decode State.memory_size at h
  by_cases hp : p + 1 ≥ DEFAULT_MEMORY_SIZE
  · rw [if_pos hp] at h; cases h
  · omega

theorem VM.execute_prefix2_eq (vm : VM) (st : VMCycleState) (hp : vm.state.pc + 2 ≤ 4096) :
    vm.execute_prefix2_instruction st = .ok
      ({ vm with state := { vm.state with
          callstack := vm.state.callstack ++ [vm.state.pc + 2] } },
        { st with next_program_counter_value := st.instruction.lower_triplet }) := by
  have hpush := VM.on_state_ok vm (fun s => s.push_callstack (s.pc + CHARS_PER_INSTRUCTION)) _
    (State.push_callstack_eq vm.state (vm.state.pc + 2) hp)
  unfold VM.execute_prefix2_instruction
  rw [hpush, ok_bind, ok_pure]

theorem VM.execute_prefix0_return (vm : VM) (st : VMCycleState) (l : List Nat) (a : Nat)
    (ht : st.instruction.lower_triplet = 0xEE) (hstack : vm.state.callstack = l ++ [a]) :
    vm.execute_prefix0_instruction st = .ok
      ({ vm with state := { vm.state with callstack := l } },
        { st with next_program_counter_value := a }) := by
  unfold VM.execute_prefix0_instruction
  simp only [ht, State.pop_callstack_eq vm.state l a hstack, VM.call_ok, ok_bind, ok_pure]

theorem VM.execute_prefix0_return_empty (vm : VM) (st : VMCycleState)
    (ht : st.instruction.lower_triplet = 0xEE) (hstack : vm.state.callstack = []) :
    vm.execute_prefix0_instruction st = .error (.runtime_error, vm) := by
  unfold VM.execute_prefix0_instruction
  simp only [ht, State.pop_callstack_empty vm.state hstack, VM.call_error, error_bind]

/-- What a step on `2NNN` does: the address after the call is pushed and the program counter
becomes `NNN`. -/
theorem VM.step_2NNN (vm : VM) (NNN : Nat) (hrun : vm.execution_state = .RUNNING)
    (hN : NNN < 4096)
    (hfetch : vm.fetch_and_decode vm.state.pc = .ok ⟨opcode_NNN 2 NNN⟩) :
    vm.step = .ok
      { vm with
        state := { vm.state with
          callstack := vm.state.callstack ++ [vm.state.pc + 2]
          pc := NNN }
        last_state := .RUNNING
        execution_state := .RUNNING } := by
  have hp := VM.fetch_bound vm _ _ hfetch
  obtain ⟨h3, ht⟩ := decode_opcode_NNN 2 NNN (by decide) hN
  have he := (VM.execute_instruction_2 vm (VMCycleState.mk_cycle vm.execution_state vm.state.pc
      (vm.state.pc + CHARS_PER_INSTRUCTION) ⟨opcode_NNN 2 NNN⟩) h3).trans
      (VM.execute_prefix2_eq vm _ (by omega))
  rw [VM.step_of_running vm hrun, VM.step_running_eq vm _ _ _ hfetch he]
  simp [VM.commit, VMCycleState.mk_cycle, ht, DEFAULT_MEMORY_SIZE, hrun, Nat.mod_eq_of_lt hN]

/-- What a step on `00EE` does when the call stack is not empty: its top entry is removed and
becomes the program counter, modulo the memory size. -/
theorem VM.step_00EE (vm : VM) (l : List Nat) (a : Nat)
    (hrun : vm.execution_state = .RUNNING) (hstack : vm.state.callstack = l ++ [a])
    (hfetch : vm.fetch_and_decode vm.state.pc = .ok ⟨opcode 0 0 0xE 0xE⟩) :
    vm.step = .ok
      { vm with
        state := { vm.state with callstack := l, pc := a % 4096 }
        last_state := .RUNNING
        execution_state := .RUNNING } := by
  obtain ⟨h3, -, -, -, -, ht⟩ := decode_opcode 0 0 0xE 0xE (by decide) (by decide) (by decide)
    (by decide)
  have he := (VM.execute_instruction_0 vm (VMCycleState.mk_cycle vm.execution_state vm.state.pc
      (vm.state.pc + CHARS_PER_INSTRUCTION) ⟨opcode 0 0 0xE 0xE⟩) h3).trans
      (VM.execute_prefix0_return vm _ l a ht hstack)
  rw [VM.step_of_running vm hrun, VM.step_running_eq vm _ _ _ hfetch he]
  simp [VM.commit, VMCycleState.mk_cycle, DEFAULT_MEMORY_SIZE, hrun]

/-- What a step on `00EE` does when the call stack is empty: it faults and the machine is
left as it was. -/
theorem VM.step_00EE_empty (vm : VM) (hrun : vm.execution_state = .RUNNING)
    (hstack : vm.state.callstack = [])
    (hfetch : vm.fetch_and_decode vm.state.pc = .ok ⟨opcode 0 0 0xE 0xE⟩) :
    vm.step = .error (.runtime_error, vm) := by
  obtain ⟨h3, -, -, -, -, ht⟩ := decode_opcode 0 0 0xE 0xE (by decide) (by decide) (by decide)
    (by decide)
  have he := (VM.execute_instruction_0 vm (VMCycleState.mk_cycle vm.execution_state vm.state.pc
      (vm.state.pc + CHARS_PER_INSTRUCTION) ⟨opcode 0 0 0xE 0xE⟩) h3).trans
      (VM.execute_prefix0_return_empty vm _ ht hstack)
  exact (VM.step_of_running vm hrun).trans (VM.step_running_fault vm _ _ _ hfetch he)

/-- Changing the call stack of a machine does not change what is fetched. -/
theorem VM.with_callstack_fetch (vm : VM) (c : List Nat) (p : Nat) :
    ({ vm with state := { vm.state with callstack := c } } : VM).fetch_and_decode p =
      vm.fetch_and_decode p := rfl

/-- The first bytes of the memory of `example_vm`. -/
theorem VM.example_vm_memory (bytes regs : List Nat) (j : Nat) (hj : j < bytes.length) :
    (VM.example_vm bytes regs).state.memory[j]? = bytes[j]? := by
  show (bytes ++ List.replicate (DEFAULT_MEMORY_SIZE - bytes.length) 0)[j]? = _
  rw [List.getElem?_append_left hj]

/-- A call followed by the return at its target: the two steps. -/
theorem VM.call_return_steps (vm : VM) (NNN : Nat) (hrun : vm.execution_state = .RUNNING)
    (hN : NNN < 4096)
    (hfetch : vm.fetch_and_decode vm.state.pc = .ok ⟨opcode_NNN 2 NNN⟩)
    (htarget : vm.fetch_and_decode NNN = .ok ⟨opcode 0 0 0xE 0xE⟩) :
    ∃ vm1 vm2, vm.step = .ok vm1 ∧ vm1.state.pc = NNN ∧
      vm1.state.callstack = vm.state.callstack ++ [vm.state.pc + 2] ∧
      vm1.step = .ok vm2 ∧
      vm2.state.pc = (vm.state.pc + 2) % 4096 ∧
      vm2.state.callstack = vm.state.callstack :=
  ⟨_, _, VM.step_2NNN vm NNN hrun hN hfetch, rfl, rfl,
    VM.step_00EE _ vm.state.callstack (vm.state.pc + 2) rfl rfl htarget, rfl, rfl⟩

/-- Claim C22 fails as stated: the program counter after the return is not always `p + 2`.
On the machine whose call `2000` sits at `p = 0xFFE` and whose address 0 holds `00EE`, the
first step leaves `PC = 0` with `0x1000` on the call stack, and the second step leaves
`PC = 0`, not `p + 2 = 0x1000`: the program counter is committed modulo the memory size. -/
theorem call_at_last_address_returns_to_0 :
    VM.vm_call_at_end.execution_state = .RUNNING ∧ VM.vm_call_at_end.state.pc = 0xFFE ∧
    VM.vm_call_at_end.fetch_and_decode 0xFFE = .ok ⟨opcode_NNN 2 0⟩ ∧
    VM.vm_call_at_end.fetch_and_decode 0 = .ok ⟨opcode 0 0 0xE 0xE⟩ ∧
    ∃ vm1 vm2, VM.vm_call_at_end.step = .ok vm1 ∧ vm1.state.pc = 0 ∧
      vm1.state.callstack = [0x1000] ∧ vm1.step = .ok vm2 ∧ vm2.state.pc = 0 ∧
      vm2.state.callstack = [] ∧ vm2.state.pc ≠ VM.vm_call_at_end.state.pc + 2 := by
  have hlen : ([0x00, 0xEE] ++ List.replicate 4092 0 : List Nat).length = 4094 := by
    rw [List.length_append, List.length_replicate]; rfl
  have hm0 : VM.vm_call_at_end.state.memory[0xFFE]? = some 0x20 := by
    show ([0x00, 0xEE] ++ List.replicate 4092 0 ++ [0x20, 0x00] : List Nat)[0xFFE]? = _
    rw [List.getElem?_append_right (by rw [hlen]), hlen]
    rfl
  have hm1 : VM.vm_call_at_end.state.memory[0xFFE + 1]? = some 0x00 := by
    show ([0x00, 0xEE] ++ List.replicate 4092 0 ++ [0x20, 0x00] : List Nat)[0xFFE + 1]? = _
    rw [List.getElem?_append_right (by rw [hlen]; decide), hlen]
    rfl
  have ht0 : VM.vm_call_at_end.state.memory[0]? = some 0x00 := by
    show ([0x00, 0xEE] ++ List.replicate 4092 0 ++ [0x20, 0x00] : List Nat)[0]? = _
    rw [List.append_assoc, List.getElem?_append_left (by decide)]
    rfl
  have ht1 : VM.vm_call_at_end.state.memory[0 + 1]? = some 0xEE := by
    show ([0x00, 0xEE] ++ List.replicate 4092 0 ++ [0x20, 0x00] : List Nat)[0 + 1]? = _
    rw [List.append_assoc, List.getElem?_append_left (by decide)]
    rfl
  have hfetch : VM.vm_call_at_end.fetch_and_decode 0xFFE = .ok ⟨opcode_NNN 2 0⟩ :=
    VM.fetch_eq VM.vm_call_at_end 0xFFE 0x20 0x00 (by decide) hm0 hm1
  have htarget : VM.vm_call_at_end.fetch_and_decode 0 = .ok ⟨opcode 0 0 0xE 0xE⟩ :=
    VM.fetch_eq VM.vm_call_at_end 0 0x00 0xEE (by decide) ht0 ht1
  have hpc : VM.vm_call_at_end.state.pc = 0xFFE := rfl
  have hcs : VM.vm_call_at_end.state.callstack = [] := rfl
  obtain ⟨vm1, vm2, h1, hpc1, hcs1, h2, hpc2, hcs2⟩ :=
    VM.call_return_steps VM.vm_call_at_end 0 rfl (by decide) hfetch htarget
  rw [hpc] at hcs1 hpc2
  rw [hcs] at hcs1 hcs2
  refine ⟨rfl, rfl, hfetch, htarget, vm1, vm2, h1, hpc1, hcs1, h2, hpc2, hcs2, ?_⟩
  rw [hpc2, hpc]
  decide

/-- Claim C22, amended.  For every machine in `RUNNING` mode whose instruction at `PC = p`
is `2NNN` and whose address `NNN` holds `00EE`: the first step succeeds and leaves `PC = NNN`
with `p + 2` pushed on top of the call stack; the second step succeeds and leaves
`PC = (p + 2) mod 4096`, which is `p + 2` unless `p = 0xFFE`, and the call stack as it was
before the call. -/
theorem call_then_return (vm : VM) (NNN : Nat) (hrun : vm.execution_state = .RUNNING)
    (hN : NNN < 4096)
    (hfetch : vm.fetch_and_decode vm.state.pc = .ok ⟨opcode_NNN 2 NNN⟩)
    (htarget : vm.fetch_and_decode NNN = .ok ⟨opcode 0 0 0xE 0xE⟩) :
    ∃ vm1 vm2, vm.step = .ok vm1 ∧ vm1.state.pc = NNN ∧
      vm1.state.callstack = vm.state.callstack ++ [vm.state.pc + 2] ∧
      vm1.state.callstack.getLast? = some (vm.state.pc + 2) ∧
      vm1.step = .ok vm2 ∧
      vm2.state.pc = (vm.state.pc + 2) % 4096 ∧
      (vm.state.pc + 2 < 4096 → vm2.state.pc = vm.state.pc + 2) ∧
      vm2.state.callstack = vm.state.callstack := by
  obtain ⟨vm1, vm2, h1, hpc1, hcs1, h2, hpc2, hcs2⟩ :=
    VM.call_return_steps vm NNN hrun hN hfetch htarget
  refine ⟨vm1, vm2, h1, hpc1, hcs1, ?_, h2, hpc2, ?_, hcs2⟩
  · rw [hcs1, List.getLast?_append]
    rfl
  · intro h
    rw [hpc2]
    exact Nat.mod_eq_of_lt h

theorem call_then_return_witness :
    ∃ vm1 vm2, VM.vm_call.step = .ok vm1 ∧ vm1.state.pc = 2 ∧
      vm1.state.callstack = VM.vm_call.state.callstack ++ [VM.vm_call.state.pc + 2] ∧
      vm1.state.callstack.getLast? = some (VM.vm_call.state.pc + 2) ∧
      vm1.step = .ok vm2 ∧
      vm2.state.pc = (VM.vm_call.state.pc + 2) % 4096 ∧
      (VM.vm_call.state.pc + 2 < 4096 → vm2.state.pc = VM.vm_call.state.pc + 2) ∧
      vm2.state.callstack = VM.vm_call.state.callstack :=
  call_then_return VM.vm_call 2 rfl (by decide)
    (VM.example_vm_fetch 0x20 0x02 [0x00, 0xEE] _)
    (VM.fetch_eq VM.vm_call 2 0x00 0xEE (by decide)
      (VM.example_vm_memory [0x20, 0x02, 0x00, 0xEE] _ 2 (by decide))
      (VM.example_vm_memory [0x20, 0x02, 0x00, 0xEE] _ 3 (by decide)))

/-- Claim C23 fails as stated: the program counter after a return is not always the popped
address.  The guard of `push_callstack` admits 4096; on the machine about to run `00EE` with
4096 on its call stack the step succeeds, removes that entry and leaves `PC = 0`, not 4096. -/
theorem return_00EE_to_4096_gives_0 :
    VM.vm_00EE.on_state (fun s => s.push_callstack 4096) = .ok VM.vm_return_to_4096 ∧
    VM.vm_return_to_4096.state.callstack.getLast? = some 4096 ∧
    ∃ vm1, VM.vm_return_to_4096.step = .ok vm1 ∧ vm1.state.pc = 0 ∧ vm1.state.pc ≠ 4096 ∧
      vm1.state.callstack = [] := by
  refine ⟨VM.on_state_ok _ _ _ (State.push_callstack_eq _ 4096 (by decide)), rfl, _,
    VM.step_00EE VM.vm_return_to_4096 [] 4096 rfl rfl
      ((VM.with_callstack_fetch _ [4096] _).trans (VM.example_vm_fetch 0x00 0xEE []
        [0, 0, 0, 0, 0, 0, 0, 0, 0, 0, 0, 0, 0, 0, 0, 0])),
    rfl, by decide, rfl⟩

/-- Claim C23, amended.  For every machine in `RUNNING` mode that fetches `00EE`: with an
empty call stack the step raises a fault and leaves the machine (program counter, memory,
registers, `I`, stack, timers, execution mode) as it was; with a call stack whose top is `a`
the step succeeds, removes exactly that top entry and sets `PC = a mod 4096`, which is `a`
(no additional +2) for every `a < 4096`, leaving memory, registers, `I`, the timers and the
mode as they were. -/
theorem return_00EE (vm : VM) (hrun : vm.execution_state = .RUNNING)
    (hfetch : vm.fetch_and_decode vm.state.pc = .ok ⟨opcode 0 0 0xE 0xE⟩) :
    (vm.state.callstack = [] → vm.step = .error (.runtime_error, vm)) ∧
    (∀ l a, vm.state.callstack = l ++ [a] →
      ∃ vm1, vm.step = .ok vm1 ∧ vm1.state.pc = a % 4096 ∧
        (a < 4096 → vm1.state.pc = a) ∧ vm1.state.callstack = l ∧
        vm1.state.memory = vm.state.memory ∧ vm1.state.regs = vm.state.regs ∧
        vm1.state.i = vm.state.i ∧ vm1.state.timer = vm.state.timer ∧
        vm1.state.sound_timer = vm.state.sound_timer ∧
        vm1.execution_state = .RUNNING) := by
  constructor
  · intro h
    exact VM.step_00EE_empty vm hrun h hfetch
  · intro l a h
    exact ⟨_, VM.step_00EE vm l a hrun h hfetch, rfl, fun ha => Nat.mod_eq_of_lt ha, rfl, rfl,
      rfl, rfl, rfl, rfl, rfl⟩

theorem return_00EE_witness :
    (VM.vm_return.state.callstack = [] →
      VM.vm_return.step = .error (.runtime_error, VM.vm_return)) ∧
    (∀ l a, VM.vm_return.state.callstack = l ++ [a] →
      ∃ vm1, VM.vm_return.step = .ok vm1 ∧ vm1.state.pc = a % 4096 ∧
        (a < 4096 → vm1.state.pc = a) ∧ vm1.state.callstack = l ∧
        vm1.state.memory = VM.vm_return.state.memory ∧
        vm1.state.regs = VM.vm_return.state.regs ∧
        vm1.state.i = VM.vm_return.state.i ∧ vm1.state.timer = VM.vm_return.state.timer ∧
        vm1.state.sound_timer = VM.vm_return.state.sound_timer ∧
        vm1.execution_state = .RUNNING) :=
  return_00EE VM.vm_return rfl
    ((VM.with_callstack_fetch _ [0x789] _).trans (VM.example_vm_fetch 0x00 0xEE []
      [0, 0, 0, 0, 0, 0, 0, 0, 0, 0, 0, 0, 0, 0, 0, 0]))

/-! ## Faults -/

theorem bind_eq_error {ε α β : Type} (x : Except ε α) (f : α → Except ε β) (e : ε) :
    (x >>= f) = .error e ↔ x = .error e ∨ ∃ a, x = .ok a ∧ f a = .error e := by
  cases x with
  | error e1 =>
    rw [error_bind]
    constructor
    · intro h; cases h; exact Or.inl rfl
    · rintro (h | ⟨a, h, -⟩)
      · cases h; rfl
      · cases h
  | ok a =>
    rw [ok_bind]
    constructor
    · intro h; exact Or.inr ⟨a, rfl, h⟩
    · rintro (h | ⟨a1, h, h1⟩)
      · cases h
      · cases h; exact h1

theorem raises_bind {ε α β : Type} (q : ε → Prop) (x : Except ε α) (f : α → Except ε β)
    (hx : raises q x) (hf : ∀ a, x = .ok a → raises q (f a)) : raises q (x >>= f) := by
  intro e he
  rcases (bind_eq_error x f e).mp he with h | ⟨a, ha, hfa⟩
  · exact hx e h
  · exact hf a ha e hfa

theorem raises_ok {ε α : Type} (q : ε → Prop) (a : α) :
    raises q (Except.ok a : Except ε α) := by
  intro e he; cases he

theorem raises_pure {ε α : Type} (q : ε → Prop) (a : α) :
    raises q (pure a : Except ε α) := by
  rw [ok_pure]; exact raises_ok q a

theorem raises_error {ε α : Type} (q : ε → Prop) (e : ε) (h : q e) :
    raises q (Except.error e : Except ε α) := by
  intro e1 he; cases he; exact h

theorem raises_mono {ε α : Type} (q1 q2 : ε → Prop) (x : Except ε α)
    (h : ∀ e, q1 e → q2 e) (hx : raises q1 x) : raises q2 x :=
  fun e he => h e (hx e he)

theorem Fault.thrown_illegal : Fault.thrown .illegal_instruction := trivial

theorem VM.call_eq_error {α : Type} (vm : VM) (x : Except Fault α) (e : Fault × VM)
    (h : vm.call x = .error e) : ∃ f, x = .error f ∧ e = (f, vm) := by
  cases x with
  | error f => rw [VM.call_error] at h; cases h; exact ⟨f, rfl, rfl⟩
  | ok a => rw [VM.call_ok] at h; cases h

theorem VM.on_state_eq_error (vm : VM) (g : State → Except Fault State) (e : Fault × VM)
    (h : vm.on_state g = .error e) : ∃ f, g vm.state = .error f ∧ e = (f, vm) := by
  cases hg : g vm.state with
  | error f => rw [VM.on_state_error vm g f hg] at h; cases h; exact ⟨f, rfl, rfl⟩
  | ok s => rw [VM.on_state_ok vm g s hg] at h; cases h

/-- A query made on the machine `vm` itself: its fault comes with `vm`. -/
theorem VM.raises_call_self {α : Type} (vm : VM) (ill : Prop) (x : Except Fault α)
    (h : ∀ f, x = .error f → f ≠ .illegal_instruction) :
    raises (vm.atomic ill) (vm.call x) := by
  intro e he
  obtain ⟨f, hf, rfl⟩ := VM.call_eq_error vm x e he
  exact ⟨fun _ => rfl, fun hi => absurd hi (h f hf)⟩

/-- A query that throws no exception, made on any machine. -/
theorem VM.raises_call_quiet {α : Type} (vm vm0 : VM) (ill : Prop) (x : Except Fault α)
    (h : ∀ f, x = .error f → ¬ f.thrown) :
    raises (vm.atomic ill) (vm0.call x) := by
  intro e he
  obtain ⟨f, hf, rfl⟩ := VM.call_eq_error vm0 x e he
  refine ⟨fun ht => absurd ht (h f hf), fun hi => ?_⟩
  have hi2 : f = .illegal_instruction := hi
  exact absurd (hi2 ▸ Fault.thrown_illegal) (h f hf)

/-- A method run on the state of the machine `vm` itself. -/
theorem VM.raises_on_state_self (vm : VM) (ill : Prop) (g : State → Except Fault State)
    (h : ∀ f, g vm.state = .error f → f ≠ .illegal_instruction) :
    raises (vm.atomic ill) (vm.on_state g) := by
  intro e he
  obtain ⟨f, hf, rfl⟩ := VM.on_state_eq_error vm g e he
  exact ⟨fun _ => rfl, fun hi => absurd hi (h f hf)⟩

/-- A method that throws no exception, run on the state of any machine. -/
theorem VM.raises_on_state_quiet (vm vm0 : VM) (ill : Prop)
    (g : State → Except Fault State)
    (h : ∀ f, g vm0.state = .error f → ¬ f.thrown) :
    raises (vm.atomic ill) (vm0.on_state g) := by
  intro e he
  obtain ⟨f, hf, rfl⟩ := VM.on_state_eq_error vm0 g e he
  refine ⟨fun ht => absurd ht (h f hf), fun hi => ?_⟩
  have hi2 : f = .illegal_instruction := hi
  exact absurd (hi2 ▸ Fault.thrown_illegal) (h f hf)

theorem VM.raises_raise (vm : VM) (ill : Prop) {α : Type} (h : ill) :
    raises (vm.atomic ill) (VM.raise_illegal_opcode_error vm : Outcome α) :=
  raises_error _ _ ⟨fun _ => rfl, fun _ => h⟩

theorem VM.raises_fault (vm : VM) (ill : Prop) {α : Type} (f : Fault)
    (h : f ≠ .illegal_instruction) :
    raises (vm.atomic ill) (Except.error (f, vm) : Outcome α) :=
  raises_error _ _ ⟨fun _ => rfl, fun hi => absurd hi h⟩

/-! ### The faults of the `State` methods -/

theorem Instruction.nibble_ok (ins : Instruction) (k : Nat) (hk : k ≤ 3) :
    ∃ v, ins.nibble k = .ok v ∧ v < 16 :=
  ⟨_, Instruction.nibble_eq ins k hk, Nat.mod_lt _ (by decide)⟩

theorem Instruction.nibble_lt (ins : Instruction) (k v : Nat) (hk : k ≤ 3)
    (h : ins.nibble k = .ok v) : v < 16 := by
  obtain ⟨w, hw, hlt⟩ := Instruction.nibble_ok ins k hk
  rw [hw] at h
  cases h
  exact hlt

theorem Instruction.nibble_no_fault (ins : Instruction) (k : Nat) (hk : k ≤ 3) (f : Fault)
    (h : ins.nibble k = .error f) : False := by
  obtain ⟨w, hw, -⟩ := Instruction.nibble_ok ins k hk
  rw [hw] at h
  cases h

theorem State.reg_fault (s : State) (n : Nat) (f : Fault) (h : s.reg n = .error f) :
    f = .register_access ∨ f = .assertion_failure := by
  unfold State.reg at h
  split at h
  · cases h; exact Or.inl rfl
  · split at h
    · cases h
    · cases h; exact Or.inr rfl

theorem State.reg_fault_ne (s : State) (n : Nat) (f : Fault) (h : s.reg n = .error f) :
    f ≠ .illegal_instruction := by
  rcases State.reg_fault s n f h with h1 | h1 <;> rw [h1] <;> decide

theorem State.reg_fault_quiet (s : State) (n : Nat) (hn : n ≤ 16) (f : Fault)
    (h : s.reg n = .error f) : ¬ f.thrown := by
  have h16 : DEFAULT_REGISTER_SIZE = 16 := rfl
  unfold State.reg State.register_size at h
  rw [if_neg (by omega)] at h
  split at h
  · cases h
  · cases h; exact fun ht => ht

theorem State.reg_set_fault (s : State) (n v : Nat) (f : Fault)
    (h : s.reg_set n v = .error f) : ¬ f.thrown := by
  unfold State.reg_set at h
  split at h
  · cases h; exact fun ht => ht
  · split at h
    · cases h
    · cases h; exact fun ht => ht

theorem State.flag_register_set_fault (s : State) (v : Nat) (f : Fault)
    (h : s.flag_register_set v = .error f) : ¬ f.thrown := by
  unfold State.flag_register_set at h
  split at h
  · cases h; exact fun ht => ht
  · split at h
    · cases h
    · cases h; exact fun ht => ht

theorem State.flag_ite_fault (c : Prop) [Decidable c] (a b : Nat) (s : State) (f : Fault)
    (h : (if c then s.flag_register_set a else s.flag_register_set b) = .error f) :
    ¬ f.thrown := by
  split at h
  · exact State.flag_register_set_fault _ _ _ h
  · exact State.flag_register_set_fault _ _ _ h

theorem State.index_register_set_fault (s : State) (n : Nat) (f : Fault)
    (h : s.index_register_set n = .error f) : ¬ f.thrown := by
  unfold State.index_register_set at h
  split at h
  · cases h; exact fun ht => ht
  · cases h

theorem State.memory_set_fault (s : State) (n v : Nat) (hn : n ≤ 4096) (f : Fault)
    (h : s.memory_set n v = .error f) : ¬ f.thrown := by
  have hm : DEFAULT_MEMORY_SIZE = 4096 := rfl
  unfold State.memory_set State.memory_size at h
  rw [if_neg (by omega)] at h
  split at h
  · cases h
  · cases h; exact fun ht => ht

theorem State.memory_set_i (s t : State) (n v : Nat) (h : s.memory_set n v = .ok t) :
    t.i = s.i := by
  unfold State.memory_set at h
  split at h
  · cases h
  · split at h
    · cases h; rfl
    · cases h

theorem State.memory_at_fault (s : State) (n : Nat) (f : Fault)
    (h : s.memory_at n = .error f) : ¬ f.thrown := by
  unfold State.memory_at at h
  split at h
  · cases h
  · cases h; exact fun ht => ht

theorem State.push_callstack_fault (s : State) (n : Nat) (f : Fault)
    (h : s.push_callstack n = .error f) : f ≠ .illegal_instruction := by
  unfold State.push_callstack at h
  split at h
  · cases h; decide
  · cases h

theorem State.pop_callstack_fault (s : State) (f : Fault)
    (h : s.pop_callstack = .error f) : f ≠ .illegal_instruction := by
  unfold State.pop_callstack at h
  split at h
  · cases h; decide
  · cases h

theorem size_t_shr_fault (a b : Nat) (f : Fault) (h : size_t_shr a b = .error f) :
    ¬ f.thrown := by
  unfold size_t_shr at h
  split at h
  · cases h
  · cases h; exact fun ht => ht

theorem size_t_shl_fault (a b : Nat) (f : Fault) (h : size_t_shl a b = .error f) :
    ¬ f.thrown := by
  unfold size_t_shl at h
  split at h
  · cases h
  · cases h; exact fun ht => ht

/-! ### The faults of the instruction handlers -/

theorem VM.raises_bind_nibble {β : Type} (vm vm0 : VM) (ill : Prop) (ins : Instruction)
    (k : Nat) (hk : k ≤ 3) (g : Nat → Outcome β)
    (h : ∀ v, v < 16 → ins.nibble k = .ok v → raises (vm.atomic ill) (g v)) :
    raises (vm.atomic ill) (vm0.call (ins.nibble k) >>= g) :=
  raises_bind _ _ _
    (VM.raises_call_quiet vm vm0 ill _
      (fun f hf => (Instruction.nibble_no_fault ins k hk f hf).elim))
    (fun v hv => h v (Instruction.nibble_lt ins k v hk (VM.call_eq_ok _ _ _ hv))
      (VM.call_eq_ok _ _ _ hv))

theorem VM.raises_bind_reg {β : Type} (vm : VM) (ill : Prop) (n : Nat) (g : Nat → Outcome β)
    (h : ∀ v, raises (vm.atomic ill) (g v)) :
    raises (vm.atomic ill) (vm.call (vm.state.reg n) >>= g) :=
  raises_bind _ _ _ (VM.raises_call_self vm ill _ (State.reg_fault_ne vm.state n))
    (fun v _ => h v)

theorem VM.raises_reg_set_pure (vm vm0 : VM) (ill : Prop) (st : VMCycleState)
    (g : State → Except Fault State)
    (hg : ∀ f, g vm0.state = .error f → ¬ f.thrown) :
    raises (vm.atomic ill)
      (vm0.on_state g >>= fun vm1 => (pure (vm1, st) : Outcome (VM × VMCycleState))) :=
  raises_bind _ _ _ (VM.raises_on_state_quiet vm vm0 ill g hg) (fun _ _ => raises_pure _ _)

theorem VM.execute_prefix0_raises (vm : VM) (st : VMCycleState) :
    raises (vm.atomic (st.instruction.lower_triplet ≠ 0x000 ∧
      st.instruction.lower_triplet ≠ 0x0E0 ∧ st.instruction.lower_triplet ≠ 0x0EE))
      (vm.execute_prefix0_instruction st) := by
  unfold VM.execute_prefix0_instruction
  split
  · exact raises_ok _ _
  · exact raises_ok _ _
  · refine raises_bind _ _ _
      (VM.raises_call_self vm _ _ (State.pop_callstack_fault vm.state)) ?_
    rintro ⟨value, s⟩ _
    exact raises_pure _ _
  · rename_i h1 h2 h3
    exact VM.raises_raise vm _ ⟨h1, h2, h3⟩

theorem VM.execute_prefix1_raises (vm : VM) (st : VMCycleState) :
    raises (vm.atomic False) (vm.execute_prefix1_instruction st) := by
  unfold VM.execute_prefix1_instruction
  exact raises_ok _ _

theorem VM.execute_prefix2_raises (vm : VM) (st : VMCycleState) :
    raises (vm.atomic False) (vm.execute_prefix2_instruction st) := by
  unfold VM.execute_prefix2_instruction
  refine raises_bind _ _ _ (VM.raises_on_state_self vm _ _ ?_) (fun _ _ => raises_pure _ _)
  intro f hf
  exact State.push_callstack_fault _ _ f hf

theorem VM.execute_prefix3_raises (vm : VM) (st : VMCycleState) :
    raises (vm.atomic False) (vm.execute_prefix3_instruction st) := by
  unfold VM.execute_prefix3_instruction
  refine VM.raises_bind_nibble vm vm _ _ 2 (by decide) _ (fun x _ _ => ?_)
  refine VM.raises_bind_reg vm _ _ _ (fun v => ?_)
  dsimp only
  split
  · exact raises_pure _ _
  · exact raises_pure _ _

theorem VM.execute_prefix4_raises (vm : VM) (st : VMCycleState) :
    raises (vm.atomic False) (vm.execute_prefix4_instruction st) := by
  unfold VM.execute_prefix4_instruction
  refine VM.raises_bind_nibble vm vm _ _ 2 (by decide) _ (fun x _ _ => ?_)
  refine VM.raises_bind_reg vm _ _ _ (fun v => ?_)
  dsimp only
  split
  · exact raises_pure _ _
  · exact raises_pure _ _

theorem VM.execute_prefix5_raises (vm : VM) (st : VMCycleState) :
    raises (vm.atomic (st.instruction.nibble 0 ≠ .ok 0))
      (vm.execute_prefix5_instruction st) := by
  unfold VM.execute_prefix5_instruction
  refine VM.raises_bind_nibble vm vm _ _ 0 (by decide) _ (fun n _ hn => ?_)
  split
  · rename_i h
    refine VM.raises_raise vm _ ?_
    rw [hn]
    intro hc
    cases hc
    exact h rfl
  · refine VM.raises_bind_nibble vm vm _ _ 2 (by decide) _ (fun x _ _ => ?_)
    refine VM.raises_bind_nibble vm vm _ _ 1 (by decide) _ (fun y _ _ => ?_)
    refine VM.raises_bind_reg vm _ _ _ (fun vx => ?_)
    refine VM.raises_bind_reg vm _ _ _ (fun vy => ?_)
    split
    · exact raises_pure _ _
    · exact raises_pure _ _

theorem VM.execute_prefix6_raises (vm : VM) (st : VMCycleState) :
    raises (vm.atomic False) (vm.execute_prefix6_instruction st) := by
  unfold VM.execute_prefix6_instruction
  refine VM.raises_bind_nibble vm vm _ _ 2 (by decide) _ (fun x _ _ => ?_)
  dsimp only
  exact VM.raises_reg_set_pure vm vm _ st _ (fun f hf => State.reg_set_fault _ _ _ f hf)

theorem VM.execute_prefix7_raises (vm : VM) (st : VMCycleState) :
    raises (vm.atomic False) (vm.execute_prefix7_instruction st) := by
  unfold VM.execute_prefix7_instruction
  refine VM.raises_bind_nibble vm vm _ _ 2 (by decide) _ (fun x _ _ => ?_)
  refine VM.raises_bind_reg vm _ _ _ (fun v => ?_)
  dsimp only
  exact VM.raises_reg_set_pure vm vm _ st _ (fun f hf => State.reg_set_fault _ _ _ f hf)

/-- The tail shared by the arithmetic instructions: set the flag, then the register. -/
theorem VM.flag_then_reg_raises (vm : VM) (ill : Prop) (st : VMCycleState)
    (g : State → Except Fault State) (x v : Nat)
    (hg : ∀ s f, g s = .error f → ¬ f.thrown) :
    raises (vm.atomic ill)
      (vm.on_state g >>= fun vm1 =>
        vm1.on_state (fun s => s.reg_set x v) >>= fun vm2 =>
          (pure (vm2, st) : Outcome (VM × VMCycleState))) := by
  refine raises_bind _ _ _ (VM.raises_on_state_quiet vm vm ill g (hg _)) (fun vm1 _ => ?_)
  exact VM.raises_reg_set_pure vm vm1 _ st _ (fun f hf => State.reg_set_fault _ _ _ f hf)

/-- The tail shared by the two shifts: set the flag, shift, set the register. -/
theorem VM.flag_shift_reg_raises (vm : VM) (ill : Prop) (st : VMCycleState)
    (g : State → Except Fault State) (sh : Except Fault Nat) (x : Nat)
    (hg : ∀ s f, g s = .error f → ¬ f.thrown) (hsh : ∀ f, sh = .error f → ¬ f.thrown) :
    raises (vm.atomic ill)
      (vm.on_state g >>= fun vm1 =>
        vm1.call sh >>= fun shifted =>
          vm1.on_state (fun s => s.reg_set x shifted) >>= fun vm2 =>
            (pure (vm2, st) : Outcome (VM × VMCycleState))) := by
  refine raises_bind _ _ _ (VM.raises_on_state_quiet vm vm ill g (hg _)) (fun vm1 _ => ?_)
  refine raises_bind _ _ _ (VM.raises_call_quiet vm vm1 ill sh hsh) (fun shifted _ => ?_)
  exact VM.raises_reg_set_pure vm vm1 _ st _ (fun f hf => State.reg_set_fault _ _ _ f hf)

theorem VM.execute_prefix8_raises (vm : VM) (st : VMCycleState) :
    raises (vm.atomic (∀ n, st.instruction.nibble 0 = .ok n →
      n ≠ 0 ∧ n ≠ 1 ∧ n ≠ 2 ∧ n ≠ 3 ∧ n ≠ 4 ∧ n ≠ 5 ∧ n ≠ 6 ∧ n ≠ 7 ∧ n ≠ 0xE))
      (vm.execute_prefix8_instruction st) := by
  unfold VM.execute_prefix8_instruction
  refine VM.raises_bind_nibble vm vm _ _ 2 (by decide) _ (fun x _ _ => ?_)
  refine VM.raises_bind_nibble vm vm _ _ 1 (by decide) _ (fun y _ _ => ?_)
  refine VM.raises_bind_reg vm _ _ _ (fun vx => ?_)
  refine VM.raises_bind_reg vm _ _ _ (fun vy => ?_)
  refine VM.raises_bind_nibble vm vm _ _ 0 (by decide) _ (fun n _ hn => ?_)
  split
  · exact VM.raises_reg_set_pure vm vm _ st _ (fun f hf => State.reg_set_fault _ _ _ f hf)
  · exact VM.raises_reg_set_pure vm vm _ st _ (fun f hf => State.reg_set_fault _ _ _ f hf)
  · exact VM.raises_reg_set_pure vm vm _ st _ (fun f hf => State.reg_set_fault _ _ _ f hf)
  · exact VM.raises_reg_set_pure vm vm _ st _ (fun f hf => State.reg_set_fault _ _ _ f hf)
  · exact VM.flag_then_reg_raises vm _ st _ _ _ (fun s f hf => State.flag_ite_fault _ _ _ s f hf)
  · exact VM.flag_then_reg_raises vm _ st _ _ _ (fun s f hf => State.flag_ite_fault _ _ _ s f hf)
  · exact VM.flag_shift_reg_raises vm _ st _ _ _
      (fun s f hf => State.flag_register_set_fault s _ f hf) (size_t_shr_fault _ _)
  · exact VM.flag_then_reg_raises vm _ st _ _ _ (fun s f hf => State.flag_ite_fault _ _ _ s f hf)
  · exact VM.flag_shift_reg_raises vm _ st _ _ _
      (fun s f hf => State.flag_ite_fault _ _ _ s f hf) (size_t_shl_fault _ _)
  · rename_i h0 h1 h2 h3 h4 h5 h6 h7 hE
    refine VM.raises_raise vm _ ?_
    intro m hm
    rw [hn] at hm
    cases hm
    exact ⟨h0, h1, h2, h3, h4, h5, h6, h7, hE⟩

theorem VM.execute_prefix9_raises (vm : VM) (st : VMCycleState) :
    raises (vm.atomic (st.instruction.nibble 0 ≠ .ok 0))
      (vm.execute_prefix9_instruction st) := by
  unfold VM.execute_prefix9_instruction
  refine VM.raises_bind_nibble vm vm _ _ 0 (by decide) _ (fun n _ hn => ?_)
  split
  · rename_i h
    refine VM.raises_raise vm _ ?_
    rw [hn]
    intro hc
    cases hc
    exact h rfl
  · refine VM.raises_bind_nibble vm vm _ _ 2 (by decide) _ (fun x _ _ => ?_)
    refine VM.raises_bind_nibble vm vm _ _ 1 (by decide) _ (fun y _ _ => ?_)
    refine VM.raises_bind_reg vm _ _ _ (fun vx => ?_)
    refine VM.raises_bind_reg vm _ _ _ (fun vy => ?_)
    split
    · exact raises_pure _ _
    · exact raises_pure _ _

theorem VM.execute_prefixA_raises (vm : VM) (st : VMCycleState) :
    raises (vm.atomic False) (vm.execute_prefixA_instruction st) := by
  unfold VM.execute_prefixA_instruction
  exact VM.raises_reg_set_pure vm vm _ st _
    (fun f hf => State.index_register_set_fault _ _ f hf)

theorem VM.execute_prefixB_raises (vm : VM) (st : VMCycleState) :
    raises (vm.atomic False) (vm.execute_prefixB_instruction st) := by
  unfold VM.execute_prefixB_instruction
  refine VM.raises_bind_reg vm _ _ _ (fun v => ?_)
  exact raises_pure _ _

theorem VM.execute_prefixC_raises (vm : VM) (st : VMCycleState) :
    raises (vm.atomic False) (vm.execute_prefixC_instruction st) := by
  unfold VM.execute_prefixC_instruction
  dsimp only
  refine VM.raises_bind_nibble vm _ _ _ 2 (by decide) _ (fun x _ _ => ?_)
  exact VM.raises_reg_set_pure vm _ _ st _ (fun f hf => State.reg_set_fault _ _ _ f hf)

theorem VM.execute_prefixE_raises (vm : VM) (st : VMCycleState) :
    raises (vm.atomic (st.instruction.lower_byte ≠ 0x9E ∧ st.instruction.lower_byte ≠ 0xA1))
      (vm.execute_prefixE_instruction st) := by
  unfold VM.execute_prefixE_instruction
  refine VM.raises_bind_nibble vm vm _ _ 2 (by decide) _ (fun x _ _ => ?_)
  refine VM.raises_bind_reg vm _ _ _ (fun v => ?_)
  dsimp only
  split
  · split
    · exact raises_pure _ _
    · exact raises_pure _ _
  · split
    · exact raises_pure _ _
    · exact raises_pure _ _
  · rename_i h1 h2
    exact VM.raises_raise vm _ ⟨h1, h2⟩

theorem VM.draw_cols_raises (q : Fault × VM → Prop) (ox oy row : Nat) :
    ∀ (n col : Nat) (vm0 : VM) (v modified : Nat),
      raises q (VM.draw_cols ox oy row n col vm0 v modified) := by
  intro n
  induction n with
  | zero =>
    intro col vm0 v modified
    unfold VM.draw_cols
    exact raises_ok _ _
  | succ k ih =>
    intro col vm0 v modified
    rw [VM.draw_cols_succ]
    exact ih _ _ _ _

theorem VM.draw_rows_raises (vm : VM) (ill : Prop) (ox oy : Nat) :
    ∀ (n row : Nat) (vm0 : VM) (modified : Nat),
      raises (vm.atomic ill) (VM.draw_rows ox oy n row vm0 modified) := by
  intro n
  induction n with
  | zero =>
    intro row vm0 modified
    unfold VM.draw_rows
    exact raises_ok _ _
  | succ k ih =>
    intro row vm0 modified
    unfold VM.draw_rows
    refine raises_bind _ _ _
      (VM.raises_call_quiet vm vm0 ill _ (State.memory_at_fault vm0.state _)) (fun v _ => ?_)
    refine raises_bind _ _ _ (VM.draw_cols_raises _ ox oy row _ _ _ _ _) ?_
    rintro ⟨vm1, modified1⟩ _
    exact ih _ _ _

theorem VM.execute_prefixD_raises (vm : VM) (st : VMCycleState) :
    raises (vm.atomic False) (vm.execute_prefixD_instruction st) := by
  unfold VM.execute_prefixD_instruction
  refine VM.raises_bind_nibble vm vm _ _ 2 (by decide) _ (fun x _ _ => ?_)
  refine VM.raises_bind_reg vm _ _ _ (fun vx => ?_)
  dsimp only
  refine VM.raises_bind_nibble vm vm _ _ 1 (by decide) _ (fun y _ _ => ?_)
  refine VM.raises_bind_reg vm _ _ _ (fun vy => ?_)
  dsimp only
  refine VM.raises_bind_nibble vm vm _ _ 0 (by decide) _ (fun n _ _ => ?_)
  dsimp only
  split
  · exact VM.raises_fault vm _ _ (by decide)
  · refine raises_bind _ _ _ (VM.draw_rows_raises vm _ _ _ _ _ _ _) ?_
    rintro ⟨vm1, modified⟩ _
    exact VM.raises_reg_set_pure vm vm1 _ st _
      (fun f hf => State.flag_register_set_fault _ _ f hf)

/-- The loop of `FX55` throws no exception when the registers and the cells it is to touch
exist up to the guards of the accessors. -/
theorem VM.save_loop_raises (vm : VM) (ill : Prop) :
    ∀ (n i : Nat) (vm0 : VM), i + n ≤ 17 → vm0.state.i + i + n ≤ 4097 →
      raises (vm.atomic ill) (VM.save_loop n i vm0) := by
  intro n
  induction n with
  | zero =>
    intro i vm0 _ _
    unfold VM.save_loop
    exact raises_ok _ _
  | succ k ih =>
    intro i vm0 hi hI
    unfold VM.save_loop
    refine raises_bind _ _ _
      (VM.raises_call_quiet vm vm0 ill _ (State.reg_fault_quiet vm0.state i (by omega)))
      (fun v _ => ?_)
    refine raises_bind _ _ _
      (VM.raises_on_state_quiet vm vm0 ill _
        (fun f hf => State.memory_set_fault vm0.state _ _ (by omega) f hf))
      (fun vm1 h1 => ?_)
    obtain ⟨s, hs, rfl⟩ := VM.on_state_eq_ok vm0 vm1 _ h1
    have hsi : s.i = vm0.state.i := State.memory_set_i _ _ _ _ hs
    exact ih (i + 1) _ (by omega) (by show s.i + (i + 1) + k ≤ 4097; rw [hsi]; omega)

theorem VM.load_loop_raises (vm : VM) (ill : Prop) :
    ∀ (n i : Nat) (vm0 : VM), raises (vm.atomic ill) (VM.load_loop n i vm0) := by
  intro n
  induction n with
  | zero =>
    intro i vm0
    unfold VM.load_loop
    exact raises_ok _ _
  | succ k ih =>
    intro i vm0
    unfold VM.load_loop
    refine raises_bind _ _ _
      (VM.raises_call_quiet vm vm0 ill _ (State.memory_at_fault vm0.state _)) (fun v _ => ?_)
    refine raises_bind _ _ _
      (VM.raises_on_state_quiet vm vm0 ill _
        (fun f hf => State.reg_set_fault vm0.state _ _ f hf))
      (fun vm1 _ => ?_)
    exact ih _ _

theorem to_regval_lt (n : Nat) : to_regval n < 256 := Nat.mod_lt _ (by decide)

theorem VM.execute_prefixF_raises (vm : VM) (st : VMCycleState) :
    raises (vm.atomic (st.instruction.lower_byte ≠ 0x07 ∧ st.instruction.lower_byte ≠ 0x0A ∧
      st.instruction.lower_byte ≠ 0x15 ∧ st.instruction.lower_byte ≠ 0x18 ∧
      st.instruction.lower_byte ≠ 0x1E ∧ st.instruction.lower_byte ≠ 0x29 ∧
      st.instruction.lower_byte ≠ 0x33 ∧ st.instruction.lower_byte ≠ 0x55 ∧
      st.instruction.lower_byte ≠ 0x65))
      (vm.execute_prefixF_instruction st) := by
  have hm : DEFAULT_MEMORY_SIZE = 4096 := rfl
  have hlb : to_regval st.instruction.lower_byte = st.instruction.lower_byte := by
    apply to_regval_of_lt
    rw [Instruction.lower_byte_eq]
    exact Nat.mod_lt _ (by decide)
  unfold VM.execute_prefixF_instruction
  refine VM.raises_bind_nibble vm vm _ _ 2 (by decide) _ (fun x hx _ => ?_)
  have hdata : to_regval x = x := to_regval_of_lt x (by omega)
  dsimp only
  rw [hlb, hdata]
  split
  · exact VM.raises_reg_set_pure vm vm _ st _ (fun f hf => State.reg_set_fault _ _ _ f hf)
  · exact raises_pure _ _
  · refine VM.raises_bind_reg vm _ _ _ (fun v => ?_)
    exact raises_pure _ _
  · refine VM.raises_bind_reg vm _ _ _ (fun v => ?_)
    exact raises_pure _ _
  · refine VM.raises_bind_reg vm _ _ _ (fun v => ?_)
    exact VM.raises_reg_set_pure vm vm _ st _
      (fun f hf => State.index_register_set_fault _ _ f hf)
  · refine VM.raises_bind_reg vm _ _ _ (fun v => ?_)
    dsimp only
    split
    · exact VM.raises_fault vm _ _ (by decide)
    · exact VM.raises_reg_set_pure vm vm _ st _
        (fun f hf => State.index_register_set_fault _ _ f hf)
  · split
    · exact VM.raises_fault vm _ _ (by decide)
    · rename_i hguard
      have hI : vm.state.i + 2 < 4096 := by
        unfold State.memory_size at hguard; omega
      refine VM.raises_bind_reg vm _ _ _ (fun v => ?_)
      dsimp only
      refine raises_bind _ _ _
        (VM.raises_on_state_quiet vm vm _ _
          (fun f hf => State.memory_set_fault _ _ _ (by omega) f hf)) (fun vm1 _ => ?_)
      refine raises_bind _ _ _
        (VM.raises_on_state_quiet vm vm1 _ _
          (fun f hf => State.memory_set_fault _ _ _ (by omega) f hf)) (fun vm2 _ => ?_)
      exact VM.raises_reg_set_pure vm vm2 _ st _
        (fun f hf => State.memory_set_fault _ _ _ (by omega) f hf)
  · split
    · exact VM.raises_fault vm _ _ (by decide)
    · rename_i hguard
      have hI : vm.state.i + x ≤ 4096 := by
        unfold State.memory_size at hguard; omega
      refine raises_bind _ _ _
        (VM.save_loop_raises vm _ _ _ vm (by omega) (by omega)) (fun vm1 _ => ?_)
      exact VM.raises_reg_set_pure vm vm1 _ st _
        (fun f hf => State.index_register_set_fault _ _ f hf)
  · split
    · exact VM.raises_fault vm _ _ (by decide)
    · refine raises_bind _ _ _ (VM.load_loop_raises vm _ _ _ vm) (fun vm1 _ => ?_)
      exact VM.raises_reg_set_pure vm vm1 _ st _
        (fun f hf => State.index_register_set_fault _ _ f hf)
  · rename_i h1 h2 h3 h4 h5 h6 h7 h8 h9
    exact VM.raises_raise vm _ ⟨h1, h2, h3, h4, h5, h6, h7, h8, h9⟩

/-- Whatever the instruction, a fault of `execute_instruction` that is a thrown exception
comes with the machine as it was, and `IllegalInstructionException` is thrown only for the
words listed as undefined. -/
theorem VM.execute_instruction_raises (vm : VM) (st : VMCycleState) :
    raises (vm.atomic st.instruction.illegal) (vm.execute_instruction st) := by
  have hno : ∀ e, vm.atomic False e → vm.atomic st.instruction.illegal e :=
    fun e h => ⟨h.1, fun hi => (h.2 hi).elim⟩
  unfold VM.execute_instruction Instruction.prefix_nibble
  refine VM.raises_bind_nibble vm vm _ _ 3 (by decide) _ (fun p _ hp => ?_)
  split
  · refine raises_mono _ _ _ ?_ (VM.execute_prefix0_raises vm st)
    intro e h
    refine ⟨h.1, fun hi q hq => ?_⟩
    rw [hp] at hq; cases hq
    exact Or.inl ⟨rfl, h.2 hi⟩
  · exact raises_mono _ _ _ hno (VM.execute_prefix1_raises vm st)
  · exact raises_mono _ _ _ hno (VM.execute_prefix2_raises vm st)
  · exact raises_mono _ _ _ hno (VM.execute_prefix3_raises vm st)
  · exact raises_mono _ _ _ hno (VM.execute_prefix4_raises vm st)
  · refine raises_mono _ _ _ ?_ (VM.execute_prefix5_raises vm st)
    intro e h
    refine ⟨h.1, fun hi q hq => ?_⟩
    rw [hp] at hq; cases hq
    exact Or.inr (Or.inl ⟨Or.inl rfl, h.2 hi⟩)
  · exact raises_mono _ _ _ hno (VM.execute_prefix6_raises vm st)
  · exact raises_mono _ _ _ hno (VM.execute_prefix7_raises vm st)
  · refine raises_mono _ _ _ ?_ (VM.execute_prefix8_raises vm st)
    intro e h
    refine ⟨h.1, fun hi q hq => ?_⟩
    rw [hp] at hq; cases hq
    exact Or.inr (Or.inr (Or.inl ⟨rfl, h.2 hi⟩))
  · refine raises_mono _ _ _ ?_ (VM.execute_prefix9_raises vm st)
    intro e h
    refine ⟨h.1, fun hi q hq => ?_⟩
    rw [hp] at hq; cases hq
    exact Or.inr (Or.inl ⟨Or.inr rfl, h.2 hi⟩)
  · exact raises_mono _ _ _ hno (VM.execute_prefixA_raises vm st)
  · exact raises_mono _ _ _ hno (VM.execute_prefixB_raises vm st)
  · exact raises_mono _ _ _ hno (VM.execute_prefixC_raises vm st)
  · exact raises_mono _ _ _ hno (VM.execute_prefixD_raises vm st)
  · refine raises_mono _ _ _ ?_ (VM.execute_prefixE_raises vm st)
    intro e h
    refine ⟨h.1, fun hi q hq => ?_⟩
    rw [hp] at hq; cases hq
    exact Or.inr (Or.inr (Or.inr (Or.inl ⟨rfl, h.2 hi⟩)))
  · refine raises_mono _ _ _ ?_ (VM.execute_prefixF_raises vm st)
    intro e h
    refine ⟨h.1, fun hi q hq => ?_⟩
    rw [hp] at hq; cases hq
    exact Or.inr (Or.inr (Or.inr (Or.inr ⟨rfl, h.2 hi⟩)))
  · exact raises_ok _ _

theorem VM.fetch_fault (vm : VM) (p : Nat) (f : Fault)
    (h : vm.fetch_and_decode p = .error f) : f ≠ .illegal_instruction := by
  unfold VM.fetch_and_decode at h
  split at h
  · cases h; decide
  · rcases (bind_eq_error _ _ _).mp h with h1 | ⟨hi, -, h2⟩
    · intro hf
      exact State.memory_at_fault _ _ _ h1 (hf ▸ Fault.thrown_illegal)
    · rcases (bind_eq_error _ _ _).mp h2 with h3 | ⟨lo, -, h4⟩
      · intro hf
        exact State.memory_at_fault _ _ _ h3 (hf ▸ Fault.thrown_illegal)
      · rw [ok_pure] at h4; cases h4

/-- What a fault of the `RUNNING` case of `step` is: a fault of the fetch, or a fault of
`execute_instruction` on the fetched instruction. -/
theorem VM.step_running_fault_inv (vm : VM) (e : Fault × VM) (h : vm.step_running = .error e) :
    (∃ f, vm.fetch_and_decode vm.state.pc = .error f ∧ e = (f, vm)) ∨
    (∃ ins, vm.fetch_and_decode vm.state.pc = .ok ins ∧
      vm.execute_instruction (VMCycleState.mk_cycle vm.execution_state vm.state.pc
        (vm.state.pc + CHARS_PER_INSTRUCTION) ins) = .error e) := by
  cases hf : vm.fetch_and_decode vm.state.pc with
  | error f =>
    left
    unfold VM.step_running at h
    rw [hf, VM.call_error, error_bind] at h
    cases h
    exact ⟨f, rfl, rfl⟩
  | ok ins =>
    right
    refine ⟨ins, rfl, ?_⟩
    cases he : vm.execute_instruction (VMCycleState.mk_cycle vm.execution_state vm.state.pc
        (vm.state.pc + CHARS_PER_INSTRUCTION) ins) with
    | error e1 =>
      obtain ⟨f1, vm1⟩ := e1
      rw [VM.step_running_fault vm vm1 ins f1 hf he] at h
      cases h
      rfl
    | ok r =>
      obtain ⟨vm1, st1⟩ := r
      rw [VM.step_running_eq vm vm1 ins st1 hf he] at h
      cases h

/-- A fault of the `RUNNING` case of `step` that is a thrown exception comes with the machine
as it was; `IllegalInstructionException` is thrown only for a fetched undefined word. -/
theorem VM.step_running_raises (vm : VM) :
    raises (vm.atomic (∃ ins, vm.fetch_and_decode vm.state.pc = .ok ins ∧ ins.illegal))
      vm.step_running := by
  intro e h
  rcases VM.step_running_fault_inv vm e h with ⟨f, hf, rfl⟩ | ⟨ins, hf, he⟩
  · exact ⟨fun _ => rfl, fun hi => absurd hi (VM.fetch_fault vm _ f hf)⟩
  · have h1 := VM.execute_instruction_raises vm _ e he
    exact ⟨h1.1, fun hi => ⟨ins, hf, h1.2 hi⟩⟩

/-- The `WAIT_FOR_KEY` case of `step` with a key pressed: the mode becomes `RUNNING`, the key
is stored in the target register, and the `RUNNING` case is run. -/
theorem VM.step_wake_eq (vm : VM) (hwait : vm.execution_state = .WAIT_FOR_KEY)
    (hk : 0 ≤ vm.key_value) :
    vm.step =
      (({ vm with last_state := .WAIT_FOR_KEY, execution_state := .RUNNING } : VM).on_state
        (fun s => s.reg_set vm.key_target_register (int_to_regval vm.key_value)) >>=
          fun vm3 => vm3.step_running) := by
  have hkp : vm.key_value ≥ 0 := hk
  unfold VM.step
  simp only [hwait, VM.key_pressed, hkp, decide_True, if_true]

/-! ### The undefined instruction words -/

theorem VM.execute_instruction_5 (vm : VM) (st : VMCycleState)
    (h3 : st.instruction.nibble 3 = .ok 5) :
    vm.execute_instruction st = vm.execute_prefix5_instruction st := by
  unfold VM.execute_instruction Instruction.prefix_nibble
  simp only [h3, VM.call_ok, ok_bind]

theorem VM.execute_instruction_9 (vm : VM) (st : VMCycleState)
    (h3 : st.instruction.nibble 3 = .ok 9) :
    vm.execute_instruction st = vm.execute_prefix9_instruction st := by
  unfold VM.execute_instruction Instruction.prefix_nibble
  simp only [h3, VM.call_ok, ok_bind]

theorem VM.execute_instruction_E (vm : VM) (st : VMCycleState)
    (h3 : st.instruction.nibble 3 = .ok 0xE) :
    vm.execute_instruction st = vm.execute_prefixE_instruction st := by
  unfold VM.execute_instruction Instruction.prefix_nibble
  simp only [h3, VM.call_ok, ok_bind]

theorem VM.execute_prefix0_illegal (vm : VM) (st : VMCycleState)
    (h : st.instruction.lower_triplet ≠ 0x000 ∧ st.instruction.lower_triplet ≠ 0x0E0 ∧
      st.instruction.lower_triplet ≠ 0x0EE) :
    vm.execute_prefix0_instruction st = .error (.illegal_instruction, vm) := by
  unfold VM.execute_prefix0_instruction
  split
  · rename_i h0; exact absurd h0 h.1
  · rename_i h0; exact absurd h0 h.2.1
  · rename_i h0; exact absurd h0 h.2.2
  · rfl

theorem VM.execute_prefix5_illegal (vm : VM) (st : VMCycleState) (N : Nat)
    (h0 : st.instruction.nibble 0 = .ok N) (hN : N ≠ 0) :
    vm.execute_prefix5_instruction st = .error (.illegal_instruction, vm) := by
  unfold VM.execute_prefix5_instruction
  rw [h0, VM.call_ok, ok_bind, if_pos hN]
  rfl

theorem VM.execute_prefix9_illegal (vm : VM) (st : VMCycleState) (N : Nat)
    (h0 : st.instruction.nibble 0 = .ok N) (hN : N ≠ 0) :
    vm.execute_prefix9_instruction st = .error (.illegal_instruction, vm) := by
  unfold VM.execute_prefix9_instruction
  rw [h0, VM.call_ok, ok_bind, if_pos hN]
  rfl

theorem VM.execute_prefix8_illegal (vm : VM) (st : VMCycleState) (X Y N : Nat)
    (hl : vm.state.regs.length = DEFAULT_REGISTER_SIZE) (hX : X < 16) (hY : Y < 16)
    (h2 : st.instruction.nibble 2 = .ok X) (h1 : st.instruction.nibble 1 = .ok Y)
    (h0 : st.instruction.nibble 0 = .ok N)
    (hN : N ≠ 0 ∧ N ≠ 1 ∧ N ≠ 2 ∧ N ≠ 3 ∧ N ≠ 4 ∧ N ≠ 5 ∧ N ≠ 6 ∧ N ≠ 7 ∧ N ≠ 0xE) :
    vm.execute_prefix8_instruction st = .error (.illegal_instruction, vm) := by
  unfold VM.execute_prefix8_instruction
  simp only [h2, h1, h0, VM.call_ok, ok_bind, State.reg_eq _ _ hl hX, State.reg_eq _ _ hl hY]
  split
  · exact absurd rfl hN.1
  · exact absurd rfl hN.2.1
  · exact absurd rfl hN.2.2.1
  · exact absurd rfl hN.2.2.2.1
  · exact absurd rfl hN.2.2.2.2.1
  · exact absurd rfl hN.2.2.2.2.2.1
  · exact absurd rfl hN.2.2.2.2.2.2.1
  · exact absurd rfl hN.2.2.2.2.2.2.2.1
  · exact absurd rfl hN.2.2.2.2.2.2.2.2
  · rfl

theorem VM.execute_prefixE_illegal (vm : VM) (st : VMCycleState) (X : Nat)
    (hl : vm.state.regs.length = DEFAULT_REGISTER_SIZE) (hX : X < 16)
    (h2 : st.instruction.nibble 2 = .ok X)
    (hb : st.instruction.lower_byte ≠ 0x9E ∧ st.instruction.lower_byte ≠ 0xA1) :
    vm.execute_prefixE_instruction st = .error (.illegal_instruction, vm) := by
  unfold VM.execute_prefixE_instruction
  simp only [h2, VM.call_ok, ok_bind, State.reg_eq _ _ hl hX]
  split
  · rename_i h; exact absurd h hb.1
  · rename_i h; exact absurd h hb.2
  · rfl

theorem VM.execute_prefixF_illegal (vm : VM) (st : VMCycleState) (X : Nat)
    (h2 : st.instruction.nibble 2 = .ok X)
    (hb : st.instruction.lower_byte ≠ 0x07 ∧ st.instruction.lower_byte ≠ 0x0A ∧
      st.instruction.lower_byte ≠ 0x15 ∧ st.instruction.lower_byte ≠ 0x18 ∧
      st.instruction.lower_byte ≠ 0x1E ∧ st.instruction.lower_byte ≠ 0x29 ∧
      st.instruction.lower_byte ≠ 0x33 ∧ st.instruction.lower_byte ≠ 0x55 ∧
      st.instruction.lower_byte ≠ 0x65) :
    vm.execute_prefixF_instruction st = .error (.illegal_instruction, vm) := by
  have hlb : to_regval st.instruction.lower_byte = st.instruction.lower_byte := by
    apply to_regval_of_lt
    rw [Instruction.lower_byte_eq]
    exact Nat.mod_lt _ (by decide)
  unfold VM.execute_prefixF_instruction
  simp only [h2, VM.call_ok, ok_bind, hlb]
  split
  · rename_i h; exact absurd h hb.1
  · rename_i h; exact absurd h hb.2.1
  · rename_i h; exact absurd h hb.2.2.1
  · rename_i h; exact absurd h hb.2.2.2.1
  · rename_i h; exact absurd h hb.2.2.2.2.1
  · rename_i h; exact absurd h hb.2.2.2.2.2.1
  · rename_i h; exact absurd h hb.2.2.2.2.2.2.1
  · rename_i h; exact absurd h hb.2.2.2.2.2.2.2.1
  · rename_i h; exact absurd h hb.2.2.2.2.2.2.2.2
  · rfl

/-- On the word with nibbles `P X Y N` the reading of the list off the instruction fields
is the list itself. -/
theorem illegal_word_iff (P X Y N : Nat) (hP : P < 16) (hX : X < 16) (hY : Y < 16)
    (hN : N < 16) :
    (Instruction.mk (opcode P X Y N)).illegal ↔ illegal_word P X Y N := by
  obtain ⟨h3, -, -, h0, hb, ht⟩ := decode_opcode P X Y N hP hX hY hN
  unfold Instruction.illegal illegal_word
  simp only [h3, h0, hb, ht, Except.ok.injEq, forall_eq', ne_eq]

/-- On a well-formed machine every word of the list makes `execute_instruction` throw
`IllegalInstructionException`, the machine being as it was. -/
theorem VM.execute_instruction_illegal (vm : VM) (st : VMCycleState) (P X Y N : Nat)
    (hwf : vm.state.wf) (hP : P < 16) (hX : X < 16) (hY : Y < 16) (hN : N < 16)
    (hins : st.instruction = ⟨opcode P X Y N⟩) (hill : illegal_word P X Y N) :
    vm.execute_instruction st = .error (.illegal_instruction, vm) := by
  obtain ⟨h3, h2, h1, h0, hb, ht⟩ := decode_opcode P X Y N hP hX hY hN
  rw [← hins] at h3 h2 h1 h0 hb ht
  have hl := hwf.2.2.1
  rcases hill with ⟨hp, h⟩ | ⟨hp | hp, h⟩ | ⟨hp, h⟩ | ⟨hp, h⟩ | ⟨hp, h⟩
  · subst hp
    rw [VM.execute_instruction_0 vm st h3]
    exact VM.execute_prefix0_illegal vm st (by rw [ht]; exact h)
  · subst hp
    rw [VM.execute_instruction_5 vm st h3]
    exact VM.execute_prefix5_illegal vm st N h0 h
  · subst hp
    rw [VM.execute_instruction_9 vm st h3]
    exact VM.execute_prefix9_illegal vm st N h0 h
  · subst hp
    rw [VM.execute_instruction_8 vm st h3]
    exact VM.execute_prefix8_illegal vm st X Y N hl hX hY h2 h1 h0 h
  · subst hp
    rw [VM.execute_instruction_E vm st h3]
    exact VM.execute_prefixE_illegal vm st X hl hX h2 (by rw [hb]; exact h)
  · subst hp
    rw [VM.execute_instruction_F vm st h3]
    exact VM.execute_prefixF_illegal vm st X h2 (by rw [hb]; exact h)

/-- Every word fetched from a well-formed memory is given by four nibbles. -/
theorem VM.fetch_word (vm : VM) (p w : Nat) (hwf : vm.state.wf)
    (h : vm.fetch_and_decode p = .ok ⟨w⟩) :
    ∃ P X Y N, P < 16 ∧ X < 16 ∧ Y < 16 ∧ N < 16 ∧ w = opcode P X Y N := by
  have hw : w < 65536 := by
    unfold VM.fetch_and_decode at h
    split at h
    · cases h
    · obtain ⟨hi, hhi, h1⟩ := (bind_eq_ok _ _ _).mp h
      obtain ⟨lo, hlo, h2⟩ := (bind_eq_ok _ _ _).mp h1
      rw [ok_pure] at h2
      cases h2
      have hbyte : ∀ j v, vm.state.memory_at j = .ok v → v < 256 := by
        intro j v hv
        unfold State.memory_at at hv
        split at hv
        · rename_i u hu
          cases hv
          exact hwf.2.1 _ (List.getElem?_mem hu)
        · cases hv
      have h1 := hbyte _ _ hhi
      have h2 := hbyte _ _ hlo
      have h8 : CHAR_BIT = 8 := rfl
      rw [h8, Nat.shiftLeft_eq]
      exact Nat.or_lt_two_pow (n := 16) (by omega) (by omega)
  refine ⟨w / 4096, w / 256 % 16, w / 16 % 16, w % 16, by omega, by omega, by omega,
    by omega, ?_⟩
  unfold opcode
  omega

/-- Claim C24 (illegal-opcode characterisation).  For every well-formed machine in `RUNNING`
mode whose instruction word `w` can be fetched, `w` has four nibbles `P X Y N`, and `step`
raises `IllegalInstruction` if and only if `w` is `0NNN` with `NNN` not in
`{000, 0E0, 0EE}`, or `5XYN` / `9XYN` with `N ≠ 0`, or `8XYN` with `N` not in
`{0, .., 7, E}`, or `EXNN` with `NN` not in `{9E, A1}`, or `FXNN` with `NN` not in
`{07, 0A, 15, 18, 1E, 29, 33, 55, 65}`; the machine is then as it was before the step. -/
theorem illegal_opcode_characterisation (vm : VM) (w : Nat) (hwf : vm.state.wf)
    (hrun : vm.execution_state = .RUNNING)
    (hfetch : vm.fetch_and_decode vm.state.pc = .ok ⟨w⟩) :
    ∃ P X Y N, P < 16 ∧ X < 16 ∧ Y < 16 ∧ N < 16 ∧ w = opcode P X Y N ∧
      ((∃ vm1, vm.step = .error (.illegal_instruction, vm1)) ↔ illegal_word P X Y N) ∧
      (illegal_word P X Y N → vm.step = .error (.illegal_instruction, vm)) := by
  obtain ⟨P, X, Y, N, hP, hX, hY, hN, rfl⟩ := VM.fetch_word vm _ w hwf hfetch
  have hback : illegal_word P X Y N → vm.step = .error (.illegal_instruction, vm) := by
    intro hill
    have he := VM.execute_instruction_illegal vm
      (VMCycleState.mk_cycle vm.execution_state vm.state.pc
        (vm.state.pc + CHARS_PER_INSTRUCTION) ⟨opcode P X Y N⟩) P X Y N hwf hP hX hY hN rfl hill
    exact (VM.step_of_running vm hrun).trans (VM.step_running_fault vm vm _ _ hfetch he)
  refine ⟨P, X, Y, N, hP, hX, hY, hN, rfl, ⟨?_, fun hill => ⟨vm, hback hill⟩⟩, hback⟩
  rintro ⟨vm1, h⟩
  rw [VM.step_of_running vm hrun] at h
  obtain ⟨ins, hf, hill⟩ := (VM.step_running_raises vm _ h).2 rfl
  rw [hfetch] at hf
  cases hf
  exact (illegal_word_iff P X Y N hP hX hY hN).mp hill

theorem illegal_opcode_characterisation_witness :
    ∃ P X Y N, P < 16 ∧ X < 16 ∧ Y < 16 ∧ N < 16 ∧ 0xFFFF = opcode P X Y N ∧
      ((∃ vm1, VM.vm_FFFF.step = .error (.illegal_instruction, vm1)) ↔ illegal_word P X Y N) ∧
      (illegal_word P X Y N → VM.vm_FFFF.step = .error (.illegal_instruction, VM.vm_FFFF)) :=
  illegal_opcode_characterisation VM.vm_FFFF 0xFFFF
    (VM.example_vm_wf [0xFF, 0xFF] _ (by decide) (by decide) (by decide) (by decide)) rfl
    (VM.example_vm_fetch 0xFF 0xFF [] _)

theorem State.reg_set_ok (s t : State) (n v : Nat) (h : s.reg_set n v = .ok t) :
    t = { s with regs := s.regs.set n (to_regval v) } := by
  unfold State.reg_set at h
  split at h
  · cases h
  · split at h
    · cases h; rfl
    · cases h

/-- The `RUNNING` case of `step` on an undefined `FXNN` word. -/
theorem VM.step_running_illegal_F (vm : VM) (X NN : Nat) (hX : X < 16) (hNN : NN < 256)
    (hb : NN ≠ 0x07 ∧ NN ≠ 0x0A ∧ NN ≠ 0x15 ∧ NN ≠ 0x18 ∧ NN ≠ 0x1E ∧ NN ≠ 0x29 ∧
      NN ≠ 0x33 ∧ NN ≠ 0x55 ∧ NN ≠ 0x65)
    (hfetch : vm.fetch_and_decode vm.state.pc = .ok ⟨opcode_XNN 0xF X NN⟩) :
    vm.step_running = .error (.illegal_instruction, vm) := by
  obtain ⟨h3, h2, hlb⟩ := decode_opcode_XNN 0xF X NN (by decide) hX hNN
  have hlb2 : (VMCycleState.mk_cycle vm.execution_state vm.state.pc
      (vm.state.pc + CHARS_PER_INSTRUCTION) ⟨opcode_XNN 0xF X NN⟩).instruction.lower_byte =
      NN := hlb
  have he := (VM.execute_instruction_F vm (VMCycleState.mk_cycle vm.execution_state vm.state.pc
      (vm.state.pc + CHARS_PER_INSTRUCTION) ⟨opcode_XNN 0xF X NN⟩) h3).trans
      (VM.execute_prefixF_illegal vm _ X h2 (by rw [hlb2]; exact hb))
  exact VM.step_running_fault vm vm _ _ hfetch he

/-- A step that wakes a parked machine up on an undefined `FXNN` word: the fault comes with
the machine in `RUNNING` mode and the key stored. -/
theorem VM.step_wake_illegal (vm : VM) (X NN : Nat)
    (hwait : vm.execution_state = .WAIT_FOR_KEY) (hk : 0 ≤ vm.key_value)
    (hl : vm.state.regs.length = DEFAULT_REGISTER_SIZE) (ht : vm.key_target_register < 16)
    (hX : X < 16) (hNN : NN < 256)
    (hb : NN ≠ 0x07 ∧ NN ≠ 0x0A ∧ NN ≠ 0x15 ∧ NN ≠ 0x18 ∧ NN ≠ 0x1E ∧ NN ≠ 0x29 ∧
      NN ≠ 0x33 ∧ NN ≠ 0x55 ∧ NN ≠ 0x65)
    (hfetch : vm.fetch_and_decode vm.state.pc = .ok ⟨opcode_XNN 0xF X NN⟩) :
    vm.step = .error (.illegal_instruction,
      { vm with
        last_state := .WAIT_FOR_KEY
        execution_state := .RUNNING
        state := { vm.state with
          regs := vm.state.regs.set vm.key_target_register
            (to_regval (int_to_regval vm.key_value)) } }) := by
  rw [VM.step_wake_eq vm hwait hk,
    VM.on_state_reg_set { vm with last_state := .WAIT_FOR_KEY, execution_state := .RUNNING }
      vm.key_target_register (int_to_regval vm.key_value) hl ht, ok_bind]
  exact VM.step_running_illegal_F _ X NN hX hNN hb hfetch

/-- Claim C25 fails as stated: a fault can leave registers and execution mode changed.  On
the machine parked by `F00A` with key 5 pressed, whose next instruction is the undefined word
`FFFF`, `step` raises `IllegalInstruction`; by then the mode has gone from `WAIT_FOR_KEY` to
`RUNNING` and `V0` from 0 to 5. -/
theorem wake_up_fault_keeps_the_key :
    VM.vm_wake_illegal.execution_state = .WAIT_FOR_KEY ∧ VM.vm_wake_illegal.state.V 0 = 0 ∧
    VM.vm_wake_illegal.key_value = 5 ∧
    VM.vm_wake_illegal.fetch_and_decode VM.vm_wake_illegal.state.pc = .ok ⟨0xFFFF⟩ ∧
    ∃ vm1, VM.vm_wake_illegal.step = .error (.illegal_instruction, vm1) ∧
      vm1.execution_state = .RUNNING ∧ vm1.state.V 0 = 5 ∧
      vm1.execution_state ≠ VM.vm_wake_illegal.execution_state ∧
      vm1.state.regs ≠ VM.vm_wake_illegal.state.regs := by
  have h0 : VM.vm_wake_illegal.state.memory[2]? = some 0xFF := by
    show ([0xF0, 0x0A, 0xFF, 0xFF] ++ List.replicate (DEFAULT_MEMORY_SIZE - 4) 0)[2]? = _
    rw [List.getElem?_append_left (by decide)]; rfl
  have h1 : VM.vm_wake_illegal.state.memory[2 + 1]? = some 0xFF := by
    show ([0xF0, 0x0A, 0xFF, 0xFF] ++ List.replicate (DEFAULT_MEMORY_SIZE - 4) 0)[2 + 1]? = _
    rw [List.getElem?_append_left (by decide)]; rfl
  have hfetch : VM.vm_wake_illegal.fetch_and_decode VM.vm_wake_illegal.state.pc =
      .ok ⟨opcode_XNN 0xF 0xF 0xFF⟩ :=
    VM.fetch_eq VM.vm_wake_illegal 2 0xFF 0xFF (by decide) h0 h1
  refine ⟨rfl, rfl, rfl, hfetch, _,
    VM.step_wake_illegal VM.vm_wake_illegal 0xF 0xFF rfl (by decide) rfl (by decide)
      (by decide) (by decide) (by decide) hfetch, rfl, rfl, by decide, by decide⟩

/-- Claim C25, amended.  For every machine, whenever `step` raises an exception
(`IllegalInstruction`, `MemoryAccess`, `RegisterAccess`, or a runtime error such as stack
underflow): memory, `PC`, `I`, the call stack, both timers and the framebuffer are exactly as
they were before the step; if the machine was not in `WAIT_FOR_KEY` mode the whole machine,
registers and execution mode included, is as it was; if it was in `WAIT_FOR_KEY` mode a key
was pressed, and the step has stored the key in the target register and set the mode to
`RUNNING` before the faulting instruction ran. -/
theorem step_fault_atomic (vm vm1 : VM) (f : Fault) (hstep : vm.step = .error (f, vm1))
    (hthrown : f.thrown) :
    vm1.state.memory = vm.state.memory ∧ vm1.state.pc = vm.state.pc ∧
    vm1.state.i = vm.state.i ∧ vm1.state.callstack = vm.state.callstack ∧
    vm1.state.timer = vm.state.timer ∧ vm1.state.sound_timer = vm.state.sound_timer ∧
    vm1.renderer = vm.renderer ∧
    (vm.execution_state ≠ .WAIT_FOR_KEY → vm1 = vm) ∧
    (vm.execution_state = .WAIT_FOR_KEY → 0 ≤ vm.key_value ∧
      vm1.execution_state = .RUNNING ∧
      vm1.state.regs = vm.state.regs.set vm.key_target_register
        (to_regval (int_to_regval vm.key_value))) := by
  by_cases hwait : vm.execution_state = .WAIT_FOR_KEY
  · by_cases hk : 0 ≤ vm.key_value
    · rw [VM.step_wake_eq vm hwait hk] at hstep
      rcases (bind_eq_error _ _ _).mp hstep with h | ⟨vm3, h3, hrun3⟩
      · obtain ⟨f1, hf1, he⟩ := VM.on_state_eq_error _ _ _ h
        cases he
        exact absurd hthrown (State.reg_set_fault _ _ _ _ hf1)
      · obtain ⟨s, hs, rfl⟩ := VM.on_state_eq_ok _ vm3 _ h3
        have hs2 := State.reg_set_ok _ _ _ _ hs
        subst hs2
        have heq : vm1 = _ := (VM.step_running_raises _ _ hrun3).1 hthrown
        subst heq
        exact ⟨rfl, rfl, rfl, rfl, rfl, rfl, rfl, fun h => absurd hwait h,
          fun _ => ⟨hk, rfl, rfl⟩⟩
    · rw [VM.step_parked vm hwait (by omega)] at hstep
      cases hstep
  · have heq : vm1 = vm := by
      cases hes : vm.execution_state with
      | INIT =>
        unfold VM.step at hstep
        rw [hes] at hstep
        cases hstep
        rfl
      | RUNNING =>
        rw [VM.step_of_running vm hes] at hstep
        exact (VM.step_running_raises vm _ hstep).1 hthrown
      | WAIT_FOR_KEY => exact absurd hes hwait
    subst heq
    exact ⟨rfl, rfl, rfl, rfl, rfl, rfl, rfl, fun _ => rfl, fun h => absurd h hwait⟩

theorem step_fault_atomic_witness :
    VM.vm_00EE.step = .error (.runtime_error, VM.vm_00EE) ∧
    VM.vm_00EE.state.memory = VM.vm_00EE.state.memory ∧
    VM.vm_00EE.state.pc = VM.vm_00EE.state.pc ∧
    VM.vm_00EE.state.i = VM.vm_00EE.state.i ∧
    VM.vm_00EE.state.callstack = VM.vm_00EE.state.callstack ∧
    VM.vm_00EE.state.timer = VM.vm_00EE.state.timer ∧
    VM.vm_00EE.state.sound_timer = VM.vm_00EE.state.sound_timer ∧
    VM.vm_00EE.renderer = VM.vm_00EE.renderer ∧
    (VM.vm_00EE.execution_state ≠ .WAIT_FOR_KEY → VM.vm_00EE = VM.vm_00EE) ∧
    (VM.vm_00EE.execution_state = .WAIT_FOR_KEY → 0 ≤ VM.vm_00EE.key_value ∧
      VM.vm_00EE.execution_state = .RUNNING ∧
      VM.vm_00EE.state.regs = VM.vm_00EE.state.regs.set VM.vm_00EE.key_target_register
        (to_regval (int_to_regval VM.vm_00EE.key_value))) :=
  have hstep := VM.step_00EE_empty VM.vm_00EE rfl rfl
    (VM.example_vm_fetch 0x00 0xEE [] [0, 0, 0, 0, 0, 0, 0, 0, 0, 0, 0, 0, 0, 0, 0, 0])
  ⟨hstep, step_fault_atomic VM.vm_00EE VM.vm_00EE .runtime_error hstep trivial⟩

/-! ## Instruction decoding -/

theorem Instruction.nibble_at_ofNat (ins : Instruction) (k : Nat) :
    ins.nibble_at (k : Int) = ins.nibble k := by
  unfold Instruction.nibble_at Instruction.nibble
  by_cases hk : k > 3
  · rw [if_pos (Or.inr (by omega)), if_pos hk]
  · rw [if_neg (by omega), if_neg hk, Int.toNat_ofNat]

/-- Claim C34 (instruction decoding).  For every 16-bit word `w`: `nibble(i)` is
`(w >> 4i) AND 0xF` for `i` in `0..3`, and `nibble(i)` raises an error exactly when `i < 0` or
`i > 3`; `prefix()` is `nibble(3)` and `suffix()` is `nibble(0)`; `lower_byte() = w AND 0xFF`,
`upper_byte() = (w >> 8) AND 0xFF`, `lower_triplet() = w AND 0xFFF`,
`upper_triplet() = (w >> 4) AND 0xFFF`; and
`w = prefix() * 4096 + lower_triplet() = upper_byte() * 256 + lower_byte()` is the sum of the
`nibble(i) * 16^i`. -/
theorem instruction_decoding (w : Nat) (hw : w < 65536) :
    (∀ i : Int, 0 ≤ i → i ≤ 3 →
      (Instruction.mk w).nibble_at i = .ok ((w >>> (4 * i.toNat)) &&& 0xF)) ∧
    (∀ i : Int, ((Instruction.mk w).nibble_at i = .error .runtime_error ↔ (i < 0 ∨ i > 3)) ∧
      ((∃ f, (Instruction.mk w).nibble_at i = .error f) ↔ (i < 0 ∨ i > 3))) ∧
    (Instruction.mk w).prefix_nibble = (Instruction.mk w).nibble_at 3 ∧
    Instruction.suffix (Instruction.mk w) = (Instruction.mk w).nibble_at 0 ∧
    (Instruction.mk w).lower_byte = w &&& 0xFF ∧
    (Instruction.mk w).upper_byte = (w >>> 8) &&& 0xFF ∧
    (Instruction.mk w).lower_triplet = w &&& 0xFFF ∧
    (Instruction.mk w).upper_triplet = (w >>> 4) &&& 0xFFF ∧
    (∃ n0 n1 n2 n3, (Instruction.mk w).nibble_at 0 = .ok n0 ∧
      (Instruction.mk w).nibble_at 1 = .ok n1 ∧ (Instruction.mk w).nibble_at 2 = .ok n2 ∧
      (Instruction.mk w).nibble_at 3 = .ok n3 ∧
      w = n3 * 4096 + (Instruction.mk w).lower_triplet ∧
      w = (Instruction.mk w).upper_byte * 256 + (Instruction.mk w).lower_byte ∧
      w = n0 + n1 * 16 + n2 * 16 ^ 2 + n3 * 16 ^ 3) := by
  have hsz : HALF_CHAR_SIZE = 4 := by decide
  have hmask : (HALF_CHAR_MASK : Nat) = 0xF := by decide
  have hub : (Instruction.mk w).upper_byte = w / 256 % 256 := by
    have hm : (CHAR_MASK : Nat) = 2 ^ 8 - 1 := by decide
    have h8 : CHAR_BIT = 8 := rfl
    unfold Instruction.upper_byte
    rw [hm, Nat.and_pow_two_sub_one_eq_mod, h8, Nat.shiftRight_eq_div_pow]
  refine ⟨?_, ?_, ?_, ?_, rfl, rfl, rfl, rfl, ?_⟩
  · intro i h0 h3
    unfold Instruction.nibble_at
    rw [if_neg (by omega), hsz, hmask, Nat.mul_comm]
  · intro i
    unfold Instruction.nibble_at
    by_cases hi : i < 0 ∨ i > 3
    · rw [if_pos hi]
      exact ⟨⟨fun _ => hi, fun _ => rfl⟩, ⟨fun _ => hi, fun _ => ⟨_, rfl⟩⟩⟩
    · rw [if_neg hi]
      constructor
      · constructor
        · intro h; cases h
        · intro h; exact absurd h hi
      · constructor
        · rintro ⟨f, h⟩; cases h
        · intro h; exact absurd h hi
  · exact (Instruction.nibble_at_ofNat _ 3).symm
  · exact (Instruction.nibble_at_ofNat _ 0).symm
  · refine ⟨w % 16, w / 16 % 16, w / 256 % 16, w / 4096 % 16, ?_, ?_, ?_, ?_, ?_, ?_, ?_⟩
    · rw [show (0 : Int) = ((0 : Nat) : Int) from rfl, Instruction.nibble_at_ofNat,
        Instruction.nibble_eq _ _ (by omega)]
      simp
    · rw [show (1 : Int) = ((1 : Nat) : Int) from rfl, Instruction.nibble_at_ofNat,
        Instruction.nibble_eq _ _ (by omega)]
      simp
    · rw [show (2 : Int) = ((2 : Nat) : Int) from rfl, Instruction.nibble_at_ofNat,
        Instruction.nibble_eq _ _ (by omega)]
      simp
    · rw [show (3 : Int) = ((3 : Nat) : Int) from rfl, Instruction.nibble_at_ofNat,
        Instruction.nibble_eq _ _ (by omega)]
      simp
    · rw [Instruction.lower_triplet_eq]
      simp only []
      omega
    · rw [hub, Instruction.lower_byte_eq]
      simp only []
      omega
    · omega

theorem instruction_decoding_witness :
    (∀ i : Int, 0 ≤ i → i ≤ 3 →
      (Instruction.mk 0xABCD).nibble_at i = .ok ((0xABCD >>> (4 * i.toNat)) &&& 0xF)) ∧
    (∀ i : Int,
      ((Instruction.mk 0xABCD).nibble_at i = .error .runtime_error ↔ (i < 0 ∨ i > 3)) ∧
      ((∃ f, (Instruction.mk 0xABCD).nibble_at i = .error f) ↔ (i < 0 ∨ i > 3))) ∧
    (Instruction.mk 0xABCD).prefix_nibble = (Instruction.mk 0xABCD).nibble_at 3 ∧
    Instruction.suffix (Instruction.mk 0xABCD) = (Instruction.mk 0xABCD).nibble_at 0 ∧
    (Instruction.mk 0xABCD).lower_byte = 0xABCD &&& 0xFF ∧
    (Instruction.mk 0xABCD).upper_byte = (0xABCD >>> 8) &&& 0xFF ∧
    (Instruction.mk 0xABCD).lower_triplet = 0xABCD &&& 0xFFF ∧
    (Instruction.mk 0xABCD).upper_triplet = (0xABCD >>> 4) &&& 0xFFF ∧
    (∃ n0 n1 n2 n3, (Instruction.mk 0xABCD).nibble_at 0 = .ok n0 ∧
      (Instruction.mk 0xABCD).nibble_at 1 = .ok n1 ∧
      (Instruction.mk 0xABCD).nibble_at 2 = .ok n2 ∧
      (Instruction.mk 0xABCD).nibble_at 3 = .ok n3 ∧
      0xABCD = n3 * 4096 + (Instruction.mk 0xABCD).lower_triplet ∧
      0xABCD = (Instruction.mk 0xABCD).upper_byte * 256 + (Instruction.mk 0xABCD).lower_byte ∧
      0xABCD = n0 + n1 * 16 + n2 * 16 ^ 2 + n3 * 16 ^ 3) :=
  instruction_decoding 0xABCD (by decide)

/-! ## Timers -/

/-- One call of `update_timers` on timers that are bytes. -/
theorem VM.update_timers_eq (vm : VM) (ht : vm.state.timer < 256)
    (hs : vm.state.sound_timer < 256) :
    vm.update_timers =
      { vm with state := { vm.state with
          timer := vm.state.timer - 1
          sound_timer := vm.state.sound_timer - 1 } } := by
  unfold VM.update_timers
  by_cases h1 : vm.state.sound_timer > 0 <;> by_cases h2 : vm.state.timer > 0
  · have e1 : to_regval (vm.state.sound_timer - 1) = vm.state.sound_timer - 1 :=
      to_regval_of_lt _ (by omega)
    have e2 : to_regval (vm.state.timer - 1) = vm.state.timer - 1 :=
      to_regval_of_lt _ (by omega)
    simp only [h1, if_true, State.sound_timer_set, State.timer_set, h2, e1, e2]
  · have e1 : to_regval (vm.state.sound_timer - 1) = vm.state.sound_timer - 1 :=
      to_regval_of_lt _ (by omega)
    have e0 : vm.state.timer - 1 = vm.state.timer := by omega
    simp only [h1, if_true, State.sound_timer_set, h2, if_false, e1, e0]
  · have e2 : to_regval (vm.state.timer - 1) = vm.state.timer - 1 :=
      to_regval_of_lt _ (by omega)
    have e0 : vm.state.sound_timer - 1 = vm.state.sound_timer := by omega
    simp only [h1, if_false, State.timer_set, h2, if_true, e2, e0]
  · have e0 : vm.state.sound_timer - 1 = vm.state.sound_timer := by omega
    have e3 : vm.state.timer - 1 = vm.state.timer := by omega
    simp only [h1, if_false, h2, e0, e3]

theorem VM.update_timers_n_eq : ∀ (n : Nat) (vm : VM), vm.state.timer < 256 →
    vm.state.sound_timer < 256 →
    VM.update_timers_n n vm =
      { vm with state := { vm.state with
          timer := vm.state.timer - n
          sound_timer := vm.state.sound_timer - n } } := by
  intro n
  induction n with
  | zero => intro vm _ _; rfl
  | succ k ih =>
    intro vm ht hs
    unfold VM.update_timers_n
    rw [VM.update_timers_eq vm ht hs, ih _ (by show vm.state.timer - 1 < 256; omega)
      (by show vm.state.sound_timer - 1 < 256; omega)]
    have e1 : vm.state.timer - 1 - k = vm.state.timer - (k + 1) := by omega
    have e2 : vm.state.sound_timer - 1 - k = vm.state.sound_timer - (k + 1) := by omega
    simp only [e1, e2]

/-- Claim C35 (timers).  For every machine whose timers are bytes, `update_timers()` replaces
each of the delay timer and the sound timer by `t - 1` if `t > 0` and leaves it 0 if `t = 0`
(it never becomes 255), and changes nothing else; and after `n` calls each timer is
`max(0, t - n)`, nothing else being changed. -/
theorem timers_count_down (vm : VM) (n : Nat) (ht : vm.state.timer < 256)
    (hs : vm.state.sound_timer < 256) :
    vm.update_timers.state.timer = (if vm.state.timer > 0 then vm.state.timer - 1 else 0) ∧
    vm.update_timers.state.sound_timer =
      (if vm.state.sound_timer > 0 then vm.state.sound_timer - 1 else 0) ∧
    vm.update_timers =
      { vm with state := { vm.state with
          timer := vm.update_timers.state.timer
          sound_timer := vm.update_timers.state.sound_timer } } ∧
    ((VM.update_timers_n n vm).state.timer : Int) = max 0 ((vm.state.timer : Int) - n) ∧
    ((VM.update_timers_n n vm).state.sound_timer : Int) =
      max 0 ((vm.state.sound_timer : Int) - n) ∧
    VM.update_timers_n n vm =
      { vm with state := { vm.state with
          timer := (VM.update_timers_n n vm).state.timer
          sound_timer := (VM.update_timers_n n vm).state.sound_timer } } := by
  rw [VM.update_timers_eq vm ht hs, VM.update_timers_n_eq n vm ht hs]
  refine ⟨?_, ?_, rfl, ?_, ?_, rfl⟩
  · show vm.state.timer - 1 = _
    split <;> omega
  · show vm.state.sound_timer - 1 = _
    split <;> omega
  · show ((vm.state.timer - n : Nat) : Int) = _
    omega
  · show ((vm.state.sound_timer - n : Nat) : Int) = _
    omega

theorem timers_count_down_witness :
    VM.vm_timers.update_timers.state.timer =
      (if VM.vm_timers.state.timer > 0 then VM.vm_timers.state.timer - 1 else 0) ∧
    VM.vm_timers.update_timers.state.sound_timer =
      (if VM.vm_timers.state.sound_timer > 0 then VM.vm_timers.state.sound_timer - 1
        else 0) ∧
    VM.vm_timers.update_timers =
      { VM.vm_timers with state := { VM.vm_timers.state with
          timer := VM.vm_timers.update_timers.state.timer
          sound_timer := VM.vm_timers.update_timers.state.sound_timer } } ∧
    ((VM.update_timers_n 2 VM.vm_timers).state.timer : Int) =
      max 0 ((VM.vm_timers.state.timer : Int) - (2 : Nat)) ∧
    ((VM.update_timers_n 2 VM.vm_timers).state.sound_timer : Int) =
      max 0 ((VM.vm_timers.state.sound_timer : Int) - (2 : Nat)) ∧
    VM.update_timers_n 2 VM.vm_timers =
      { VM.vm_timers with state := { VM.vm_timers.state with
          timer := (VM.update_timers_n 2 VM.vm_timers).state.timer
          sound_timer := (VM.update_timers_n 2 VM.vm_timers).state.sound_timer } } :=
  timers_count_down VM.vm_timers 2 (by decide) (by decide)

/-! ## Instruction fetch -/

theorem to_size_t_ofNat (n : Nat) (h : n < 2 ^ 64) : to_size_t (n : Int) = n := by
  have h64 : SIZE_T_BITS = 64 := rfl
  unfold to_size_t
  rw [h64]
  omega

theorem to_size_t_neg_one : to_size_t (-1) = 2 ^ 64 - 1 := by
  decide

/-- On the addresses that are not negative `fetch_and_decode_at` is `fetch_and_decode`. -/
theorem VM.fetch_and_decode_at_ofNat (vm : VM) (p : Nat) (hp : p + 1 < 2 ^ 64) :
    vm.fetch_and_decode_at (p : Int) = vm.fetch_and_decode p := by
  have e1 : to_size_t ((p : Int) + 1) = p + 1 := by
    have := to_size_t_ofNat (p + 1) hp
    rwa [Nat.cast_add, Nat.cast_one] at this
  unfold VM.fetch_and_decode_at VM.fetch_and_decode
  rw [e1, to_size_t_ofNat p (by omega)]

/-- What the fetch does at every address: the big-endian word inside memory, a
`MemoryAccessError` when `p + 1` is not below the memory size or `p < -1`, and a read before
the start of the vector when `p = -1`. -/
theorem VM.fetch_and_decode_at_spec (vm : VM) (p : Int)
    (hl : vm.state.memory.length = DEFAULT_MEMORY_SIZE) (hmin : -(2 ^ 63) ≤ p)
    (hmax : p + 1 < 2 ^ 63) :
    (0 ≤ p → p + 1 < 4096 → vm.fetch_and_decode_at p = .ok
      ⟨(vm.state.memory.getD p.toNat 0 <<< 8) ||| vm.state.memory.getD (p.toNat + 1) 0⟩) ∧
    (4096 ≤ p + 1 → vm.fetch_and_decode_at p = .error .memory_access) ∧
    (p < -1 → vm.fetch_and_decode_at p = .error .memory_access) ∧
    (p = -1 → vm.fetch_and_decode_at p = .error .undefined_behaviour) := by
  have hm : DEFAULT_MEMORY_SIZE = 4096 := rfl
  have h64 : SIZE_T_BITS = 64 := rfl
  refine ⟨?_, ?_, ?_, ?_⟩
  · intro h0 h1
    have hp : p = (p.toNat : Int) := (Int.toNat_of_nonneg h0).symm
    rw [hp, VM.fetch_and_decode_at_ofNat vm _ (by omega), Int.toNat_ofNat]
    unfold VM.fetch_and_decode State.memory_size
    rw [if_neg (by omega), State.memory_at_eq _ _ (by omega), ok_bind,
      State.memory_at_eq _ _ (by omega), ok_bind, ok_pure]
    rfl
  · intro h
    have hs : to_size_t (p + 1) ≥ DEFAULT_MEMORY_SIZE := by
      unfold to_size_t; rw [h64, hm]; omega
    unfold VM.fetch_and_decode_at State.memory_size
    rw [if_pos hs]
  · intro h
    have hs : to_size_t (p + 1) ≥ DEFAULT_MEMORY_SIZE := by
      unfold to_size_t; rw [h64, hm]; omega
    unfold VM.fetch_and_decode_at State.memory_size
    rw [if_pos hs]
  · intro h
    subst h
    have hs : ¬ to_size_t (-1 + 1) ≥ DEFAULT_MEMORY_SIZE := by decide
    have hnone : vm.state.memory[to_size_t (-1)]? = none := by
      rw [List.getElem?_eq_none_iff, hl, to_size_t_neg_one]
      decide
    unfold VM.fetch_and_decode_at State.memory_size
    rw [if_neg hs]
    unfold State.memory_at
    rw [hnone]
    rfl

/-- A step in `RUNNING` mode with the program counter at the last address raises
`MemoryAccessError` and leaves the machine as it was. -/
theorem VM.step_at_last_address (vm : VM) (hrun : vm.execution_state = .RUNNING)
    (hpc : vm.state.pc = 4095) : vm.step = .error (.memory_access, vm) := by
  have hm : DEFAULT_MEMORY_SIZE = 4096 := rfl
  have hf : vm.fetch_and_decode vm.state.pc = .error .memory_access := by
    unfold VM.fetch_and_decode State.memory_size
    rw [if_pos (by omega)]
  rw [VM.step_of_running vm hrun]
  unfold VM.step_running
  rw [hf, VM.call_error, error_bind]

/-- Claim C36, evaluated where the code departs from it: `fetch_and_decode(-1)` does not
raise `MemoryAccessError`.  The guard `index + 1 >= memory_size()` compares 0 with 4096, lets
the call through, and `memory()[-1]` is read (undefined behaviour); the guard has no
`index < 0` test, which the sibling `State::memory(index, value)` has.  Every other part of
the claim holds on this machine: the word at 0 is `(0x80 << 8) | 0x14`, the fetch at `0xFFF`
and at `-2` raises `MemoryAccessError`, and a `RUNNING` step with `PC = 0xFFF` raises it and
leaves the machine as it was. -/
theorem fetch_at_minus_one_not_rejected :
    VM.vm_8014.fetch_and_decode_at (-1) = .error .undefined_behaviour ∧
    VM.vm_8014.fetch_and_decode_at (-1) ≠ .error .memory_access ∧
    VM.vm_8014.fetch_and_decode_at 0 = .ok ⟨(0x80 <<< 8) ||| 0x14⟩ ∧
    VM.vm_8014.fetch_and_decode_at 0xFFF = .error .memory_access ∧
    VM.vm_8014.fetch_and_decode_at (-2) = .error .memory_access ∧
    VM.vm_pc_at_end.step = .error (.memory_access, VM.vm_pc_at_end) := by
  have hwf : VM.vm_8014.state.wf :=
    VM.example_vm_wf [0x80, 0x14] _ (by decide) (by decide) (by decide) (by decide)
  have h := VM.fetch_and_decode_at_spec VM.vm_8014
  have hneg := (h (-1) hwf.1 (by decide) (by decide)).2.2.2 rfl
  refine ⟨hneg, ?_, ?_, (h 0xFFF hwf.1 (by decide) (by decide)).2.1 (by decide),
    (h (-2) hwf.1 (by decide) (by decide)).2.2.1 (by decide),
    VM.step_at_last_address VM.vm_pc_at_end rfl rfl⟩
  · rw [hneg]
    intro hc
    cases hc
  · exact (VM.fetch_and_decode_at_ofNat VM.vm_8014 0 (by decide)).trans
      (VM.example_vm_fetch 0x80 0x14 [] _)

/-! ## The skip instructions -/

theorem VM.execute_instruction_3 (vm : VM) (st : VMCycleState)
    (h3 : st.instruction.nibble 3 = .ok 3) :
    vm.execute_instruction st = vm.execute_prefix3_instruction st := by
  unfold VM.execute_instruction Instruction.prefix_nibble
  simp only [h3, VM.call_ok, ok_bind]

theorem VM.execute_instruction_4 (vm : VM) (st : VMCycleState)
    (h3 : st.instruction.nibble 3 = .ok 4) :
    vm.execute_instruction st = vm.execute_prefix4_instruction st := by
  unfold VM.execute_instruction Instruction.prefix_nibble
  simp only [h3, VM.call_ok, ok_bind]

/-- A step on an instruction that changes nothing but, when `c` holds, skips the next
instruction. -/
theorem VM.step_skip (vm : VM) (ins : Instruction) (c : Prop) [Decidable c]
    (hrun : vm.execution_state = .RUNNING)
    (hfetch : vm.fetch_and_decode vm.state.pc = .ok ins)
    (he : vm.execute_instruction (VMCycleState.mk_cycle vm.execution_state vm.state.pc
        (vm.state.pc + CHARS_PER_INSTRUCTION) ins) =
      .ok (vm, if c then VM.skip_next (VMCycleState.mk_cycle vm.execution_state vm.state.pc
        (vm.state.pc + CHARS_PER_INSTRUCTION) ins)
        else VMCycleState.mk_cycle vm.execution_state vm.state.pc
          (vm.state.pc + CHARS_PER_INSTRUCTION) ins)) :
    vm.step = .ok
      { vm with
        state := { vm.state with
          pc := if c then (vm.state.pc + 4) % 4096 else (vm.state.pc + 2) % 4096 }
        last_state := .RUNNING } := by
  rw [VM.step_of_running vm hrun, VM.step_running_eq vm _ _ _ hfetch he]
  by_cases hc : c
  · simp [hc, VM.commit, VM.skip_next, VMCycleState.mk_cycle, CHARS_PER_INSTRUCTION,
      DEFAULT_MEMORY_SIZE, hrun]
  · simp [hc, VM.commit, VMCycleState.mk_cycle, CHARS_PER_INSTRUCTION,
      DEFAULT_MEMORY_SIZE, hrun]

theorem VM.execute_prefix3_eq (vm : VM) (st : VMCycleState) (X : Nat)
    (hl : vm.state.regs.length = DEFAULT_REGISTER_SIZE) (hX : X < 16)
    (h2 : st.instruction.nibble 2 = .ok X) :
    vm.execute_prefix3_instruction st =
      .ok (vm, if vm.state.V X = st.instruction.lower_byte then VM.skip_next st else st) := by
  unfold VM.execute_prefix3_instruction
  simp only [h2, VM.call_ok, ok_bind, State.reg_eq _ _ hl hX]
  split <;> rfl

theorem VM.execute_prefix4_eq (vm : VM) (st : VMCycleState) (X : Nat)
    (hl : vm.state.regs.length = DEFAULT_REGISTER_SIZE) (hX : X < 16)
    (h2 : st.instruction.nibble 2 = .ok X) :
    vm.execute_prefix4_instruction st =
      .ok (vm, if vm.state.V X ≠ st.instruction.lower_byte then VM.skip_next st else st) := by
  unfold VM.execute_prefix4_instruction
  simp only [h2, VM.call_ok, ok_bind, State.reg_eq _ _ hl hX]
  split <;> rfl

theorem VM.execute_prefix5_eq (vm : VM) (st : VMCycleState) (X Y : Nat)
    (hl : vm.state.regs.length = DEFAULT_REGISTER_SIZE) (hX : X < 16) (hY : Y < 16)
    (h2 : st.instruction.nibble 2 = .ok X) (h1 : st.instruction.nibble 1 = .ok Y)
    (h0 : st.instruction.nibble 0 = .ok 0) :
    vm.execute_prefix5_instruction st =
      .ok (vm, if vm.state.V X = vm.state.V Y then VM.skip_next st else st) := by
  unfold VM.execute_prefix5_instruction
  simp only [h2, h1, h0, VM.call_ok, ok_bind, State.reg_eq _ _ hl hX, State.reg_eq _ _ hl hY]
  rw [if_neg (by decide)]
  split <;> rfl

theorem VM.execute_prefix9_eq (vm : VM) (st : VMCycleState) (X Y : Nat)
    (hl : vm.state.regs.length = DEFAULT_REGISTER_SIZE) (hX : X < 16) (hY : Y < 16)
    (h2 : st.instruction.nibble 2 = .ok X) (h1 : st.instruction.nibble 1 = .ok Y)
    (h0 : st.instruction.nibble 0 = .ok 0) :
    vm.execute_prefix9_instruction st =
      .ok (vm, if vm.state.V X ≠ vm.state.V Y then VM.skip_next st else st) := by
  unfold VM.execute_prefix9_instruction
  simp only [h2, h1, h0, VM.call_ok, ok_bind, State.reg_eq _ _ hl hX, State.reg_eq _ _ hl hY]
  rw [if_neg (by decide)]
  split <;> rfl

/-- Claim C33 (conditional skips).  For every well-formed machine in `RUNNING` mode with
`PC = p`: the step on `3XNN`, `4XNN`, `5XY0` or `9XY0` succeeds and sets `PC` to
`(p + 4) mod 4096` when the condition of the instruction holds (`VX = NN`, `VX ≠ NN`,
`VX = VY`, `VX ≠ VY` respectively) and to `(p + 2) mod 4096` otherwise; the rest of the state
(registers, memory, `I`, call stack, timers) is unchanged. -/
theorem conditional_skips (vm : VM) (X Y NN : Nat) (hwf : vm.state.wf)
    (hrun : vm.execution_state = .RUNNING) (hX : X < 16) (hY : Y < 16) (hNN : NN < 256) :
    (vm.fetch_and_decode vm.state.pc = .ok ⟨opcode_XNN 3 X NN⟩ →
      ∃ vm1, vm.step = .ok vm1 ∧ vm1.state = { vm.state with
        pc := if vm.state.V X = NN then (vm.state.pc + 4) % 4096
          else (vm.state.pc + 2) % 4096 }) ∧
    (vm.fetch_and_decode vm.state.pc = .ok ⟨opcode_XNN 4 X NN⟩ →
      ∃ vm1, vm.step = .ok vm1 ∧ vm1.state = { vm.state with
        pc := if vm.state.V X ≠ NN then (vm.state.pc + 4) % 4096
          else (vm.state.pc + 2) % 4096 }) ∧
    (vm.fetch_and_decode vm.state.pc = .ok ⟨opcode 5 X Y 0⟩ →
      ∃ vm1, vm.step = .ok vm1 ∧ vm1.state = { vm.state with
        pc := if vm.state.V X = vm.state.V Y then (vm.state.pc + 4) % 4096
          else (vm.state.pc + 2) % 4096 }) ∧
    (vm.fetch_and_decode vm.state.pc = .ok ⟨opcode 9 X Y 0⟩ →
      ∃ vm1, vm.step = .ok vm1 ∧ vm1.state = { vm.state with
        pc := if vm.state.V X ≠ vm.state.V Y then (vm.state.pc + 4) % 4096
          else (vm.state.pc + 2) % 4096 }) := by
  have hl := hwf.2.2.1
  refine ⟨?_, ?_, ?_, ?_⟩
  · intro hfetch
    obtain ⟨h3, h2, hb⟩ := decode_opcode_XNN 3 X NN (by decide) hX hNN
    have he := (VM.execute_instruction_3 vm (VMCycleState.mk_cycle vm.execution_state
      vm.state.pc (vm.state.pc + CHARS_PER_INSTRUCTION) ⟨opcode_XNN 3 X NN⟩) h3).trans
      (VM.execute_prefix3_eq vm _ X hl hX h2)
    have hb2 : (VMCycleState.mk_cycle vm.execution_state vm.state.pc
      (vm.state.pc + CHARS_PER_INSTRUCTION) ⟨opcode_XNN 3 X NN⟩).instruction.lower_byte =
      NN := hb
    rw [hb2] at he
    exact ⟨_, VM.step_skip vm _ _ hrun hfetch he, rfl⟩
  · intro hfetch
    obtain ⟨h3, h2, hb⟩ := decode_opcode_XNN 4 X NN (by decide) hX hNN
    have he := (VM.execute_instruction_4 vm (VMCycleState.mk_cycle vm.execution_state
      vm.state.pc (vm.state.pc + CHARS_PER_INSTRUCTION) ⟨opcode_XNN 4 X NN⟩) h3).trans
      (VM.execute_prefix4_eq vm _ X hl hX h2)
    have hb2 : (VMCycleState.mk_cycle vm.execution_state vm.state.pc
      (vm.state.pc + CHARS_PER_INSTRUCTION) ⟨opcode_XNN 4 X NN⟩).instruction.lower_byte =
      NN := hb
    rw [hb2] at he
    exact ⟨_, VM.step_skip vm _ _ hrun hfetch he, rfl⟩
  · intro hfetch
    obtain ⟨h3, h2, h1, h0, -, -⟩ := decode_opcode 5 X Y 0 (by decide) hX hY (by decide)
    have he := (VM.execute_instruction_5 vm (VMCycleState.mk_cycle vm.execution_state
      vm.state.pc (vm.state.pc + CHARS_PER_INSTRUCTION) ⟨opcode 5 X Y 0⟩) h3).trans
      (VM.execute_prefix5_eq vm _ X Y hl hX hY h2 h1 h0)
    exact ⟨_, VM.step_skip vm _ _ hrun hfetch he, rfl⟩
  · intro hfetch
    obtain ⟨h3, h2, h1, h0, -, -⟩ := decode_opcode 9 X Y 0 (by decide) hX hY (by decide)
    have he := (VM.execute_instruction_9 vm (VMCycleState.mk_cycle vm.execution_state
      vm.state.pc (vm.state.pc + CHARS_PER_INSTRUCTION) ⟨opcode 9 X Y 0⟩) h3).trans
      (VM.execute_prefix9_eq vm _ X Y hl hX hY h2 h1 h0)
    exact ⟨_, VM.step_skip vm _ _ hrun hfetch he, rfl⟩

theorem conditional_skips_witness :
    VM.vm_3042.fetch_and_decode VM.vm_3042.state.pc = .ok ⟨opcode_XNN 3 0 0x42⟩ ∧
    (VM.vm_3042.fetch_and_decode VM.vm_3042.state.pc = .ok ⟨opcode_XNN 3 0 0x42⟩ →
      ∃ vm1, VM.vm_3042.step = .ok vm1 ∧ vm1.state = { VM.vm_3042.state with
        pc := if VM.vm_3042.state.V 0 = 0x42 then (VM.vm_3042.state.pc + 4) % 4096
          else (VM.vm_3042.state.pc + 2) % 4096 }) ∧
    (VM.vm_3042.fetch_and_decode VM.vm_3042.state.pc = .ok ⟨opcode_XNN 4 0 0x42⟩ →
      ∃ vm1, VM.vm_3042.step = .ok vm1 ∧ vm1.state = { VM.vm_3042.state with
        pc := if VM.vm_3042.state.V 0 ≠ 0x42 then (VM.vm_3042.state.pc + 4) % 4096
          else (VM.vm_3042.state.pc + 2) % 4096 }) ∧
    (VM.vm_3042.fetch_and_decode VM.vm_3042.state.pc = .ok ⟨opcode 5 0 1 0⟩ →
      ∃ vm1, VM.vm_3042.step = .ok vm1 ∧ vm1.state = { VM.vm_3042.state with
        pc := if VM.vm_3042.state.V 0 = VM.vm_3042.state.V 1
          then (VM.vm_3042.state.pc + 4) % 4096 else (VM.vm_3042.state.pc + 2) % 4096 }) ∧
    (VM.vm_3042.fetch_and_decode VM.vm_3042.state.pc = .ok ⟨opcode 9 0 1 0⟩ →
      ∃ vm1, VM.vm_3042.step = .ok vm1 ∧ vm1.state = { VM.vm_3042.state with
        pc := if VM.vm_3042.state.V 0 ≠ VM.vm_3042.state.V 1
          then (VM.vm_3042.state.pc + 4) % 4096 else (VM.vm_3042.state.pc + 2) % 4096 }) :=
  ⟨VM.example_vm_fetch 0x30 0x42 [] _,
    conditional_skips VM.vm_3042 0 1 0x42
      (VM.example_vm_wf [0x30, 0x42] _ (by decide) (by decide) (by decide) (by decide)) rfl
      (by decide) (by decide) (by decide)⟩

end Chip8VM

namespace Chip8VM

theorem VM.execute_prefixE_eq (vm : VM) (st : VMCycleState) (X : Nat)
    (hwf : vm.state.wf) (hX : X < 16) (h2 : st.instruction.nibble 2 = .ok X) :
    (st.instruction.lower_byte = 0x9E → vm.execute_prefixE_instruction st =
      .ok (vm, if vm.key_value ≥ 0 ∧ vm.key_value = (vm.state.V X : Int)
        then VM.skip_next st else st)) ∧
    (st.instruction.lower_byte = 0xA1 → vm.execute_prefixE_instruction st =
      .ok (vm, if vm.key_value ≥ 0 ∧ vm.key_value ≠ (vm.state.V X : Int)
        then VM.skip_next st else st)) := by
  have hv : to_regval (vm.state.V X) = vm.state.V X :=
    to_regval_of_lt _ (State.V_lt _ _ hwf)
  constructor
  · intro hb
    unfold VM.execute_prefixE_instruction
    simp only [h2, hb, VM.call_ok, ok_bind, State.reg_eq _ _ hwf.2.2.1 hX, hv, VM.key_pressed,
      decide_eq_true_eq]
    split <;> rfl
  · intro hb
    unfold VM.execute_prefixE_instruction
    simp only [h2, hb, VM.call_ok, ok_bind, State.reg_eq _ _ hwf.2.2.1 hX, hv, VM.key_pressed,
      decide_eq_true_eq]
    split <;> rfl

/-- The steps on `EX9E` and `EXA1`. -/
theorem VM.step_key_skip (vm : VM) (X : Nat) (hwf : vm.state.wf)
    (hrun : vm.execution_state = .RUNNING) (hX : X < 16) :
    (vm.fetch_and_decode vm.state.pc = .ok ⟨opcode_XNN 0xE X 0x9E⟩ →
      vm.step = .ok { vm with
        state := { vm.state with
          pc := if vm.key_value ≥ 0 ∧ vm.key_value = (vm.state.V X : Int)
            then (vm.state.pc + 4) % 4096 else (vm.state.pc + 2) % 4096 }
        last_state := .RUNNING }) ∧
    (vm.fetch_and_decode vm.state.pc = .ok ⟨opcode_XNN 0xE X 0xA1⟩ →
      vm.step = .ok { vm with
        state := { vm.state with
          pc := if vm.key_value ≥ 0 ∧ vm.key_value ≠ (vm.state.V X : Int)
            then (vm.state.pc + 4) % 4096 else (vm.state.pc + 2) % 4096 }
        last_state := .RUNNING }) := by
  constructor
  · intro hfetch
    obtain ⟨h3, h2, hb⟩ := decode_opcode_XNN 0xE X 0x9E (by decide) hX (by decide)
    have he := (VM.execute_instruction_E vm (VMCycleState.mk_cycle vm.execution_state
      vm.state.pc (vm.state.pc + CHARS_PER_INSTRUCTION) ⟨opcode_XNN 0xE X 0x9E⟩) h3).trans
      ((VM.execute_prefixE_eq vm (VMCycleState.mk_cycle vm.execution_state
        vm.state.pc (vm.state.pc + CHARS_PER_INSTRUCTION) ⟨opcode_XNN 0xE X 0x9E⟩)
        X hwf hX h2).1 hb)
    exact VM.step_skip vm _ _ hrun hfetch he
  · intro hfetch
    obtain ⟨h3, h2, hb⟩ := decode_opcode_XNN 0xE X 0xA1 (by decide) hX (by decide)
    have he := (VM.execute_instruction_E vm (VMCycleState.mk_cycle vm.execution_state
      vm.state.pc (vm.state.pc + CHARS_PER_INSTRUCTION) ⟨opcode_XNN 0xE X 0xA1⟩) h3).trans
      ((VM.execute_prefixE_eq vm (VMCycleState.mk_cycle vm.execution_state
        vm.state.pc (vm.state.pc + CHARS_PER_INSTRUCTION) ⟨opcode_XNN 0xE X 0xA1⟩)
        X hwf hX h2).2 hb)
    exact VM.step_skip vm _ _ hrun hfetch he

/-- Claim C32 fails as stated: the program counter after a key-skip opcode is not always
`PC + 2` or `PC + 4`.  On the machine with no key pressed whose `E09E` sits at `0xFFE`, the
step does not skip and leaves `PC = 0`, not `PC + 2 = 0x1000`: the program counter is
committed modulo the memory size. -/
theorem key_skip_at_last_address_wraps :
    VM.vm_skip_at_end.execution_state = .RUNNING ∧ VM.vm_skip_at_end.state.pc = 0xFFE ∧
    VM.vm_skip_at_end.key_value < 0 ∧
    VM.vm_skip_at_end.fetch_and_decode 0xFFE = .ok ⟨opcode_XNN 0xE 0 0x9E⟩ ∧
    ∃ vm1, VM.vm_skip_at_end.step = .ok vm1 ∧ vm1.state.pc = 0 ∧
      vm1.state.pc ≠ VM.vm_skip_at_end.state.pc + 2 := by
  have hlen : (List.replicate 4094 0 : List Nat).length = 4094 := List.length_replicate _ _
  have hm0 : VM.vm_skip_at_end.state.memory[0xFFE]? = some 0xE0 := by
    show (List.replicate 4094 0 ++ [0xE0, 0x9E] : List Nat)[0xFFE]? = _
    rw [List.getElem?_append_right (by rw [hlen]), hlen]
    rfl
  have hm1 : VM.vm_skip_at_end.state.memory[0xFFE + 1]? = some 0x9E := by
    show (List.replicate 4094 0 ++ [0xE0, 0x9E] : List Nat)[0xFFE + 1]? = _
    rw [List.getElem?_append_right (by rw [hlen]; decide), hlen]
    rfl
  have hfetch : VM.vm_skip_at_end.fetch_and_decode 0xFFE = .ok ⟨opcode_XNN 0xE 0 0x9E⟩ :=
    VM.fetch_eq VM.vm_skip_at_end 0xFFE 0xE0 0x9E (by decide) hm0 hm1
  have hwf : VM.vm_skip_at_end.state.wf := by
    refine ⟨?_, ?_, ?_, ?_, by decide, by decide⟩
    · show (List.replicate 4094 0 ++ [0xE0, 0x9E] : List Nat).length = _
      rw [List.length_append, hlen]
      rfl
    · intro b hb
      have hb2 : b ∈ (List.replicate 4094 0 ++ [0xE0, 0x9E] : List Nat) := hb
      rcases List.mem_append.mp hb2 with h | h
      · rw [(List.mem_replicate.mp h).2]; decide
      · simp only [List.mem_cons, List.mem_singleton, List.not_mem_nil, or_false] at h
        rcases h with h | h <;> rw [h] <;> decide
    · exact List.length_replicate _ _
    · intro r hr
      have hr2 : r ∈ (List.replicate 16 0 : List Nat) := hr
      rw [(List.mem_replicate.mp hr2).2]
      decide
  have hstep := (VM.step_key_skip VM.vm_skip_at_end 0 hwf rfl (by decide)).1 hfetch
  refine ⟨rfl, rfl, by decide, hfetch, _, hstep, ?_, ?_⟩
  · decide
  · decide

/-- Claim C32, amended.  For every well-formed machine in `RUNNING` mode with `PC = p`: the
step on `EX9E` sets `PC` to `(p + 4) mod 4096` if a key is pressed and its value equals `VX`
and to `(p + 2) mod 4096` otherwise; the step on `EXA1` sets `PC` to `(p + 4) mod 4096` if a
key is pressed and its value differs from `VX` and to `(p + 2) mod 4096` otherwise; when no
key is pressed neither opcode skips.  The registers and the rest of the state are
unchanged. -/
theorem key_skips (vm : VM) (X : Nat) (hwf : vm.state.wf)
    (hrun : vm.execution_state = .RUNNING) (hX : X < 16) :
    (vm.fetch_and_decode vm.state.pc = .ok ⟨opcode_XNN 0xE X 0x9E⟩ →
      ∃ vm1, vm.step = .ok vm1 ∧ vm1.state = { vm.state with
        pc := if vm.key_value ≥ 0 ∧ vm.key_value = (vm.state.V X : Int)
          then (vm.state.pc + 4) % 4096 else (vm.state.pc + 2) % 4096 } ∧
        (vm.key_value < 0 → vm1.state.pc = (vm.state.pc + 2) % 4096)) ∧
    (vm.fetch_and_decode vm.state.pc = .ok ⟨opcode_XNN 0xE X 0xA1⟩ →
      ∃ vm1, vm.step = .ok vm1 ∧ vm1.state = { vm.state with
        pc := if vm.key_value ≥ 0 ∧ vm.key_value ≠ (vm.state.V X : Int)
          then (vm.state.pc + 4) % 4096 else (vm.state.pc + 2) % 4096 } ∧
        (vm.key_value < 0 → vm1.state.pc = (vm.state.pc + 2) % 4096)) := by
  obtain ⟨h9, hA⟩ := VM.step_key_skip vm X hwf hrun hX
  constructor
  · intro hfetch
    refine ⟨_, h9 hfetch, rfl, fun hk => ?_⟩
    show (if vm.key_value ≥ 0 ∧ vm.key_value = (vm.state.V X : Int) then _ else _) = _
    rw [if_neg (by omega)]
  · intro hfetch
    refine ⟨_, hA hfetch, rfl, fun hk => ?_⟩
    show (if vm.key_value ≥ 0 ∧ vm.key_value ≠ (vm.state.V X : Int) then _ else _) = _
    rw [if_neg (by omega)]

theorem key_skips_witness :
    VM.vm_E09E.fetch_and_decode VM.vm_E09E.state.pc = .ok ⟨opcode_XNN 0xE 0 0x9E⟩ ∧
    (VM.vm_E09E.fetch_and_decode VM.vm_E09E.state.pc = .ok ⟨opcode_XNN 0xE 0 0x9E⟩ →
      ∃ vm1, VM.vm_E09E.step = .ok vm1 ∧ vm1.state = { VM.vm_E09E.state with
        pc := if VM.vm_E09E.key_value ≥ 0 ∧
            VM.vm_E09E.key_value = (VM.vm_E09E.state.V 0 : Int)
          then (VM.vm_E09E.state.pc + 4) % 4096 else (VM.vm_E09E.state.pc + 2) % 4096 } ∧
        (VM.vm_E09E.key_value < 0 → vm1.state.pc = (VM.vm_E09E.state.pc + 2) % 4096)) ∧
    (VM.vm_E09E.fetch_and_decode VM.vm_E09E.state.pc = .ok ⟨opcode_XNN 0xE 0 0xA1⟩ →
      ∃ vm1, VM.vm_E09E.step = .ok vm1 ∧ vm1.state = { VM.vm_E09E.state with
        pc := if VM.vm_E09E.key_value ≥ 0 ∧
            VM.vm_E09E.key_value ≠ (VM.vm_E09E.state.V 0 : Int)
          then (VM.vm_E09E.state.pc + 4) % 4096 else (VM.vm_E09E.state.pc + 2) % 4096 } ∧
        (VM.vm_E09E.key_value < 0 → vm1.state.pc = (VM.vm_E09E.state.pc + 2) % 4096)) :=
  ⟨VM.example_vm_fetch 0xE0 0x9E [] _,
    key_skips VM.vm_E09E 0
      (VM.example_vm_wf [0xE0, 0x9E] _ (by decide) (by decide) (by decide) (by decide)) rfl
      (by decide)⟩

/-! ## The arithmetic instructions with `X = 0xF` -/

theorem V_set_flag_twice (regs : List Nat) (flag result : Nat)
    (hl : regs.length = DEFAULT_REGISTER_SIZE) :
    ((regs.set 15 flag).set 15 result).getD 15 0 = result := by
  rw [V_set_set regs 15 15 flag result hl (by decide), if_pos rfl]

/-- The result write follows the flag write: on `8FY4`, `8FY5`, `8FY7`, and on `8FY6`, `8FYE`
with a shift count below the width of `size_t`, the step succeeds and `VF` holds the result
computed from the old `VF` and `VY`, not the flag. -/
theorem VM.step_8FYN_result (vm : VM) (Y : Nat) (hwf : vm.state.wf)
    (hrun : vm.execution_state = .RUNNING) (hY : Y < 16) :
    (vm.fetch_and_decode vm.state.pc = .ok ⟨opcode 8 0xF Y 4⟩ →
      ∃ vm1, vm.step = .ok vm1 ∧
        vm1.state.V 0xF = (vm.state.V 0xF + vm.state.V Y) % 256) ∧
    (vm.fetch_and_decode vm.state.pc = .ok ⟨opcode 8 0xF Y 5⟩ →
      ∃ vm1, vm.step = .ok vm1 ∧
        vm1.state.V 0xF = (vm.state.V 0xF + 256 - vm.state.V Y) % 256) ∧
    (vm.fetch_and_decode vm.state.pc = .ok ⟨opcode 8 0xF Y 7⟩ →
      ∃ vm1, vm.step = .ok vm1 ∧
        vm1.state.V 0xF = (vm.state.V Y + 256 - vm.state.V 0xF) % 256) ∧
    (vm.fetch_and_decode vm.state.pc = .ok ⟨opcode 8 0xF Y 6⟩ → vm.state.V Y < 64 →
      ∃ vm1, vm.step = .ok vm1 ∧ vm1.state.V 0xF = vm.state.V 0xF >>> vm.state.V Y) ∧
    (vm.fetch_and_decode vm.state.pc = .ok ⟨opcode 8 0xF Y 0xE⟩ → vm.state.V Y < 64 →
      ∃ vm1, vm.step = .ok vm1 ∧
        vm1.state.V 0xF = (vm.state.V 0xF <<< vm.state.V Y) % 256) := by
  have hl := hwf.2.2.1
  refine ⟨?_, ?_, ?_, ?_, ?_⟩
  · intro hfetch
    obtain ⟨vm1, hstep, hregs, -⟩ := VM.step_8_flag_result vm 0xF Y 4 _ _ hrun (by decide) hY
      (by decide) hfetch
      (fun st h2 h1 h0 => VM.execute_prefix8_add vm st 0xF Y hl (by decide) hY h2 h1 h0)
    exact ⟨vm1, hstep, by rw [State.V_eq, hregs, V_set_flag_twice _ _ _ hl]⟩
  · intro hfetch
    obtain ⟨vm1, hstep, hregs, -⟩ := VM.step_8_flag_result vm 0xF Y 5 _ _ hrun (by decide) hY
      (by decide) hfetch
      (fun st h2 h1 h0 => VM.execute_prefix8_sub vm st 0xF Y hwf (by decide) hY h2 h1 h0)
    exact ⟨vm1, hstep, by rw [State.V_eq, hregs, V_set_flag_twice _ _ _ hl]⟩
  · intro hfetch
    obtain ⟨vm1, hstep, hregs⟩ := VM.step_8XY7 vm 0xF Y hwf hrun (by decide) hY hfetch
    exact ⟨vm1, hstep, by rw [State.V_eq, hregs, V_set_flag_twice _ _ _ hl]⟩
  · intro hfetch hs
    obtain ⟨vm1, hstep, hregs⟩ := VM.step_8XY6 vm 0xF Y hwf hrun (by decide) hY hs hfetch
    exact ⟨vm1, hstep, by rw [State.V_eq, hregs, V_set_flag_twice _ _ _ hl]⟩
  · intro hfetch hs
    obtain ⟨vm1, hstep, hregs⟩ := VM.step_8XYE vm 0xF Y hwf hrun (by decide) hY hs hfetch
    exact ⟨vm1, hstep, by rw [State.V_eq, hregs, V_set_flag_twice _ _ _ hl]⟩

/-- Claim C37, evaluated where the code departs from it: with `VF = 1` and `V1 = 64` the step
on `8F16` writes the flag `VF AND 1 = 1` and then evaluates a right shift of a 64-bit `size_t`
by 64 positions, which has no defined result, so the result write that the claim describes
does not take place: the claim asks for `VF = 1 >> 64 = 0`, and the machine is left with
`VF = 1`, the flag.  For `8FY4`, `8FY5`, `8FY7`, and for the two shifts with `VY < 64`, `VF`
ends up holding the result (`VM.step_8FYN_result`). -/
theorem flag_result_8FY6_shift_count_not_below_width :
    VM.vm_8F16.state.V 0xF = 1 ∧ VM.vm_8F16.state.V 1 = 64 ∧
    VM.vm_8F16.state.V 0xF >>> VM.vm_8F16.state.V 1 = 0 ∧
    ∃ vm1, VM.vm_8F16.step = .error (.undefined_behaviour, vm1) ∧ vm1.state.V 0xF = 1 := by
  have hwf : VM.vm_8F16.state.wf :=
    VM.example_vm_wf [0x8F, 0x16] _ (by decide) (by decide) (by decide) (by decide)
  have hfetch := VM.example_vm_fetch 0x8F 0x16 []
    [0, 64, 0, 0, 0, 0, 0, 0, 0, 0, 0, 0, 0, 0, 0, 1]
  have hstep := VM.step_8_fault VM.vm_8F16 _ 0xF 1 6 _ rfl (by decide) (by decide) (by decide)
    hfetch (fun st h2 h1 h0 => VM.execute_prefix8_shr_undefined VM.vm_8F16 st 0xF 1 hwf
      (by decide) (by decide) (by decide) h2 h1 h0)
  exact ⟨by decide, by decide, by decide, _, hstep, by decide⟩

/-! ## `FX55` and `FX65` at the end of memory -/

/-- The loop of `FX55` when its last cell is the cell 4096: the cells before it are written,
and the write to the cell 4096 passes the guard of `State::memory` and leaves the vector. -/
theorem VM.save_loop_overrun : ∀ (n i : Nat) (vm : VM),
    vm.state.memory.length = DEFAULT_MEMORY_SIZE →
    vm.state.regs.length = DEFAULT_REGISTER_SIZE → (∀ r ∈ vm.state.regs, r < 256) →
    i + n < 16 → vm.state.i + i + n = 4096 →
    ∃ m, VM.save_loop (n + 1) i vm =
        .error (.undefined_behaviour, { vm with state := { vm.state with memory := m } }) ∧
      m.length = DEFAULT_MEMORY_SIZE ∧
      (∀ k, i ≤ k → k < i + n → m.getD (vm.state.i + k) 0 = vm.state.V k) ∧
      (∀ j, (j < vm.state.i + i ∨ vm.state.i + i + n ≤ j) →
        m.getD j 0 = vm.state.memory.getD j 0) := by
  have hm : DEFAULT_MEMORY_SIZE = 4096 := rfl
  intro n
  induction n with
  | zero =>
    intro i vm hl hr _ hin hI
    refine ⟨vm.state.memory, ?_, hl, ?_, ?_⟩
    · have hset := VM.on_state_error vm (fun s => s.memory_set (s.i + i) (vm.state.V i))
        .undefined_behaviour
        ((State.memory_set_out vm.state (vm.state.i + i) (vm.state.V i) hl).2 (by omega))
      unfold VM.save_loop
      rw [State.reg_eq _ _ hr (by omega), VM.call_ok, ok_bind, hset, error_bind]
    · intro k h1 h2; omega
    · intro j _; rfl
  | succ n ih =>
    intro i vm hl hr hrr hin hI
    have hv : to_regval (vm.state.V i) = vm.state.V i := by
      apply to_regval_of_lt
      unfold State.V
      rw [List.getD_eq_getElem?_getD]
      have hlt : i < vm.state.regs.length := by
        rw [hr]; show i < 16; omega
      rw [List.getElem?_eq_getElem hlt]
      exact hrr _ (List.getElem_mem _)
    have hset := VM.on_state_ok vm (fun s => s.memory_set (s.i + i) (vm.state.V i)) _
      (State.memory_set_eq vm.state (vm.state.i + i) (vm.state.V i) hl (by omega))
    obtain ⟨m, hloop, hlen, hin1, hout1⟩ := ih (i + 1)
      { vm with state := { vm.state with
        memory := vm.state.memory.set (vm.state.i + i) (to_regval (vm.state.V i)) } }
      (by show (List.set _ _ _).length = _; rw [List.length_set]; exact hl) hr hrr
      (by omega) (by show vm.state.i + (i + 1) + n = 4096; omega)
    dsimp only at hloop hin1 hout1
    refine ⟨m, ?_, hlen, ?_, ?_⟩
    · unfold VM.save_loop
      rw [State.reg_eq _ _ hr (by omega), VM.call_ok, ok_bind, hset, ok_bind]
      exact hloop
    · intro k hk1 hk2
      by_cases hki : k = i
      · subst hki
        rw [hout1 _ (Or.inl (by omega)), V_set _ _ _ _ (by rw [hl]; omega), if_pos rfl, hv]
      · exact hin1 k (by omega) (by omega)
    · intro j hj
      rw [hout1 j (by omega), V_set _ _ _ _ (by rw [hl]; omega), if_neg (by omega)]

/-- The loop of `FX65` when its last cell is the cell 4096: the registers before the last are
loaded, and the read of the cell 4096 leaves the vector. -/
theorem VM.load_loop_overrun : ∀ (n i : Nat) (vm : VM),
    vm.state.memory.length = DEFAULT_MEMORY_SIZE → (∀ b ∈ vm.state.memory, b < 256) →
    vm.state.regs.length = DEFAULT_REGISTER_SIZE →
    i + n < 16 → vm.state.i + i + n = 4096 →
    ∃ r, VM.load_loop (n + 1) i vm =
        .error (.undefined_behaviour, { vm with state := { vm.state with regs := r } }) ∧
      r.length = DEFAULT_REGISTER_SIZE ∧
      (∀ k, i ≤ k → k < i + n → r.getD k 0 = vm.state.memory.getD (vm.state.i + k) 0) ∧
      (∀ k, (k < i ∨ i + n ≤ k) → r.getD k 0 = vm.state.regs.getD k 0) := by
  have hm : DEFAULT_MEMORY_SIZE = 4096 := rfl
  have h16 : DEFAULT_REGISTER_SIZE = 16 := rfl
  intro n
  induction n with
  | zero =>
    intro i vm hl _ hr hin hI
    refine ⟨vm.state.regs, ?_, hr, ?_, ?_⟩
    · have hnone : vm.state.memory[vm.state.i + i]? = none := by
        rw [List.getElem?_eq_none_iff, hl]; omega
      have hat : vm.state.memory_at (vm.state.i + i) = .error .undefined_behaviour := by
        unfold State.memory_at; rw [hnone]
      unfold VM.load_loop
      rw [hat, VM.call_error, error_bind]
    · intro k h1 h2; omega
    · intro j _; rfl
  | succ n ih =>
    intro i vm hl hbb hr hin hI
    have hlt : vm.state.i + i < vm.state.memory.length := by rw [hl]; omega
    have hv : to_regval (vm.state.memory.getD (vm.state.i + i) 0) =
        vm.state.memory.getD (vm.state.i + i) 0 := by
      apply to_regval_of_lt
      rw [List.getD_eq_getElem?_getD, List.getElem?_eq_getElem hlt]
      exact hbb _ (List.getElem_mem _)
    obtain ⟨r, hloop, hlen, hin1, hout1⟩ := ih (i + 1)
      { vm with state := { vm.state with
        regs := vm.state.regs.set i (to_regval (vm.state.memory.getD (vm.state.i + i) 0)) } }
      hl hbb (by show (List.set _ _ _).length = _; rw [List.length_set]; exact hr)
      (by omega) (by show vm.state.i + (i + 1) + n = 4096; omega)
    dsimp only at hloop hin1 hout1
    refine ⟨r, ?_, hlen, ?_, ?_⟩
    · unfold VM.load_loop
      rw [State.memory_at_eq _ _ hlt, VM.call_ok, ok_bind,
        VM.on_state_reg_set vm i _ hr (by omega), ok_bind]
      exact hloop
    · intro k hk1 hk2
      by_cases hki : k = i
      · subst hki
        rw [hout1 _ (Or.inl (by omega)), V_set _ _ _ _ (by rw [hr, h16]; omega), if_pos rfl, hv]
      · exact hin1 k (by omega) (by omega)
    · intro j hj
      rw [hout1 j (by omega), V_set _ _ _ _ (by rw [hr, h16]; omega), if_neg (by omega)]

/-- What `FX55` does when `I + X ≥ 4096`: above 4096 the guard raises `MemoryAccessError` and
nothing is written; at `I + X = 4096` the guard lets the loop run, which writes the cells
`I .. 4095` and then the cell 4096, outside the vector. -/
theorem VM.step_FX55_end (vm : VM) (X : Nat) (hwf : vm.state.wf)
    (hrun : vm.execution_state = .RUNNING) (hX : X < 16)
    (hfetch : vm.fetch_and_decode vm.state.pc = .ok ⟨opcode_XNN 0xF X 0x55⟩) :
    (4096 < vm.state.i + X → vm.step = .error (.memory_access, vm)) ∧
    (vm.state.i + X = 4096 → ∃ m, vm.step =
        .error (.undefined_behaviour, { vm with state := { vm.state with memory := m } }) ∧
      ∀ k, k < X → m.getD (vm.state.i + k) 0 = vm.state.V k) := by
  have hm : DEFAULT_MEMORY_SIZE = 4096 := rfl
  have hx : to_regval X = X := to_regval_of_lt X (by omega)
  have hs : to_regval 0x55 = 0x55 := rfl
  constructor
  · intro hI
    have hguard : vm.state.i + X > vm.state.memory_size := by
      unfold State.memory_size; omega
    refine VM.step_FXNN_fault vm vm X 0x55 _ hrun hX (by decide) hfetch (fun st h2 hb => ?_)
    unfold VM.execute_prefixF_instruction
    simp only [h2, hb, VM.call_ok, ok_bind, hx, hs, if_pos hguard]
  · intro hI
    have hguard : ¬ vm.state.i + X > vm.state.memory_size := by
      unfold State.memory_size; omega
    obtain ⟨m, hloop, -, hin, -⟩ := VM.save_loop_overrun X 0 vm hwf.1 hwf.2.2.1 hwf.2.2.2.1
      (by omega) (by omega)
    refine ⟨m, ?_, fun k hk => hin k (by omega) (by omega)⟩
    refine VM.step_FXNN_fault vm _ X 0x55 _ hrun hX (by decide) hfetch (fun st h2 hb => ?_)
    unfold VM.execute_prefixF_instruction
    simp only [h2, hb, VM.call_ok, ok_bind, hx, hs, if_neg hguard]
    rw [hloop, error_bind]

/-- What `FX65` does when `I + X ≥ 4096`: above 4096 the guard raises `MemoryAccessError` and
nothing is changed; at `I + X = 4096` the guard lets the loop run, which loads the registers
`V0 .. V(X-1)` and then reads the cell 4096, outside the vector. -/
theorem VM.step_FX65_end (vm : VM) (X : Nat) (hwf : vm.state.wf)
    (hrun : vm.execution_state = .RUNNING) (hX : X < 16)
    (hfetch : vm.fetch_and_decode vm.state.pc = .ok ⟨opcode_XNN 0xF X 0x65⟩) :
    (4096 < vm.state.i + X → vm.step = .error (.memory_access, vm)) ∧
    (vm.state.i + X = 4096 → ∃ r, vm.step =
        .error (.undefined_behaviour, { vm with state := { vm.state with regs := r } }) ∧
      ∀ k, k < X → r.getD k 0 = vm.state.memory.getD (vm.state.i + k) 0) := by
  have hm : DEFAULT_MEMORY_SIZE = 4096 := rfl
  have hx : to_regval X = X := to_regval_of_lt X (by omega)
  have hs : to_regval 0x65 = 0x65 := rfl
  constructor
  · intro hI
    have hguard : vm.state.i + X > vm.state.memory_size := by
      unfold State.memory_size; omega
    refine VM.step_FXNN_fault vm vm X 0x65 _ hrun hX (by decide) hfetch (fun st h2 hb => ?_)
    unfold VM.execute_prefixF_instruction
    simp only [h2, hb, VM.call_ok, ok_bind, hx, hs, if_pos hguard]
  · intro hI
    have hguard : ¬ vm.state.i + X > vm.state.memory_size := by
      unfold State.memory_size; omega
    obtain ⟨r, hloop, -, hin, -⟩ := VM.load_loop_overrun X 0 vm hwf.1 hwf.2.1 hwf.2.2.1
      (by omega) (by omega)
    refine ⟨r, ?_, fun k hk => hin k (by omega) (by omega)⟩
    refine VM.step_FXNN_fault vm _ X 0x65 _ hrun hX (by decide) hfetch (fun st h2 hb => ?_)
    unfold VM.execute_prefixF_instruction
    simp only [h2, hb, VM.call_ok, ok_bind, hx, hs, if_neg hguard]
    rw [hloop, error_bind]

/-- Claim C31, evaluated where the code departs from it: with `I = 0xFFF` and `X = 1`
(`I + X = 4096 = memory_size`) neither `F155` nor `F165` raises `MemoryAccessError`, because
the guard of both handlers is `I + X > memory_size`.  `F155` writes `V0 = 7` to the cell
`0xFFF`, which held 0, and then writes the cell 4096, outside the vector; `F165` then reads
the cell 4096, outside the vector. -/
theorem save_load_at_memory_size_not_rejected :
    VM.vm_F155_end.state.i + 1 = 4096 ∧ VM.vm_F155_end.state.memory.getD 0xFFF 0 = 0 ∧
    (∃ vm1, VM.vm_F155_end.step = .error (.undefined_behaviour, vm1) ∧
      vm1.state.memory.getD 0xFFF 0 = 7) ∧
    VM.vm_F165_end.state.i + 1 = 4096 ∧
    (∃ vm1, VM.vm_F165_end.step = .error (.undefined_behaviour, vm1)) := by
  have hwf5 : VM.vm_F155_end.state.wf := VM.with_i_wf _ 0xFFF
    (VM.example_vm_wf [0xF1, 0x55] _ (by decide) (by decide) (by decide) (by decide))
  have hf5 : VM.vm_F155_end.fetch_and_decode VM.vm_F155_end.state.pc =
      .ok ⟨opcode_XNN 0xF 1 0x55⟩ :=
    (VM.with_i_fetch _ 0xFFF _).trans (VM.example_vm_fetch 0xF1 0x55 []
      [7, 9, 0, 0, 0, 0, 0, 0, 0, 0, 0, 0, 0, 0, 0, 0])
  have hwf6 : VM.vm_F165_end.state.wf := VM.with_i_wf _ 0xFFF
    (VM.example_vm_wf [0xF1, 0x65] _ (by decide) (by decide) (by decide) (by decide))
  have hf6 : VM.vm_F165_end.fetch_and_decode VM.vm_F165_end.state.pc =
      .ok ⟨opcode_XNN 0xF 1 0x65⟩ :=
    (VM.with_i_fetch _ 0xFFF _).trans (VM.example_vm_fetch 0xF1 0x65 []
      [7, 9, 0, 0, 0, 0, 0, 0, 0, 0, 0, 0, 0, 0, 0, 0])
  obtain ⟨m, h5, hm5⟩ := (VM.step_FX55_end VM.vm_F155_end 1 hwf5 rfl (by decide) hf5).2 rfl
  obtain ⟨r, h6, -⟩ := (VM.step_FX65_end VM.vm_F165_end 1 hwf6 rfl (by decide) hf6).2 rfl
  have hold : VM.vm_F155_end.state.memory.getD 0xFFF 0 = 0 := by
    show ([0xF1, 0x55] ++ List.replicate (DEFAULT_MEMORY_SIZE - 2) 0 : List Nat).getD 0xFFF 0 = 0
    rw [List.getD_eq_getElem?_getD, List.getElem?_append_right (by decide)]
    rw [List.getElem?_replicate_of_lt (by decide)]
    rfl
  refine ⟨rfl, hold, ⟨_, h5, ?_⟩, rfl, ⟨_, h6⟩⟩
  exact hm5 0 (by decide)

/-! ## Properties of the state that every step keeps -/

theorem State.reg_set_inv (s t : State) (n v : Nat) (h : s.reg_set n v = .ok t) :
    t = { s with regs := s.regs.set n (to_regval v) } := by
  unfold State.reg_set at h
  split at h
  · cases h
  · split at h
    · cases h; rfl
    · cases h

theorem State.flag_register_set_inv (s t : State) (v : Nat)
    (h : s.flag_register_set v = .ok t) :
    t = { s with regs := s.regs.set DEFAULT_FLAG_REGISTER (to_regval v) } := by
  unfold State.flag_register_set at h
  split at h
  · cases h
  · split at h
    · cases h; rfl
    · cases h

theorem State.index_register_set_inv (s t : State) (n : Nat)
    (h : s.index_register_set n = .ok t) :
    (s.asserts = true → n ≤ DEFAULT_MEMORY_SIZE) ∧ t = { s with i := n } := by
  unfold State.index_register_set at h
  split at h
  · cases h
  · rename_i hn
    cases h
    refine ⟨fun ha => ?_, rfl⟩
    by_contra hno
    exact hn ⟨ha, hno⟩

theorem State.push_callstack_inv (s t : State) (n : Nat) (h : s.push_callstack n = .ok t) :
    n ≤ DEFAULT_MEMORY_SIZE ∧ t = { s with callstack := s.callstack ++ [n] } := by
  unfold State.push_callstack at h
  split at h
  · cases h
  · rename_i hn; cases h; exact ⟨Nat.le_of_not_lt hn, rfl⟩

theorem State.pop_callstack_inv (s t : State) (v : Nat) (h : s.pop_callstack = .ok (v, t)) :
    t = { s with callstack := s.callstack.dropLast } := by
  unfold State.pop_callstack at h
  split at h
  · cases h
  · cases h; rfl

theorem State.memory_set_inv (s t : State) (n v : Nat) (h : s.memory_set n v = .ok t) :
    n < s.memory.length ∧ t = { s with memory := s.memory.set n (to_regval v) } := by
  unfold State.memory_set at h
  split at h
  · cases h
  · split at h
    · rename_i hn; cases h; exact ⟨hn, rfl⟩
    · cases h

/-- A `State` method that keeps `Q`, run on the machine. -/
theorem VM.on_state_stable (Q : State → Prop) (vm vm1 : VM) (f : State → Except Fault State)
    (hf : ∀ s t, Q s → f s = .ok t → Q t) (h0 : Q vm.state)
    (h : vm.on_state f = .ok vm1) : Q vm1.state := by
  obtain ⟨s, hs, rfl⟩ := VM.on_state_eq_ok vm vm1 f h
  exact hf _ _ h0 hs

theorem VM.stable_bind_on_state {β : Type} (p : β → Prop) (Q : State → Prop) (vm : VM)
    (f : State → Except Fault State) (g : VM → Outcome β)
    (hf : ∀ s t, Q s → f s = .ok t → Q t) (h0 : Q vm.state)
    (h : ∀ vm1, Q vm1.state → keeps p (g vm1)) :
    keeps p (vm.on_state f >>= g) :=
  keeps_bind p _ g (fun vm1 h1 => h vm1 (VM.on_state_stable Q vm vm1 f hf h0 h1))

theorem State.flag_ite_stable (Q : State → Prop) (hQ : State.stable Q) (c : Prop)
    [Decidable c] (a b : Nat) (s t : State) (h0 : Q s)
    (h : (if c then s.flag_register_set a else s.flag_register_set b) = .ok t) : Q t := by
  split at h
  · exact hQ.flag_register_set _ _ _ h0 h
  · exact hQ.flag_register_set _ _ _ h0 h

theorem VM.execute_prefix0_stable (Q : State → Prop) (hQ : State.stable Q) (vm : VM)
    (st : VMCycleState) (h0 : Q vm.state) :
    keeps (fun res => Q res.1.state) (vm.execute_prefix0_instruction st) := by
  unfold VM.execute_prefix0_instruction
  split
  · exact keeps_ok _ _ h0
  · exact keeps_ok _ _ h0
  · refine VM.keeps_bind_call _ _ _ _ ?_
    rintro ⟨value, s⟩ hs
    refine keeps_pure _ _ ?_
    exact hQ.pop_callstack _ _ _ h0 hs
  · exact VM.keeps_raise _ _

theorem VM.execute_prefix1_stable (Q : State → Prop) (vm : VM)
    (st : VMCycleState) (h0 : Q vm.state) :
    keeps (fun res => Q res.1.state) (vm.execute_prefix1_instruction st) := by
  unfold VM.execute_prefix1_instruction
  exact keeps_ok _ _ h0

theorem VM.execute_prefix2_stable (Q : State → Prop) (hQ : State.stable Q) (vm : VM)
    (st : VMCycleState) (h0 : Q vm.state) :
    keeps (fun res => Q res.1.state) (vm.execute_prefix2_instruction st) := by
  unfold VM.execute_prefix2_instruction
  refine VM.stable_bind_on_state _ Q _ _ _ ?_ h0 ?_
  · intro s t hq h; exact hQ.push_callstack _ _ _ hq h
  · intro vm1 h1; exact keeps_pure _ _ h1

theorem VM.execute_prefix3_stable (Q : State → Prop) (vm : VM)
    (st : VMCycleState) (h0 : Q vm.state) :
    keeps (fun res => Q res.1.state) (vm.execute_prefix3_instruction st) := by
  unfold VM.execute_prefix3_instruction
  refine VM.keeps_bind_call _ _ _ _ (fun _ _ => ?_)
  refine VM.keeps_bind_call _ _ _ _ (fun _ _ => ?_)
  dsimp only
  split
  · exact keeps_pure _ _ h0
  · exact keeps_pure _ _ h0

theorem VM.execute_prefix4_stable (Q : State → Prop) (vm : VM)
    (st : VMCycleState) (h0 : Q vm.state) :
    keeps (fun res => Q res.1.state) (vm.execute_prefix4_instruction st) := by
  unfold VM.execute_prefix4_instruction
  refine VM.keeps_bind_call _ _ _ _ (fun _ _ => ?_)
  refine VM.keeps_bind_call _ _ _ _ (fun _ _ => ?_)
  dsimp only
  split
  · exact keeps_pure _ _ h0
  · exact keeps_pure _ _ h0

theorem VM.execute_prefix5_stable (Q : State → Prop) (vm : VM)
    (st : VMCycleState) (h0 : Q vm.state) :
    keeps (fun res => Q res.1.state) (vm.execute_prefix5_instruction st) := by
  unfold VM.execute_prefix5_instruction
  refine VM.keeps_bind_call _ _ _ _ (fun _ _ => ?_)
  split
  · exact VM.keeps_raise _ _
  · refine VM.keeps_bind_call _ _ _ _ (fun _ _ => ?_)
    refine VM.keeps_bind_call _ _ _ _ (fun _ _ => ?_)
    refine VM.keeps_bind_call _ _ _ _ (fun _ _ => ?_)
    refine VM.keeps_bind_call _ _ _ _ (fun _ _ => ?_)
    split
    · exact keeps_pure _ _ h0
    · exact keeps_pure _ _ h0

theorem VM.execute_prefix6_stable (Q : State → Prop) (hQ : State.stable Q) (vm : VM)
    (st : VMCycleState) (h0 : Q vm.state) :
    keeps (fun res => Q res.1.state) (vm.execute_prefix6_instruction st) := by
  unfold VM.execute_prefix6_instruction
  refine VM.keeps_bind_call _ _ _ _ (fun _ _ => ?_)
  dsimp only
  refine VM.stable_bind_on_state _ Q _ _ _ ?_ h0 ?_
  · intro s t hq h; exact hQ.reg_set _ _ _ _ hq h
  · intro vm1 h1; exact keeps_pure _ _ h1

theorem VM.execute_prefix7_stable (Q : State → Prop) (hQ : State.stable Q) (vm : VM)
    (st : VMCycleState) (h0 : Q vm.state) :
    keeps (fun res => Q res.1.state) (vm.execute_prefix7_instruction st) := by
  unfold VM.execute_prefix7_instruction
  refine VM.keeps_bind_call _ _ _ _ (fun _ _ => ?_)
  refine VM.keeps_bind_call _ _ _ _ (fun _ _ => ?_)
  dsimp only
  refine VM.stable_bind_on_state _ Q _ _ _ ?_ h0 ?_
  · intro s t hq h; exact hQ.reg_set _ _ _ _ hq h
  · intro vm1 h1; exact keeps_pure _ _ h1

/-- The tail shared by the arithmetic instructions: set the flag, then the register. -/
theorem VM.flag_then_reg_stable (Q : State → Prop) (hQ : State.stable Q) (vm : VM)
    (st : VMCycleState) (f : State → Except Fault State) (x v : Nat)
    (hf : ∀ s t, Q s → f s = .ok t → Q t) (h0 : Q vm.state) :
    keeps (fun res => Q res.1.state)
      (vm.on_state f >>= fun vm1 =>
        vm1.on_state (fun s => s.reg_set x v) >>= fun vm2 =>
          (pure (vm2, st) : Outcome (VM × VMCycleState))) := by
  refine VM.stable_bind_on_state _ Q _ _ _ hf h0 ?_
  intro vm1 h1
  refine VM.stable_bind_on_state _ Q _ _ _ ?_ h1 ?_
  · intro s t hq h; exact hQ.reg_set _ _ _ _ hq h
  · intro vm2 h2; exact keeps_pure _ _ h2

theorem VM.execute_prefix8_stable (Q : State → Prop) (hQ : State.stable Q) (vm : VM)
    (st : VMCycleState) (h0 : Q vm.state) :
    keeps (fun res => Q res.1.state) (vm.execute_prefix8_instruction st) := by
  have hreg : ∀ (x v : Nat), keeps (fun res => Q res.1.state)
      (vm.on_state (fun s => s.reg_set x v) >>= fun vm1 =>
        (pure (vm1, st) : Outcome (VM × VMCycleState))) := by
    intro x v
    refine VM.stable_bind_on_state _ Q _ _ _ ?_ h0 ?_
    · intro s t hq h; exact hQ.reg_set _ _ _ _ hq h
    · intro vm1 h1; exact keeps_pure _ _ h1
  unfold VM.execute_prefix8_instruction
  refine VM.keeps_bind_call _ _ _ _ (fun x _ => ?_)
  refine VM.keeps_bind_call _ _ _ _ (fun y _ => ?_)
  refine VM.keeps_bind_call _ _ _ _ (fun vx _ => ?_)
  refine VM.keeps_bind_call _ _ _ _ (fun vy _ => ?_)
  refine VM.keeps_bind_call _ _ _ _ (fun n _ => ?_)
  split
  · exact hreg _ _
  · exact hreg _ _
  · exact hreg _ _
  · exact hreg _ _
  · exact VM.flag_then_reg_stable Q hQ vm st _ _ _
      (fun s t hq h => State.flag_ite_stable Q hQ _ _ _ s t hq h) h0
  · exact VM.flag_then_reg_stable Q hQ vm st _ _ _
      (fun s t hq h => State.flag_ite_stable Q hQ _ _ _ s t hq h) h0
  · refine VM.stable_bind_on_state _ Q _ _ _ ?_ h0 ?_
    · intro s t hq h; exact hQ.flag_register_set _ _ _ hq h
    · intro vm1 h1
      refine VM.keeps_bind_call _ _ _ _ (fun _ _ => ?_)
      refine VM.stable_bind_on_state _ Q _ _ _ ?_ h1 ?_
      · intro s t hq h; exact hQ.reg_set _ _ _ _ hq h
      · intro vm2 h2; exact keeps_pure _ _ h2
  · exact VM.flag_then_reg_stable Q hQ vm st _ _ _
      (fun s t hq h => State.flag_ite_stable Q hQ _ _ _ s t hq h) h0
  · refine VM.stable_bind_on_state _ Q _ _ _ ?_ h0 ?_
    · intro s t hq h; exact State.flag_ite_stable Q hQ _ _ _ s t hq h
    · intro vm1 h1
      refine VM.keeps_bind_call _ _ _ _ (fun _ _ => ?_)
      refine VM.stable_bind_on_state _ Q _ _ _ ?_ h1 ?_
      · intro s t hq h; exact hQ.reg_set _ _ _ _ hq h
      · intro vm2 h2; exact keeps_pure _ _ h2
  · exact VM.keeps_raise _ _

theorem VM.execute_prefix9_stable (Q : State → Prop) (vm : VM)
    (st : VMCycleState) (h0 : Q vm.state) :
    keeps (fun res => Q res.1.state) (vm.execute_prefix9_instruction st) := by
  unfold VM.execute_prefix9_instruction
  refine VM.keeps_bind_call _ _ _ _ (fun _ _ => ?_)
  split
  · exact VM.keeps_raise _ _
  · refine VM.keeps_bind_call _ _ _ _ (fun _ _ => ?_)
    refine VM.keeps_bind_call _ _ _ _ (fun _ _ => ?_)
    refine VM.keeps_bind_call _ _ _ _ (fun _ _ => ?_)
    refine VM.keeps_bind_call _ _ _ _ (fun _ _ => ?_)
    split
    · exact keeps_pure _ _ h0
    · exact keeps_pure _ _ h0

theorem VM.execute_prefixA_stable (Q : State → Prop) (hQ : State.stable Q) (vm : VM)
    (st : VMCycleState) (h0 : Q vm.state) :
    keeps (fun res => Q res.1.state) (vm.execute_prefixA_instruction st) := by
  unfold VM.execute_prefixA_instruction
  refine VM.stable_bind_on_state _ Q _ _ _ ?_ h0 ?_
  · intro s t hq h; exact hQ.index_register_set _ _ _ hq h
  · intro vm1 h1; exact keeps_pure _ _ h1

theorem VM.execute_prefixB_stable (Q : State → Prop) (vm : VM)
    (st : VMCycleState) (h0 : Q vm.state) :
    keeps (fun res => Q res.1.state) (vm.execute_prefixB_instruction st) := by
  unfold VM.execute_prefixB_instruction
  refine VM.keeps_bind_call _ _ _ _ (fun _ _ => ?_)
  exact keeps_pure _ _ h0

theorem VM.execute_prefixC_stable (Q : State → Prop) (hQ : State.stable Q) (vm : VM)
    (st : VMCycleState) (h0 : Q vm.state) :
    keeps (fun res => Q res.1.state) (vm.execute_prefixC_instruction st) := by
  unfold VM.execute_prefixC_instruction
  dsimp only
  refine VM.keeps_bind_call _ _ _ _ (fun _ _ => ?_)
  refine VM.stable_bind_on_state _ Q _ _ _ ?_ h0 ?_
  · intro s t hq h; exact hQ.reg_set _ _ _ _ hq h
  · intro vm1 h1; exact keeps_pure _ _ h1

theorem VM.execute_prefixE_stable (Q : State → Prop) (vm : VM)
    (st : VMCycleState) (h0 : Q vm.state) :
    keeps (fun res => Q res.1.state) (vm.execute_prefixE_instruction st) := by
  unfold VM.execute_prefixE_instruction
  refine VM.keeps_bind_call _ _ _ _ (fun _ _ => ?_)
  refine VM.keeps_bind_call _ _ _ _ (fun _ _ => ?_)
  dsimp only
  split
  · split
    · exact keeps_pure _ _ h0
    · exact keeps_pure _ _ h0
  · split
    · exact keeps_pure _ _ h0
    · exact keeps_pure _ _ h0
  · exact VM.keeps_raise _ _

theorem VM.draw_cols_stable (Q : State → Prop) (ox oy row : Nat) :
    ∀ (n col : Nat) (vm : VM) (v modified : Nat), Q vm.state →
      keeps (fun res => Q res.1.state) (VM.draw_cols ox oy row n col vm v modified) := by
  intro n
  induction n with
  | zero =>
    intro col vm v modified h0
    unfold VM.draw_cols
    exact keeps_ok _ _ h0
  | succ k ih =>
    intro col vm v modified h0
    unfold VM.draw_cols
    dsimp only
    split
    · exact keeps_error _ _
    · exact ih _ _ _ _ h0

theorem VM.draw_rows_stable (Q : State → Prop) (ox oy : Nat) :
    ∀ (n row : Nat) (vm : VM) (modified : Nat), Q vm.state →
      keeps (fun res => Q res.1.state) (VM.draw_rows ox oy n row vm modified) := by
  intro n
  induction n with
  | zero =>
    intro row vm modified h0
    unfold VM.draw_rows
    exact keeps_ok _ _ h0
  | succ k ih =>
    intro row vm modified h0
    unfold VM.draw_rows
    refine VM.keeps_bind_call _ _ _ _ (fun v _ => ?_)
    refine keeps_bind _ _ _ ?_
    rintro ⟨vm1, modified1⟩ h1
    exact ih _ _ _ (VM.draw_cols_stable Q ox oy row _ _ _ _ _ h0 _ h1)

theorem VM.execute_prefixD_stable (Q : State → Prop) (hQ : State.stable Q) (vm : VM)
    (st : VMCycleState) (h0 : Q vm.state) :
    keeps (fun res => Q res.1.state) (vm.execute_prefixD_instruction st) := by
  unfold VM.execute_prefixD_instruction
  refine VM.keeps_bind_call _ _ _ _ (fun _ _ => ?_)
  refine VM.keeps_bind_call _ _ _ _ (fun _ _ => ?_)
  dsimp only
  refine VM.keeps_bind_call _ _ _ _ (fun _ _ => ?_)
  refine VM.keeps_bind_call _ _ _ _ (fun _ _ => ?_)
  dsimp only
  refine VM.keeps_bind_call _ _ _ _ (fun _ _ => ?_)
  dsimp only
  split
  · exact keeps_error _ _
  · refine keeps_bind _ _ _ ?_
    rintro ⟨vm1, modified⟩ h1
    have hs1 : Q vm1.state := VM.draw_rows_stable Q _ _ _ _ _ _ h0 _ h1
    refine VM.stable_bind_on_state _ Q _ _ _ ?_ hs1 ?_
    · intro s t hq h; exact hQ.flag_register_set _ _ _ hq h
    · intro vm2 h2; exact keeps_pure _ _ h2

/-- The loop of `FX55` keeps `Q` when the writes to the cells `I + i .. I + i + n - 1`
keep it. -/
theorem VM.save_loop_stable (Q : State → Prop) (I0 : Nat) (W : Nat → Prop)
    (hmem : ∀ (s t : State) (k v : Nat), Q s → W k → s.memory_set (I0 + k) v = .ok t → Q t) :
    ∀ (n i : Nat) (vm : VM), Q vm.state → vm.state.i = I0 →
      (∀ k, i ≤ k → k < i + n → W k) →
      keeps (fun vm1 => Q vm1.state) (VM.save_loop n i vm) := by
  intro n
  induction n with
  | zero =>
    intro i vm h0 _ _
    unfold VM.save_loop
    exact keeps_ok _ _ h0
  | succ k ih =>
    intro i vm h0 hi hW
    unfold VM.save_loop
    refine VM.keeps_bind_call _ _ _ _ (fun v _ => ?_)
    refine keeps_bind _ _ _ ?_
    intro vm1 h1
    obtain ⟨s, hs, rfl⟩ := VM.on_state_eq_ok vm vm1 _ h1
    have hsi : s.i = I0 := (State.memory_set_i _ _ _ _ hs).trans hi
    rw [hi] at hs
    exact ih _ _ (hmem _ _ _ _ h0 (hW i (Nat.le_refl _) (by omega)) hs) hsi
      (fun j h1 h2 => hW j (by omega) (by omega))

theorem VM.load_loop_stable (Q : State → Prop) (hQ : State.stable Q) :
    ∀ (n i : Nat) (vm : VM), Q vm.state →
      keeps (fun vm1 => Q vm1.state) (VM.load_loop n i vm) := by
  intro n
  induction n with
  | zero =>
    intro i vm h0
    unfold VM.load_loop
    exact keeps_ok _ _ h0
  | succ k ih =>
    intro i vm h0
    unfold VM.load_loop
    refine VM.keeps_bind_call _ _ _ _ (fun v _ => ?_)
    refine VM.stable_bind_on_state _ Q _ _ _ ?_ h0 ?_
    · intro s t hq h; exact hQ.reg_set _ _ _ _ hq h
    · intro vm1 h1; exact ih _ _ h1

theorem VM.execute_prefixF_stable (Q : State → Prop) (hQ : State.stable Q) (vm : VM)
    (st : VMCycleState) (hF : st.instruction.prefix_nibble = .ok 0xF)
    (hmem : ∀ (s t : State) (k v : Nat), Q s → st.instruction.writes k →
      s.memory_set (vm.state.i + k) v = .ok t → Q t)
    (h0 : Q vm.state) :
    keeps (fun res => Q res.1.state) (vm.execute_prefixF_instruction st) := by
  have hlb : to_regval st.instruction.lower_byte = st.instruction.lower_byte := by
    rw [Instruction.lower_byte_eq]
    exact to_regval_of_lt _ (Nat.mod_lt _ (by decide))
  have hidx : ∀ (f : State → Nat) (vm0 : VM), Q vm0.state →
      keeps (fun res => Q res.1.state)
        (vm0.on_state (fun s => s.index_register_set (f s)) >>= fun vm1 =>
          (pure (vm1, st) : Outcome (VM × VMCycleState))) := by
    intro f vm0 hv
    refine VM.stable_bind_on_state _ Q _ _ _ ?_ hv ?_
    · intro s t hq h; exact hQ.index_register_set _ _ _ hq h
    · intro vm1 h1; exact keeps_pure _ _ h1
  unfold VM.execute_prefixF_instruction
  refine VM.keeps_bind_call _ _ _ _ (fun n hn => ?_)
  dsimp only
  split
  · refine VM.stable_bind_on_state _ Q _ _ _ ?_ h0 ?_
    · intro s t hq h; exact hQ.reg_set _ _ _ _ hq h
    · intro vm1 h1; exact keeps_pure _ _ h1
  · exact keeps_pure _ _ h0
  · refine VM.keeps_bind_call _ _ _ _ (fun v _ => ?_)
    exact keeps_pure _ _ (hQ.timer_set _ _ h0)
  · refine VM.keeps_bind_call _ _ _ _ (fun v _ => ?_)
    exact keeps_pure _ _ (hQ.sound_timer_set _ _ h0)
  · refine VM.keeps_bind_call _ _ _ _ (fun v _ => ?_)
    exact hidx _ vm h0
  · refine VM.keeps_bind_call _ _ _ _ (fun v _ => ?_)
    dsimp only
    split
    · exact keeps_error _ _
    · exact hidx _ vm h0
  · rename_i hs
    rw [hlb] at hs
    have hw : ∀ k, k ≤ 2 → st.instruction.writes k :=
      fun k hk => ⟨hF, Or.inl ⟨hs, hk⟩⟩
    split
    · exact keeps_error _ _
    · refine VM.keeps_bind_call _ _ _ _ (fun v _ => ?_)
      dsimp only
      refine VM.stable_bind_on_state _ Q _ _ _ ?_ h0 ?_
      · intro s t hq h; exact hmem s t 0 _ hq (hw 0 (by omega)) h
      · intro vm1 h1
        refine VM.stable_bind_on_state _ Q _ _ _ ?_ h1 ?_
        · intro s t hq h; exact hmem s t 1 _ hq (hw 1 (by omega)) h
        · intro vm2 h2
          refine VM.stable_bind_on_state _ Q _ _ _ ?_ h2 ?_
          · intro s t hq h; exact hmem s t 2 _ hq (hw 2 (by omega)) h
          · intro vm3 h3; exact keeps_pure _ _ h3
  · rename_i hs
    rw [hlb] at hs
    have hw : ∀ k, k ≤ to_regval n → st.instruction.writes k :=
      fun k hk => ⟨hF, Or.inr ⟨hs, n, hn, Nat.le_trans hk (Nat.mod_le _ _)⟩⟩
    split
    · exact keeps_error _ _
    · refine keeps_bind _ _ _ ?_
      intro vm1 h1
      exact hidx _ vm1 (VM.save_loop_stable Q vm.state.i _ hmem _ _ vm h0 rfl
        (fun k _ hk => hw k (by omega)) _ h1)
  · split
    · exact keeps_error _ _
    · refine keeps_bind _ _ _ ?_
      intro vm1 h1
      exact hidx _ vm1 (VM.load_loop_stable Q hQ _ _ _ h0 _ h1)
  · exact VM.keeps_raise _ _

/-- Whatever the instruction, `execute_instruction` keeps every property `Q` of the state
that the `State` methods keep, provided the memory writes of `FX33` and `FX55` keep it. -/
theorem VM.execute_instruction_stable (Q : State → Prop) (hQ : State.stable Q) (vm : VM)
    (st : VMCycleState)
    (hmem : ∀ (s t : State) (k v : Nat), Q s → st.instruction.writes k →
      s.memory_set (vm.state.i + k) v = .ok t → Q t)
    (h0 : Q vm.state) :
    keeps (fun res => Q res.1.state) (vm.execute_instruction st) := by
  unfold VM.execute_instruction
  refine VM.keeps_bind_call _ _ _ _ (fun p hp => ?_)
  split
  · exact VM.execute_prefix0_stable Q hQ vm st h0
  · exact VM.execute_prefix1_stable Q vm st h0
  · exact VM.execute_prefix2_stable Q hQ vm st h0
  · exact VM.execute_prefix3_stable Q vm st h0
  · exact VM.execute_prefix4_stable Q vm st h0
  · exact VM.execute_prefix5_stable Q vm st h0
  · exact VM.execute_prefix6_stable Q hQ vm st h0
  · exact VM.execute_prefix7_stable Q hQ vm st h0
  · exact VM.execute_prefix8_stable Q hQ vm st h0
  · exact VM.execute_prefix9_stable Q vm st h0
  · exact VM.execute_prefixA_stable Q hQ vm st h0
  · exact VM.execute_prefixB_stable Q vm st h0
  · exact VM.execute_prefixC_stable Q hQ vm st h0
  · exact VM.execute_prefixD_stable Q hQ vm st h0
  · exact VM.execute_prefixE_stable Q vm st h0
  · exact VM.execute_prefixF_stable Q hQ vm st hp hmem h0
  · exact keeps_ok _ _ h0

/-- The `RUNNING` case of `step` keeps `Q`. -/
theorem VM.step_running_stable (Q : State → Prop) (hQ : State.stable Q) (vm vm2 : VM)
    (hmem : ∀ (ins : Instruction), vm.fetch_and_decode vm.state.pc = .ok ins →
      ∀ (s t : State) (k v : Nat), Q s → ins.writes k →
        s.memory_set (vm.state.i + k) v = .ok t → Q t)
    (h0 : Q vm.state) (h : vm.step_running = .ok vm2) : Q vm2.state := by
  obtain ⟨ins, vm1, state1, hf, he, rfl⟩ := VM.step_running_inv vm vm2 h
  have h1 : Q vm1.state :=
    VM.execute_instruction_stable Q hQ vm
      (VMCycleState.mk_cycle vm.execution_state vm.state.pc
        (vm.state.pc + CHARS_PER_INSTRUCTION) ins) (hmem ins hf) h0 _ he
  exact hQ.pc_set _ _ h1

/-- The fetch reads the memory of the state only. -/
theorem VM.fetch_and_decode_congr (vm vm1 : VM) (p : Nat)
    (h : vm1.state.memory = vm.state.memory) :
    vm1.fetch_and_decode p = vm.fetch_and_decode p := by
  unfold VM.fetch_and_decode State.memory_at State.memory_size
  rw [h]

/-- Every `step` that returns keeps every property `Q` of the state that the `State` methods
keep, provided the memory writes of the instruction at the program counter keep it. -/
theorem VM.step_stable (Q : State → Prop) (hQ : State.stable Q) (vm vm2 : VM)
    (hmem : ∀ (ins : Instruction), vm.fetch_and_decode vm.state.pc = .ok ins →
      ∀ (s t : State) (k v : Nat), Q s → ins.writes k →
        s.memory_set (vm.state.i + k) v = .ok t → Q t)
    (h0 : Q vm.state) (h : vm.step = .ok vm2) : Q vm2.state := by
  cases hmode : vm.execution_state with
  | RUNNING =>
    rw [VM.step_of_running vm hmode] at h
    exact VM.step_running_stable Q hQ vm vm2 hmem h0 h
  | WAIT_FOR_KEY =>
    by_cases hk : 0 ≤ vm.key_value
    · rw [VM.step_wake_eq vm hmode hk] at h
      obtain ⟨vm3, h3, hrun⟩ := (bind_eq_ok _ _ _).mp h
      obtain ⟨s, hs, rfl⟩ := VM.on_state_eq_ok _ vm3 _ h3
      have hs1 := State.reg_set_inv _ _ _ _ hs
      have hq : Q s := hQ.reg_set _ _ _ _ h0 hs
      refine VM.step_running_stable Q hQ _ vm2 ?_ hq hrun
      intro ins hf
      have hmemory : s.memory = vm.state.memory := by rw [hs1]
      have hpc : s.pc = vm.state.pc := by rw [hs1]
      have hi : s.i = vm.state.i := by rw [hs1]
      have hf2 : vm.fetch_and_decode vm.state.pc = .ok ins := by
        rw [← hf]
        show vm.fetch_and_decode vm.state.pc = VM.fetch_and_decode _ s.pc
        rw [hpc]
        exact (VM.fetch_and_decode_congr vm _ _ hmemory).symm
      intro s1 t k v hq1 hw hset
      refine hmem ins hf2 s1 t k v hq1 hw ?_
      rw [← hi]
      exact hset
    · rw [VM.step_parked vm hmode (by omega)] at h
      cases h
      exact h0
  | INIT =>
    unfold VM.step at h
    simp only [hmode] at h
    cases h

/-- A run of steps that returns keeps every property `Q` of the state that all the `State`
methods keep. -/
theorem VM.steps_stable (Q : State → Prop) (hQ : State.stable Q)
    (hmem : ∀ (s t : State) (n v : Nat), Q s → s.memory_set n v = .ok t → Q t) :
    ∀ (n : Nat) (vm vm2 : VM), Q vm.state → VM.steps n vm = .ok vm2 → Q vm2.state := by
  intro n
  induction n with
  | zero =>
    intro vm vm2 h0 h
    unfold VM.steps at h
    cases h
    exact h0
  | succ k ih =>
    intro vm vm2 h0 h
    unfold VM.steps at h
    obtain ⟨vm1, h1, h2⟩ := (bind_eq_ok _ _ _).mp h
    exact ih vm1 vm2
      (VM.step_stable Q hQ vm vm1 (fun _ _ s t j v hq _ hs => hmem s t _ v hq hs) h0 h1) h2

/-! ## The index register and the call stack along a run -/

/-- What `reset` leaves in the index register and on the call stack. -/
theorem VM.reset_start (vm0 vm1 : VM) (h : vm0.reset = .ok vm1) :
    vm1.state.i = 0 ∧ vm1.state.callstack = [] ∧ vm1.state.asserts = vm0.state.asserts := by
  have hf : vm0.state.font_offset + 80 ≤ 4096 := by
    unfold VM.reset at h
    cases hr : vm0.state.reset with
    | error e => rw [hr] at h; cases h
    | ok s1 => exact State.reset_ok_fits _ _ hr
  rw [VM.vm_reset_eq vm0 hf] at h
  cases h
  exact ⟨rfl, rfl, rfl⟩

/-- What `load_program` leaves in the index register and on the call stack. -/
theorem VM.load_program_start (vm0 vm1 : VM) (p : List Nat)
    (h : vm0.load_program p = .ok vm1) :
    vm1.state.i = 0 ∧ vm1.state.callstack = [] ∧ vm1.state.asserts = vm0.state.asserts := by
  obtain ⟨hp, hf⟩ := VM.load_program_ok_fits vm0 vm1 p h
  rw [VM.load_program_eq vm0 p hp hf] at h
  cases h
  exact ⟨rfl, rfl, rfl⟩

/-- In a build with `assert` compiled in, the `State` methods keep the index register at most
`memory_size`: the only one that assigns it, `index_register(index)`, asserts
`index <= _memory_size`. -/
theorem State.index_bounded_stable :
    State.stable (fun s => s.asserts = true ∧ s.i ≤ DEFAULT_MEMORY_SIZE) where
  reg_set := fun s t n v hq h => by rw [State.reg_set_inv s t n v h]; exact hq
  flag_register_set := fun s t v hq h => by rw [State.flag_register_set_inv s t v h]; exact hq
  index_register_set := fun s t n hq h => by
    obtain ⟨hn, ht⟩ := State.index_register_set_inv s t n h
    rw [ht]; exact ⟨hq.1, hn hq.1⟩
  push_callstack := fun s t n hq h => by rw [(State.push_callstack_inv s t n h).2]; exact hq
  pop_callstack := fun s t v hq h => by rw [State.pop_callstack_inv s t v h]; exact hq
  timer_set := fun _ _ hq => hq
  sound_timer_set := fun _ _ hq => hq
  pc_set := fun _ _ hq => hq

/-- The `State` methods keep every call-stack entry at most `memory_size`: the only one that
adds an entry, `push_callstack(value)`, rejects `value > memory_size()`. -/
theorem State.callstack_bounded_stable :
    State.stable (fun s => ∀ a ∈ s.callstack, a ≤ DEFAULT_MEMORY_SIZE) where
  reg_set := fun s t n v hq h => by rw [State.reg_set_inv s t n v h]; exact hq
  flag_register_set := fun s t v hq h => by rw [State.flag_register_set_inv s t v h]; exact hq
  index_register_set := fun s t n hq h => by
    rw [(State.index_register_set_inv s t n h).2]; exact hq
  push_callstack := fun s t n hq h => by
    obtain ⟨hn, ht⟩ := State.push_callstack_inv s t n h
    rw [ht]
    intro a ha
    rcases List.mem_append.mp ha with h1 | h1
    · exact hq a h1
    · rw [List.mem_singleton.mp h1]; exact hn
  pop_callstack := fun s t v hq h => by
    rw [State.pop_callstack_inv s t v h]
    intro a ha
    exact hq a (List.mem_of_mem_dropLast ha)
  timer_set := fun _ _ hq => hq
  sound_timer_set := fun _ _ hq => hq
  pc_set := fun _ _ hq => hq

theorem VM.execute_instruction_1 (vm : VM) (st : VMCycleState)
    (h : st.instruction.nibble 3 = .ok 1) :
    vm.execute_instruction st = vm.execute_prefix1_instruction st := by
  unfold VM.execute_instruction Instruction.prefix_nibble
  rw [h, VM.call_ok, ok_bind]

theorem VM.execute_prefix1_eq (vm : VM) (st : VMCycleState) :
    vm.execute_prefix1_instruction st =
      .ok (vm, { st with next_program_counter_value := st.instruction.lower_triplet }) := by
  unfold VM.execute_prefix1_instruction
  rfl

/-- A step on `1NNN`: the program counter becomes `NNN`, nothing else of the state changes. -/
theorem VM.step_1NNN (vm : VM) (NNN : Nat) (hrun : vm.execution_state = .RUNNING)
    (hN : NNN < 4096)
    (hfetch : vm.fetch_and_decode vm.state.pc = .ok ⟨opcode_NNN 1 NNN⟩) :
    vm.step = .ok
      { vm with
        state := { vm.state with pc := NNN }
        last_state := .RUNNING
        execution_state := .RUNNING } := by
  obtain ⟨h3, ht⟩ := decode_opcode_NNN 1 NNN (by decide) hN
  have he := (VM.execute_instruction_1 vm (VMCycleState.mk_cycle vm.execution_state vm.state.pc
      (vm.state.pc + CHARS_PER_INSTRUCTION) ⟨opcode_NNN 1 NNN⟩) h3).trans
      (VM.execute_prefix1_eq vm _)
  rw [VM.step_of_running vm hrun, VM.step_running_eq vm _ _ _ hfetch he]
  simp [VM.commit, VMCycleState.mk_cycle, ht, DEFAULT_MEMORY_SIZE, hrun, Nat.mod_eq_of_lt hN]

/-- Two steps of a machine whose program counter is at `1FFE` and whose last instruction slot
holds `2000`: the jump, then the call from `0xFFE`, which pushes `0xFFE + 2 = 4096`. -/
theorem VM.jump_call_steps (vm : VM) (hrun : vm.execution_state = .RUNNING)
    (hpc : vm.state.pc + 1 < 4096)
    (h0 : vm.state.memory[vm.state.pc]? = some 0x1F)
    (h1 : vm.state.memory[vm.state.pc + 1]? = some 0xFE)
    (h2 : vm.state.memory[0xFFE]? = some 0x20)
    (h3 : vm.state.memory[0xFFE + 1]? = some 0x00) :
    ∃ vm2, VM.steps 2 vm = .ok vm2 ∧
      vm2.state.callstack = vm.state.callstack ++ [4096] ∧ vm2.state.i = vm.state.i := by
  have hs1 := VM.step_1NNN vm 0xFFE hrun (by decide) (VM.fetch_eq vm _ 0x1F 0xFE hpc h0 h1)
  have hs2 := VM.step_2NNN
    { vm with
      state := { vm.state with pc := 0xFFE }
      last_state := .RUNNING
      execution_state := .RUNNING } 0 rfl (by decide)
    (VM.fetch_eq _ 0xFFE 0x20 0x00 (by decide) h2 h3)
  have hsteps : VM.steps 2 vm = .ok
      { vm with
        state := { vm.state with
          callstack := vm.state.callstack ++ [0xFFE + 2]
          pc := 0 }
        last_state := .RUNNING
        execution_state := .RUNNING } := by
    unfold VM.steps
    rw [hs1, ok_bind]
    unfold VM.steps
    rw [hs2, ok_bind]
    unfold VM.steps
    rfl
  exact ⟨_, hsteps, rfl, rfl⟩

/-- Loading `call_from_last_slot` and taking two steps. -/
theorem VM.load_jump_call (vm0 : VM) (hrun : vm0.execution_state = .RUNNING)
    (hf : vm0.state.font_offset + 80 ≤ 4096) :
    ∃ vm1 vm2, vm0.load_program call_from_last_slot = .ok vm1 ∧
      VM.steps 2 vm1 = .ok vm2 ∧ vm2.state.callstack = [4096] ∧ vm2.state.i = 0 := by
  have hlen : call_from_last_slot.length = 3584 := by
    unfold call_from_last_slot
    rw [List.length_append, List.length_append, List.length_replicate]
    rfl
  have hmlen : (call_from_last_slot.map to_regval).length = 3584 := by
    rw [List.length_map, hlen]
  have hfont := (State.reset_memory vm0.state.font_offset hf).1
  have hcell : ∀ (j v : Nat), j < 3584 → call_from_last_slot[j]? = some v → v < 256 →
      (State.copy_at
        (State.copy_at (List.replicate 4096 0) vm0.state.font_offset DEFAULT_FONT_DATA)
        0x200 (call_from_last_slot.map to_regval))[0x200 + j]? = some v := by
    intro j v hj hv hv256
    rw [State.copy_at_inside _ _ _ _ (by rw [hmlen]; exact hj) (by rw [hfont]; decide),
      List.getElem?_map, hv]
    show some (to_regval v) = some v
    rw [to_regval_of_lt v hv256]
  have hp0 : call_from_last_slot[0]? = some 0x1F := by
    unfold call_from_last_slot
    rw [List.append_assoc, List.getElem?_append_left (by decide)]
    rfl
  have hp1 : call_from_last_slot[1]? = some 0xFE := by
    unfold call_from_last_slot
    rw [List.append_assoc, List.getElem?_append_left (by decide)]
    rfl
  have hl2 : ([0x1F, 0xFE] ++ List.replicate 3580 0 : List Nat).length = 3582 := by
    rw [List.length_append, List.length_replicate]
    rfl
  have hp2 : call_from_last_slot[3582]? = some 0x20 := by
    unfold call_from_last_slot
    rw [List.getElem?_append_right (by rw [hl2]), hl2]
    rfl
  have hp3 : call_from_last_slot[3583]? = some 0x00 := by
    unfold call_from_last_slot
    rw [List.getElem?_append_right (by rw [hl2]; decide), hl2]
    rfl
  have hload := VM.load_program_eq vm0 call_from_last_slot (by rw [hlen]) (by omega)
  obtain ⟨vm2, hsteps, hcs, hi⟩ := VM.jump_call_steps
    { vm0 with state := { vm0.state.reset_fields with
      memory := State.copy_at
        (State.copy_at (List.replicate 4096 0) vm0.state.font_offset DEFAULT_FONT_DATA)
        0x200 (call_from_last_slot.map to_regval)
      pc := 0x200 } } hrun (show (0x200 : Nat) + 1 < 4096 by decide)
    (hcell 0 _ (by decide) hp0 (by decide)) (hcell 1 _ (by decide) hp1 (by decide))
    (hcell 3582 _ (by decide) hp2 (by decide)) (hcell 3583 _ (by decide) hp3 (by decide))
  exact ⟨_, vm2, hload, hsteps, hcs, hi⟩

/-- In a build with `assert` compiled in: in every state reached from a `reset()` or a
`load_program()` that returned by any number of steps that all returned, the index register
is at most `memory_size`, because every assignment of `I` goes through
`State::index_register(index)`, whose assertion stops the step when it fails. -/
theorem VM.index_register_bounded (vm0 vm1 vm2 : VM) (p : List Nat) (n : Nat)
    (hassert : vm0.state.asserts = true)
    (hstart : vm0.reset = .ok vm1 ∨ vm0.load_program p = .ok vm1)
    (hsteps : VM.steps n vm1 = .ok vm2) :
    vm2.state.i ≤ DEFAULT_MEMORY_SIZE := by
  have h1 : vm1.state.i = 0 ∧ vm1.state.asserts = true := by
    rcases hstart with h | h
    · obtain ⟨hi, -, ha⟩ := VM.reset_start vm0 vm1 h
      exact ⟨hi, ha.trans hassert⟩
    · obtain ⟨hi, -, ha⟩ := VM.load_program_start vm0 vm1 p h
      exact ⟨hi, ha.trans hassert⟩
  refine (VM.steps_stable (fun s => s.asserts = true ∧ s.i ≤ DEFAULT_MEMORY_SIZE)
    State.index_bounded_stable ?_ n vm1 vm2 ?_ hsteps).2
  · intro s t k v hq h
    rw [(State.memory_set_inv s t k v h).2]
    exact hq
  · refine ⟨h1.2, ?_⟩
    rw [h1.1]
    exact Nat.zero_le _

theorem VM.execute_instruction_A (vm : VM) (st : VMCycleState)
    (h : st.instruction.nibble 3 = .ok 0xA) :
    vm.execute_instruction st = vm.execute_prefixA_instruction st := by
  unfold VM.execute_instruction Instruction.prefix_nibble
  rw [h, VM.call_ok, ok_bind]

theorem VM.execute_instruction_6 (vm : VM) (st : VMCycleState)
    (h : st.instruction.nibble 3 = .ok 6) :
    vm.execute_instruction st = vm.execute_prefix6_instruction st := by
  unfold VM.execute_instruction Instruction.prefix_nibble
  rw [h, VM.call_ok, ok_bind]

/-- The setter of the index register returns when the assertion holds or is compiled out. -/
theorem VM.on_state_index_register_set_of (vm : VM) (f : State → Nat)
    (h : vm.state.asserts = true → f vm.state ≤ 4096) :
    vm.on_state (fun s => s.index_register_set (f s)) =
      .ok { vm with state := { vm.state with i := f vm.state } } := by
  have hm : DEFAULT_MEMORY_SIZE = 4096 := rfl
  apply VM.on_state_ok
  unfold State.index_register_set State.memory_size
  rw [if_neg (fun hc => hc.2 (by rw [hm]; exact h hc.1))]

/-- The setter of the index register stops at the assertion when it is compiled in and
fails. -/
theorem VM.on_state_index_register_set_fault (vm : VM) (f : State → Nat)
    (ha : vm.state.asserts = true) (h : 4096 < f vm.state) :
    vm.on_state (fun s => s.index_register_set (f s)) = .error (.assertion_failure, vm) := by
  have hm : DEFAULT_MEMORY_SIZE = 4096 := rfl
  apply VM.on_state_error
  unfold State.index_register_set State.memory_size
  rw [if_pos ⟨ha, by omega⟩]

/-- A step on `ANNN`. -/
theorem VM.step_ANNN (vm : VM) (NNN : Nat) (hrun : vm.execution_state = .RUNNING)
    (hN : NNN < 4096)
    (hfetch : vm.fetch_and_decode vm.state.pc = .ok ⟨opcode_NNN 0xA NNN⟩) :
    ∃ vm1, vm.step = .ok vm1 ∧ vm1.state.i = NNN ∧
      vm1.state.pc = (vm.state.pc + 2) % 4096 ∧ vm1.state.memory = vm.state.memory ∧
      vm1.state.regs = vm.state.regs ∧ vm1.state.asserts = vm.state.asserts ∧
      vm1.execution_state = .RUNNING := by
  obtain ⟨h3, ht⟩ := decode_opcode_NNN 0xA NNN (by decide) hN
  have hA : vm.execute_prefixA_instruction (VMCycleState.mk_cycle vm.execution_state
      vm.state.pc (vm.state.pc + CHARS_PER_INSTRUCTION) ⟨opcode_NNN 0xA NNN⟩) =
      .ok ({ vm with state := { vm.state with i := NNN } },
        VMCycleState.mk_cycle vm.execution_state vm.state.pc
          (vm.state.pc + CHARS_PER_INSTRUCTION) ⟨opcode_NNN 0xA NNN⟩) := by
    unfold VM.execute_prefixA_instruction
    rw [show (VMCycleState.mk_cycle vm.execution_state vm.state.pc
      (vm.state.pc + CHARS_PER_INSTRUCTION) ⟨opcode_NNN 0xA NNN⟩).instruction.lower_triplet =
        NNN from ht]
    rw [VM.on_state_index_register_set vm (fun _ => NNN) (by show NNN ≤ 4096; omega), ok_bind,
      ok_pure]
  have he := (VM.execute_instruction_A vm (VMCycleState.mk_cycle vm.execution_state vm.state.pc
      (vm.state.pc + CHARS_PER_INSTRUCTION) ⟨opcode_NNN 0xA NNN⟩) h3).trans hA
  refine ⟨_, (VM.step_of_running vm hrun).trans (VM.step_running_eq vm _ _ _ hfetch he),
    rfl, rfl, rfl, rfl, rfl, ?_⟩
  show vm.execution_state = .RUNNING
  exact hrun

/-- A step on `6XNN`. -/
theorem VM.step_6XNN (vm : VM) (X NN : Nat) (hrun : vm.execution_state = .RUNNING)
    (hl : vm.state.regs.length = DEFAULT_REGISTER_SIZE) (hX : X < 16) (hNN : NN < 256)
    (hfetch : vm.fetch_and_decode vm.state.pc = .ok ⟨opcode_XNN 6 X NN⟩) :
    ∃ vm1, vm.step = .ok vm1 ∧ vm1.state.regs = vm.state.regs.set X NN ∧
      vm1.state.i = vm.state.i ∧
      vm1.state.pc = (vm.state.pc + 2) % 4096 ∧ vm1.state.memory = vm.state.memory ∧
      vm1.state.asserts = vm.state.asserts ∧ vm1.execution_state = .RUNNING := by
  obtain ⟨h3, h2, hb⟩ := decode_opcode_XNN 6 X NN (by decide) hX hNN
  have hv : to_regval (to_regval NN) = NN := by
    unfold to_regval; omega
  have h6 : vm.execute_prefix6_instruction (VMCycleState.mk_cycle vm.execution_state
      vm.state.pc (vm.state.pc + CHARS_PER_INSTRUCTION) ⟨opcode_XNN 6 X NN⟩) =
      .ok ({ vm with state := { vm.state with regs := vm.state.regs.set X NN } },
        VMCycleState.mk_cycle vm.execution_state vm.state.pc
          (vm.state.pc + CHARS_PER_INSTRUCTION) ⟨opcode_XNN 6 X NN⟩) := by
    have h2c : (VMCycleState.mk_cycle vm.execution_state vm.state.pc
      (vm.state.pc + CHARS_PER_INSTRUCTION) ⟨opcode_XNN 6 X NN⟩).instruction.nibble 2 =
        .ok X := h2
    have hbc : (VMCycleState.mk_cycle vm.execution_state vm.state.pc
      (vm.state.pc + CHARS_PER_INSTRUCTION) ⟨opcode_XNN 6 X NN⟩).instruction.lower_byte =
        NN := hb
    unfold VM.execute_prefix6_instruction
    simp only [h2c, hbc, VM.call_ok, ok_bind]
    rw [VM.on_state_reg_set _ _ _ hl hX, ok_bind, ok_pure, hv]
  have he := (VM.execute_instruction_6 vm (VMCycleState.mk_cycle vm.execution_state vm.state.pc
      (vm.state.pc + CHARS_PER_INSTRUCTION) ⟨opcode_XNN 6 X NN⟩) h3).trans h6
  refine ⟨_, (VM.step_of_running vm hrun).trans (VM.step_running_eq vm _ _ _ hfetch he),
    rfl, rfl, rfl, rfl, rfl, ?_⟩
  show vm.execution_state = .RUNNING
  exact hrun

/-- The handler on `FX1E` when the assertion of `State::index_register(index)` holds or is
compiled out: `I <- I + VX`, with no test of the sum against `memory_size`. -/
theorem VM.execute_prefixF_add_index (vm : VM) (st : VMCycleState) (X : Nat) (hX : X < 16)
    (hl : vm.state.regs.length = DEFAULT_REGISTER_SIZE)
    (hI : vm.state.asserts = true → vm.state.i + vm.state.V X ≤ 4096)
    (h2 : st.instruction.nibble 2 = .ok X) (hb : st.instruction.lower_byte = 0x1E) :
    vm.execute_prefixF_instruction st = .ok
      ({ vm with state := { vm.state with i := vm.state.i + vm.state.V X } }, st) := by
  have hx : to_regval X = X := to_regval_of_lt X (by omega)
  have hs : to_regval 0x1E = 0x1E := rfl
  unfold VM.execute_prefixF_instruction
  simp only [h2, hb, VM.call_ok, ok_bind, hx, hs, State.reg_eq _ _ hl hX]
  rw [VM.on_state_index_register_set_of vm (fun s => s.i + vm.state.V X) hI, ok_bind, ok_pure]

/-- The handler on `FX1E` when the assertion of `State::index_register(index)` is compiled in
and fails. -/
theorem VM.execute_prefixF_add_index_fault (vm : VM) (st : VMCycleState) (X : Nat)
    (hX : X < 16) (hl : vm.state.regs.length = DEFAULT_REGISTER_SIZE)
    (ha : vm.state.asserts = true) (hI : 4096 < vm.state.i + vm.state.V X)
    (h2 : st.instruction.nibble 2 = .ok X) (hb : st.instruction.lower_byte = 0x1E) :
    vm.execute_prefixF_instruction st = .error (.assertion_failure, vm) := by
  have hx : to_regval X = X := to_regval_of_lt X (by omega)
  have hs : to_regval 0x1E = 0x1E := rfl
  unfold VM.execute_prefixF_instruction
  simp only [h2, hb, VM.call_ok, ok_bind, hx, hs, State.reg_eq _ _ hl hX]
  rw [VM.on_state_index_register_set_fault vm (fun s => s.i + vm.state.V X) ha hI, error_bind]

/-- Three steps of a machine whose program counter is at `AFFF 60FF F01E`: with `assert`
compiled out they return and leave `I = 0xFFF + 0xFF`; with `assert` compiled in the third
stops at the assertion of `State::index_register(index)`. -/
theorem VM.index_overrun_steps (vm : VM) (hrun : vm.execution_state = .RUNNING)
    (hl : vm.state.regs.length = DEFAULT_REGISTER_SIZE) (hpc : vm.state.pc + 5 < 4096)
    (h0 : vm.state.memory[vm.state.pc]? = some 0xAF)
    (h1 : vm.state.memory[vm.state.pc + 1]? = some 0xFF)
    (h2 : vm.state.memory[vm.state.pc + 2]? = some 0x60)
    (h3 : vm.state.memory[vm.state.pc + 3]? = some 0xFF)
    (h4 : vm.state.memory[vm.state.pc + 4]? = some 0xF0)
    (h5 : vm.state.memory[vm.state.pc + 5]? = some 0x1E) :
    (vm.state.asserts = false →
      ∃ vm3, VM.steps 3 vm = .ok vm3 ∧ vm3.state.i = 0xFFF + 0xFF) ∧
    (vm.state.asserts = true → ∃ e, VM.steps 3 vm = .error (.assertion_failure, e)) := by
  obtain ⟨va, hsa, hia, hpa, hma, hra, haa, hruna⟩ := VM.step_ANNN vm 0xFFF hrun (by decide)
    (VM.fetch_eq vm _ 0xAF 0xFF (by omega) h0 h1)
  rw [Nat.mod_eq_of_lt (by omega)] at hpa
  obtain ⟨vb, hsb, hrb, hib, hpb, hmb, hab, hrunb⟩ := VM.step_6XNN va 0 0xFF hruna
    (by rw [hra]; exact hl) (by decide) (by decide)
    (VM.fetch_eq va _ 0x60 0xFF (by rw [hpa]; omega) (by rw [hma, hpa]; exact h2)
      (by rw [hma, hpa]; exact h3))
  rw [hpa, Nat.mod_eq_of_lt (by omega)] at hpb
  have hlb : vb.state.regs.length = DEFAULT_REGISTER_SIZE := by
    rw [hrb, List.length_set, hra]; exact hl
  have hvb : vb.state.V 0 = 0xFF := by
    unfold State.V
    rw [hrb, V_set _ _ _ _ (by rw [hra, hl]; decide), if_pos rfl]
  have hfb : vb.fetch_and_decode vb.state.pc = .ok ⟨opcode_XNN 0xF 0 0x1E⟩ :=
    VM.fetch_eq vb _ 0xF0 0x1E (by rw [hpb]; omega) (by rw [hmb, hma, hpb]; exact h4)
      (by rw [hmb, hma, hpb]; exact h5)
  have hsum : vb.state.i + vb.state.V 0 = 0xFFF + 0xFF := by
    rw [hib, hia, hvb]
  constructor
  · intro hno
    have hnb : vb.state.asserts = false := by rw [hab, haa]; exact hno
    obtain ⟨vc, hsc, hic⟩ : ∃ vc, vb.step = .ok vc ∧
        vc.state.i = vb.state.i + vb.state.V 0 :=
      ⟨_, VM.step_FXNN vb _ 0 0x1E hrunb (by decide) (by decide) hfb
        (fun st hn2 hlb2 => VM.execute_prefixF_add_index vb st 0 (by decide) hlb
          (fun ht => by rw [hnb] at ht; cases ht) hn2 hlb2), rfl⟩
    refine ⟨vc, ?_, hic.trans hsum⟩
    unfold VM.steps
    rw [hsa, ok_bind]
    unfold VM.steps
    rw [hsb, ok_bind]
    unfold VM.steps
    rw [hsc, ok_bind]
    unfold VM.steps
    rfl
  · intro hyes
    have hyb : vb.state.asserts = true := by rw [hab, haa]; exact hyes
    have hsc := VM.step_FXNN_fault vb vb 0 0x1E _ hrunb (by decide) (by decide) hfb
      (fun st hn2 hlb2 => VM.execute_prefixF_add_index_fault vb st 0 (by decide) hlb hyb
        (by rw [hsum]; decide) hn2 hlb2)
    refine ⟨vb, ?_⟩
    unfold VM.steps
    rw [hsa, ok_bind]
    unfold VM.steps
    rw [hsb, ok_bind]
    unfold VM.steps
    rw [hsc, error_bind]

/-- Loading `index_overrun_program` and taking three steps. -/
theorem VM.load_index_overrun (vm0 : VM) (hrun : vm0.execution_state = .RUNNING)
    (hf : vm0.state.font_offset + 80 ≤ 4096) :
    ∃ vm1, vm0.load_program index_overrun_program = .ok vm1 ∧
      (vm0.state.asserts = false →
        ∃ vm3, VM.steps 3 vm1 = .ok vm3 ∧ vm3.state.i = 0xFFF + 0xFF) ∧
      (vm0.state.asserts = true →
        ∃ e, VM.steps 3 vm1 = .error (.assertion_failure, e)) := by
  have hfont := (State.reset_memory vm0.state.font_offset hf).1
  have hcell : ∀ (j v : Nat), j < 6 → index_overrun_program[j]? = some v → v < 256 →
      (State.copy_at
        (State.copy_at (List.replicate 4096 0) vm0.state.font_offset DEFAULT_FONT_DATA)
        0x200 (index_overrun_program.map to_regval))[0x200 + j]? = some v := by
    intro j v hj hv hv256
    rw [State.copy_at_inside _ _ _ _ (by rw [List.length_map]; exact hj)
      (by rw [hfont]; decide), List.getElem?_map, hv]
    show some (to_regval v) = some v
    rw [to_regval_of_lt v hv256]
  have hload := VM.load_program_eq vm0 index_overrun_program (by decide) hf
  have hsteps := VM.index_overrun_steps
    { vm0 with state := { vm0.state.reset_fields with
      memory := State.copy_at
        (State.copy_at (List.replicate 4096 0) vm0.state.font_offset DEFAULT_FONT_DATA)
        0x200 (index_overrun_program.map to_regval)
      pc := 0x200 } } hrun (List.length_replicate _ _)
    (show (0x200 : Nat) + 5 < 4096 by decide)
    (hcell 0 _ (by decide) rfl (by decide)) (hcell 1 _ (by decide) rfl (by decide))
    (hcell 2 _ (by decide) rfl (by decide)) (hcell 3 _ (by decide) rfl (by decide))
    (hcell 4 _ (by decide) rfl (by decide)) (hcell 5 _ (by decide) rfl (by decide))
  exact ⟨_, hload, hsteps⟩

/-- Claim C38, evaluated where the code departs from it: the bound `I <= memory_size` is
only an `assert` in `State::index_register(index)`; `FX1E` assigns `I + VX` with no test of
its own.  In a build with `NDEBUG`, `load_program` of `AFFF 60FF F01E` returns, the three
steps return, and the index register is left at `0xFFF + 0xFF = 4350`, greater than
`memory_size`.  With `assert` compiled in the third step of the same run stops at the
assertion, and then the bound holds along every run (`VM.index_register_bounded`). -/
theorem index_register_exceeds_memory_size_without_asserts :
    VM.vm_ndebug.state.asserts = false ∧
    (∃ vm1 vm3, VM.vm_ndebug.load_program index_overrun_program = .ok vm1 ∧
      VM.steps 3 vm1 = .ok vm3 ∧ vm3.state.i = 4350 ∧
      ¬ vm3.state.i ≤ DEFAULT_MEMORY_SIZE) ∧
    VM.vm_8014.state.asserts = true ∧
    (∃ vm1 e, VM.vm_8014.load_program index_overrun_program = .ok vm1 ∧
      VM.steps 3 vm1 = .error (.assertion_failure, e)) := by
  obtain ⟨vm1, h1, hno, -⟩ := VM.load_index_overrun VM.vm_ndebug rfl (by decide)
  obtain ⟨vm3, h3, hi⟩ := hno rfl
  obtain ⟨vm1b, h1b, -, hyes⟩ := VM.load_index_overrun VM.vm_8014 rfl (by decide)
  obtain ⟨e, he⟩ := hyes rfl
  refine ⟨rfl, ⟨vm1, vm3, h1, h3, hi, ?_⟩, rfl, ⟨vm1b, e, h1b, he⟩⟩
  rw [hi]
  decide

/-- Claim C40 fails as stated: a return address on the call stack can be 4096, which is not
below `memory_size` and not a 12-bit address.  `load_program` of `call_from_last_slot`
returns; the first step runs `1FFE` at `0x200`, the second runs `2000` at `0xFFE` and pushes
`0xFFE + 2 = 4096`, which the guard `value > memory_size()` of `push_callstack` admits. -/
theorem call_from_last_slot_pushes_4096 :
    ∃ vm1 vm2, VM.vm_8014.load_program call_from_last_slot = .ok vm1 ∧
      VM.steps 2 vm1 = .ok vm2 ∧ vm2.state.callstack = [4096] ∧
      ¬ (∀ a ∈ vm2.state.callstack, a < DEFAULT_MEMORY_SIZE) ∧
      ¬ (∀ a ∈ vm2.state.callstack, a ≤ 0xFFF) := by
  obtain ⟨vm1, vm2, h1, h2, h3, -⟩ := VM.load_jump_call VM.vm_8014 rfl (by decide)
  refine ⟨vm1, vm2, h1, h2, h3, ?_, ?_⟩
  · intro h
    have := h 4096 (by rw [h3]; exact List.mem_singleton.mpr rfl)
    exact absurd this (by decide)
  · intro h
    have := h 4096 (by rw [h3]; exact List.mem_singleton.mpr rfl)
    exact absurd this (by decide)

/-- Claim C40, amended.  In every state reached from a `load_program()` that returned by any
number of steps that all returned, every return address on the call stack is at most
`memory_size` (4096, one more than `0xFFF`); and when such a state is in `RUNNING` mode with
`2NNN` at `PC = 0xFFE`, the step returns and the entry it pushes is `0x1000`. -/
theorem callstack_entries_bounded (vm0 vm1 vm2 : VM) (p : List Nat) (n : Nat)
    (hload : vm0.load_program p = .ok vm1)
    (hsteps : VM.steps n vm1 = .ok vm2) :
    (∀ a ∈ vm2.state.callstack, a ≤ DEFAULT_MEMORY_SIZE) ∧
    (∀ NNN, NNN < 4096 → vm2.execution_state = .RUNNING → vm2.state.pc = 0xFFE →
      vm2.fetch_and_decode vm2.state.pc = .ok ⟨opcode_NNN 2 NNN⟩ →
      ∃ vm3, vm2.step = .ok vm3 ∧ vm3.state.callstack = vm2.state.callstack ++ [0x1000] ∧
        vm3.state.pc = NNN) := by
  constructor
  · refine VM.steps_stable (fun s => ∀ a ∈ s.callstack, a ≤ DEFAULT_MEMORY_SIZE)
      State.callstack_bounded_stable ?_ n vm1 vm2 ?_ hsteps
    · intro s t k v hq h
      rw [(State.memory_set_inv s t k v h).2]
      exact hq
    · show ∀ a ∈ vm1.state.callstack, a ≤ DEFAULT_MEMORY_SIZE
      rw [(VM.load_program_start vm0 vm1 p hload).2.1]
      intro a ha
      cases ha
  · intro NNN hN hrun hpc hfetch
    refine ⟨_, VM.step_2NNN vm2 NNN hrun hN hfetch, ?_, rfl⟩
    show vm2.state.callstack ++ [vm2.state.pc + 2] = _
    rw [hpc]

theorem callstack_entries_bounded_witness :
    ∃ vm1 vm2, VM.vm_8014.load_program call_from_last_slot = .ok vm1 ∧
      VM.steps 2 vm1 = .ok vm2 ∧
      (∀ a ∈ vm2.state.callstack, a ≤ DEFAULT_MEMORY_SIZE) ∧
      (∀ NNN, NNN < 4096 → vm2.execution_state = .RUNNING → vm2.state.pc = 0xFFE →
        vm2.fetch_and_decode vm2.state.pc = .ok ⟨opcode_NNN 2 NNN⟩ →
        ∃ vm3, vm2.step = .ok vm3 ∧
          vm3.state.callstack = vm2.state.callstack ++ [0x1000] ∧ vm3.state.pc = NNN) := by
  obtain ⟨vm1, vm2, h1, h2, -, -⟩ := VM.load_jump_call VM.vm_8014 rfl (by decide)
  exact ⟨vm1, vm2, h1, h2,
    callstack_entries_bounded VM.vm_8014 vm1 vm2 call_from_last_slot 2 h1 h2⟩

/-! ## The memory frame of a step -/

theorem memory_eq_of_getD_eq (l1 l2 : List Nat) (hl : l1.length = l2.length)
    (h : ∀ j, l1.getD j 0 = l2.getD j 0) : l1 = l2 := by
  apply List.ext_getElem hl
  intro n h1 h2
  have hn := h n
  rw [List.getD_eq_getElem?_getD, List.getD_eq_getElem?_getD, List.getElem?_eq_getElem h1,
    List.getElem?_eq_getElem h2] at hn
  exact hn

/-- The memory frame of a step that returns: the memory keeps its size, and a cell whose
content differs is a cell `I + k` that the instruction at the program counter writes. -/
theorem VM.step_memory_frame (vm vm1 : VM) (h : vm.step = .ok vm1) :
    vm1.state.memory.length = vm.state.memory.length ∧
    ∀ j, vm1.state.memory.getD j 0 ≠ vm.state.memory.getD j 0 →
      ∃ ins k, vm.fetch_and_decode vm.state.pc = .ok ins ∧ ins.writes k ∧
        j = vm.state.i + k := by
  have hQ : State.stable (fun s => s.memory.length = vm.state.memory.length ∧
      ∀ j, (∀ ins k, vm.fetch_and_decode vm.state.pc = .ok ins → ins.writes k →
        j ≠ vm.state.i + k) → s.memory.getD j 0 = vm.state.memory.getD j 0) :=
    { reg_set := fun s t n v hq h => by rw [State.reg_set_inv s t n v h]; exact hq
      flag_register_set := fun s t v hq h => by
        rw [State.flag_register_set_inv s t v h]; exact hq
      index_register_set := fun s t n hq h => by
        rw [(State.index_register_set_inv s t n h).2]; exact hq
      push_callstack := fun s t n hq h => by
        rw [(State.push_callstack_inv s t n h).2]; exact hq
      pop_callstack := fun s t v hq h => by rw [State.pop_callstack_inv s t v h]; exact hq
      timer_set := fun _ _ hq => hq
      sound_timer_set := fun _ _ hq => hq
      pc_set := fun _ _ hq => hq }
  have hq := VM.step_stable _ hQ vm vm1 ?_ ⟨rfl, fun _ _ => rfl⟩ h
  · refine ⟨hq.1, ?_⟩
    intro j hj
    by_contra hne
    apply hj
    apply hq.2
    intro ins k hf hw heq
    exact hne ⟨ins, k, hf, hw, heq⟩
  · intro ins hf s t k v hs hw hset
    obtain ⟨hlt, ht⟩ := State.memory_set_inv s t _ v hset
    rw [ht]
    refine ⟨?_, ?_⟩
    · show (s.memory.set _ _).length = _
      rw [List.length_set]
      exact hs.1
    · intro j hj
      show (s.memory.set _ _).getD j 0 = _
      rw [V_set _ _ _ _ hlt, if_neg (hj ins k hf hw)]
      exact hs.2 j hj

/-- Claim C39 (memory frame).  For every step that returns: the memory keeps its size; when
the instruction at the program counter is neither `FX33` nor `FX55` the memory is unchanged;
when it is `FX33` every cell outside `[I, I+2]` is unchanged; when it is `FX55` every cell
outside `[I, I+X]` is unchanged; hence a font byte at `[font_offset, font_offset + 80)` that
the step has modified lies in the range `[I, I+2]` of an `FX33` or `[I, I+X]` of an `FX55`
at the program counter. -/
theorem memory_frame (vm vm1 : VM) (hstep : vm.step = .ok vm1) :
    vm1.state.memory.length = vm.state.memory.length ∧
    ((∀ ins, vm.fetch_and_decode vm.state.pc = .ok ins →
        ¬ (ins.prefix_nibble = .ok 0xF ∧ (ins.lower_byte = 0x33 ∨ ins.lower_byte = 0x55))) →
      vm1.state.memory = vm.state.memory) ∧
    (∀ ins, vm.fetch_and_decode vm.state.pc = .ok ins → ins.prefix_nibble = .ok 0xF →
      ins.lower_byte = 0x33 → ∀ j, (j < vm.state.i ∨ vm.state.i + 2 < j) →
        vm1.state.memory.getD j 0 = vm.state.memory.getD j 0) ∧
    (∀ ins X, vm.fetch_and_decode vm.state.pc = .ok ins → ins.prefix_nibble = .ok 0xF →
      ins.lower_byte = 0x55 → ins.nibble 2 = .ok X →
      ∀ j, (j < vm.state.i ∨ vm.state.i + X < j) →
        vm1.state.memory.getD j 0 = vm.state.memory.getD j 0) ∧
    (∀ j, vm.state.font_offset ≤ j → j < vm.state.font_offset + 80 →
      vm1.state.memory.getD j 0 ≠ vm.state.memory.getD j 0 →
      ∃ ins, vm.fetch_and_decode vm.state.pc = .ok ins ∧ ins.prefix_nibble = .ok 0xF ∧
        ((ins.lower_byte = 0x33 ∧ vm.state.i ≤ j ∧ j ≤ vm.state.i + 2) ∨
          (ins.lower_byte = 0x55 ∧ ∃ X, ins.nibble 2 = .ok X ∧
            vm.state.i ≤ j ∧ j ≤ vm.state.i + X))) := by
  obtain ⟨hlen, hframe⟩ := VM.step_memory_frame vm vm1 hstep
  refine ⟨hlen, ?_, ?_, ?_, ?_⟩
  · intro hno
    apply memory_eq_of_getD_eq _ _ hlen
    intro j
    by_contra hne
    obtain ⟨ins, k, hf, hw, -⟩ := hframe j hne
    refine hno ins hf ⟨hw.1, ?_⟩
    rcases hw.2 with h | h
    · exact Or.inl h.1
    · exact Or.inr h.1
  · intro ins hf hF h33 j hj
    by_contra hne
    obtain ⟨ins1, k, hf1, hw, hjk⟩ := hframe j hne
    rw [hf] at hf1
    cases hf1
    rcases hw.2 with h | h
    · have := h.2
      omega
    · rw [h33] at h
      exact absurd h.1 (by decide)
  · intro ins X hf hF h55 hX j hj
    by_contra hne
    obtain ⟨ins1, k, hf1, hw, hjk⟩ := hframe j hne
    rw [hf] at hf1
    cases hf1
    rcases hw.2 with h | h
    · rw [h55] at h
      exact absurd h.1 (by decide)
    · obtain ⟨-, x, hx, hk⟩ := h
      rw [hX] at hx
      cases hx
      omega
  · intro j _ _ hne
    obtain ⟨ins, k, hf, hw, hjk⟩ := hframe j hne
    refine ⟨ins, hf, hw.1, ?_⟩
    rcases hw.2 with h | h
    · exact Or.inl ⟨h.1, by omega, by have := h.2; omega⟩
    · obtain ⟨h55, x, hx, hk⟩ := h
      exact Or.inr ⟨h55, x, hx, by omega, by omega⟩

theorem memory_frame_witness :
    ∃ vm1, VM.vm_F033.step = .ok vm1 ∧
      vm1.state.memory.length = VM.vm_F033.state.memory.length ∧
      ((∀ ins, VM.vm_F033.fetch_and_decode VM.vm_F033.state.pc = .ok ins →
          ¬ (ins.prefix_nibble = .ok 0xF ∧ (ins.lower_byte = 0x33 ∨ ins.lower_byte = 0x55))) →
        vm1.state.memory = VM.vm_F033.state.memory) ∧
      (∀ ins, VM.vm_F033.fetch_and_decode VM.vm_F033.state.pc = .ok ins →
        ins.prefix_nibble = .ok 0xF → ins.lower_byte = 0x33 →
        ∀ j, (j < VM.vm_F033.state.i ∨ VM.vm_F033.state.i + 2 < j) →
          vm1.state.memory.getD j 0 = VM.vm_F033.state.memory.getD j 0) ∧
      (∀ ins X, VM.vm_F033.fetch_and_decode VM.vm_F033.state.pc = .ok ins →
        ins.prefix_nibble = .ok 0xF → ins.lower_byte = 0x55 → ins.nibble 2 = .ok X →
        ∀ j, (j < VM.vm_F033.state.i ∨ VM.vm_F033.state.i + X < j) →
          vm1.state.memory.getD j 0 = VM.vm_F033.state.memory.getD j 0) ∧
      (∀ j, VM.vm_F033.state.font_offset ≤ j → j < VM.vm_F033.state.font_offset + 80 →
        vm1.state.memory.getD j 0 ≠ VM.vm_F033.state.memory.getD j 0 →
        ∃ ins, VM.vm_F033.fetch_and_decode VM.vm_F033.state.pc = .ok ins ∧
          ins.prefix_nibble = .ok 0xF ∧
          ((ins.lower_byte = 0x33 ∧ VM.vm_F033.state.i ≤ j ∧ j ≤ VM.vm_F033.state.i + 2) ∨
            (ins.lower_byte = 0x55 ∧ ∃ X, ins.nibble 2 = .ok X ∧
              VM.vm_F033.state.i ≤ j ∧ j ≤ VM.vm_F033.state.i + X))) := by
  have hwf : VM.vm_F033.state.wf := VM.with_i_wf _ 0x300
    (VM.example_vm_wf [0xF0, 0x33] _ (by decide) (by decide) (by decide) (by decide))
  have hfetch : VM.vm_F033.fetch_and_decode VM.vm_F033.state.pc =
      .ok ⟨opcode_XNN 0xF 0 0x33⟩ :=
    (VM.with_i_fetch _ 0x300 _).trans (VM.example_vm_fetch 0xF0 0x33 []
      [123, 0, 0, 0, 0, 0, 0, 0, 0, 0, 0, 0, 0, 0, 0, 0])
  have hstep := VM.step_FXNN VM.vm_F033 _ 0 0x33 rfl (by decide) (by decide) hfetch
    (fun st h2 hb => VM.execute_prefixF_bcd VM.vm_F033 st 0 (by decide) hwf
      (show (0x300 : Nat) + 2 < 4096 by decide) h2 hb)
  exact ⟨_, hstep, memory_frame VM.vm_F033 _ hstep⟩

end Chip8VM
